import Mathlib

/-!
# xpio: the TQueue reactor, the address codec, sockets and processes

A shallow embedding of `src/luau/xpio_c.c`.

* Lua tables are association lists in `lua_next` order; a raw set of an
  existing key keeps its position, a new key is appended, a nil value erases.
* A task is a handle (`Nat`) into a store of the two fields the C code
  reads and writes, `_dequeue` and `_dequeuedata`.  `_dequeue` is either nil
  or one of the three C removers, represented by the mode it removes from.
  Every task's `_queue` is the single queue of the state.
* System calls (`malloc`, `poll`, `read`, `waitpid`) are answered by an
  environment record, so every function below is total and executable.
* An error raised by `luaL_error` is a result of the function, next to the
  state in which it was raised; the text of `strerror` is left out of it.
* Descriptors and counts are unbounded integers: they come from C `int`
  fields and are compared and copied, never computed with.  The `unsigned`
  arithmetic of the address codec is modulo `2^32`.
* A method of a socket or of a process gives the values that it returns to
  Lua, the error that it raises, the record after the call and the system
  calls that it made, in order.  The text `strerror(errno)` is a value of its
  own, apart from every fixed message.  Memory for Lua values is taken to be
  available.
* Constants and macros of the C library have their Linux (glibc) values.
* A userdata is known by its address, a natural number; a new userdata gets
  an address that no existing userdata has.  The child process of `_spawn`
  is described by the system calls that it makes, in order; what the kernel
  does with them is not part of the code.
-/

namespace Xpio

/-! ## Lua values and tables -/

/-- A task object of the host runtime, identified by its handle. -/
abbrev Task := Nat

/-- The three waiter tables: `XPQUEUE_READ` 1, `XPQUEUE_WRITE` 2, `XPQUEUE_CHILD` 3. -/
inductive Mode where
  | READ
  | WRITE
  | CHILD
deriving DecidableEq, Repr

/-- The Lua values used as waiter-table keys: an integer (a descriptor pushed
by `lua_pushinteger`) or an `XPProc` userdata (identified by its address). -/
inductive LuaKey where
  | int (n : Int)
  | proc (p : Nat)
deriving DecidableEq, Repr

/-- A Lua table from keys to tasks, as the list of its entries in traversal order. -/
abbrev LuaTable := List (LuaKey × Task)

/-- Lookup `t[k]` (`lua_rawget` / `lua_rawgeti`); `none` is nil. -/
def rawget (t : LuaTable) (k : LuaKey) : Option Task :=
  match t with
  | [] => none
  | e :: rest => if e.1 = k then some e.2 else rawget rest k

/-- Whether the table has an entry at key `k`. -/
def hasKey (t : LuaTable) (k : LuaKey) : Bool :=
  match t with
  | [] => false
  | e :: rest => if e.1 = k then true else hasKey rest k

/-- Replace the value of every entry at key `k` by `v`, in place. -/
def replaceAt (t : LuaTable) (k : LuaKey) (v : Task) : LuaTable :=
  match t with
  | [] => []
  | e :: rest => (if e.1 = k then (k, v) else e) :: replaceAt rest k v

/-- Remove the entries at key `k`. -/
def eraseKey (t : LuaTable) (k : LuaKey) : LuaTable :=
  match t with
  | [] => []
  | e :: rest => if e.1 = k then eraseKey rest k else e :: eraseKey rest k

/-- Assignment `t[k] = v` (`lua_rawset` / `lua_rawseti`); `v = none` stores nil,
which deletes the entry. -/
def rawset (t : LuaTable) (k : LuaKey) (v : Option Task) : LuaTable :=
  match v with
  | none => eraseKey t k
  | some x => if hasKey t k then replaceAt t k x else t ++ [(k, x)]

/-! ## Tasks, processes and the queue -/

/-- The fields of a task object that the core touches. -/
structure TaskFields where
  /-- Field `_dequeue`: nil, or `xpqueue_dequeueR/W/C` named by its mode. -/
  _dequeue : Option Mode
  /-- Field `_dequeuedata`: nil, or the key the task was registered under. -/
  _dequeuedata : Option LuaKey
deriving DecidableEq, Repr

/-- The C record `XPProc` (its `next` link is the order of `gpHeadProc`). -/
structure XPProc where
  pid : Int
  status : Int
deriving DecidableEq, Repr

/-- The C record `struct pollfd`. -/
structure PollFd where
  fd : Int
  events : Nat
  revents : Nat
deriving DecidableEq, Repr

/-- The C record `XPQueue`: the scratch buffer and its allocated length. -/
structure XPQueue where
  pfds : List PollFd
  nfds : Nat
deriving DecidableEq, Repr

/-- The part of the Lua and C state that the queue operations use. -/
structure State where
  /-- The userdata of the queue. -/
  me : XPQueue
  /-- Table `uservalue[1]`: fd to task. -/
  readers : LuaTable
  /-- Table `uservalue[2]`: fd to task. -/
  writers : LuaTable
  /-- Table `uservalue[3]`: process to task. -/
  childWaiters : LuaTable
  /-- The fields of every task object. -/
  tasks : Task → TaskFields
  /-- The contents of every `XPProc` userdata, by address. -/
  procs : Nat → XPProc
  /-- The global list `gpHeadProc`, head first. -/
  gpHeadProc : List Nat

/-- The table `uservalue[mode]`. -/
def State.table (s : State) (mode : Mode) : LuaTable :=
  match mode with
  | .READ => s.readers
  | .WRITE => s.writers
  | .CHILD => s.childWaiters

/-- Store a table as `uservalue[mode]`. -/
def State.setTable (s : State) (mode : Mode) (t : LuaTable) : State :=
  match mode with
  | .READ => { s with readers := t }
  | .WRITE => { s with writers := t }
  | .CHILD => { s with childWaiters := t }

/-- Assign the fields of one task (`lua_setfield` on the task object). -/
def setFields (tasks : Task → TaskFields) (t : Task) (f : TaskFields) : Task → TaskFields :=
  fun x => if x = t then f else tasks x

/-- Statement `task._dequeue = nil`. -/
def clearDequeue (tasks : Task → TaskFields) (t : Task) : Task → TaskFields :=
  setFields tasks t { tasks t with _dequeue := none }

/-- The state left by `xpio_tqueue` with tasks that were never registered. -/
def xpio_tqueue (procs : Nat → XPProc) (gpHeadProc : List Nat) : State :=
  { me := { pfds := [], nfds := 0 }
    readers := []
    writers := []
    childWaiters := []
    tasks := fun _ => { _dequeue := none, _dequeuedata := none }
    procs := procs
    gpHeadProc := gpHeadProc }

/-! ## Registration and cancellation -/

/-- Function `xpqueue_enqueue`: returns the state after the call and `none`,
or the error raised by `luaL_error`. -/
def xpqueue_enqueue (s : State) (task : Task) (key : LuaKey) (mode : Mode) :
    State × Option String :=
  if (s.tasks task)._dequeue ≠ none then
    (s, some "xpio: task scheduled twice")
  else
    let s1 := s.setTable mode (rawset (s.table mode) key (some task))
    let t2 := setFields s1.tasks task { s1.tasks task with _dequeue := some mode }
    let t3 := setFields t2 task { t2 task with _dequeuedata := some key }
    ({ s1 with tasks := t3 }, none)

/-- Function `xpsocket_when_read` on a socket whose descriptor is `fd`. -/
def xpsocket_when_read (s : State) (fd : Int) (task : Task) : State × Option String :=
  xpqueue_enqueue s task (.int fd) .READ

/-- Function `xpsocket_when_write` on a socket whose descriptor is `fd`. -/
def xpsocket_when_write (s : State) (fd : Int) (task : Task) : State × Option String :=
  xpqueue_enqueue s task (.int fd) .WRITE

/-- Function `xpproc_when_wait` on the process userdata at address `p`. -/
def xpproc_when_wait (s : State) (p : Nat) (task : Task) : State × Option String :=
  xpqueue_enqueue s task (.proc p) .CHILD

/-- Function `xpqueue_dequeue`: `lua_rawset` with a nil key raises an error. -/
def xpqueue_dequeue (s : State) (task : Task) (mode : Mode) : State × Option String :=
  match (s.tasks task)._dequeuedata with
  | none => (s, some "table index is nil")
  | some key =>
    let s1 := s.setTable mode (rawset (s.table mode) key none)
    ({ s1 with tasks := clearDequeue s1.tasks task }, none)

/-- Function `xpqueue_dequeueR`. -/
def xpqueue_dequeueR (s : State) (task : Task) : State × Option String :=
  xpqueue_dequeue s task .READ

/-- Function `xpqueue_dequeueW`. -/
def xpqueue_dequeueW (s : State) (task : Task) : State × Option String :=
  xpqueue_dequeue s task .WRITE

/-- Function `xpqueue_dequeueC`. -/
def xpqueue_dequeueC (s : State) (task : Task) : State × Option String :=
  xpqueue_dequeue s task .CHILD

/-- The runtime's cancellation `task._dequeue(task)`: calls the remover stored
in the task; calling nil is an error of the runtime. -/
def cancel (s : State) (task : Task) : State × Option String :=
  match (s.tasks task)._dequeue with
  | none => (s, some "attempt to call a nil value")
  | some .READ => xpqueue_dequeueR s task
  | some .WRITE => xpqueue_dequeueW s task
  | some .CHILD => xpqueue_dequeueC s task

/-! ## Constants of the C library (Linux values) -/

/-- Constant `POLLIN` of `poll.h`. -/
def POLLIN : Nat := 1
/-- Constant `POLLOUT` of `poll.h`. -/
def POLLOUT : Nat := 4
/-- Constant `POLLERR` of `poll.h`. -/
def POLLERR : Nat := 8
/-- Constant `POLLHUP` of `poll.h`. -/
def POLLHUP : Nat := 16
/-- Constant `POLLNVAL` of `poll.h`. -/
def POLLNVAL : Nat := 32
/-- Constant `EINTR` of `errno.h`. -/
def EINTR : Int := 4
/-- Constant `INT_MAX` of `limits.h`. -/
def INT_MAX : Int := 2147483647

/-- The C test `x & mask` used as a condition. -/
def testBits (x mask : Nat) : Bool := x &&& mask != 0

/-- The mask `POLLIN | POLLERR | POLLHUP | POLLNVAL`. -/
def readableMask : Nat := POLLIN ||| POLLERR ||| POLLHUP ||| POLLNVAL
/-- The mask `POLLOUT | POLLERR | POLLHUP | POLLNVAL`. -/
def writableMask : Nat := POLLOUT ||| POLLERR ||| POLLHUP ||| POLLNVAL

/-! ## The environment of one call of `wait` -/

/-- One result of `waitpid(-1, &status, WNOHANG)`. -/
structure WaitpidResult where
  pid : Int
  status : Int
  errno : Int
deriving DecidableEq, Repr

/-- The answers of the operating system during one call of `wait`. -/
structure Env where
  /-- Whether `malloc` of that many `pollfd` elements succeeds. -/
  malloc : Nat → Bool
  /-- How many calls of `poll` return -1 with `EINTR` before the last call. -/
  eintr : Nat
  /-- The value returned by the last call of `poll`; when negative, `errno`
  is not `EINTR`. -/
  numOut : Int
  /-- The field `revents` that the last call of `poll` stores in slot `n`. -/
  revents : Nat → Nat
  /-- The descriptor `sigchldPipe[0]`. -/
  sigPipe : Int
  /-- The results of the successive calls of `read` on the signal pipe;
  after them `read` returns -1. -/
  pipeReads : List Int
  /-- The results of the successive calls of `waitpid`; after them
  `waitpid` returns 0. -/
  waitpids : List WaitpidResult

/-! ## The scratch buffer -/

/-- A zero-filled `struct pollfd`. -/
def zeroPollFd : PollFd := { fd := 0, events := 0, revents := 0 }

/-- Function `growArray` at element type `struct pollfd`: returns the new
pointer and the new value of `*plen`. -/
def growArray (malloc : Nat → Bool) (ptr : List PollFd) (len : Nat) (lenMin : Nat) :
    List PollFd × Nat :=
  if lenMin < len then
    (ptr, len)
  else
    let lenNew := lenMin * 2
    if !malloc lenNew then
      (ptr, len)
    else
      (ptr.take len ++ List.replicate (lenNew - len) zeroPollFd, lenNew)

/-- Function `XPQueue_ensureFDs`: the queue after the call, and the error
raised when the index is still out of reach. -/
def XPQueue_ensureFDs (malloc : Nat → Bool) (me : XPQueue) (ndx : Nat) :
    XPQueue × Option String :=
  let r := growArray malloc me.pfds me.nfds (ndx + 1)
  let me1 : XPQueue := { pfds := r.1, nfds := r.2 }
  if ndx ≥ me1.nfds then (me1, some "xpio: allocation failure") else (me1, none)

/-- Assignment to the fields of `pfds[n]`; the list is unchanged when `n` is
not an index of it. -/
def updatePfd (pfds : List PollFd) (n : Nat) (f : PollFd → PollFd) : List PollFd :=
  match pfds, n with
  | [], _ => []
  | p :: ps, 0 => f p :: ps
  | p :: ps, n + 1 => p :: updatePfd ps n f

/-- Conversion `lua_tointeger` of a key: a userdata converts to 0. -/
def keyToInt (k : LuaKey) : Int :=
  match k with
  | .int n => n
  | .proc _ => 0

/-- The local state of the loops of `xpqueue_wait` that fill `pfds`. -/
structure Build where
  /-- The queue record, with the scratch buffer. -/
  me : XPQueue
  /-- The temporary Lua table `slots`: fd to index into `pfds`. -/
  slots : Int → Option Nat
  /-- Variable `nfdsUsed`. -/
  nfdsUsed : Nat
  /-- The error raised, if any. -/
  err : Option String

/-- One iteration of the inner loop of `xpqueue_wait` over the entries of the
readers or writers table. -/
def buildStep (malloc : Nat → Bool) (mode : Mode) (b : Build) (e : LuaKey × Task) : Build :=
  let fd := keyToInt e.1
  let found : Option Nat := if mode = .WRITE then b.slots fd else none
  match found with
  | none =>
    let r := XPQueue_ensureFDs malloc b.me b.nfdsUsed
    match r.2 with
    | some msg => { b with me := r.1, err := some msg }
    | none =>
      let ndxFD := b.nfdsUsed
      let ev := if mode = .READ then POLLIN else POLLOUT
      let pfds1 := updatePfd r.1.pfds ndxFD (fun p => { p with fd := fd, events := ev })
      { me := { r.1 with pfds := pfds1 }
        slots := if mode = .READ then (fun x => if x = fd then some ndxFD else b.slots x)
                 else b.slots
        nfdsUsed := b.nfdsUsed + 1
        err := none }
  | some ndxFD =>
    let pfds1 := updatePfd b.me.pfds ndxFD (fun p => { p with events := p.events ||| POLLOUT })
    { b with me := { b.me with pfds := pfds1 } }

/-- The inner loop of `xpqueue_wait` for one mode; an error ends it. -/
def buildLoop (malloc : Nat → Bool) (mode : Mode) (entries : LuaTable) (b : Build) : Build :=
  match entries with
  | [] => b
  | e :: rest =>
    let b1 := buildStep malloc mode b e
    if b1.err.isSome then b1 else buildLoop malloc mode rest b1

/-! ## Child processes -/

/-- Function `xpproc_isExited`; `XLUA_CAST` raises an error on a key that is
not an `XPProc`. -/
def xpproc_isExited (s : State) (key : LuaKey) : Except String Bool :=
  match key with
  | .proc p => .ok (decide ((s.procs p).pid = 0))
  | .int _ => .error "XPProc object expected"

/-- The local state of `XPQueue_wakeChildWaiters`. -/
structure Sweep where
  state : State
  /-- The array of ready tasks. -/
  ready : List Task
  /-- Variable `numWaiting`. -/
  numWaiting : Nat
  /-- The error raised, if any. -/
  err : Option String

/-- One iteration of the loop of `XPQueue_wakeChildWaiters`. -/
def wakeChildStep (sw : Sweep) (e : LuaKey × Task) : Sweep :=
  match xpproc_isExited sw.state e.1 with
  | .error msg => { sw with err := some msg }
  | .ok true =>
    let s1 := { sw.state with tasks := clearDequeue sw.state.tasks e.2 }
    let s2 := { s1 with childWaiters := rawset s1.childWaiters e.1 none }
    { sw with state := s2, ready := sw.ready ++ [e.2] }
  | .ok false => { sw with numWaiting := sw.numWaiting + 1 }

/-- The loop of `XPQueue_wakeChildWaiters` over the entries of the table. -/
def wakeChildLoop (entries : LuaTable) (sw : Sweep) : Sweep :=
  match entries with
  | [] => sw
  | e :: rest =>
    let sw1 := wakeChildStep sw e
    if sw1.err.isSome then sw1 else wakeChildLoop rest sw1

/-- Function `XPQueue_wakeChildWaiters`; field `numWaiting` is its return value. -/
def XPQueue_wakeChildWaiters (s : State) (ready : List Task) : Sweep :=
  wakeChildLoop s.childWaiters { state := s, ready := ready, numWaiting := 0, err := none }

/-- The first loop of `xpproc_reap`: whether a byte was received. -/
def drainPipe (reads : List Int) (bReceived : Bool) : Bool :=
  match reads with
  | [] => bReceived
  | n :: rest =>
    let b1 := bReceived || decide (n > 0)
    if n = 32 then drainPipe rest b1 else b1

/-- The search of `xpproc_reap` through the global list for `pid`: the
updated process store when a process was found. -/
def markReaped (procs : Nat → XPProc) (list : List Nat) (pid status : Int) :
    Option (Nat → XPProc) :=
  match list with
  | [] => none
  | p :: rest =>
    if (procs p).pid = pid then
      some (fun x => if x = p then { pid := 0, status := status } else procs x)
    else markReaped procs rest pid status

/-- The second loop of `xpproc_reap`: the process store and `numUpdated`. -/
def reapLoop (list : List Nat) (results : List WaitpidResult) (procs : Nat → XPProc)
    (numUpdated : Nat) : (Nat → XPProc) × Nat :=
  match results with
  | [] => (procs, numUpdated)
  | r :: rest =>
    if r.pid > 0 then
      match markReaped procs list r.pid r.status with
      | some procs1 => reapLoop list rest procs1 (numUpdated + 1)
      | none => reapLoop list rest procs numUpdated
    else if r.pid = -1 ∧ r.errno = EINTR then
      reapLoop list rest procs numUpdated
    else (procs, numUpdated)

/-- Function `xpproc_reap`: the process store after it and its return value. -/
def xpproc_reap (env : Env) (procs : Nat → XPProc) (list : List Nat) : (Nat → XPProc) × Nat :=
  if !drainPipe env.pipeReads false then (procs, 0)
  else reapLoop list env.waitpids procs 0

/-! ## Waking sockets and `wait` -/

/-- The local state of `XPQueue_wakeSockets`. -/
structure Wake where
  state : State
  /-- The array of ready tasks. -/
  ready : List Task
  /-- The error raised, if any. -/
  err : Option String

/-- The body of one branch of `XPQueue_wakeSockets`: clear `_dequeue` of the
task at `table[fd]`, append it to the ready array, delete `table[fd]`.
`lua_setfield` on nil raises an error. -/
def wakeOne (mode : Mode) (w : Wake) (fd : Int) : Wake :=
  match rawget (w.state.table mode) (.int fd) with
  | none => { w with err := some "attempt to index a nil value" }
  | some t =>
    let s1 := { w.state with tasks := clearDequeue w.state.tasks t }
    let s2 := s1.setTable mode (rawset (s1.table mode) (.int fd) none)
    { w with state := s2, ready := w.ready ++ [t] }

/-- One iteration of the loop of `XPQueue_wakeSockets`, on the slot `pfd`. -/
def wakeSocketsStep (w : Wake) (pfd : PollFd) : Wake :=
  let w1 := if testBits pfd.events POLLIN && testBits pfd.revents readableMask
            then wakeOne .READ w pfd.fd else w
  if w1.err.isSome then w1
  else if testBits pfd.events POLLOUT && testBits pfd.revents writableMask
       then wakeOne .WRITE w1 pfd.fd else w1

/-- The loop of `XPQueue_wakeSockets` over the slots; an error ends it. -/
def wakeSocketsLoop (pfds : List PollFd) (w : Wake) : Wake :=
  match pfds with
  | [] => w
  | pfd :: rest =>
    let w1 := wakeSocketsStep w pfd
    if w1.err.isSome then w1 else wakeSocketsLoop rest w1

/-- Function `XPQueue_wakeSockets` on the first `nfds` slots of `pfds`. -/
def XPQueue_wakeSockets (s : State) (ready : List Task) (pfds : List PollFd) (nfds : Nat) :
    Wake :=
  wakeSocketsLoop (pfds.take nfds) { state := s, ready := ready, err := none }

/-- The effect of `poll` on the buffer: `revents` of the first `nfds` slots. -/
def storeRevents (revents : Nat → Nat) (nfds : Nat) (i : Nat) (pfds : List PollFd) :
    List PollFd :=
  match pfds with
  | [] => []
  | p :: ps =>
    (if i < nfds then { p with revents := revents i } else p) ::
      storeRevents revents nfds (i + 1) ps

/-- The argument `timeout` of `wait` as a Lua value; a number is taken as an
exact rational. -/
inductive TimeoutArg where
  | nil
  | false
  | number (seconds : Rat)
  | other
deriving DecidableEq

/-- The coercion of the timeout at the head of `xpqueue_wait`;
`luaL_checknumber` raises an error on a value that is not a number. The
product with 1000 is exact here, where C rounds it to a `double` before the
cast (for 0.3 seconds the C code polls with 300 and this function gives 299),
and a NaN, whose cast is undefined in C, is not an argument here; the
theorems below state no value of the timeout for a number argument. -/
def coerceTimeout (arg : TimeoutArg) : Except String Int :=
  match arg with
  | .nil => .ok (-1)
  | .false => .ok (-1)
  | .other => .error "number expected"
  | .number seconds =>
    let num := seconds * 1000
    if num < 0 then .ok 0
    else if num > (INT_MAX : Rat) then .ok INT_MAX
    else .ok (Rat.floor num)

/-- What `wait` hands back to Lua. -/
inductive WaitResult where
  | nil
  | ready (tasks : List Task)
  | error (msg : String)
deriving DecidableEq, Repr

/-- The outcome of one call of `wait`. -/
structure WaitRet where
  state : State
  result : WaitResult
  /-- The calls of `poll` that were made: `nfds` and `timeout` of each. -/
  polls : List (Nat × Int)

/-- The two loops of `xpqueue_wait` that fill `pfds` from readers, then writers. -/
def buildPfds (env : Env) (s : State) : Build :=
  let b1 := buildLoop env.malloc .READ s.readers
    { me := s.me, slots := fun _ => none, nfdsUsed := 0, err := none }
  if b1.err.isSome then b1 else buildLoop env.malloc .WRITE s.writers b1

/-- The part of `xpqueue_wait` from the call of `poll` to the end. -/
def waitPoll (env : Env) (s : State) (ready : List Task) (nfdsUsed : Nat)
    (numChildWaiters : Nat) (timeout : Int) : WaitRet :=
  let polls := List.replicate (env.eintr + 1) (nfdsUsed, timeout)
  if env.numOut < 0 then
    { state := s, result := .error "xpio: poll error", polls := polls }
  else
    let s1 := { s with me := { s.me with pfds := storeRevents env.revents nfdsUsed 0 s.me.pfds } }
    let w := XPQueue_wakeSockets s1 ready s1.me.pfds
      (nfdsUsed - (if numChildWaiters ≠ 0 then 1 else 0))
    match w.err with
    | some msg => { state := w.state, result := .error msg, polls := polls }
    | none =>
      if numChildWaiters ≠ 0 ∧
          testBits ((s1.me.pfds.getD (nfdsUsed - 1) zeroPollFd).revents) readableMask then
        let r := xpproc_reap env w.state.procs w.state.gpHeadProc
        let s2 := { w.state with procs := r.1 }
        if r.2 ≠ 0 then
          let sw := XPQueue_wakeChildWaiters s2 w.ready
          match sw.err with
          | some msg => { state := sw.state, result := .error msg, polls := polls }
          | none => { state := sw.state, result := .ready sw.ready, polls := polls }
        else { state := s2, result := .ready w.ready, polls := polls }
      else { state := w.state, result := .ready w.ready, polls := polls }

/-- The block of `xpqueue_wait` that appends the signal pipe to `pfds` when
child waiters are pending: the state, `nfdsUsed` and the error raised, if any. -/
def addSigPipe (env : Env) (s : State) (nfdsUsed : Nat) (numChildWaiters : Nat) :
    State × Nat × Option String :=
  if numChildWaiters ≠ 0 then
    let r := XPQueue_ensureFDs env.malloc s.me nfdsUsed
    match r.2 with
    | some msg => ({ s with me := r.1 }, nfdsUsed, some msg)
    | none =>
      let pfds1 := updatePfd r.1.pfds nfdsUsed
        (fun p => { p with fd := env.sigPipe, events := POLLIN })
      ({ s with me := { r.1 with pfds := pfds1 } }, nfdsUsed + 1, none)
  else (s, nfdsUsed, none)

/-- Function `xpqueue_wait`. -/
def xpqueue_wait (s : State) (arg : TimeoutArg) (env : Env) : WaitRet :=
  match coerceTimeout arg with
  | .error msg => { state := s, result := .error msg, polls := [] }
  | .ok timeout0 =>
    let b := buildPfds env s
    let s1 := { s with me := b.me }
    match b.err with
    | some msg => { state := s1, result := .error msg, polls := [] }
    | none =>
      let sw := XPQueue_wakeChildWaiters s1 []
      match sw.err with
      | some msg => { state := sw.state, result := .error msg, polls := [] }
      | none =>
        let numChildWaiters := sw.numWaiting
        let timeout := if sw.ready.length ≠ 0 then 0 else timeout0
        let a := addSigPipe env sw.state b.nfdsUsed numChildWaiters
        match a.2.2 with
        | some msg => { state := a.1, result := .error msg, polls := [] }
        | none =>
          if timeout = -1 ∧ a.2.1 = 0 then
            { state := a.1, result := .nil, polls := [] }
          else
            waitPoll env a.1 sw.ready a.2.1 numChildWaiters timeout

/-! ## The address codec -/

/-- Macro `isDigit`, on the value of the character: the subtraction is
unsigned, modulo `2^32`. -/
def isDigit (ch : Nat) : Bool := decide ((ch + 4294967296 - 48) % 4294967296 ≤ 9)

/-- The character `*psz` of a C string: 0 at its end. -/
def peek (psz : List Char) : Nat :=
  match psz with
  | [] => 0
  | c :: _ => c.toNat

/-- The loop of `scanNum`: `n` is an `unsigned`, so the arithmetic is modulo
`2^32`; returns the number and the rest of the string. -/
def scanDigits (psz : List Char) (n : Nat) : Nat × List Char :=
  match psz with
  | [] => (n, [])
  | c :: rest =>
    if isDigit c.toNat then scanDigits rest ((n * 10 + (c.toNat - 48)) % 4294967296)
    else (n, c :: rest)

/-- Function `scanNum`: the value stored in `*pn` and the pointer returned. -/
def scanNum (pszNum : List Char) : Nat × List Char := scanDigits pszNum 0

/-- The C record `struct sockaddr_in`; the port and the address are the bytes
in memory, in their order. -/
structure SockaddrIn where
  sin_family : Nat
  sin_port : List Nat
  sin_addr : List Nat
deriving DecidableEq, Repr

/-- Constant `AF_INET` of `sys/socket.h`. -/
def AF_INET : Nat := 2

/-- Function `htonl`, as the four bytes that the result has in memory. -/
def htonl (x : Nat) : List Nat := [x / 16777216 % 256, x / 65536 % 256, x / 256 % 256, x % 256]

/-- Function `htons`, as the two bytes that the result has in memory. -/
def htons (x : Nat) : List Nat := [x / 256 % 256, x % 256]

/-- The local state of the loop of `addrFromString`. -/
structure AddrScan where
  /-- Variable `i`. -/
  i : Nat
  /-- Array `nums`, of four `unsigned`. -/
  nums : List Nat
  /-- Variable `port`. -/
  port : Nat
deriving DecidableEq, Repr

/-- The loop of `addrFromString`; `left` is `ARRAY_LENGTH(nums) - i`, so
that the test `i >= ARRAY_LENGTH(nums)` is `left = 0`. The result `none` is
the `return -1` of the loop. -/
def addrLoop (left : Nat) (psz : List Char) (st : AddrScan) : Option AddrScan :=
  if peek psz = 0 then some st
  else if peek psz = ':'.toNat then some { st with port := (scanNum psz.tail).1 }
  else
    match left with
    | 0 => none
    | left + 1 =>
      let r := scanNum psz
      let psz1 := if peek r.2 = '.'.toNat then r.2.tail else r.2
      addrLoop left psz1 { st with i := st.i + 1, nums := st.nums.set st.i r.1 }

/-- Function `addrFromString`: `none` is the result -1, otherwise the result
is 0 and the record is the one stored in `*psin`. -/
def addrFromString (psz : List Char) : Option SockaddrIn :=
  match addrLoop 4 psz { i := 0, nums := [0, 0, 0, 0], port := 0 } with
  | none => none
  | some st =>
    let n0 := if st.i > 1 then st.nums.getD 0 0 * 0x1000000 % 4294967296 else st.nums.getD 0 0
    let n1 := if st.i > 2 then st.nums.getD 1 0 * 0x10000 % 4294967296 else st.nums.getD 1 0
    let n2 := if st.i > 3 then st.nums.getD 2 0 * 0x100 % 4294967296 else st.nums.getD 2 0
    let n3 := st.nums.getD 3 0
    some { sin_family := AF_INET
           sin_addr := htonl ((n0 + n1 + n2 + n3) % 4294967296)
           sin_port := htons (st.port % 65536) }

/-- The decimal numeral of a number, as `%d` prints it. -/
def decimal (n : Nat) : List Char := Nat.toDigits 10 n

/-- The string `a.b.c.d` followed by `rest`, the octets as decimal numerals. -/
def dotted (a b c d : Nat) (rest : List Char) : List Char :=
  decimal a ++ '.' :: (decimal b ++ '.' :: (decimal c ++ '.' :: (decimal d ++ rest)))

/-! ## Reachable states and invariants -/

/-- The common effect of the removers and of the wake-up code on one entry:
`table[mode][k] = nil` and `t._dequeue = nil`. -/
def removeEntry (s : State) (m : Mode) (k : LuaKey) (t : Task) : State :=
  { s.setTable m (rawset (s.table m) k none) with tasks := clearDequeue s.tasks t }

/-- One call of the public interface, or a change of the process store made
by other code (spawn, kill, destruction). -/
inductive Step : State → State → Prop where
  | when_read (s : State) (fd : Int) (task : Task) :
      Step s (xpsocket_when_read s fd task).1
  | when_write (s : State) (fd : Int) (task : Task) :
      Step s (xpsocket_when_write s fd task).1
  | when_wait (s : State) (p : Nat) (task : Task) :
      Step s (xpproc_when_wait s p task).1
  | cancel (s : State) (task : Task) :
      Step s (cancel s task).1
  | wait (s : State) (arg : TimeoutArg) (env : Env) :
      Step s (xpqueue_wait s arg env).state
  | procs (s : State) (procs : Nat → XPProc) (list : List Nat) :
      Step s { s with procs := procs, gpHeadProc := list }

/-- The states reachable from a freshly created queue. -/
inductive Reachable : State → Prop where
  | fresh (procs : Nat → XPProc) (list : List Nat) : Reachable (xpio_tqueue procs list)
  | step {s s' : State} : Reachable s → Step s s' → Reachable s'

/-- Whether a key has the type that the interface stores in the table of a
mode: a descriptor for readers and writers, a process for child waiters. -/
def keyOk (m : Mode) (k : LuaKey) : Prop :=
  match m, k with
  | .READ, .int _ => True
  | .WRITE, .int _ => True
  | .CHILD, .proc _ => True
  | _, _ => False

/-- The invariant of the waiter tables. -/
structure TablesOk (s : State) : Prop where
  /-- Every entry's task names its table and its key. -/
  fields : ∀ m e, e ∈ s.table m →
    (s.tasks e.2)._dequeue = some m ∧ (s.tasks e.2)._dequeuedata = some e.1
  /-- A table has one entry per key. -/
  nodup : ∀ m, ((s.table m).map Prod.fst).Nodup
  /-- The keys have the type of their table. -/
  keys : ∀ m e, e ∈ s.table m → keyOk m e.1

/-- The number of entries of the three tables whose value is the task. -/
def occurrences (s : State) (t : Task) : Nat :=
  (s.readers.filter (fun e => e.2 = t)).length +
  (s.writers.filter (fun e => e.2 = t)).length +
  (s.childWaiters.filter (fun e => e.2 = t)).length

/-- The queue record is consistent: `nfds` is the allocated length of `pfds`. -/
def BufOk (me : XPQueue) : Prop := me.nfds = me.pfds.length

/-- A property of the state and the ready array that is kept by everything
`wait` does: writes to the scratch buffer that keep it consistent, updates
of the process store, and moving the task of an entry to the ready array. -/
structure WaitClosed (P : State → List Task → Prop) : Prop where
  tables : ∀ s ready, P s ready → TablesOk s
  me : ∀ s ready me, P s ready → (BufOk s.me → BufOk me) → P { s with me := me } ready
  procs : ∀ s ready procs, P s ready → P { s with procs := procs } ready
  remove : ∀ s ready m k t, P s ready → (k, t) ∈ s.table m →
    P (removeEntry s m k t) (ready ++ [t])

/-- One call of the public interface in which a registration uses a key
whose entry is empty, or a change of the process store made by other code. -/
inductive StepFree : State → State → Prop where
  | when_read (s : State) (fd : Int) (task : Task) (h : rawget s.readers (.int fd) = none) :
      StepFree s (xpsocket_when_read s fd task).1
  | when_write (s : State) (fd : Int) (task : Task) (h : rawget s.writers (.int fd) = none) :
      StepFree s (xpsocket_when_write s fd task).1
  | when_wait (s : State) (p : Nat) (task : Task) (h : rawget s.childWaiters (.proc p) = none) :
      StepFree s (xpproc_when_wait s p task).1
  | cancel (s : State) (task : Task) :
      StepFree s (cancel s task).1
  | wait (s : State) (arg : TimeoutArg) (env : Env) :
      StepFree s (xpqueue_wait s arg env).state
  | procs (s : State) (procs : Nat → XPProc) (list : List Nat) :
      StepFree s { s with procs := procs, gpHeadProc := list }

/-- The states reachable from a freshly created queue when no registration
is made under a key whose entry is occupied. -/
inductive ReachableFree : State → Prop where
  | fresh (procs : Nat → XPProc) (list : List Nat) : ReachableFree (xpio_tqueue procs list)
  | step {s s' : State} : ReachableFree s → StepFree s s' → ReachableFree s'

/-- Every task whose `_dequeue` is set is in the table that it names, under
the key that it names. -/
def Registered (s : State) : Prop :=
  ∀ t m, (s.tasks t)._dequeue = some m →
    ∃ k, (s.tasks t)._dequeuedata = some k ∧ (k, t) ∈ s.table m

/-- An environment in which allocation succeeds and the last call of `poll`
reports one ready slot, slot 0, as readable. -/
def envSlot0 : Env :=
  { malloc := fun _ => true
    eintr := 0
    numOut := 1
    revents := fun n => if n = 0 then POLLIN else 0
    sigPipe := 99
    pipeReads := []
    waitpids := [] }

/-- A reachable state: task 1 reads descriptor 5, task 2 writes descriptor 5,
task 3 waits for the process at address 0, task 4 reads descriptor 6. -/
def stateFour : State :=
  (xpsocket_when_read (xpproc_when_wait (xpsocket_when_write (xpsocket_when_read
    (xpio_tqueue (fun _ => { pid := 7, status := 0 }) [0]) 5 1).1 5 2).1 0 3).1 6 4).1

/-- The descriptor of an entry of the readers or writers table, as the loops
of `xpqueue_wait` read it. -/
def fdOf (e : LuaKey × Task) : Int := keyToInt e.1

/-- The invariant of the loops of `xpqueue_wait` that fill `pfds`, after the
readers `R` and the writers `W` have been visited. -/
structure BuildOk (R W : LuaTable) (b : Build) : Prop where
  /-- The buffer is consistent. -/
  buf : BufOk b.me
  /-- The slots in use are allocated. -/
  used : b.nfdsUsed ≤ b.me.pfds.length
  /-- No two slots in use hold the same descriptor. -/
  inj : ∀ n m p q, n < b.nfdsUsed → m < b.nfdsUsed → b.me.pfds[n]? = some p →
    b.me.pfds[m]? = some q → p.fd = q.fd → n = m
  /-- The requested events of a slot in use. -/
  evs : ∀ n p, n < b.nfdsUsed → b.me.pfds[n]? = some p →
    p.events = POLLIN ∨ p.events = POLLOUT ∨ p.events = POLLIN ||| POLLOUT
  /-- A slot requests `POLLIN` exactly when its descriptor has a reader. -/
  pollin : ∀ n p, n < b.nfdsUsed → b.me.pfds[n]? = some p →
    (testBits p.events POLLIN = true ↔ ∃ e ∈ R, fdOf e = p.fd)
  /-- A slot requests `POLLOUT` exactly when its descriptor has a writer. -/
  pollout : ∀ n p, n < b.nfdsUsed → b.me.pfds[n]? = some p →
    (testBits p.events POLLOUT = true ↔ ∃ e ∈ W, fdOf e = p.fd)
  /-- The table `slots` holds the slots that request `POLLIN`. -/
  slots : ∀ fd n, b.slots fd = some n ↔
    (n < b.nfdsUsed ∧ ∃ p, b.me.pfds[n]? = some p ∧ p.fd = fd ∧ testBits p.events POLLIN = true)
  /-- Every reader visited has a slot. -/
  coverR : ∀ e ∈ R, ∃ n p, n < b.nfdsUsed ∧ b.me.pfds[n]? = some p ∧ p.fd = fdOf e
  /-- Every writer visited has a slot. -/
  coverW : ∀ e ∈ W, ∃ n p, n < b.nfdsUsed ∧ b.me.pfds[n]? = some p ∧ p.fd = fdOf e

/-- The first condition of the loop of `XPQueue_wakeSockets`: the slot asks
for readability and `poll` reported it. -/
def hitR (p : PollFd) : Bool := testBits p.events POLLIN && testBits p.revents readableMask

/-- The second condition of the loop of `XPQueue_wakeSockets`: the slot asks
for writability and `poll` reported it. -/
def hitW (p : PollFd) : Bool := testBits p.events POLLOUT && testBits p.revents writableMask

/-- The task is the reader or the writer of a slot of the list whose
condition holds. -/
def Woken (L : List PollFd) (s : State) (t : Task) : Prop :=
  ∃ p ∈ L, (hitR p = true ∧ rawget s.readers (.int p.fd) = some t) ∨
    (hitW p = true ∧ rawget s.writers (.int p.fd) = some t)

/-- The event that `xpqueue_wait` requests for the table of a mode. -/
def eventBit (m : Mode) : Nat :=
  match m with
  | .READ => POLLIN
  | .WRITE => POLLOUT
  | .CHILD => 0

/-- The mask of `revents` that `XPQueue_wakeSockets` tests for the table of a mode. -/
def readyMask (m : Mode) : Nat :=
  match m with
  | .READ => readableMask
  | .WRITE => writableMask
  | .CHILD => 0

/-! ## Sockets and processes: constants, Lua values and system calls -/

/-- Constant `UINT_MAX` of `limits.h`. -/
def UINT_MAX : Nat := 4294967295
/-- Constant `EAGAIN` of `errno.h`. -/
def EAGAIN : Int := 11
/-- Constant `EWOULDBLOCK` of `errno.h`. -/
def EWOULDBLOCK : Int := 11
/-- Constant `EINPROGRESS` of `errno.h`. -/
def EINPROGRESS : Int := 115
/-- Constant `EALREADY` of `errno.h`. -/
def EALREADY : Int := 114
/-- Constant `EISCONN` of `errno.h`. -/
def EISCONN : Int := 106
/-- Constant `O_NONBLOCK` of `fcntl.h`: one bit of the file status flags. -/
def O_NONBLOCK : Int := 2048
/-- Constant `IPPROTO_TCP` of `netinet/in.h`. -/
def IPPROTO_TCP : Int := 6
/-- Constant `TCP_NODELAY` of `netinet/tcp.h`. -/
def TCP_NODELAY : Int := 1
/-- Constant `SOL_SOCKET` of `sys/socket.h`. -/
def SOL_SOCKET : Int := 1
/-- Constant `SO_KEEPALIVE` of `sys/socket.h`. -/
def SO_KEEPALIVE : Int := 9
/-- Constant `SO_REUSEADDR` of `sys/socket.h`. -/
def SO_REUSEADDR : Int := 2
/-- Constant `SO_RCVBUF` of `sys/socket.h`. -/
def SO_RCVBUF : Int := 8
/-- Constant `SO_SNDBUF` of `sys/socket.h`. -/
def SO_SNDBUF : Int := 7

/-- Macro `WTERMSIG` of `sys/wait.h` (glibc): `status & 0x7f`. -/
def WTERMSIG (status : Int) : Int := status % 128
/-- Macro `WEXITSTATUS` of `sys/wait.h` (glibc): `(status & 0xff00) >> 8`. -/
def WEXITSTATUS (status : Int) : Int := status / 256 % 256
/-- Macro `WSTOPSIG` of `sys/wait.h` (glibc): the same bits as `WEXITSTATUS`. -/
def WSTOPSIG (status : Int) : Int := WEXITSTATUS status
/-- Macro `WIFEXITED` of `sys/wait.h` (glibc): `WTERMSIG(status) == 0`. -/
def WIFEXITED (status : Int) : Bool := WTERMSIG status == 0
/-- Macro `WIFSIGNALED` of `sys/wait.h` (glibc):
`((signed char) ((status & 0x7f) + 1) >> 1) > 0`; the cast wraps 128 to -128
and the shift of a signed value halves it, rounding down. -/
def WIFSIGNALED (status : Int) : Bool :=
  decide (((status % 128 + 1 + 128) % 256 - 128) / 2 > 0)

/-- The C record `XPSocket`: the descriptor, -1 when there is none. -/
structure XPSocket where
  s : Int
deriving DecidableEq, Repr

/-- A Lua value that a method returns. -/
inductive LuaVal where
  | nil
  | boolean (b : Bool)
  /-- A value pushed by `lua_pushinteger`. -/
  | integer (i : Int)
  /-- A value pushed by `lua_pushnumber`. -/
  | number (x : Int)
  /-- A string with the given text. -/
  | str (text : String)
  /-- The string `strerror(e)`, the error text of the platform. -/
  | strerror (e : Int)
  /-- A string with the given bytes. -/
  | bytes (data : List Nat)
  /-- The `XPSocket` userdata that the call created. -/
  | userdata
deriving DecidableEq, Repr

/-- An argument of a method, as a Lua value; a number is taken as an exact
rational, and `other` is a value that is neither nil, a boolean nor a number. -/
inductive LuaArg where
  | nil
  | boolean (b : Bool)
  | number (x : Rat)
  | other
deriving DecidableEq

/-- A system call made on a descriptor, with its arguments. -/
inductive Syscall where
  | read (fd : Int) (size : Nat)
  | connect (fd : Int) (sin : SockaddrIn)
  | bind (fd : Int) (sin : SockaddrIn)
  | close (fd : Int)
  | dup (fd : Int)
  | getsockname (fd : Int)
  | getpeername (fd : Int)
  | getsockopt (fd : Int) (level name : Int)
  | setsockopt (fd : Int) (level name : Int) (value : Int)
  /-- The call `fcntl(fd, F_GETFL)`. -/
  | fcntl_getfl (fd : Int)
  /-- The call `fcntl(fd, F_SETFL, flags)`. -/
  | fcntl_setfl (fd : Int) (flags : Int)
  /-- The call `dup2(fdFrom, fdTo)`. -/
  | dup2 (fdFrom fdTo : Int)
  | kill (pid : Int) (sig : Int)
  /-- The call `sigprocmask(SIG_SETMASK, &sigmask, NULL)` with an empty mask. -/
  | sigprocmask
  | execve (path : String) (argv envp : List String)
  /-- The call `exit(code)`. -/
  | exit (code : Int)
deriving DecidableEq, Repr

/-- The answers of the operating system during one call of a socket method;
each method makes each kind of call at most once. -/
structure SysEnv where
  /-- The value of `errno` where the method reads it. -/
  errno : Int
  /-- The value of `n` after `n = read(...)`. -/
  readN : Int
  /-- The contents of the buffer after `read`. -/
  readBuf : List Nat
  /-- The value returned by `connect`. -/
  connect : Int
  /-- The value returned by `bind`. -/
  bind : Int
  /-- The value returned by `dup`. -/
  dup : Int
  /-- The value returned by `getsockname` or `getpeername`. -/
  getname : Int
  /-- The address stored by `getsockname` or `getpeername`. -/
  name : SockaddrIn
  /-- The value returned by `getsockopt`. -/
  getsockopt : Int
  /-- The value of the option stored by `getsockopt`. -/
  optval : Int
  /-- The value returned by `setsockopt`. -/
  setsockopt : Int
  /-- The value returned by `fcntl(fd, F_GETFL)`. -/
  getfl : Int
  /-- The value returned by `fcntl(fd, F_SETFL, flags)`. -/
  setfl : Int
deriving DecidableEq, Repr

/-- The outcome of one call of a socket method. -/
structure SockRet where
  /-- The record `XPSocket` of the method after the call. -/
  me : XPSocket
  /-- The values returned to Lua, in order. -/
  ret : List LuaVal
  /-- The message of the error raised by `luaL_error`, when one is raised. -/
  raised : Option String
  /-- The system calls made, in order. -/
  sys : List Syscall
deriving DecidableEq, Repr

/-- Function `pushError`: nil and a message; the formats that the callers
pass hold no conversion, so the message is the format itself, and without a
format it is `strerror(errno)`. -/
def pushError (pszFmt : Option String) (errno : Int) : List LuaVal :=
  [.nil, match pszFmt with
         | some fmt => .str fmt
         | none => .strerror errno]

/-- Function `isRetry`. -/
def isRetry (e : Int) : Bool :=
  e == EAGAIN || e == EWOULDBLOCK || e == EINTR || e == EINPROGRESS || e == EALREADY

/-- Function `checkUInt` on argument `ndx`: `luaL_checknumber` raises an
error on a value that is not a number; the result is an `unsigned`. -/
def checkUInt (arg : LuaArg) (ndx : Nat) : Except String Nat :=
  match arg with
  | .number num =>
    if ¬ (num ≥ 0) then .error ("xpio: invalid argument #" ++ toString ndx)
    else if num > (UINT_MAX : Rat) then .ok UINT_MAX
    else .ok (Rat.floor num).toNat
  | _ => .error "number expected"

/-- The conversion `(int) u` of an `unsigned` value. -/
def toInt (u : Nat) : Int :=
  if u ≤ 2147483647 then (u : Int) else (u : Int) - 4294967296

/-- Function `lua_toboolean`. -/
def lua_toboolean (arg : LuaArg) : Bool :=
  match arg with
  | .nil => false
  | .boolean b => b
  | _ => true
/-! ## Socket methods -/

/-- The number `htons(x)` of the 16-bit field `x` that is held in memory as
the given two bytes: `htons` swaps the bytes exactly on a host that stores the
low byte first, so on every host the result is the number whose bytes in
network order are the given ones. -/
def htonsOfBytes (mem : List Nat) : Nat := mem.getD 0 0 * 256 + mem.getD 1 0

/-- Function `xpsocket_getXname`: the string `a.b.c.d:port`, or nil and a
message (the number that `%d` prints after it is not the family: the C code
passes the address of the field, and it is left out here). -/
def xpsocket_getXname (psin : SockaddrIn) : List LuaVal :=
  if psin.sin_family ≠ AF_INET then [.nil, .str "xpio: unknown address family"]
  else
    [.str (String.mk (dotted (psin.sin_addr.getD 0 0) (psin.sin_addr.getD 1 0)
      (psin.sin_addr.getD 2 0) (psin.sin_addr.getD 3 0)
      (':' :: decimal (htonsOfBytes psin.sin_port))))]

/-- Function `xpsocket_getsockname`. -/
def xpsocket_getsockname (me : XPSocket) (env : SysEnv) : SockRet :=
  { me := me
    ret := if env.getname ≠ 0 then pushError none env.errno else xpsocket_getXname env.name
    raised := none
    sys := [.getsockname me.s] }

/-- Function `xpsocket_getpeername`. -/
def xpsocket_getpeername (me : XPSocket) (env : SysEnv) : SockRet :=
  { me := me
    ret := if env.getname ≠ 0 then pushError none env.errno else xpsocket_getXname env.name
    raised := none
    sys := [.getpeername me.s] }

/-- Function `xpsocket_try_read`; the argument is the requested size.
`luaL_buffinitsize` is taken to succeed. -/
def xpsocket_try_read (me : XPSocket) (arg : LuaArg) (env : SysEnv) : SockRet :=
  match checkUInt arg 2 with
  | .error msg => { me := me, ret := [], raised := some msg, sys := [] }
  | .ok size =>
    if size = 0 then { me := me, ret := [.integer 0], raised := none, sys := [] }
    else
      let n := env.readN
      { me := me
        ret :=
          if n ≥ (if size ≠ 0 then 1 else 0) then [.bytes (env.readBuf.take n.toNat)]
          else if n = 0 then [.nil]
          else if isRetry env.errno then pushError (some "retry") env.errno
          else pushError none env.errno
        raised := none
        sys := [.read me.s size] }

/-- Function `xpsocket_close`. -/
def xpsocket_close (me : XPSocket) (env : SysEnv) : SockRet :=
  if me.s ≠ -1 then
    { me := { s := -1 }, ret := [.boolean true], raised := none, sys := [.close me.s] }
  else
    { me := me, ret := pushError (some "already closed") env.errno, raised := none, sys := [] }

/-- Function `xpsocket_bind`. -/
def xpsocket_bind (me : XPSocket) (addr : List Char) (env : SysEnv) : SockRet :=
  match addrFromString addr with
  | none =>
    { me := me, ret := pushError (some "xpio: mal-formed address argument") env.errno
      raised := none, sys := [] }
  | some sin =>
    { me := me
      ret := if env.bind ≠ 0 then pushError none env.errno else [.boolean true]
      raised := none
      sys := [.bind me.s sin] }

/-- Function `xpsocket_try_connect`. -/
def xpsocket_try_connect (me : XPSocket) (addr : List Char) (env : SysEnv) : SockRet :=
  match addrFromString addr with
  | none =>
    { me := me, ret := pushError (some "xpio: mal-formed address") env.errno
      raised := none, sys := [] }
  | some sin =>
    let e := env.connect
    { me := me
      ret :=
        if e ≠ 0 ∧ env.errno ≠ EISCONN then
          pushError (if isRetry env.errno then some "retry" else none) env.errno
        else [.boolean true]
      raised := none
      sys := [.connect me.s sin] }

/-- Function `xpsocket_new`: the record of a new userdata. -/
def xpsocket_new : XPSocket := { s := -1 }

/-- Function `xpio_fdopen`; the argument is the descriptor to duplicate. -/
def xpio_fdopen (arg : LuaArg) (env : SysEnv) : SockRet :=
  let ps := xpsocket_new
  match checkUInt arg 1 with
  | .error msg => { me := ps, ret := [], raised := some msg, sys := [] }
  | .ok u =>
    let s := env.dup
    { me := { s := s }
      ret := if s = -1 then pushError none env.errno else [.userdata]
      raised := none
      sys := [.dup (toInt u)] }

/-- Function `xpproc_try_wait`. -/
def xpproc_try_wait (me : XPProc) (errno : Int) : List LuaVal :=
  if me.pid > 0 then [.nil, .str "retry"]
  else if WIFEXITED me.status then [.str "exit", .integer (WEXITSTATUS me.status)]
  else if WIFSIGNALED me.status then [.str "signal", .integer (WSTOPSIG me.status)]
  else pushError (some "retry") errno
/-! ## Socket options -/

/-- The C record `SockOpt`. -/
structure SockOpt where
  str : List Char
  type : Nat
  category : Nat
  level : Int
  name : Int
deriving DecidableEq, Repr

/-- Constant `SOCKOPT_BOOL`. -/
def SOCKOPT_BOOL : Nat := 1
/-- Constant `SOCKOPT_SIZE`. -/
def SOCKOPT_SIZE : Nat := 2
/-- Constant `SOCKOPT_SO`. -/
def SOCKOPT_SO : Nat := 1
/-- Constant `SOCKOPT_NB`. -/
def SOCKOPT_NB : Nat := 2

/-- Table `opts`, without the record of zeros that ends it. -/
def opts : List SockOpt :=
  [ { str := "TCP_NODELAY".toList, type := SOCKOPT_BOOL, category := SOCKOPT_SO
      level := IPPROTO_TCP, name := TCP_NODELAY },
    { str := "SO_KEEPALIVE".toList, type := SOCKOPT_BOOL, category := SOCKOPT_SO
      level := SOL_SOCKET, name := SO_KEEPALIVE },
    { str := "SO_REUSEADDR".toList, type := SOCKOPT_BOOL, category := SOCKOPT_SO
      level := SOL_SOCKET, name := SO_REUSEADDR },
    { str := "SO_RCVBUF".toList, type := SOCKOPT_SIZE, category := SOCKOPT_SO
      level := SOL_SOCKET, name := SO_RCVBUF },
    { str := "SO_SNDBUF".toList, type := SOCKOPT_SIZE, category := SOCKOPT_SO
      level := SOL_SOCKET, name := SO_SNDBUF },
    { str := "O_NONBLOCK".toList, type := SOCKOPT_BOOL, category := SOCKOPT_NB
      level := 0, name := 0 } ]

/-- The characters of a C string that `strcmp` reads: those before the
first NUL character. -/
def cstr (psz : List Char) : List Char :=
  match psz with
  | [] => []
  | c :: rest => if c.toNat = 0 then [] else c :: cstr rest

/-- The test `0 == strcmp(a, b)`. -/
def strcmpEq (a b : List Char) : Bool := cstr a == cstr b

/-- Function `findSockOpt`: the first record of `opts` whose name compares
equal, `none` for `NULL`. -/
def findSockOpt (psz : List Char) : Option SockOpt :=
  opts.find? (fun po => strcmpEq psz po.str)

/-- Function `getNonBlocking`: the value returned and the one stored in
`*pbOn`; the test `flags & O_NONBLOCK` reads bit 11 of the flags. -/
def getNonBlocking (flags : Int) : Int × Int :=
  if flags = -1 then (-1, 0)
  else (0, if flags / O_NONBLOCK % 2 = 1 then 1 else 0)

/-- Functions `setNonBlocking` and `fcntl_mod_FL`: the value returned and the
system calls made. The new flags `(flags & ~flagsRemove) | flagsAdd` have
bit 11, the one of `O_NONBLOCK`, set when `bOn` is not 0 and cleared when
it is 0. -/
def setNonBlocking (fd : Int) (bOn : Int) (env : SysEnv) : Int × List Syscall :=
  let flags := env.getfl
  if flags ≠ -1 then
    let isSet := flags / O_NONBLOCK % 2 = 1
    let newFlags :=
      if bOn ≠ 0 then (if isSet then flags else flags + O_NONBLOCK)
      else (if isSet then flags - O_NONBLOCK else flags)
    (env.setfl, [.fcntl_getfl fd, .fcntl_setfl fd newFlags])
  else (flags, [.fcntl_getfl fd])

/-- Function `xpsocket_getsockopt`, called with the name of the option. For
a record whose type is neither `SOCKOPT_BOOL` nor `SOCKOPT_SIZE` (there is
none in `opts`) nothing is pushed, and the value returned is the one on top of
the stack, the name. -/
def xpsocket_getsockopt (me : XPSocket) (psz : List Char) (env : SysEnv) : SockRet :=
  match findSockOpt psz with
  | none =>
    { me := me, ret := [.nil, .str "xpio: unknown socket option"], raised := none, sys := [] }
  | some po =>
    if po.category = SOCKOPT_SO ∨ po.category = SOCKOPT_NB then
      let r : Int × Int :=
        if po.category = SOCKOPT_SO then (env.getsockopt, env.optval)
        else getNonBlocking env.getfl
      { me := me
        ret :=
          if r.1 ≠ 0 then pushError none env.errno
          else if po.type = SOCKOPT_BOOL then [.boolean (r.2 != 0)]
          else if po.type = SOCKOPT_SIZE then [.number r.2]
          else [.str (String.mk psz)]
        raised := none
        sys :=
          if po.category = SOCKOPT_SO then [.getsockopt me.s po.level po.name]
          else [.fcntl_getfl me.s] }
    else
      { me := me, ret := pushError (some "getsockopt: internal error") env.errno
        raised := none, sys := [] }

/-- Function `xpsocket_setsockopt`, called with the name of the option and
its new value. For a record whose type is neither `SOCKOPT_BOOL` nor
`SOCKOPT_SIZE` (there is none in `opts`) the C variable `nOpt` is not
assigned; it is 0 here. -/
def xpsocket_setsockopt (me : XPSocket) (optName : List Char) (value : LuaArg)
    (env : SysEnv) : SockRet :=
  match findSockOpt optName with
  | none =>
    { me := me, ret := [.nil, .str "xpio: unknown socket option"], raised := none, sys := [] }
  | some po =>
    let nOpt : Except String Int :=
      if po.type = SOCKOPT_BOOL then .ok (if lua_toboolean value then 1 else 0)
      else if po.type = SOCKOPT_SIZE then (checkUInt value 3).map toInt
      else .ok 0
    match nOpt with
    | .error msg => { me := me, ret := [], raised := some msg, sys := [] }
    | .ok n =>
      if po.category = SOCKOPT_SO ∨ po.category = SOCKOPT_NB then
        let r : Int × List Syscall :=
          if po.category = SOCKOPT_SO then
            (env.setsockopt, [.setsockopt me.s po.level po.name n])
          else setNonBlocking me.s n env
        { me := me
          ret := if r.1 ≠ 0 then pushError none env.errno else [.boolean true]
          raised := none
          sys := r.2 }
      else
        { me := me, ret := pushError (some "setsockopt: internal error") env.errno
          raised := none, sys := [] }

/-- An environment in which every system call succeeds: `read` gives the
five bytes of `hello`, `dup` gives descriptor 3. -/
def sysEnv0 : SysEnv :=
  { errno := 0, readN := 5, readBuf := [104, 101, 108, 108, 111], connect := 0, bind := 0
    dup := 3, getname := 0
    name := { sin_family := AF_INET, sin_port := [0, 80], sin_addr := [127, 0, 0, 1] }
    getsockopt := 0, optval := 1, setsockopt := 0, getfl := 2, setfl := 0 }

/-! ## Processes: creation, destruction and spawn -/

/-- Constant `SIGKILL` of `signal.h`. -/
def SIGKILL : Int := 9

/-- The process-wide state of the `XPProc` code: the contents of every
`XPProc` userdata, by address, and the global list `gpHeadProc`, head first. -/
structure ProcState where
  procs : Nat → XPProc
  gpHeadProc : List Nat

/-- Function `xpproc_new`; `me` is the address of the new userdata. The call
of `xpproc_init` acts on the signal pipe and the handler only. -/
def xpproc_new (ps : ProcState) (me : Nat) : ProcState :=
  { procs := fun x => if x = me then { pid := 0, status := 0 } else ps.procs x
    gpHeadProc := me :: ps.gpHeadProc }

/-- Macro `SLL_DEQUEUE`: unlink the first node of the list that is `ptr`. -/
def SLL_DEQUEUE (ptr : Nat) (head : List Nat) : List Nat :=
  match head with
  | [] => []
  | p :: rest => if p = ptr then rest else p :: SLL_DEQUEUE ptr rest

/-- Function `xpproc_dtor` on the userdata at address `me`: the state after
it and the system calls made. -/
def xpproc_dtor (ps : ProcState) (me : Nat) : ProcState × List Syscall :=
  let list := SLL_DEQUEUE me ps.gpHeadProc
  if (ps.procs me).pid ≠ 0 then
    ({ procs := fun x => if x = me then { ps.procs me with pid := 0 } else ps.procs x
       gpHeadProc := list },
     [.kill (ps.procs me).pid SIGKILL])
  else ({ procs := ps.procs, gpHeadProc := list }, [])

/-- Function `xpproc_kill`: the values returned and the system calls made;
`killRet` is the value that `kill` returns. -/
def xpproc_kill (me : XPProc) (killRet : Int) (errno : Int) : List LuaVal × List Syscall :=
  if me.pid ≤ 0 then (pushError (some "process not running") errno, [])
  else if killRet = -1 then (pushError none errno, [.kill me.pid SIGKILL])
  else ([.boolean true], [.kill me.pid SIGKILL])

/-- Function `xpsocket_dtor`: the record after it and the system calls made. -/
def xpsocket_dtor (me : XPSocket) : XPSocket × List Syscall :=
  if me.s ≠ 0 then ({ s := -1 }, [.close me.s]) else (me, [])

/-- An element of the array `fdActions` as `xpio_getAction` reads it: a value
that is not a table, or a table whose fields 1 and 2 are read by
`lua_tointegerx`, `none` standing for a field that is not a number. -/
inductive ActionEntry where
  | notTable
  | pair (fdTo fdFrom : Option Int)
deriving DecidableEq, Repr

/-- The answers of the operating system in the child process of `_spawn`. -/
structure ChildEnv where
  /-- The value returned by `sigprocmask`. -/
  sigprocmask : Int
  /-- The answers to the calls of `fcntl` made for the action of index `ndx`. -/
  action : Nat → SysEnv
  /-- Whether `execve` returns, which it does only when it fails. -/
  execReturns : Bool

/-- The loop of `xpio__spawn` over the actions, from index `ndx` on: the
system calls made. `xpio_getAction` ends the loop at an element that is not a
table (as after the last element) or whose `fdTo` is -1. -/
def childActions (action : Nat → SysEnv) (ndx : Nat) (entries : List ActionEntry) :
    List Syscall :=
  match entries with
  | [] => []
  | .notTable :: _ => []
  | .pair vTo vFrom :: rest =>
    let fdTo := vTo.getD (-1)
    let fdFrom := vFrom.getD (-1)
    if fdTo = -1 then []
    else
      (if fdFrom ≥ 0 then
        (if fdFrom ≠ fdTo then [Syscall.dup2 fdFrom fdTo] else []) ++
          (setNonBlocking fdTo 0 (action ndx)).2
      else [Syscall.close fdTo]) ++ childActions action (ndx + 1) rest

/-- The outcome of `xpio__spawn` in the process in which `fork` returned `pid`. -/
structure SpawnRet where
  /-- The process-wide state after the call. -/
  ps : ProcState
  /-- The values returned to Lua; the child process returns none. -/
  ret : List LuaVal
  /-- The system calls made after `fork`, in order. -/
  calls : List Syscall

/-- Function `xpio__spawn`, called with a path, two arrays of strings and
the array of actions, in the process in which `fork` returned `pid`; `me` is
the address of the userdata that `xpproc_new` creates. -/
def xpio__spawn (ps : ProcState) (me : Nat) (pid : Int) (path : String)
    (argv envp : List String) (actions : List ActionEntry) (env : ChildEnv) : SpawnRet :=
  if pid ≠ 0 then
    let ps1 := xpproc_new ps me
    { ps := { ps1 with procs := fun x => if x = me then { ps1.procs me with pid := pid }
                                         else ps1.procs x }
      ret := [.userdata]
      calls := [] }
  else if env.sigprocmask ≠ 0 then
    { ps := ps, ret := [], calls := [.sigprocmask, .exit 127] }
  else
    { ps := ps, ret := []
      calls := .sigprocmask :: (childActions env.action 1 actions ++
        (.execve path argv envp :: if env.execReturns then [.exit 127] else [])) }

/-- The processes of a program: the process-wide state and the set of
addresses of the `XPProc` userdata that exist (created and not yet
collected). -/
structure ProcWorld where
  ps : ProcState
  live : Nat → Bool

/-- One event in the life of the processes: `_spawn` creates a userdata at an
address that is not in use, the collector destroys one that exists, or
`xpproc_reap` runs. -/
inductive ProcStep : ProcWorld → ProcWorld → Prop where
  | spawn (w : ProcWorld) (me : Nat) (pid : Int) (path : String) (argv envp : List String)
      (actions : List ActionEntry) (env : ChildEnv) :
      w.live me = false → pid ≠ 0 →
      ProcStep w { ps := (xpio__spawn w.ps me pid path argv envp actions env).ps
                   live := fun x => decide (x = me) || w.live x }
  | dtor (w : ProcWorld) (me : Nat) :
      w.live me = true →
      ProcStep w { ps := (xpproc_dtor w.ps me).1
                   live := fun x => !decide (x = me) && w.live x }
  | reap (w : ProcWorld) (env : Env) :
      ProcStep w { ps := { w.ps with
                     procs := (xpproc_reap env w.ps.procs w.ps.gpHeadProc).1 }
                   live := w.live }

/-- The worlds that a program reaches from the start, where `gpHeadProc` is
`NULL` and no userdata exists. -/
inductive ProcReachable : ProcWorld → Prop where
  | start (procs : Nat → XPProc) :
      ProcReachable { ps := { procs := procs, gpHeadProc := [] }, live := fun _ => false }
  | step {w w1 : ProcWorld} : ProcReachable w → ProcStep w w1 → ProcReachable w1

/-- The decimal value of a run of digit characters, read from the left onto
the number `n`. -/
def digitsValue (ds : List Char) (n : Nat) : Nat :=
  match ds with
  | [] => n
  | c :: rest => digitsValue rest (n * 10 + (c.toNat - 48))

/-- An environment of the child process in which every call succeeds and the
file status flags of every descriptor are `O_RDWR | O_NONBLOCK`. -/
def childEnv0 : ChildEnv :=
  { sigprocmask := 0
    action := fun _ => { sysEnv0 with getfl := 2 + 2048 }
    execReturns := false }

/-- Whether the key of an entry of the child-waiters table is a process
with `pid = 0`, as `xpproc_isExited` tests it. -/
def exitedEntry (procs : Nat → XPProc) (e : LuaKey × Task) : Bool :=
  match e.1 with
  | .proc p => decide ((procs p).pid = 0)
  | .int _ => false

/-- A reachable state: task 3 waits for the process at address 0, which has
been reaped with status 0, task 4 for the process at address 1, which runs
with pid 7, and task 5 reads descriptor 6. -/
def stateTwoChildren : State :=
  (xpsocket_when_read (xpproc_when_wait (xpproc_when_wait
    (xpio_tqueue (fun a => if a = 0 then { pid := 0, status := 0 } else { pid := 7, status := 0 })
      [1, 0]) 0 3).1 1 4).1 6 5).1

/-- The answers of `waitpid` that the second loop of `xpproc_reap` goes
through before the answer that ends it: those with a positive pid, and
those that are -1 with `EINTR`. -/
def waitpidRun (results : List WaitpidResult) : List WaitpidResult :=
  results.takeWhile
    (fun r => decide (r.pid > 0) || (decide (r.pid = -1) && decide (r.errno = EINTR)))

/-- The status that a run of answers of `waitpid` reports for a pid: that of
the first answer with this pid. -/
def reapedStatus (run : List WaitpidResult) (pid : Int) : Option Int :=
  (run.find? (fun r => decide (r.pid = pid))).map (fun r => r.status)

/-- The status that a run of answers of `waitpid` reports for the process at
address `a`, when that process is in the global list and has a positive pid. -/
def reapTarget (procs : Nat → XPProc) (list : List Nat) (run : List WaitpidResult)
    (a : Nat) : Option Int :=
  if a ∈ list ∧ (procs a).pid > 0 then reapedStatus run (procs a).pid else none

/-- The world at the start of a program: no process exists. -/
def world0 : ProcWorld :=
  { ps := { procs := fun _ => { pid := 0, status := 0 }, gpHeadProc := [] }
    live := fun _ => false }

/-- The world after `_spawn` has created the process of pid 100 at address 1. -/
def world1 : ProcWorld :=
  { ps := (xpio__spawn world0.ps 1 100 "/bin/true" ["true"] [] [] childEnv0).ps
    live := fun x => decide (x = 1) || world0.live x }

/-- The world after `_spawn` has then created the process of pid 101 at
address 2. -/
def world2 : ProcWorld :=
  { ps := (xpio__spawn world1.ps 2 101 "/bin/true" ["true"] [] [] childEnv0).ps
    live := fun x => decide (x = 2) || world1.live x }

/-- The world after the collector has then destroyed the process at address 1. -/
def world3 : ProcWorld :=
  { ps := (xpproc_dtor world2.ps 1).1
    live := fun x => !decide (x = 1) && world2.live x }

/-- From the specification of the fd actions: the system calls that clear
the non-blocking flag of descriptor `A`, reading the file status flags and
storing them without the bit of `O_NONBLOCK`; nothing is stored when the
flags cannot be read. -/
def specClearNonBlocking (env : SysEnv) (A : Int) : List Syscall :=
  .fcntl_getfl A ::
    (if env.getfl = -1 then []
     else [.fcntl_setfl A
       (if env.getfl / O_NONBLOCK % 2 = 1 then env.getfl - O_NONBLOCK else env.getfl)])

/-- From the specification of the fd actions: the system calls of one action
`(A, B)`. `(A, A)` keeps `A` and clears its non-blocking flag, `(A, B)` with
`B` other than `A` is `dup2(B, A)` and then clears the flag of `A`, and
`(A, nil)` closes `A`. -/
def specAction (env : SysEnv) (A : Int) (B : Option Int) : List Syscall :=
  match B with
  | none => [.close A]
  | some b => if b = A then specClearNonBlocking env A
              else .dup2 b A :: specClearNonBlocking env A

/-- From the specification of the fd actions: the actions are applied in the
order of the list, one at a time; `ndx` is the index of the first. -/
def specActions (action : Nat → SysEnv) (ndx : Nat) (acts : List (Int × Option Int)) :
    List Syscall :=
  match acts with
  | [] => []
  | x :: rest => specAction (action ndx) x.1 x.2 ++ specActions action (ndx + 1) rest

/-- The element of the Lua array `fdActions` for the action `(A, B)`: the
table with `A` at index 1 and `B`, or nil, at index 2. -/
def actionEntry (x : Int × Option Int) : ActionEntry := .pair (some x.1) x.2

/-! ## Lemmas on tables -/

theorem mem_eraseKey (l : LuaTable) (k : LuaKey) (e : LuaKey × Task) :
    e ∈ eraseKey l k ↔ e ∈ l ∧ e.1 ≠ k := by
  induction l with
  | nil => simp [eraseKey]
  | cons a rest ih =>
    unfold eraseKey
    by_cases h : a.1 = k
    · simp only [h, if_true, ih, List.mem_cons]
      constructor
      · rintro ⟨h1, h2⟩
        exact ⟨Or.inr h1, h2⟩
      · rintro ⟨h1 | h1, h2⟩
        · subst h1
          exact absurd h h2
        · exact ⟨h1, h2⟩
    · simp only [h, if_false, List.mem_cons, ih]
      constructor
      · rintro (h1 | ⟨h1, h2⟩)
        · subst h1
          exact ⟨Or.inl rfl, h⟩
        · exact ⟨Or.inr h1, h2⟩
      · rintro ⟨h1 | h1, h2⟩
        · exact Or.inl h1
        · exact Or.inr ⟨h1, h2⟩

theorem eraseKey_sublist (l : LuaTable) (k : LuaKey) : (eraseKey l k).Sublist l := by
  induction l with
  | nil => simp [eraseKey]
  | cons a rest ih =>
    unfold eraseKey
    by_cases h : a.1 = k
    · simp only [h, if_true]
      exact ih.cons a
    · simp only [h, if_false]
      exact ih.cons₂ a

theorem nodup_eraseKey (l : LuaTable) (k : LuaKey) (h : (l.map Prod.fst).Nodup) :
    ((eraseKey l k).map Prod.fst).Nodup :=
  h.sublist ((eraseKey_sublist l k).map Prod.fst)

theorem hasKey_iff (l : LuaTable) (k : LuaKey) : hasKey l k = true ↔ k ∈ l.map Prod.fst := by
  induction l with
  | nil => simp [hasKey]
  | cons a rest ih =>
    unfold hasKey
    by_cases h : a.1 = k
    · simp [h]
    · simp only [h, if_false, ih, List.map_cons, List.mem_cons]
      constructor
      · exact Or.inr
      · rintro (h1 | h1)
        · exact absurd h1.symm h
        · exact h1

theorem map_fst_replaceAt (l : LuaTable) (k : LuaKey) (v : Task) :
    (replaceAt l k v).map Prod.fst = l.map Prod.fst := by
  induction l with
  | nil => simp [replaceAt]
  | cons a rest ih =>
    unfold replaceAt
    by_cases h : a.1 = k
    · simp [h, ih]
    · simp [h, ih]

theorem mem_replaceAt (l : LuaTable) (k : LuaKey) (v : Task) (e : LuaKey × Task)
    (h : e ∈ replaceAt l k v) : e = (k, v) ∨ (e ∈ l ∧ e.1 ≠ k) := by
  induction l with
  | nil => simp [replaceAt] at h
  | cons a rest ih =>
    unfold replaceAt at h
    rcases List.mem_cons.1 h with h1 | h1
    · by_cases hk : a.1 = k
      · simp only [hk, if_true] at h1
        exact Or.inl h1
      · simp only [hk, if_false] at h1
        subst h1
        exact Or.inr ⟨List.mem_cons_self _ _, hk⟩
    · rcases ih h1 with h2 | ⟨h2, h3⟩
      · exact Or.inl h2
      · exact Or.inr ⟨List.mem_cons_of_mem _ h2, h3⟩

theorem mem_replaceAt_self (l : LuaTable) (k : LuaKey) (v : Task)
    (h : hasKey l k = true) : (k, v) ∈ replaceAt l k v := by
  induction l with
  | nil => simp [hasKey] at h
  | cons a rest ih =>
    unfold replaceAt
    unfold hasKey at h
    by_cases hk : a.1 = k
    · simp [hk]
    · simp only [hk, if_false] at h
      exact List.mem_cons_of_mem _ (ih h)

theorem rawget_some_mem (l : LuaTable) (k : LuaKey) (t : Task)
    (h : rawget l k = some t) : (k, t) ∈ l := by
  induction l with
  | nil => simp [rawget] at h
  | cons a rest ih =>
    unfold rawget at h
    by_cases hk : a.1 = k
    · simp only [hk, if_true, Option.some.injEq] at h
      have : a = (k, t) := Prod.ext hk h
      rw [this]
      exact List.mem_cons_self _ _
    · simp only [hk, if_false] at h
      exact List.mem_cons_of_mem _ (ih h)

theorem rawget_of_mem (l : LuaTable) (k : LuaKey) (t : Task)
    (hn : (l.map Prod.fst).Nodup) (h : (k, t) ∈ l) : rawget l k = some t := by
  induction l with
  | nil => simp at h
  | cons a rest ih =>
    unfold rawget
    rw [List.map_cons, List.nodup_cons] at hn
    rcases List.mem_cons.1 h with h1 | h1
    · subst h1
      simp
    · have hk : a.1 ≠ k := by
        intro hk
        apply hn.1
        rw [hk]
        exact List.mem_map_of_mem Prod.fst h1
      simp only [hk, if_false]
      exact ih hn.2 h1

theorem rawget_none_iff (l : LuaTable) (k : LuaKey) :
    rawget l k = none ↔ hasKey l k = false := by
  induction l with
  | nil => simp [rawget, hasKey]
  | cons a rest ih =>
    unfold rawget hasKey
    by_cases hk : a.1 = k
    · simp [hk]
    · simp [hk, ih]

theorem rawget_eraseKey_self (l : LuaTable) (k : LuaKey) : rawget (eraseKey l k) k = none := by
  induction l with
  | nil => simp [eraseKey, rawget]
  | cons a rest ih =>
    unfold eraseKey
    by_cases hk : a.1 = k
    · simp [hk, ih]
    · simp [hk, rawget, ih]

theorem rawget_cons (a : LuaKey × Task) (rest : LuaTable) (k : LuaKey) :
    rawget (a :: rest) k = if a.1 = k then some a.2 else rawget rest k := rfl

theorem eraseKey_cons (a : LuaKey × Task) (rest : LuaTable) (k : LuaKey) :
    eraseKey (a :: rest) k = if a.1 = k then eraseKey rest k else a :: eraseKey rest k := rfl

theorem rawget_eraseKey_other (l : LuaTable) (k k' : LuaKey) (h : k' ≠ k) :
    rawget (eraseKey l k) k' = rawget l k' := by
  induction l with
  | nil => simp [eraseKey, rawget]
  | cons a rest ih =>
    rw [eraseKey_cons, rawget_cons]
    by_cases hk : a.1 = k
    · have h1 : a.1 ≠ k' := by
        rw [hk]
        exact fun h1 => h h1.symm
      rw [if_pos hk, if_neg h1, ih]
    · rw [if_neg hk, rawget_cons, ih]

theorem rawget_replaceAt_self (l : LuaTable) (k : LuaKey) (v : Task)
    (h : hasKey l k = true) : rawget (replaceAt l k v) k = some v := by
  induction l with
  | nil => simp [hasKey] at h
  | cons a rest ih =>
    unfold replaceAt rawget
    unfold hasKey at h
    by_cases hk : a.1 = k
    · simp [hk]
    · simp only [hk, if_false] at h
      simp [hk, ih h]

theorem rawget_replaceAt_other (l : LuaTable) (k k' : LuaKey) (v : Task) (h : k' ≠ k) :
    rawget (replaceAt l k v) k' = rawget l k' := by
  induction l with
  | nil => simp [replaceAt, rawget]
  | cons a rest ih =>
    unfold replaceAt rawget
    by_cases hk : a.1 = k
    · have h1 : a.1 ≠ k' := by
        rw [hk]
        exact fun h1 => h h1.symm
      have h2 : k ≠ k' := fun h1 => h h1.symm
      simp [hk, h1, h2, ih]
    · simp [hk, ih]

theorem rawget_append_new (l : LuaTable) (k k' : LuaKey) (v : Task) :
    rawget (l ++ [(k, v)]) k' = if hasKey l k' then rawget l k'
      else if k = k' then some v else none := by
  induction l with
  | nil => simp [rawget, hasKey]
  | cons a rest ih =>
    simp only [List.cons_append]
    unfold rawget hasKey
    by_cases hk : a.1 = k'
    · simp [hk]
    · simp [hk, ih]

/-- After `t[k] = v`, the lookup of `k` gives `v`. -/
theorem rawget_rawset_self (l : LuaTable) (k : LuaKey) (v : Option Task) :
    rawget (rawset l k v) k = v := by
  cases v with
  | none => exact rawget_eraseKey_self l k
  | some x =>
    unfold rawset
    by_cases h : hasKey l k = true
    · simp [h, rawget_replaceAt_self l k x h]
    · simp [h, rawget_append_new]

/-- After `t[k] = v`, the lookup of another key is unchanged. -/
theorem rawget_rawset_other (l : LuaTable) (k k' : LuaKey) (v : Option Task) (h : k' ≠ k) :
    rawget (rawset l k v) k' = rawget l k' := by
  cases v with
  | none => exact rawget_eraseKey_other l k k' h
  | some x =>
    unfold rawset
    by_cases hk : hasKey l k = true
    · simp [hk, rawget_replaceAt_other l k k' x h]
    · have h2 : k ≠ k' := fun h1 => h h1.symm
      simp only [hk, Bool.false_eq_true, if_false, rawget_append_new, h2]
      by_cases hk' : hasKey l k' = true
      · simp [hk']
      · simp only [hk', Bool.false_eq_true, if_false]
        exact ((rawget_none_iff l k').2 (by simpa using hk')).symm

/-! ## The invariant is kept by registration and removal -/

theorem table_setTable (s : State) (m m' : Mode) (t : LuaTable) :
    (s.setTable m t).table m' = if m' = m then t else s.table m' := by
  cases m <;> cases m' <;> rfl

theorem tasks_setTable (s : State) (m : Mode) (t : LuaTable) :
    (s.setTable m t).tasks = s.tasks := by
  cases m <;> rfl

theorem table_removeEntry (s : State) (m m' : Mode) (k : LuaKey) (t : Task) :
    (removeEntry s m k t).table m' = if m' = m then eraseKey (s.table m) k else s.table m' := by
  cases m <;> cases m' <;> rfl

theorem tasks_removeEntry (s : State) (m : Mode) (k : LuaKey) (t : Task) :
    (removeEntry s m k t).tasks = clearDequeue s.tasks t := by
  cases m <;> rfl

theorem clearDequeue_self (tasks : Task → TaskFields) (t : Task) :
    (clearDequeue tasks t t)._dequeue = none := by
  simp [clearDequeue, setFields]

theorem clearDequeue_other (tasks : Task → TaskFields) (t x : Task) (h : x ≠ t) :
    clearDequeue tasks t x = tasks x := by
  simp [clearDequeue, setFields, h]

theorem clearDequeue_data (tasks : Task → TaskFields) (t x : Task) :
    (clearDequeue tasks t x)._dequeuedata = (tasks x)._dequeuedata := by
  unfold clearDequeue setFields
  by_cases h : x = t
  · simp [h]
  · simp [h]

theorem clearDequeue_none (tasks : Task → TaskFields) (t x : Task)
    (h : (tasks x)._dequeue = none) : (clearDequeue tasks t x)._dequeue = none := by
  by_cases hx : x = t
  · rw [hx]
    exact clearDequeue_self tasks t
  · rw [clearDequeue_other tasks t x hx]
    exact h

theorem tablesOk_fresh (procs : Nat → XPProc) (list : List Nat) :
    TablesOk (xpio_tqueue procs list) := by
  constructor
  · intro m e h
    cases m <;> simp [xpio_tqueue, State.table] at h
  · intro m
    cases m <;> simp [xpio_tqueue, State.table]
  · intro m e h
    cases m <;> simp [xpio_tqueue, State.table] at h

/-- Removing the entry that a task names keeps the invariant, be the entry
there or not. -/
theorem tablesOk_removeEntry (s : State) (m : Mode) (k : LuaKey) (t : Task)
    (h : TablesOk s) (hd : (s.tasks t)._dequeue = some m)
    (hk : (s.tasks t)._dequeuedata = some k) : TablesOk (removeEntry s m k t) := by
  have hmem : ∀ m' e, e ∈ (removeEntry s m k t).table m' →
      e ∈ s.table m' ∧ (m' = m → e.1 ≠ k) := by
    intro m' e he
    rw [table_removeEntry] at he
    by_cases hm : m' = m
    · rw [if_pos hm, mem_eraseKey] at he
      exact ⟨hm ▸ he.1, fun _ => he.2⟩
    · rw [if_neg hm] at he
      exact ⟨he, fun h1 => absurd h1 hm⟩
  constructor
  · intro m' e he
    obtain ⟨h1, h2⟩ := hmem m' e he
    have hf := h.fields m' e h1
    have hne : e.2 ≠ t := by
      intro heq
      rw [heq, hd, hk] at hf
      have hm : m' = m := (Option.some.inj hf.1).symm
      exact h2 hm (Option.some.inj hf.2).symm
    rw [tasks_removeEntry, clearDequeue_other _ _ _ hne]
    exact hf
  · intro m'
    rw [table_removeEntry]
    by_cases hm : m' = m
    · rw [if_pos hm]
      exact nodup_eraseKey _ _ (h.nodup m)
    · rw [if_neg hm]
      exact h.nodup m'
  · intro m' e he
    exact h.keys m' e (hmem m' e he).1

theorem tablesOk_removeEntry_mem (s : State) (m : Mode) (k : LuaKey) (t : Task)
    (h : TablesOk s) (hmem : (k, t) ∈ s.table m) : TablesOk (removeEntry s m k t) :=
  tablesOk_removeEntry s m k t h (h.fields m (k, t) hmem).1 (h.fields m (k, t) hmem).2

theorem enqueue_error (s : State) (task : Task) (key : LuaKey) (mode : Mode)
    (h : (s.tasks task)._dequeue ≠ none) :
    xpqueue_enqueue s task key mode = (s, some "xpio: task scheduled twice") := by
  unfold xpqueue_enqueue
  rw [if_pos h]

theorem enqueue_table (s : State) (task : Task) (key : LuaKey) (mode m' : Mode)
    (h : (s.tasks task)._dequeue = none) :
    (xpqueue_enqueue s task key mode).1.table m' =
      if m' = mode then rawset (s.table mode) key (some task) else s.table m' := by
  unfold xpqueue_enqueue
  rw [if_neg (by simp [h])]
  cases mode <;> cases m' <;> rfl

theorem enqueue_tasks (s : State) (task : Task) (key : LuaKey) (mode : Mode) (x : Task)
    (h : (s.tasks task)._dequeue = none) :
    (xpqueue_enqueue s task key mode).1.tasks x =
      if x = task then { _dequeue := some mode, _dequeuedata := some key } else s.tasks x := by
  unfold xpqueue_enqueue
  rw [if_neg (by simp [h])]
  simp only [tasks_setTable, setFields]
  by_cases hx : x = task
  · simp [hx]
  · simp [hx]

theorem mem_rawset_some (l : LuaTable) (k : LuaKey) (v : Task) (e : LuaKey × Task)
    (h : e ∈ rawset l k (some v)) : e = (k, v) ∨ (e ∈ l ∧ e.1 ≠ k) := by
  unfold rawset at h
  by_cases hk : hasKey l k = true
  · simp only [hk, if_true] at h
    exact mem_replaceAt l k v e h
  · simp only [hk, Bool.false_eq_true, if_false, List.mem_append, List.mem_singleton] at h
    rcases h with h | h
    · right
      refine ⟨h, ?_⟩
      intro h1
      apply hk
      rw [hasKey_iff, ← h1]
      exact List.mem_map_of_mem Prod.fst h
    · exact Or.inl h

theorem nodup_rawset_some (l : LuaTable) (k : LuaKey) (v : Task)
    (h : (l.map Prod.fst).Nodup) : ((rawset l k (some v)).map Prod.fst).Nodup := by
  unfold rawset
  by_cases hk : hasKey l k = true
  · simp only [hk, if_true, map_fst_replaceAt]
    exact h
  · simp only [hk, Bool.false_eq_true, if_false, List.map_append, List.map_cons, List.map_nil]
    rw [List.nodup_append]
    refine ⟨h, List.nodup_singleton _, ?_⟩
    intro a ha hb
    rw [List.mem_singleton] at hb
    apply hk
    rw [hasKey_iff, ← hb]
    exact ha

/-- Registration keeps the invariant when the key has the type of the table. -/
theorem tablesOk_enqueue (s : State) (task : Task) (key : LuaKey) (mode : Mode)
    (h : TablesOk s) (hkey : keyOk mode key) :
    TablesOk (xpqueue_enqueue s task key mode).1 := by
  by_cases hd : (s.tasks task)._dequeue = none
  · have hmem : ∀ m' e, e ∈ (xpqueue_enqueue s task key mode).1.table m' →
        (m' = mode ∧ e = (key, task)) ∨ e ∈ s.table m' := by
      intro m' e he
      rw [enqueue_table s task key mode m' hd] at he
      by_cases hm : m' = mode
      · rw [if_pos hm] at he
        rcases mem_rawset_some _ _ _ _ he with h1 | h1
        · exact Or.inl ⟨hm, h1⟩
        · exact Or.inr (hm ▸ h1.1)
      · rw [if_neg hm] at he
        exact Or.inr he
    constructor
    · intro m' e he
      rw [enqueue_tasks s task key mode e.2 hd]
      rcases hmem m' e he with ⟨h1, h2⟩ | h1
      · rw [h2, h1]
        simp
      · have hf := h.fields m' e h1
        have hne : e.2 ≠ task := by
          intro heq
          rw [heq, hd] at hf
          exact absurd hf.1 (by simp)
        rw [if_neg hne]
        exact hf
    · intro m'
      rw [enqueue_table s task key mode m' hd]
      by_cases hm : m' = mode
      · rw [if_pos hm]
        exact nodup_rawset_some _ _ _ (h.nodup mode)
      · rw [if_neg hm]
        exact h.nodup m'
    · intro m' e he
      rcases hmem m' e he with ⟨h1, h2⟩ | h1
      · rw [h2, h1]
        exact hkey
      · exact h.keys m' e h1
  · rw [enqueue_error s task key mode hd]
    exact h

theorem dequeue_eq_removeEntry (s : State) (task : Task) (mode : Mode) (k : LuaKey)
    (hk : (s.tasks task)._dequeuedata = some k) :
    xpqueue_dequeue s task mode = (removeEntry s mode k task, none) := by
  unfold xpqueue_dequeue
  rw [hk]
  cases mode <;> rfl

theorem dequeue_nil_key (s : State) (task : Task) (mode : Mode)
    (hk : (s.tasks task)._dequeuedata = none) :
    xpqueue_dequeue s task mode = (s, some "table index is nil") := by
  unfold xpqueue_dequeue
  rw [hk]

/-- What `task._dequeue(task)` does: nothing when a field is nil, else the
removal of the entry that the task names. -/
theorem cancel_cases (s : State) (task : Task) :
    (cancel s task).1 = s ∨
    ∃ m k, (s.tasks task)._dequeue = some m ∧ (s.tasks task)._dequeuedata = some k ∧
      (cancel s task).1 = removeEntry s m k task := by
  unfold cancel
  cases hd : (s.tasks task)._dequeue with
  | none => exact Or.inl rfl
  | some m =>
    cases hk : (s.tasks task)._dequeuedata with
    | none =>
      left
      cases m <;>
        simp [xpqueue_dequeueR, xpqueue_dequeueW, xpqueue_dequeueC, dequeue_nil_key s task _ hk]
    | some k =>
      right
      refine ⟨m, k, rfl, rfl, ?_⟩
      cases m <;>
        simp [xpqueue_dequeueR, xpqueue_dequeueW, xpqueue_dequeueC,
          dequeue_eq_removeEntry s task _ k hk]

theorem tablesOk_cancel (s : State) (task : Task) (h : TablesOk s) :
    TablesOk (cancel s task).1 := by
  rcases cancel_cases s task with h1 | ⟨m, k, hd, hk, h1⟩
  · rw [h1]
    exact h
  · rw [h1]
    exact tablesOk_removeEntry s m k task h hd hk

/-! ## The scratch buffer stays consistent -/

theorem length_updatePfd (pfds : List PollFd) : ∀ (n : Nat) (f : PollFd → PollFd),
    (updatePfd pfds n f).length = pfds.length := by
  induction pfds with
  | nil =>
    intro n f
    rfl
  | cons p ps ih =>
    intro n f
    cases n with
    | zero => rfl
    | succ n =>
      unfold updatePfd
      simp [ih n f]

theorem length_storeRevents (revents : Nat → Nat) (nfds : Nat) (pfds : List PollFd) :
    ∀ i, (storeRevents revents nfds i pfds).length = pfds.length := by
  induction pfds with
  | nil =>
    intro i
    rfl
  | cons p ps ih =>
    intro i
    unfold storeRevents
    simp [ih (i + 1)]

theorem growArray_cases (malloc : Nat → Bool) (ptr : List PollFd) (len lenMin : Nat) :
    growArray malloc ptr len lenMin = (ptr, len) ∨
    (len ≤ lenMin ∧ growArray malloc ptr len lenMin =
      (ptr.take len ++ List.replicate (lenMin * 2 - len) zeroPollFd, lenMin * 2)) := by
  unfold growArray
  by_cases h : lenMin < len
  · left
    rw [if_pos h]
  · rw [if_neg h]
    by_cases hm : malloc (lenMin * 2) = true
    · right
      refine ⟨by omega, ?_⟩
      simp [hm]
    · left
      simp [hm]

theorem bufOk_ensureFDs (malloc : Nat → Bool) (me : XPQueue) (ndx : Nat) (h : BufOk me) :
    BufOk (XPQueue_ensureFDs malloc me ndx).1 := by
  have hme : (XPQueue_ensureFDs malloc me ndx).1 =
      { pfds := (growArray malloc me.pfds me.nfds (ndx + 1)).1,
        nfds := (growArray malloc me.pfds me.nfds (ndx + 1)).2 } := by
    unfold XPQueue_ensureFDs
    dsimp only
    split <;> rfl
  rw [hme]
  unfold BufOk at *
  rcases growArray_cases malloc me.pfds me.nfds (ndx + 1) with hg | ⟨hle, hg⟩
  · rw [hg]
    exact h
  · rw [hg]
    simp only [List.length_append, List.length_take, List.length_replicate]
    omega

/-- When `XPQueue_ensureFDs` raises no error, the index is inside the buffer
and the slots that were allocated before keep their contents. -/
theorem ensureFDs_ok (malloc : Nat → Bool) (me : XPQueue) (ndx : Nat) (h : BufOk me)
    (hok : (XPQueue_ensureFDs malloc me ndx).2 = none) :
    ndx < (XPQueue_ensureFDs malloc me ndx).1.pfds.length ∧
    ∀ m, m < me.pfds.length →
      (XPQueue_ensureFDs malloc me ndx).1.pfds[m]? = me.pfds[m]? := by
  have hb := bufOk_ensureFDs malloc me ndx h
  have hme : (XPQueue_ensureFDs malloc me ndx).1 =
      { pfds := (growArray malloc me.pfds me.nfds (ndx + 1)).1,
        nfds := (growArray malloc me.pfds me.nfds (ndx + 1)).2 } := by
    unfold XPQueue_ensureFDs
    dsimp only
    split <;> rfl
  constructor
  · unfold BufOk at hb
    rw [← hb]
    unfold XPQueue_ensureFDs at hok ⊢
    dsimp only at hok ⊢
    split at hok
    · simp at hok
    · rename_i hlt
      rw [if_neg hlt]
      dsimp only
      omega
  · intro m hm
    rw [hme]
    dsimp only
    unfold BufOk at h
    rcases growArray_cases malloc me.pfds me.nfds (ndx + 1) with hg | ⟨_, hg⟩
    · rw [hg]
    · rw [hg]
      dsimp only
      rw [h, List.take_length, List.getElem?_append_left hm]

theorem bufOk_updatePfd (me : XPQueue) (n : Nat) (f : PollFd → PollFd) (h : BufOk me) :
    BufOk { me with pfds := updatePfd me.pfds n f } := by
  unfold BufOk at *
  simp only [length_updatePfd]
  exact h

theorem bufOk_storeRevents (me : XPQueue) (revents : Nat → Nat) (nfds i : Nat) (h : BufOk me) :
    BufOk { me with pfds := storeRevents revents nfds i me.pfds } := by
  unfold BufOk at *
  simp only [length_storeRevents]
  exact h

theorem bufOk_buildStep (malloc : Nat → Bool) (mode : Mode) (b : Build) (e : LuaKey × Task)
    (h : BufOk b.me) : BufOk (buildStep malloc mode b e).me := by
  unfold buildStep
  dsimp only
  cases (if mode = Mode.WRITE then b.slots (keyToInt e.1) else none) with
  | none =>
    dsimp only
    have h1 := bufOk_ensureFDs malloc b.me b.nfdsUsed h
    cases (XPQueue_ensureFDs malloc b.me b.nfdsUsed).2 with
    | some msg => exact h1
    | none => exact bufOk_updatePfd _ _ _ h1
  | some ndxFD => exact bufOk_updatePfd _ _ _ h

theorem bufOk_buildLoop (malloc : Nat → Bool) (mode : Mode) (entries : LuaTable) :
    ∀ b : Build, BufOk b.me → BufOk (buildLoop malloc mode entries b).me := by
  induction entries with
  | nil =>
    intro b h
    exact h
  | cons e rest ih =>
    intro b h
    unfold buildLoop
    dsimp only
    split
    · exact bufOk_buildStep malloc mode b e h
    · exact ih _ (bufOk_buildStep malloc mode b e h)

theorem bufOk_buildPfds (env : Env) (s : State) (h : BufOk s.me) :
    BufOk (buildPfds env s).me := by
  unfold buildPfds
  dsimp only
  have h1 := bufOk_buildLoop env.malloc .READ s.readers
    { me := s.me, slots := fun _ => none, nfdsUsed := 0, err := none } h
  split
  · exact h1
  · exact bufOk_buildLoop env.malloc .WRITE s.writers _ h1

/-! ## What `wait` does to the tables: a sequence of removals -/

theorem wakeChildStep_cases (sw : Sweep) (e : LuaKey × Task) :
    (∃ msg, wakeChildStep sw e = { sw with err := some msg }) ∨
    (wakeChildStep sw e = { sw with numWaiting := sw.numWaiting + 1 } ∧
      ∃ p, e.1 = .proc p ∧ (sw.state.procs p).pid ≠ 0) ∨
    (wakeChildStep sw e =
      { sw with state := removeEntry sw.state .CHILD e.1 e.2, ready := sw.ready ++ [e.2] } ∧
      ∃ p, e.1 = .proc p ∧ (sw.state.procs p).pid = 0) := by
  cases h : e.1 with
  | int n =>
    left
    refine ⟨"XPProc object expected", ?_⟩
    unfold wakeChildStep xpproc_isExited
    rw [h]
  | proc p =>
    by_cases hp : (sw.state.procs p).pid = 0
    · right
      right
      refine ⟨?_, p, rfl, hp⟩
      unfold wakeChildStep xpproc_isExited
      rw [h]
      simp only [hp, decide_True]
      rfl
    · right
      left
      refine ⟨?_, p, rfl, hp⟩
      unfold wakeChildStep xpproc_isExited
      rw [h]
      simp only [hp, decide_False]

theorem wakeChildLoop_closed (P : State → List Task → Prop) (hP : WaitClosed P)
    (entries : LuaTable) : ∀ sw : Sweep, (entries.map Prod.fst).Nodup →
    (∀ e ∈ entries, e ∈ sw.state.childWaiters) → P sw.state sw.ready →
    P (wakeChildLoop entries sw).state (wakeChildLoop entries sw).ready := by
  induction entries with
  | nil =>
    intro sw _ _ h
    exact h
  | cons e rest ih =>
    intro sw hn hsub h
    unfold wakeChildLoop
    rw [List.map_cons, List.nodup_cons] at hn
    rcases wakeChildStep_cases sw e with ⟨msg, h1⟩ | ⟨h1, _⟩ | ⟨h1, _⟩
    · simp only [h1, Option.isSome_some, if_true]
      exact h
    · simp only [h1]
      by_cases herr : sw.err.isSome = true
      · simp only [herr, if_true]
        exact h
      · simp only [herr, Bool.false_eq_true, if_false]
        exact ih _ hn.2 (fun e' he' => hsub e' (List.mem_cons_of_mem _ he')) h
    · simp only [h1]
      have hmem : (e.1, e.2) ∈ sw.state.table .CHILD := hsub e (List.mem_cons_self _ _)
      have h2 := hP.remove sw.state sw.ready .CHILD e.1 e.2 h hmem
      by_cases herr : sw.err.isSome = true
      · simp only [herr, if_true]
        exact h2
      · simp only [herr, Bool.false_eq_true, if_false]
        refine ih _ hn.2 ?_ h2
        intro e' he'
        show e' ∈ (removeEntry sw.state .CHILD e.1 e.2).table .CHILD
        rw [table_removeEntry, if_pos rfl, mem_eraseKey]
        refine ⟨hsub e' (List.mem_cons_of_mem _ he'), ?_⟩
        intro heq
        apply hn.1
        rw [← heq]
        exact List.mem_map_of_mem Prod.fst he'

theorem wakeChildWaiters_closed (P : State → List Task → Prop) (hP : WaitClosed P)
    (s : State) (ready : List Task) (h : P s ready) :
    P (XPQueue_wakeChildWaiters s ready).state (XPQueue_wakeChildWaiters s ready).ready := by
  unfold XPQueue_wakeChildWaiters
  exact wakeChildLoop_closed P hP s.childWaiters _ ((hP.tables s ready h).nodup .CHILD)
    (fun e he => he) h

theorem wakeOne_cases (mode : Mode) (w : Wake) (fd : Int) :
    (rawget (w.state.table mode) (.int fd) = none ∧
      wakeOne mode w fd = { w with err := some "attempt to index a nil value" }) ∨
    (∃ t, rawget (w.state.table mode) (.int fd) = some t ∧
      wakeOne mode w fd =
        { w with state := removeEntry w.state mode (.int fd) t, ready := w.ready ++ [t] }) := by
  unfold wakeOne
  cases h : rawget (w.state.table mode) (.int fd) with
  | none => exact Or.inl ⟨rfl, rfl⟩
  | some t =>
    right
    refine ⟨t, rfl, ?_⟩
    cases mode <;> rfl

theorem wakeOne_closed (P : State → List Task → Prop) (hP : WaitClosed P)
    (mode : Mode) (w : Wake) (fd : Int) (h : P w.state w.ready) :
    P (wakeOne mode w fd).state (wakeOne mode w fd).ready := by
  rcases wakeOne_cases mode w fd with ⟨_, h1⟩ | ⟨t, ht, h1⟩
  · rw [h1]
    exact h
  · rw [h1]
    exact hP.remove _ _ mode (.int fd) t h (rawget_some_mem _ _ _ ht)

theorem wakeSocketsStep_closed (P : State → List Task → Prop) (hP : WaitClosed P)
    (w : Wake) (pfd : PollFd) (h : P w.state w.ready) :
    P (wakeSocketsStep w pfd).state (wakeSocketsStep w pfd).ready := by
  unfold wakeSocketsStep
  dsimp only
  generalize hw1 : (if (testBits pfd.events POLLIN && testBits pfd.revents readableMask) = true
      then wakeOne .READ w pfd.fd else w) = w1
  have h1 : P w1.state w1.ready := by
    rw [← hw1]
    split
    · exact wakeOne_closed P hP _ _ _ h
    · exact h
  split
  · exact h1
  · split
    · exact wakeOne_closed P hP _ _ _ h1
    · exact h1

theorem wakeSocketsLoop_closed (P : State → List Task → Prop) (hP : WaitClosed P)
    (pfds : List PollFd) : ∀ w : Wake, P w.state w.ready →
    P (wakeSocketsLoop pfds w).state (wakeSocketsLoop pfds w).ready := by
  induction pfds with
  | nil =>
    intro w h
    exact h
  | cons pfd rest ih =>
    intro w h
    unfold wakeSocketsLoop
    dsimp only
    split
    · exact wakeSocketsStep_closed P hP w pfd h
    · exact ih _ (wakeSocketsStep_closed P hP w pfd h)

theorem waitPoll_closed (P : State → List Task → Prop) (hP : WaitClosed P) (env : Env)
    (s : State) (ready : List Task) (nfdsUsed numChildWaiters : Nat) (timeout : Int)
    (h : P s ready) :
    ∃ ready', P (waitPoll env s ready nfdsUsed numChildWaiters timeout).state ready' ∧
      ∀ arr, (waitPoll env s ready nfdsUsed numChildWaiters timeout).result = .ready arr →
        arr = ready' := by
  unfold waitPoll
  dsimp only
  by_cases hn : env.numOut < 0
  · rw [if_pos hn]
    exact ⟨ready, h, fun arr ha => by simp at ha⟩
  · rw [if_neg hn]
    generalize hw : XPQueue_wakeSockets _ _ _ _ = w
    have hw2 : P w.state w.ready := by
      rw [← hw]
      unfold XPQueue_wakeSockets
      exact wakeSocketsLoop_closed P hP _ _
        (hP.me _ _ _ h (bufOk_storeRevents s.me env.revents nfdsUsed 0))
    cases he : w.err with
    | some msg =>
      dsimp only
      exact ⟨_, hw2, fun arr ha => by simp at ha⟩
    | none =>
      dsimp only
      split
      · generalize hr : xpproc_reap env w.state.procs w.state.gpHeadProc = r
        split
        · have hs := wakeChildWaiters_closed P hP _ _ (hP.procs _ _ r.1 hw2)
          split
          · exact ⟨_, hs, fun arr ha => by simp at ha⟩
          · exact ⟨_, hs, fun arr ha => by
              simp only [WaitResult.ready.injEq] at ha
              exact ha.symm⟩
        · exact ⟨_, hP.procs _ _ _ hw2, fun arr ha => by
            simp only [WaitResult.ready.injEq] at ha
            exact ha.symm⟩
      · exact ⟨_, hw2, fun arr ha => by
          simp only [WaitResult.ready.injEq] at ha
          exact ha.symm⟩

theorem addSigPipe_closed (P : State → List Task → Prop) (hP : WaitClosed P) (env : Env)
    (s : State) (ready : List Task) (nfdsUsed numChildWaiters : Nat) (h : P s ready) :
    P (addSigPipe env s nfdsUsed numChildWaiters).1 ready := by
  unfold addSigPipe
  by_cases hc : numChildWaiters ≠ 0
  · rw [if_pos hc]
    dsimp only
    cases (XPQueue_ensureFDs env.malloc s.me nfdsUsed).2 with
    | some msg => exact hP.me _ _ _ h (bufOk_ensureFDs env.malloc s.me nfdsUsed)
    | none =>
      exact hP.me _ _ _ h (fun hb =>
        bufOk_updatePfd _ _ _ (bufOk_ensureFDs env.malloc s.me nfdsUsed hb))
  · rw [if_neg hc]
    exact h

/-- Every property that is kept by removals is kept by `wait`, and the
array that `wait` returns is the ready array of the property. -/
theorem xpqueue_wait_closed (P : State → List Task → Prop) (hP : WaitClosed P)
    (s : State) (arg : TimeoutArg) (env : Env) (h : P s []) :
    ∃ ready', P (xpqueue_wait s arg env).state ready' ∧
      ∀ arr, (xpqueue_wait s arg env).result = .ready arr → arr = ready' := by
  unfold xpqueue_wait
  cases coerceTimeout arg with
  | error msg => exact ⟨[], h, fun arr ha => by simp at ha⟩
  | ok timeout0 =>
    dsimp only
    cases (buildPfds env s).err with
    | some msg =>
      exact ⟨[], hP.me _ _ _ h (bufOk_buildPfds env s), fun arr ha => by simp at ha⟩
    | none =>
      dsimp only
      have hs := wakeChildWaiters_closed P hP _ _
        (hP.me s [] (buildPfds env s).me h (bufOk_buildPfds env s))
      generalize XPQueue_wakeChildWaiters _ _ = sw at hs
      cases sw.err with
      | some msg => exact ⟨_, hs, fun arr ha => by simp at ha⟩
      | none =>
        dsimp only
        have ha := addSigPipe_closed P hP env _ _ (buildPfds env s).nfdsUsed sw.numWaiting hs
        generalize addSigPipe _ _ _ _ = a at ha
        cases a.2.2 with
        | some msg => exact ⟨_, ha, fun arr ha => by simp at ha⟩
        | none =>
          dsimp only
          generalize (if sw.ready.length ≠ 0 then 0 else timeout0) = timeout
          by_cases hc : timeout = -1 ∧ a.2.1 = 0
          · rw [if_pos hc]
            exact ⟨_, ha, fun arr ha => by simp at ha⟩
          · rw [if_neg hc]
            exact waitPoll_closed P hP env _ _ _ _ _ ha

/-! ## The invariant holds in every reachable state -/

theorem table_with_me (s : State) (me : XPQueue) (m : Mode) :
    ({ s with me := me } : State).table m = s.table m := by
  cases m <;> rfl

theorem table_with_procs (s : State) (procs : Nat → XPProc) (m : Mode) :
    ({ s with procs := procs } : State).table m = s.table m := by
  cases m <;> rfl

theorem table_with_procs_list (s : State) (procs : Nat → XPProc) (list : List Nat) (m : Mode) :
    ({ s with procs := procs, gpHeadProc := list } : State).table m = s.table m := by
  cases m <;> rfl

/-- The invariant reads only the tables and the task fields. -/
theorem tablesOk_congr (s s' : State) (ht : ∀ m, s'.table m = s.table m)
    (hf : s'.tasks = s.tasks) (h : TablesOk s) : TablesOk s' := by
  constructor
  · intro m e he
    rw [ht] at he
    rw [hf]
    exact h.fields m e he
  · intro m
    rw [ht]
    exact h.nodup m
  · intro m e he
    rw [ht] at he
    exact h.keys m e he

theorem waitClosed_tablesOk : WaitClosed (fun s _ => TablesOk s) := by
  constructor
  · intro s _ h
    exact h
  · intro s _ me h _
    exact tablesOk_congr s _ (table_with_me s me) rfl h
  · intro s _ procs h
    exact tablesOk_congr s _ (table_with_procs s procs) rfl h
  · intro s _ m k t h hmem
    exact tablesOk_removeEntry_mem s m k t h hmem

theorem tablesOk_wait (s : State) (arg : TimeoutArg) (env : Env) (h : TablesOk s) :
    TablesOk (xpqueue_wait s arg env).state := by
  obtain ⟨_, h1, _⟩ := xpqueue_wait_closed (fun s _ => TablesOk s) waitClosed_tablesOk s arg env h
  exact h1

theorem tablesOk_step (s s' : State) (h : TablesOk s) (hs : Step s s') : TablesOk s' := by
  cases hs with
  | when_read fd task => exact tablesOk_enqueue s task (.int fd) .READ h trivial
  | when_write fd task => exact tablesOk_enqueue s task (.int fd) .WRITE h trivial
  | when_wait p task => exact tablesOk_enqueue s task (.proc p) .CHILD h trivial
  | cancel task => exact tablesOk_cancel s task h
  | wait arg env => exact tablesOk_wait s arg env h
  | procs procs list => exact tablesOk_congr s _ (table_with_procs_list s procs list) rfl h

theorem tablesOk_reachable (s : State) (h : Reachable s) : TablesOk s := by
  induction h with
  | fresh procs list => exact tablesOk_fresh procs list
  | step _ hs ih => exact tablesOk_step _ _ ih hs

theorem filter_value_nil (l : LuaTable) (t : Task) (h : ∀ e ∈ l, e.2 ≠ t) :
    l.filter (fun e => e.2 = t) = [] := by
  rw [List.filter_eq_nil_iff]
  intro e he
  simpa using h e he

theorem filter_value_le_one (l : LuaTable) (t : Task) (k : LuaKey)
    (hn : (l.map Prod.fst).Nodup) (h : ∀ e ∈ l, e.2 = t → e.1 = k) :
    (l.filter (fun e => e.2 = t)).length ≤ 1 := by
  induction l with
  | nil => simp
  | cons a rest ih =>
    rw [List.map_cons, List.nodup_cons] at hn
    by_cases ha : a.2 = t
    · have hrest : rest.filter (fun e => e.2 = t) = [] := by
        apply filter_value_nil
        intro e he heq
        apply hn.1
        have h1 := h a (List.mem_cons_self _ _) ha
        have h2 := h e (List.mem_cons_of_mem _ he) heq
        rw [h1, ← h2]
        exact List.mem_map_of_mem Prod.fst he
      rw [List.filter_cons_of_pos (by simpa using ha), hrest]
      simp
    · rw [List.filter_cons_of_neg (by simpa using ha)]
      exact ih hn.2 (fun e he => h e (List.mem_cons_of_mem _ he))

theorem occurrences_le_one (s : State) (h : TablesOk s) (t : Task) : occurrences s t ≤ 1 := by
  have hcount : ∀ m, ((s.table m).filter (fun e => e.2 = t)).length ≤ 1 := by
    intro m
    cases hk : (s.tasks t)._dequeuedata with
    | none =>
      rw [filter_value_nil]
      · simp
      · intro e he heq
        have := (h.fields m e he).2
        rw [heq, hk] at this
        simp at this
    | some k =>
      apply filter_value_le_one _ t k (h.nodup m)
      intro e he heq
      have := (h.fields m e he).2
      rw [heq, hk] at this
      exact (Option.some.inj this).symm
  have hzero : ∀ m m', m ≠ m' → (s.table m).filter (fun e => e.2 = t) ≠ [] →
      (s.table m').filter (fun e => e.2 = t) = [] := by
    intro m m' hne hm
    apply filter_value_nil
    intro e' he' heq'
    apply hm
    apply filter_value_nil
    intro e he heq
    have h1 := (h.fields m e he).1
    have h2 := (h.fields m' e' he').1
    rw [heq] at h1
    rw [heq', h1] at h2
    exact hne (Option.some.inj h2)
  unfold occurrences
  have hR := hcount .READ
  have hW := hcount .WRITE
  have hC := hcount .CHILD
  have hRW := hzero .READ .WRITE (by decide)
  have hRC := hzero .READ .CHILD (by decide)
  have hWC := hzero .WRITE .CHILD (by decide)
  change ((s.readers.filter (fun e => e.2 = t)).length ≤ 1) at hR
  change ((s.writers.filter (fun e => e.2 = t)).length ≤ 1) at hW
  change ((s.childWaiters.filter (fun e => e.2 = t)).length ≤ 1) at hC
  change (s.readers.filter (fun e => e.2 = t) ≠ [] → s.writers.filter (fun e => e.2 = t) = [])
    at hRW
  change (s.readers.filter (fun e => e.2 = t) ≠ [] →
    s.childWaiters.filter (fun e => e.2 = t) = []) at hRC
  change (s.writers.filter (fun e => e.2 = t) ≠ [] →
    s.childWaiters.filter (fun e => e.2 = t) = []) at hWC
  by_cases h1 : s.readers.filter (fun e => e.2 = t) = []
  · by_cases h2 : s.writers.filter (fun e => e.2 = t) = []
    · rw [h1, h2]
      simpa using hC
    · rw [h1, hWC h2]
      simpa using hW
  · rw [hRW h1, hRC h1]
    simpa using hR

/-- Claim C1. In every state reachable from a freshly created queue by
registrations (`when_read`, `when_write`, `when_wait`), cancellations through
the task's own `_dequeue`, calls of `wait` and changes of the process store,
every task is the value of at most one entry of the readers, writers and
child-waiters tables taken together. -/
theorem task_in_at_most_one_entry (s : State) (h : Reachable s) (t : Task) :
    occurrences s t ≤ 1 :=
  occurrences_le_one s (tablesOk_reachable s h) t

/-- A reachable state with a reader, a writer and a child waiter, in which
task 1 occurs once. -/
theorem task_in_at_most_one_entry_witness :
    Reachable (xpproc_when_wait (xpsocket_when_write (xpsocket_when_read
      (xpio_tqueue (fun _ => { pid := 7, status := 0 }) [0]) 5 1).1 5 2).1 0 3).1 ∧
    occurrences (xpproc_when_wait (xpsocket_when_write (xpsocket_when_read
      (xpio_tqueue (fun _ => { pid := 7, status := 0 }) [0]) 5 1).1 5 2).1 0 3).1 1 ≤ 1 :=
  ⟨((Reachable.fresh _ _).step (Step.when_read _ 5 1)).step (Step.when_write _ 5 2)
      |>.step (Step.when_wait _ 0 3),
   task_in_at_most_one_entry _
     (((Reachable.fresh _ _).step (Step.when_read _ 5 1)).step (Step.when_write _ 5 2)
      |>.step (Step.when_wait _ 0 3)) 1⟩

/-! ## Tasks whose `_dequeue` is set -/

theorem value_unique (l : LuaTable) (k : LuaKey) (a b : Task)
    (hn : (l.map Prod.fst).Nodup) (ha : (k, a) ∈ l) (hb : (k, b) ∈ l) : a = b := by
  have h1 := rawget_of_mem l k a hn ha
  have h2 := rawget_of_mem l k b hn hb
  rw [h1] at h2
  exact Option.some.inj h2

theorem mem_rawset_some_of_mem (l : LuaTable) (k : LuaKey) (v : Task) (e : LuaKey × Task)
    (h : e ∈ l) (hk : e.1 ≠ k) : e ∈ rawset l k (some v) := by
  unfold rawset
  by_cases hh : hasKey l k = true
  · simp only [hh, if_true]
    clear hh
    induction l with
    | nil => simp at h
    | cons a rest ih =>
      unfold replaceAt
      rcases List.mem_cons.1 h with h1 | h1
      · subst h1
        simp [hk]
      · exact List.mem_cons_of_mem _ (ih h1)
  · simp only [hh, Bool.false_eq_true, if_false]
    exact List.mem_append_left _ h

theorem mem_rawset_some_self (l : LuaTable) (k : LuaKey) (v : Task) :
    (k, v) ∈ rawset l k (some v) :=
  rawget_some_mem _ _ _ (rawget_rawset_self l k (some v))

theorem registered_fresh (procs : Nat → XPProc) (list : List Nat) :
    Registered (xpio_tqueue procs list) := by
  intro t m h
  simp [xpio_tqueue] at h

theorem registered_removeEntry (s : State) (m : Mode) (k : LuaKey) (t : Task)
    (h : TablesOk s) (hr : Registered s) (hmem : (k, t) ∈ s.table m) :
    Registered (removeEntry s m k t) := by
  intro t' m' hd
  rw [tasks_removeEntry] at hd
  have hne : t' ≠ t := by
    intro heq
    rw [heq, clearDequeue_self] at hd
    simp at hd
  rw [clearDequeue_other _ _ _ hne] at hd
  obtain ⟨k', hk', hmem'⟩ := hr t' m' hd
  refine ⟨k', ?_, ?_⟩
  · rw [tasks_removeEntry, clearDequeue_other _ _ _ hne]
    exact hk'
  · rw [table_removeEntry]
    by_cases hm : m' = m
    · rw [if_pos hm, mem_eraseKey]
      subst hm
      refine ⟨hmem', ?_⟩
      intro heq
      apply hne
      have heq' : k' = k := heq
      rw [heq'] at hmem'
      exact value_unique _ k t' t (h.nodup m') hmem' hmem
    · rw [if_neg hm]
      exact hmem'

theorem registered_congr (s s' : State) (ht : ∀ m, s'.table m = s.table m)
    (hf : s'.tasks = s.tasks) (h : Registered s) : Registered s' := by
  intro t m hd
  rw [hf] at hd
  obtain ⟨k, hk, hmem⟩ := h t m hd
  exact ⟨k, by rw [hf]; exact hk, by rw [ht]; exact hmem⟩

theorem waitClosed_registered : WaitClosed (fun s _ => TablesOk s ∧ Registered s) := by
  constructor
  · intro s _ h
    exact h.1
  · intro s _ me h _
    exact ⟨tablesOk_congr s _ (table_with_me s me) rfl h.1,
      registered_congr s _ (table_with_me s me) rfl h.2⟩
  · intro s _ procs h
    exact ⟨tablesOk_congr s _ (table_with_procs s procs) rfl h.1,
      registered_congr s _ (table_with_procs s procs) rfl h.2⟩
  · intro s _ m k t h hmem
    exact ⟨tablesOk_removeEntry_mem s m k t h.1 hmem,
      registered_removeEntry s m k t h.1 h.2 hmem⟩

theorem registered_enqueue (s : State) (task : Task) (key : LuaKey) (mode : Mode)
    (hr : Registered s) (hfree : rawget (s.table mode) key = none) :
    Registered (xpqueue_enqueue s task key mode).1 := by
  by_cases hd : (s.tasks task)._dequeue = none
  · intro t m ht
    rw [enqueue_tasks s task key mode t hd] at ht
    rw [enqueue_tasks s task key mode t hd, enqueue_table s task key mode m hd]
    by_cases htask : t = task
    · rw [if_pos htask] at ht
      have hm : mode = m := Option.some.inj ht
      rw [if_pos htask, if_pos hm.symm, htask]
      exact ⟨key, rfl, mem_rawset_some_self _ _ _⟩
    · rw [if_neg htask] at ht
      rw [if_neg htask]
      obtain ⟨k, hk, hmem⟩ := hr t m ht
      refine ⟨k, hk, ?_⟩
      by_cases hm : m = mode
      · rw [if_pos hm]
        subst hm
        apply mem_rawset_some_of_mem _ _ _ _ hmem
        intro heq
        have hkk : k = key := heq
        have hh := (rawget_none_iff _ _).1 hfree
        have : hasKey (s.table m) key = true := by
          rw [hasKey_iff, ← hkk]
          exact List.mem_map_of_mem Prod.fst hmem
        rw [hh] at this
        exact absurd this (by simp)
      · rw [if_neg hm]
        exact hmem
  · rw [enqueue_error s task key mode hd]
    exact hr

theorem registered_cancel (s : State) (task : Task) (h : TablesOk s) (hr : Registered s) :
    Registered (cancel s task).1 := by
  rcases cancel_cases s task with h1 | ⟨m, k, hd, hk, h1⟩
  · rw [h1]
    exact hr
  · rw [h1]
    obtain ⟨k', hk', hmem⟩ := hr task m hd
    rw [hk] at hk'
    rw [← Option.some.inj hk'] at hmem
    exact registered_removeEntry s m k task h hr hmem

theorem reachable_of_free (s : State) (h : ReachableFree s) : Reachable s := by
  induction h with
  | fresh procs list => exact Reachable.fresh procs list
  | step _ hs ih =>
    cases hs with
    | when_read fd task _ => exact ih.step (Step.when_read _ fd task)
    | when_write fd task _ => exact ih.step (Step.when_write _ fd task)
    | when_wait p task _ => exact ih.step (Step.when_wait _ p task)
    | cancel task => exact ih.step (Step.cancel _ task)
    | wait arg env => exact ih.step (Step.wait _ arg env)
    | procs procs list => exact ih.step (Step.procs _ procs list)

theorem registered_reachableFree (s : State) (h : ReachableFree s) : Registered s := by
  induction h with
  | fresh procs list => exact registered_fresh procs list
  | @step s s' hreach hs ih =>
    have hok := tablesOk_reachable s (reachable_of_free s hreach)
    cases hs with
    | when_read fd task hfree => exact registered_enqueue s task (.int fd) .READ ih hfree
    | when_write fd task hfree => exact registered_enqueue s task (.int fd) .WRITE ih hfree
    | when_wait p task hfree => exact registered_enqueue s task (.proc p) .CHILD ih hfree
    | cancel task => exact registered_cancel s task hok ih
    | wait arg env =>
      obtain ⟨_, h1, _⟩ := xpqueue_wait_closed _ waitClosed_registered s arg env ⟨hok, ih⟩
      exact h1.2
    | procs procs list =>
      exact registered_congr s _ (table_with_procs_list s procs list) rfl ih

/-- In every reachable state a task that is the value of an entry has
`_dequeue` set to the remover of that table and `_dequeuedata` to the key. -/
theorem entry_has_dequeue (s : State) (h : Reachable s) (m : Mode) (k : LuaKey) (t : Task)
    (he : rawget (s.table m) k = some t) :
    (s.tasks t)._dequeue = some m ∧ (s.tasks t)._dequeuedata = some k :=
  (tablesOk_reachable s h).fields m (k, t) (rawget_some_mem _ _ _ he)

/-- Claim C2, amended. In every state reachable from a freshly created
queue by registrations under keys whose entry is empty, cancellations, calls
of `wait` and changes of the process store, for every task: `_dequeue` is set
if and only if the task is the value of some entry of the readers, writers
or child-waiters table. -/
theorem dequeue_set_iff_in_table (s : State) (h : ReachableFree s) (t : Task) :
    (s.tasks t)._dequeue ≠ none ↔ ∃ m k, rawget (s.table m) k = some t := by
  constructor
  · intro hd
    cases hm : (s.tasks t)._dequeue with
    | none => exact absurd hm hd
    | some m =>
      obtain ⟨k, _, hmem⟩ := registered_reachableFree s h t m hm
      exact ⟨m, k, rawget_of_mem _ _ _
        ((tablesOk_reachable s (reachable_of_free s h)).nodup m) hmem⟩
  · rintro ⟨m, k, he⟩
    rw [(entry_has_dequeue s (reachable_of_free s h) m k t he).1]
    simp

/-- The amended claim C2 at a state with one reader. -/
theorem dequeue_set_iff_in_table_witness :
    ReachableFree (xpsocket_when_read (xpio_tqueue (fun _ => { pid := 7, status := 0 }) [])
      5 1).1 ∧
    (((xpsocket_when_read (xpio_tqueue (fun _ => { pid := 7, status := 0 }) []) 5 1).1.tasks
        1)._dequeue ≠ none ↔
      ∃ m k, rawget ((xpsocket_when_read (xpio_tqueue (fun _ => { pid := 7, status := 0 }) [])
        5 1).1.table m) k = some 1) :=
  ⟨(ReachableFree.fresh _ _).step (StepFree.when_read _ 5 1 rfl),
   dequeue_set_iff_in_table _
     ((ReachableFree.fresh _ _).step (StepFree.when_read _ 5 1 rfl)) 1⟩

/-- Claim C2 fails as stated: after two registrations under the same
descriptor, the first task has `_dequeue` set and is the value of no entry. -/
theorem dequeue_set_not_in_table :
    Reachable (xpsocket_when_read (xpsocket_when_read
      (xpio_tqueue (fun _ => { pid := 7, status := 0 }) []) 5 1).1 5 2).1 ∧
    ¬ (((xpsocket_when_read (xpsocket_when_read
      (xpio_tqueue (fun _ => { pid := 7, status := 0 }) []) 5 1).1 5 2).1.tasks 1)._dequeue
        ≠ none ↔
      ∃ m k, rawget ((xpsocket_when_read (xpsocket_when_read
        (xpio_tqueue (fun _ => { pid := 7, status := 0 }) []) 5 1).1 5 2).1.table m) k
          = some 1) := by
  refine ⟨((Reachable.fresh _ _).step (Step.when_read _ 5 1)).step (Step.when_read _ 5 2), ?_⟩
  intro h
  obtain ⟨m, k, hk⟩ := h.1 (by decide)
  have hmem := rawget_some_mem _ _ _ hk
  cases m
  · have h2 : (k, 1) ∈ ([(LuaKey.int 5, 2)] : LuaTable) := hmem
    simp at h2
  · have h2 : (k, 1) ∈ ([] : LuaTable) := hmem
    simp at h2
  · have h2 : (k, 1) ∈ ([] : LuaTable) := hmem
    simp at h2

/-! ## The tasks that `wait` returns -/

theorem waitClosed_ready :
    WaitClosed (fun s ready => TablesOk s ∧ ∀ t ∈ ready, (s.tasks t)._dequeue = none) := by
  constructor
  · intro s _ h
    exact h.1
  · intro s _ me h _
    exact ⟨tablesOk_congr s _ (table_with_me s me) rfl h.1, h.2⟩
  · intro s _ procs h
    exact ⟨tablesOk_congr s _ (table_with_procs s procs) rfl h.1, h.2⟩
  · intro s ready m k t h hmem
    refine ⟨tablesOk_removeEntry_mem s m k t h.1 hmem, ?_⟩
    intro t' ht'
    rw [tasks_removeEntry]
    rcases List.mem_append.1 ht' with h1 | h1
    · exact clearDequeue_none _ _ _ (h.2 t' h1)
    · rw [List.mem_singleton] at h1
      rw [h1]
      exact clearDequeue_self _ _

/-- Claim C3. For every reachable state and every answer of the operating
system, when `wait` returns an array, each task in the array has `_dequeue`
nil and is the value of no entry of the three tables. -/
theorem wait_returns_unregistered (s : State) (arg : TimeoutArg) (env : Env)
    (arr : List Task) (h : Reachable s) (hr : (xpqueue_wait s arg env).result = .ready arr)
    (t : Task) (ht : t ∈ arr) :
    ((xpqueue_wait s arg env).state.tasks t)._dequeue = none ∧
    ∀ m k, rawget ((xpqueue_wait s arg env).state.table m) k ≠ some t := by
  obtain ⟨ready', ⟨hok, hclear⟩, harr⟩ := xpqueue_wait_closed _ waitClosed_ready s arg env
    ⟨tablesOk_reachable s h, fun t ht => absurd ht (List.not_mem_nil t)⟩
  have hd := hclear t (harr arr hr ▸ ht)
  refine ⟨hd, ?_⟩
  intro m k hk
  have := (hok.fields m (k, t) (rawget_some_mem _ _ _ hk)).1
  rw [hd] at this
  simp at this
theorem reachable_stateFour : Reachable stateFour :=
  ((((Reachable.fresh _ _).step (Step.when_read _ 5 1)).step (Step.when_write _ 5 2)).step
    (Step.when_wait _ 0 3)).step (Step.when_read _ 6 4)

/-- Claim C3 at a state with four waiters, of which the reader of slot 0 is woken. -/
theorem wait_returns_unregistered_witness :
    Reachable stateFour ∧ (xpqueue_wait stateFour .nil envSlot0).result = .ready [1] ∧
    1 ∈ [1] ∧
    (((xpqueue_wait stateFour .nil envSlot0).state.tasks 1)._dequeue = none ∧
    ∀ m k, rawget ((xpqueue_wait stateFour .nil envSlot0).state.table m) k ≠ some 1) :=
  ⟨reachable_stateFour, by decide, by decide,
   wait_returns_unregistered stateFour .nil envSlot0 [1] reachable_stateFour (by decide) 1
     (by decide)⟩

/-! ## Registration -/

/-- Claim C4. For every task whose `_dequeue` is set, every key and every
mode, `xpqueue_enqueue` (also when reached through `when_read`, `when_write`
or `when_wait`) raises the error `xpio: task scheduled twice` and leaves the
state, with the three tables and the fields of every task, unchanged. -/
theorem enqueue_scheduled_twice (s : State) (task : Task) (key : LuaKey) (mode : Mode)
    (h : (s.tasks task)._dequeue ≠ none) :
    xpqueue_enqueue s task key mode = (s, some "xpio: task scheduled twice") ∧
    (∀ fd, xpsocket_when_read s fd task = (s, some "xpio: task scheduled twice")) ∧
    (∀ fd, xpsocket_when_write s fd task = (s, some "xpio: task scheduled twice")) ∧
    (∀ p, xpproc_when_wait s p task = (s, some "xpio: task scheduled twice")) :=
  ⟨enqueue_error s task key mode h,
   fun fd => enqueue_error s task (.int fd) .READ h,
   fun fd => enqueue_error s task (.int fd) .WRITE h,
   fun p => enqueue_error s task (.proc p) .CHILD h⟩

/-- Claim C4 at the state with four waiters: task 1 is registered as a reader. -/
theorem enqueue_scheduled_twice_witness :
    (stateFour.tasks 1)._dequeue ≠ none ∧
    (xpqueue_enqueue stateFour 1 (.int 8) .WRITE =
      (stateFour, some "xpio: task scheduled twice") ∧
    (∀ fd, xpsocket_when_read stateFour fd 1 =
      (stateFour, some "xpio: task scheduled twice")) ∧
    (∀ fd, xpsocket_when_write stateFour fd 1 =
      (stateFour, some "xpio: task scheduled twice")) ∧
    (∀ p, xpproc_when_wait stateFour p 1 =
      (stateFour, some "xpio: task scheduled twice"))) :=
  ⟨by decide, enqueue_scheduled_twice stateFour 1 (.int 8) .WRITE (by decide)⟩

/-- Claim C5 fails as stated: descriptor 5 has the reader 1, task 9 is not
registered, and registering task 9 as reader of descriptor 5 raises no
error and overwrites the entry. -/
theorem second_registration_overwrites :
    rawget (stateFour.table .READ) (.int 5) = some 1 ∧
    (stateFour.tasks 9)._dequeue = none ∧
    (xpqueue_enqueue stateFour 9 (.int 5) .READ).2 = none ∧
    rawget ((xpqueue_enqueue stateFour 9 (.int 5) .READ).1.table .READ) (.int 5) = some 9 := by
  decide

/-- Claim C5, amended. For every mode and every key whose entry in that
mode's table holds a task, registering a second task whose `_dequeue` is nil
under the same key and mode raises no error: the entry then holds the second
task, and the fields of the first task are unchanged. -/
theorem second_registration (s : State) (mode : Mode) (key : LuaKey) (first second : Task)
    (h1 : rawget (s.table mode) key = some first) (h2 : (s.tasks second)._dequeue = none)
    (hne : first ≠ second) :
    (xpqueue_enqueue s second key mode).2 = none ∧
    rawget ((xpqueue_enqueue s second key mode).1.table mode) key = some second ∧
    (xpqueue_enqueue s second key mode).1.tasks first = s.tasks first := by
  have _ := h1
  refine ⟨?_, ?_, ?_⟩
  · unfold xpqueue_enqueue
    rw [if_neg (by simp [h2])]
  · rw [enqueue_table s second key mode mode h2, if_pos rfl]
    exact rawget_rawset_self _ _ _
  · rw [enqueue_tasks s second key mode first h2, if_neg hne]

/-- The amended claim C5 at the state with four waiters. -/
theorem second_registration_witness :
    rawget (stateFour.table .READ) (.int 5) = some 1 ∧
    (stateFour.tasks 9)._dequeue = none ∧ (1 : Task) ≠ 9 ∧
    ((xpqueue_enqueue stateFour 9 (.int 5) .READ).2 = none ∧
    rawget ((xpqueue_enqueue stateFour 9 (.int 5) .READ).1.table .READ) (.int 5) = some 9 ∧
    (xpqueue_enqueue stateFour 9 (.int 5) .READ).1.tasks 1 = stateFour.tasks 1) :=
  ⟨by decide, by decide, by decide,
   second_registration stateFour .READ (.int 5) 1 9 (by decide) (by decide) (by decide)⟩

/-- Claim C6. For every task whose `_dequeue` is nil, every key and every
mode, `xpqueue_enqueue` raises no error, stores the task under the key in the
table of the mode, sets `_dequeue` to the remover of the mode and
`_dequeuedata` to the key, and changes no other entry of the three tables
and no other task. -/
theorem enqueue_installs (s : State) (task : Task) (key : LuaKey) (mode : Mode)
    (h : (s.tasks task)._dequeue = none) :
    (xpqueue_enqueue s task key mode).2 = none ∧
    rawget ((xpqueue_enqueue s task key mode).1.table mode) key = some task ∧
    ((xpqueue_enqueue s task key mode).1.tasks task)._dequeue = some mode ∧
    ((xpqueue_enqueue s task key mode).1.tasks task)._dequeuedata = some key ∧
    (∀ k, k ≠ key → rawget ((xpqueue_enqueue s task key mode).1.table mode) k =
      rawget (s.table mode) k) ∧
    (∀ m, m ≠ mode → (xpqueue_enqueue s task key mode).1.table m = s.table m) ∧
    (∀ t, t ≠ task → (xpqueue_enqueue s task key mode).1.tasks t = s.tasks t) := by
  refine ⟨?_, ?_, ?_, ?_, ?_, ?_, ?_⟩
  · unfold xpqueue_enqueue
    rw [if_neg (by simp [h])]
  · rw [enqueue_table s task key mode mode h, if_pos rfl]
    exact rawget_rawset_self _ _ _
  · rw [enqueue_tasks s task key mode task h, if_pos rfl]
  · rw [enqueue_tasks s task key mode task h, if_pos rfl]
  · intro k hk
    rw [enqueue_table s task key mode mode h, if_pos rfl]
    exact rawget_rawset_other _ _ _ _ hk
  · intro m hm
    rw [enqueue_table s task key mode m h, if_neg hm]
  · intro t ht
    rw [enqueue_tasks s task key mode t h, if_neg ht]

/-- Claim C6 at the state with four waiters: task 9 becomes the writer of
descriptor 6. -/
theorem enqueue_installs_witness :
    (stateFour.tasks 9)._dequeue = none ∧
    ((xpqueue_enqueue stateFour 9 (.int 6) .WRITE).2 = none ∧
    rawget ((xpqueue_enqueue stateFour 9 (.int 6) .WRITE).1.table .WRITE) (.int 6) = some 9 ∧
    ((xpqueue_enqueue stateFour 9 (.int 6) .WRITE).1.tasks 9)._dequeue = some .WRITE ∧
    ((xpqueue_enqueue stateFour 9 (.int 6) .WRITE).1.tasks 9)._dequeuedata = some (.int 6) ∧
    (∀ k, k ≠ .int 6 → rawget ((xpqueue_enqueue stateFour 9 (.int 6) .WRITE).1.table .WRITE) k =
      rawget (stateFour.table .WRITE) k) ∧
    (∀ m, m ≠ .WRITE → (xpqueue_enqueue stateFour 9 (.int 6) .WRITE).1.table m =
      stateFour.table m) ∧
    (∀ t, t ≠ 9 → (xpqueue_enqueue stateFour 9 (.int 6) .WRITE).1.tasks t =
      stateFour.tasks t)) :=
  ⟨by decide, enqueue_installs stateFour 9 (.int 6) .WRITE (by decide)⟩

/-! ## Cancellation -/

/-- Claim C7 fails as stated: after the remover of the reader 1 of
descriptor 5 has run, `_dequeuedata` of the task still holds the key. -/
theorem remover_keeps_dequeuedata :
    (stateFour.tasks 1)._dequeue = some .READ ∧
    (xpqueue_dequeueR stateFour 1).2 = none ∧
    ((xpqueue_dequeueR stateFour 1).1.tasks 1)._dequeuedata = some (.int 5) ∧
    ((cancel stateFour 1).1.tasks 1)._dequeuedata ≠ none := by
  decide

/-- Claim C7, amended. For every task registered in mode `m` under key `k`,
calling its remover (`xpqueue_dequeueR`, `xpqueue_dequeueW` or
`xpqueue_dequeueC`, as stored in `_dequeue`) raises no error, deletes the
entry at key `k` from the table of that mode, leaves every other entry and
every other task unchanged, and leaves `_dequeue` nil and `_dequeuedata`
unchanged. -/
theorem remover_effect (s : State) (task : Task) (m : Mode) (k : LuaKey)
    (hd : (s.tasks task)._dequeue = some m) (hk : (s.tasks task)._dequeuedata = some k) :
    cancel s task = xpqueue_dequeue s task m ∧
    (cancel s task).2 = none ∧
    rawget ((cancel s task).1.table m) k = none ∧
    (∀ k', k' ≠ k → rawget ((cancel s task).1.table m) k' = rawget (s.table m) k') ∧
    (∀ m', m' ≠ m → (cancel s task).1.table m' = s.table m') ∧
    ((cancel s task).1.tasks task)._dequeue = none ∧
    ((cancel s task).1.tasks task)._dequeuedata = some k ∧
    (∀ t, t ≠ task → (cancel s task).1.tasks t = s.tasks t) := by
  have hc : cancel s task = xpqueue_dequeue s task m := by
    unfold cancel
    rw [hd]
    cases m <;> rfl
  rw [hc, dequeue_eq_removeEntry s task m k hk]
  refine ⟨rfl, rfl, ?_, ?_, ?_, ?_, ?_, ?_⟩
  · rw [table_removeEntry, if_pos rfl]
    exact rawget_eraseKey_self _ _
  · intro k' hk'
    rw [table_removeEntry, if_pos rfl]
    exact rawget_eraseKey_other _ _ _ hk'
  · intro m' hm'
    rw [table_removeEntry, if_neg hm']
  · rw [tasks_removeEntry]
    exact clearDequeue_self _ _
  · rw [tasks_removeEntry, clearDequeue_data]
    exact hk
  · intro t ht
    rw [tasks_removeEntry]
    exact clearDequeue_other _ _ _ ht

/-- The amended claim C7 at the state with four waiters, for the reader 1 of
descriptor 5. -/
theorem remover_effect_witness :
    (stateFour.tasks 1)._dequeue = some .READ ∧
    (stateFour.tasks 1)._dequeuedata = some (.int 5) ∧
    (cancel stateFour 1 = xpqueue_dequeue stateFour 1 .READ ∧
    (cancel stateFour 1).2 = none ∧
    rawget ((cancel stateFour 1).1.table .READ) (.int 5) = none ∧
    (∀ k', k' ≠ .int 5 → rawget ((cancel stateFour 1).1.table .READ) k' =
      rawget (stateFour.table .READ) k') ∧
    (∀ m', m' ≠ .READ → (cancel stateFour 1).1.table m' = stateFour.table m') ∧
    ((cancel stateFour 1).1.tasks 1)._dequeue = none ∧
    ((cancel stateFour 1).1.tasks 1)._dequeuedata = some (.int 5) ∧
    (∀ t, t ≠ 1 → (cancel stateFour 1).1.tasks t = stateFour.tasks t)) :=
  ⟨by decide, by decide, remover_effect stateFour 1 .READ (.int 5) (by decide) (by decide)⟩

/-! ## `wait` with nothing to wait on -/

/-- Claim C9. For every queue whose readers, writers and child-waiters
tables are all empty, `wait` called with a nil or false timeout returns nil,
makes no call of `poll` and changes nothing in the state. -/
theorem wait_nil_on_empty (s : State) (env : Env) (arg : TimeoutArg)
    (hr : s.readers = []) (hw : s.writers = []) (hc : s.childWaiters = [])
    (harg : arg = .nil ∨ arg = .false) :
    (xpqueue_wait s arg env).result = .nil ∧
    (xpqueue_wait s arg env).polls = [] ∧
    (xpqueue_wait s arg env).state = s := by
  obtain ⟨me, readers, writers, childWaiters, tasks, procs, list⟩ := s
  simp only at hr hw hc
  subst hr hw hc
  rcases harg with h | h <;> subst h <;> exact ⟨rfl, rfl, rfl⟩

/-- Claim C9 at the freshly created queue. -/
theorem wait_nil_on_empty_witness :
    (xpio_tqueue (fun _ => { pid := 7, status := 0 }) [0]).readers = [] ∧
    (xpio_tqueue (fun _ => { pid := 7, status := 0 }) [0]).writers = [] ∧
    (xpio_tqueue (fun _ => { pid := 7, status := 0 }) [0]).childWaiters = [] ∧
    (TimeoutArg.nil = .nil ∨ TimeoutArg.nil = .false) ∧
    ((xpqueue_wait (xpio_tqueue (fun _ => { pid := 7, status := 0 }) [0]) .nil
      envSlot0).result = .nil ∧
    (xpqueue_wait (xpio_tqueue (fun _ => { pid := 7, status := 0 }) [0]) .nil
      envSlot0).polls = [] ∧
    (xpqueue_wait (xpio_tqueue (fun _ => { pid := 7, status := 0 }) [0]) .nil
      envSlot0).state = xpio_tqueue (fun _ => { pid := 7, status := 0 }) [0]) :=
  ⟨rfl, rfl, rfl, Or.inl rfl,
   wait_nil_on_empty _ envSlot0 .nil rfl rfl rfl (Or.inl rfl)⟩

/-! ## Decimal numerals and `scanNum` -/

theorem toDigitsCore_append (fuel : Nat) : ∀ (n : Nat) (ds : List Char),
    Nat.toDigitsCore 10 fuel n ds = Nat.toDigitsCore 10 fuel n [] ++ ds := by
  induction fuel with
  | zero =>
    intro n ds
    simp [Nat.toDigitsCore]
  | succ f ih =>
    intro n ds
    unfold Nat.toDigitsCore
    by_cases h : n / 10 = 0
    · simp [h]
    · simp only [h, if_false]
      rw [ih (n / 10) ((n % 10).digitChar :: ds), ih (n / 10) [(n % 10).digitChar]]
      simp

theorem toDigitsCore_step (f n : Nat) :
    Nat.toDigitsCore 10 (f + 1) n [] =
      if n / 10 = 0 then [(n % 10).digitChar]
      else Nat.toDigitsCore 10 f (n / 10) [] ++ [(n % 10).digitChar] := by
  conv_lhs => unfold Nat.toDigitsCore
  by_cases h : n / 10 = 0
  · simp [h]
  · simp only [h, if_false]
    exact toDigitsCore_append f (n / 10) [(n % 10).digitChar]

theorem toDigitsCore_fuel (f : Nat) : ∀ (n g : Nat), n < f → n < g →
    Nat.toDigitsCore 10 f n [] = Nat.toDigitsCore 10 g n [] := by
  induction f with
  | zero =>
    intro n g h
    omega
  | succ f ih =>
    intro n g h hg
    obtain ⟨g', rfl⟩ : ∃ g', g = g' + 1 := ⟨g - 1, by omega⟩
    rw [toDigitsCore_step, toDigitsCore_step]
    by_cases h0 : n / 10 = 0
    · simp [h0]
    · simp only [h0, if_false]
      rw [ih (n / 10) g' (by omega) (by omega)]

theorem decimal_small (n : Nat) (h : n < 10) : decimal n = [n.digitChar] := by
  unfold decimal Nat.toDigits
  rw [toDigitsCore_step, if_pos (by omega)]
  congr 2
  omega

theorem decimal_large (n : Nat) (h : ¬ n < 10) :
    decimal n = decimal (n / 10) ++ [(n % 10).digitChar] := by
  unfold decimal Nat.toDigits
  rw [toDigitsCore_step, if_neg (by omega)]
  rw [toDigitsCore_fuel n (n / 10) (n / 10 + 1) (by omega) (by omega)]

theorem digitChar_isDigit (d : Nat) (h : d < 10) :
    isDigit d.digitChar.toNat = true ∧ d.digitChar.toNat - 48 = d := by
  interval_cases d <;> decide

theorem scanDigits_cons (c : Char) (rest : List Char) (n : Nat) :
    scanDigits (c :: rest) n =
      if isDigit c.toNat then scanDigits rest ((n * 10 + (c.toNat - 48)) % 4294967296)
      else (n, c :: rest) := rfl

theorem scanDigits_digit (d : Nat) (rest : List Char) (n : Nat) (h : d < 10) :
    scanDigits (d.digitChar :: rest) n = scanDigits rest ((n * 10 + d) % 4294967296) := by
  have hd := digitChar_isDigit d h
  rw [scanDigits_cons, if_pos hd.1, hd.2]

/-- Scanning a decimal numeral that is followed by `rest` continues on
`rest` with the value of the numeral. -/
theorem scanDigits_decimal (n : Nat) : ∀ (rest : List Char), n < 4294967296 →
    scanDigits (decimal n ++ rest) 0 = scanDigits rest n := by
  induction n using Nat.strong_induction_on with
  | _ n ih =>
    intro rest hn
    by_cases h : n < 10
    · rw [decimal_small n h, List.singleton_append, scanDigits_digit n rest 0 h]
      congr 1
      omega
    · rw [decimal_large n h, List.append_assoc, ih (n / 10) (by omega) _ (by omega),
        List.singleton_append, scanDigits_digit (n % 10) rest (n / 10) (by omega)]
      congr 1
      omega

theorem scanDigits_stop (rest : List Char) (n : Nat) (h : isDigit (peek rest) = false) :
    scanDigits rest n = (n, rest) := by
  cases rest with
  | nil => rfl
  | cons c tl =>
    rw [scanDigits_cons]
    have h1 : isDigit c.toNat = false := h
    rw [h1]
    rfl

/-- Function `scanNum` on a decimal numeral followed by a character that is
not a digit, or by the end of the string. -/
theorem scanNum_decimal (n : Nat) (rest : List Char) (hn : n < 4294967296)
    (h : isDigit (peek rest) = false) : scanNum (decimal n ++ rest) = (n, rest) := by
  unfold scanNum
  rw [scanDigits_decimal n rest hn, scanDigits_stop rest n h]

theorem peek_decimal (n : Nat) : ∀ (rest : List Char),
    isDigit (peek (decimal n ++ rest)) = true := by
  induction n using Nat.strong_induction_on with
  | _ n ih =>
    intro rest
    by_cases h : n < 10
    · rw [decimal_small n h, List.singleton_append]
      have h1 : peek (n.digitChar :: rest) = n.digitChar.toNat := rfl
      rw [h1]
      exact (digitChar_isDigit n h).1
    · rw [decimal_large n h, List.append_assoc]
      exact ih (n / 10) (by omega) _

/-! ## `addrFromString` on well-formed addresses -/

theorem pack_or (a b c d : Nat) (hb : b < 256) (hc : c < 256) (hd : d < 256) :
    (a <<< 24) ||| (b <<< 16) ||| (c <<< 8) ||| d =
      a * 16777216 + b * 65536 + c * 256 + d := by
  have h1 : 2 ^ 24 * a + b * 65536 = 2 ^ 24 * a ||| b * 65536 :=
    Nat.mul_add_lt_is_or (by norm_num; omega) a
  have h2 : 2 ^ 16 * (a * 256 + b) + c * 256 = 2 ^ 16 * (a * 256 + b) ||| c * 256 :=
    Nat.mul_add_lt_is_or (by norm_num; omega) _
  have h3 : 2 ^ 8 * (a * 65536 + b * 256 + c) + d = 2 ^ 8 * (a * 65536 + b * 256 + c) ||| d :=
    Nat.mul_add_lt_is_or (by norm_num; omega) _
  have e1 : a <<< 24 = 2 ^ 24 * a := by rw [Nat.shiftLeft_eq, Nat.mul_comm]
  have e2 : b <<< 16 = b * 65536 := by rw [Nat.shiftLeft_eq]
  have e3 : c <<< 8 = c * 256 := by rw [Nat.shiftLeft_eq]
  have e4 : 2 ^ 24 * a + b * 65536 = 2 ^ 16 * (a * 256 + b) := by norm_num; omega
  have e5 : 2 ^ 16 * (a * 256 + b) + c * 256 = 2 ^ 8 * (a * 65536 + b * 256 + c) := by
    norm_num; omega
  rw [e1, e2, e3, ← h1, e4, ← h2, e5, ← h3]
  norm_num
  omega

theorem htonl_pack (a b c d : Nat) (ha : a < 256) (hb : b < 256) (hc : c < 256)
    (hd : d < 256) : htonl (a * 16777216 + b * 65536 + c * 256 + d) = [a, b, c, d] := by
  unfold htonl
  have h1 : (a * 16777216 + b * 65536 + c * 256 + d) / 16777216 % 256 = a := by omega
  have h2 : (a * 16777216 + b * 65536 + c * 256 + d) / 65536 % 256 = b := by omega
  have h3 : (a * 16777216 + b * 65536 + c * 256 + d) / 256 % 256 = c := by omega
  have h4 : (a * 16777216 + b * 65536 + c * 256 + d) % 256 = d := by omega
  rw [h1, h2, h3, h4]

theorem isDigit_ne (x : Nat) (h : isDigit x = true) : x ≠ 0 ∧ x ≠ ':'.toNat ∧ x ≠ '.'.toNat := by
  refine ⟨?_, ?_, ?_⟩ <;> intro hx <;> rw [hx] at h <;> revert h <;> decide

theorem addrLoop_eq (left : Nat) (psz : List Char) (st : AddrScan) :
    addrLoop left psz st =
      if peek psz = 0 then some st
      else if peek psz = ':'.toNat then some { st with port := (scanNum psz.tail).1 }
      else
        match left with
        | 0 => none
        | left + 1 =>
          addrLoop left (if peek (scanNum psz).2 = '.'.toNat then (scanNum psz).2.tail
            else (scanNum psz).2) { st with i := st.i + 1, nums := st.nums.set st.i (scanNum psz).1 } := by
  cases left <;> rfl

/-- One iteration of the loop of `addrFromString` on an octet followed by a
character that is not a digit. -/
theorem addrLoop_octet (left n : Nat) (rest : List Char) (st : AddrScan)
    (hn : n < 4294967296) (h : isDigit (peek rest) = false) :
    addrLoop (left + 1) (decimal n ++ rest) st =
      addrLoop left (if peek rest = '.'.toNat then rest.tail else rest)
        { st with i := st.i + 1, nums := st.nums.set st.i n } := by
  have hp := isDigit_ne _ (peek_decimal n rest)
  rw [addrLoop_eq, if_neg hp.1, if_neg hp.2.1]
  simp only [scanNum_decimal n rest hn h]

theorem addrLoop_port (left p : Nat) (st : AddrScan) (hp : p < 4294967296) :
    addrLoop left (':' :: decimal p) st = some { st with port := p } := by
  rw [addrLoop_eq]
  have h1 : peek (':' :: decimal p) = ':'.toNat := rfl
  rw [h1, if_neg (by decide), if_pos rfl]
  have h2 := scanNum_decimal p [] hp (by decide)
  rw [List.append_nil] at h2
  simp only [List.tail_cons, h2]

theorem addrLoop_end (left : Nat) (st : AddrScan) : addrLoop left [] st = some st := by
  rw [addrLoop_eq]
  rfl

theorem isDigit_dot : isDigit '.'.toNat = false := by decide

theorem isDigit_colon : isDigit ':'.toNat = false := by decide

theorem peek_cons (c : Char) (rest : List Char) : peek (c :: rest) = c.toNat := rfl

theorem addrLoop_octet_dot (left n : Nat) (rest : List Char) (st : AddrScan)
    (hn : n < 4294967296) :
    addrLoop (left + 1) (decimal n ++ '.' :: rest) st =
      addrLoop left rest { st with i := st.i + 1, nums := st.nums.set st.i n } := by
  rw [addrLoop_octet left n ('.' :: rest) st hn (by rw [peek_cons]; exact isDigit_dot)]
  rw [if_pos (peek_cons '.' rest)]
  rfl

theorem addrLoop_dotted (a b c d : Nat) (rest : List Char) (ha : a < 256) (hb : b < 256)
    (hc : c < 256) (hd : d < 256) (hrest : isDigit (peek rest) = false)
    (hdot : peek rest ≠ '.'.toNat) :
    addrLoop 4 (dotted a b c d rest) { i := 0, nums := [0, 0, 0, 0], port := 0 } =
      addrLoop 0 rest { i := 4, nums := [a, b, c, d], port := 0 } := by
  unfold dotted
  rw [addrLoop_octet_dot 3 a _ _ (by omega), addrLoop_octet_dot 2 b _ _ (by omega),
    addrLoop_octet_dot 1 c _ _ (by omega), addrLoop_octet 0 d rest _ (by omega) hrest,
    if_neg hdot]
  rfl

theorem sockaddr_of_octets (a b c d p : Nat) (ha : a < 256) (hb : b < 256)
    (hc : c < 256) (hd : d < 256) :
    (match (some { i := 4, nums := [a, b, c, d], port := p } : Option AddrScan) with
      | none => none
      | some st =>
        let n0 := if st.i > 1 then st.nums.getD 0 0 * 0x1000000 % 4294967296 else st.nums.getD 0 0
        let n1 := if st.i > 2 then st.nums.getD 1 0 * 0x10000 % 4294967296 else st.nums.getD 1 0
        let n2 := if st.i > 3 then st.nums.getD 2 0 * 0x100 % 4294967296 else st.nums.getD 2 0
        let n3 := st.nums.getD 3 0
        some ({ sin_family := AF_INET
                sin_addr := htonl ((n0 + n1 + n2 + n3) % 4294967296)
                sin_port := htons (st.port % 65536) } : SockaddrIn)) =
      some { sin_family := AF_INET
             sin_port := htons (p % 65536)
             sin_addr := htonl ((a <<< 24) ||| (b <<< 16) ||| (c <<< 8) ||| d) } := by
  rw [pack_or a b c d hb hc hd]
  simp only [List.getD_cons_zero, List.getD_cons_succ, gt_iff_lt, Nat.one_lt_ofNat,
    if_true, Nat.lt_add_one]
  have e : (a * 16777216 % 4294967296 + b * 65536 % 4294967296 + c * 256 % 4294967296 + d) %
      4294967296 = a * 16777216 + b * 65536 + c * 256 + d := by omega
  norm_num
  rw [e]

/-- Claim C10. For all octets `a`, `b`, `c`, `d` below 256 and every port
`p` below 65536, `addrFromString` returns 0 with family `AF_INET` on the
three well-formed shapes: `a.b.c.d:p` gives the address
`(a<<24)|(b<<16)|(c<<8)|d` and the port `p`, `a.b.c.d` gives the same address
with port 0, and `:p` gives the address 0 with port `p`; the address is
stored as the bytes `a b c d` and the port as its high byte, then its low
byte (network order). -/
theorem addrFromString_wellformed (a b c d p : Nat) (ha : a < 256) (hb : b < 256)
    (hc : c < 256) (hd : d < 256) (hp : p < 65536) :
    addrFromString (dotted a b c d (':' :: decimal p)) =
      some { sin_family := AF_INET
             sin_port := htons p
             sin_addr := htonl ((a <<< 24) ||| (b <<< 16) ||| (c <<< 8) ||| d) } ∧
    addrFromString (dotted a b c d []) =
      some { sin_family := AF_INET
             sin_port := htons 0
             sin_addr := htonl ((a <<< 24) ||| (b <<< 16) ||| (c <<< 8) ||| d) } ∧
    addrFromString (':' :: decimal p) =
      some { sin_family := AF_INET, sin_port := htons p, sin_addr := htonl 0 } ∧
    htonl ((a <<< 24) ||| (b <<< 16) ||| (c <<< 8) ||| d) = [a, b, c, d] ∧
    htonl 0 = [0, 0, 0, 0] ∧
    htons p = [p / 256, p % 256] := by
  have hp256 : p % 65536 = p := by omega
  refine ⟨?_, ?_, ?_, ?_, ?_, ?_⟩
  · unfold addrFromString
    rw [addrLoop_dotted a b c d _ ha hb hc hd (by rw [peek_cons]; exact isDigit_colon)
      (by rw [peek_cons]; decide), addrLoop_port 0 p _ (by omega)]
    have := sockaddr_of_octets a b c d p ha hb hc hd
    rw [hp256] at this
    exact this
  · unfold addrFromString
    rw [addrLoop_dotted a b c d _ ha hb hc hd (by decide) (by decide), addrLoop_end]
    exact sockaddr_of_octets a b c d 0 ha hb hc hd
  · unfold addrFromString
    rw [addrLoop_port 4 p _ (by omega)]
    simp only [hp256]
    rfl
  · rw [pack_or a b c d hb hc hd]
    exact htonl_pack a b c d ha hb hc hd
  · rfl
  · unfold htons
    have : p / 256 % 256 = p / 256 := by omega
    rw [this]

/-- Claim C10 at the address `123.4.5.255:258` of the test: the port is
stored as the bytes 01 02 and the address as 7b 04 05 ff. -/
theorem addrFromString_wellformed_witness :
    (123 < 256 ∧ 4 < 256 ∧ 5 < 256 ∧ 255 < 256 ∧ 258 < 65536) ∧
    dotted 123 4 5 255 (':' :: decimal 258) = "123.4.5.255:258".toList ∧
    addrFromString "123.4.5.255:258".toList =
      some { sin_family := AF_INET, sin_port := [1, 2], sin_addr := [123, 4, 5, 255] } ∧
    (addrFromString (dotted 123 4 5 255 (':' :: decimal 258)) =
      some { sin_family := AF_INET
             sin_port := htons 258
             sin_addr := htonl ((123 <<< 24) ||| (4 <<< 16) ||| (5 <<< 8) ||| 255) } ∧
    addrFromString (dotted 123 4 5 255 []) =
      some { sin_family := AF_INET
             sin_port := htons 0
             sin_addr := htonl ((123 <<< 24) ||| (4 <<< 16) ||| (5 <<< 8) ||| 255) } ∧
    addrFromString (':' :: decimal 258) =
      some { sin_family := AF_INET, sin_port := htons 258, sin_addr := htonl 0 } ∧
    htonl ((123 <<< 24) ||| (4 <<< 16) ||| (5 <<< 8) ||| 255) = [123, 4, 5, 255] ∧
    htonl 0 = [0, 0, 0, 0] ∧
    htons 258 = [258 / 256, 258 % 256]) :=
  ⟨by decide, by decide, by decide,
   addrFromString_wellformed 123 4 5 255 258 (by decide) (by decide) (by decide) (by decide)
     (by decide)⟩

/-! ## Reachable states have a consistent buffer -/

theorem me_removeEntry (s : State) (m : Mode) (k : LuaKey) (t : Task) :
    (removeEntry s m k t).me = s.me := by
  cases m <;> rfl

theorem waitClosed_wellFormed : WaitClosed (fun s _ => TablesOk s ∧ BufOk s.me) := by
  constructor
  · intro s _ h
    exact h.1
  · intro s _ me h hme
    exact ⟨tablesOk_congr s _ (table_with_me s me) rfl h.1, hme h.2⟩
  · intro s _ procs h
    exact ⟨tablesOk_congr s _ (table_with_procs s procs) rfl h.1, h.2⟩
  · intro s _ m k t h hmem
    refine ⟨tablesOk_removeEntry_mem s m k t h.1 hmem, ?_⟩
    rw [me_removeEntry]
    exact h.2

theorem me_enqueue (s : State) (task : Task) (key : LuaKey) (mode : Mode) :
    (xpqueue_enqueue s task key mode).1.me = s.me := by
  unfold xpqueue_enqueue
  split
  · rfl
  · cases mode <;> rfl

theorem me_cancel (s : State) (task : Task) : (cancel s task).1.me = s.me := by
  rcases cancel_cases s task with h | ⟨m, k, _, _, h⟩
  · rw [h]
  · rw [h, me_removeEntry]

theorem bufOk_reachable (s : State) (h : Reachable s) : BufOk s.me := by
  induction h with
  | fresh procs list => rfl
  | @step s s' hreach hs ih =>
    cases hs with
    | when_read fd task => exact (me_enqueue s task (.int fd) .READ) ▸ ih
    | when_write fd task => exact (me_enqueue s task (.int fd) .WRITE) ▸ ih
    | when_wait p task => exact (me_enqueue s task (.proc p) .CHILD) ▸ ih
    | cancel task => exact (me_cancel s task) ▸ ih
    | wait arg env =>
      obtain ⟨_, h1, _⟩ := xpqueue_wait_closed _ waitClosed_wellFormed s arg env
        ⟨tablesOk_reachable s hreach, ih⟩
      exact h1.2
    | procs procs list => exact ih

/-! ## Slots of the scratch buffer -/

theorem getElem?_updatePfd_self (pfds : List PollFd) : ∀ (n : Nat) (f : PollFd → PollFd),
    (updatePfd pfds n f)[n]? = (pfds[n]?).map f := by
  induction pfds with
  | nil =>
    intro n f
    simp [updatePfd]
  | cons p ps ih =>
    intro n f
    cases n with
    | zero => simp [updatePfd]
    | succ n =>
      unfold updatePfd
      simp [ih n f]

theorem getElem?_updatePfd_ne (pfds : List PollFd) : ∀ (n m : Nat) (f : PollFd → PollFd),
    m ≠ n → (updatePfd pfds n f)[m]? = pfds[m]? := by
  induction pfds with
  | nil =>
    intro n m f _
    simp [updatePfd]
  | cons p ps ih =>
    intro n m f h
    cases n with
    | zero =>
      cases m with
      | zero => exact absurd rfl h
      | succ m => simp [updatePfd]
    | succ n =>
      unfold updatePfd
      cases m with
      | zero => simp
      | succ m => simp [ih n m f (by omega)]

/-- Allocating slot `ndx`: the slots below keep their contents, and the
slot `ndx` exists and holds what was written. -/
theorem alloc_slot (malloc : Nat → Bool) (me : XPQueue) (ndx : Nat) (f : PollFd → PollFd)
    (hbuf : BufOk me) (hused : ndx ≤ me.pfds.length)
    (hok : (XPQueue_ensureFDs malloc me ndx).2 = none) :
    (∀ n, n < ndx →
      (updatePfd (XPQueue_ensureFDs malloc me ndx).1.pfds ndx f)[n]? = me.pfds[n]?) ∧
    (∃ p0, (updatePfd (XPQueue_ensureFDs malloc me ndx).1.pfds ndx f)[ndx]? = some (f p0)) ∧
    ndx + 1 ≤ (updatePfd (XPQueue_ensureFDs malloc me ndx).1.pfds ndx f).length := by
  obtain ⟨h1, h2⟩ := ensureFDs_ok malloc me ndx hbuf hok
  refine ⟨?_, ?_, ?_⟩
  · intro n hn
    rw [getElem?_updatePfd_ne _ _ _ _ (by omega)]
    exact h2 n (by omega)
  · rw [getElem?_updatePfd_self]
    obtain ⟨p0, hp0⟩ : ∃ p0, (XPQueue_ensureFDs malloc me ndx).1.pfds[ndx]? = some p0 :=
      ⟨_, List.getElem?_eq_getElem h1⟩
    exact ⟨p0, by rw [hp0]; rfl⟩
  · rw [length_updatePfd]
    omega

theorem testBits_in_in : testBits POLLIN POLLIN = true := by decide
theorem testBits_in_out : testBits POLLIN POLLOUT = false := by decide
theorem testBits_out_in : testBits POLLOUT POLLIN = false := by decide
theorem testBits_out_out : testBits POLLOUT POLLOUT = true := by decide
theorem testBits_both_in : testBits (POLLIN ||| POLLOUT) POLLIN = true := by decide
theorem testBits_both_out : testBits (POLLIN ||| POLLOUT) POLLOUT = true := by decide

/-! ## The loops that fill `pfds` -/

theorem buildStep_alloc (malloc : Nat → Bool) (mode : Mode) (b : Build) (e : LuaKey × Task)
    (hfound : (if mode = Mode.WRITE then b.slots (keyToInt e.1) else none) = none)
    (herr : (buildStep malloc mode b e).err = none) :
    (XPQueue_ensureFDs malloc b.me b.nfdsUsed).2 = none ∧
    buildStep malloc mode b e =
      { me := { pfds := (updatePfd (XPQueue_ensureFDs malloc b.me b.nfdsUsed).1.pfds b.nfdsUsed
                  (fun p => { p with fd := keyToInt e.1,
                                     events := if mode = .READ then POLLIN else POLLOUT }))
                nfds := (XPQueue_ensureFDs malloc b.me b.nfdsUsed).1.nfds }
        slots := if mode = .READ then
            (fun x => if x = keyToInt e.1 then some b.nfdsUsed else b.slots x)
          else b.slots
        nfdsUsed := b.nfdsUsed + 1
        err := none } := by
  unfold buildStep at herr ⊢
  dsimp only at herr ⊢
  rw [hfound] at herr ⊢
  dsimp only at herr ⊢
  cases hr : (XPQueue_ensureFDs malloc b.me b.nfdsUsed).2 with
  | some msg =>
    rw [hr] at herr
    simp at herr
  | none => exact ⟨rfl, rfl⟩

theorem buildStep_reuse (malloc : Nat → Bool) (b : Build) (e : LuaKey × Task) (ndxFD : Nat)
    (hfound : b.slots (keyToInt e.1) = some ndxFD) :
    buildStep malloc .WRITE b e =
      { b with me := { b.me with pfds := (updatePfd b.me.pfds ndxFD
                        (fun p => { p with events := p.events ||| POLLOUT })) } } := by
  unfold buildStep
  dsimp only
  rw [if_pos rfl, hfound]

/-- A slot in use that requests no `POLLOUT` requests `POLLIN` alone. -/
theorem events_of_not_out (p : PollFd)
    (h : p.events = POLLIN ∨ p.events = POLLOUT ∨ p.events = POLLIN ||| POLLOUT)
    (hout : testBits p.events POLLOUT = false) : p.events = POLLIN := by
  rcases h with h | h | h
  · exact h
  · rw [h] at hout
    exact absurd hout (by decide)
  · rw [h] at hout
    exact absurd hout (by decide)

theorem events_in_or_out (p : PollFd)
    (h : p.events = POLLIN ∨ p.events = POLLOUT ∨ p.events = POLLIN ||| POLLOUT) :
    testBits p.events POLLIN = true ∨ testBits p.events POLLOUT = true := by
  rcases h with h | h | h
  · left
    rw [h]
    decide
  · right
    rw [h]
    decide
  · left
    rw [h]
    decide

/-- A descriptor that has no reader and no writer among the entries visited
has no slot. -/
theorem no_slot_of_fresh (R W : LuaTable) (b : Build) (hb : BuildOk R W b) (fd : Int)
    (hR : ∀ e ∈ R, fdOf e ≠ fd) (hW : ∀ e ∈ W, fdOf e ≠ fd)
    (n : Nat) (p : PollFd) (hn : n < b.nfdsUsed) (hp : b.me.pfds[n]? = some p) : p.fd ≠ fd := by
  intro heq
  rcases events_in_or_out p (hb.evs n p hn hp) with h | h
  · obtain ⟨e, he, hfd⟩ := (hb.pollin n p hn hp).1 h
    exact hR e he (hfd.trans heq)
  · obtain ⟨e, he, hfd⟩ := (hb.pollout n p hn hp).1 h
    exact hW e he (hfd.trans heq)

/-- The step of the loop on a reader whose descriptor was not visited. -/
theorem buildOk_read (malloc : Nat → Bool) (R : LuaTable) (b : Build) (e : LuaKey × Task)
    (hb : BuildOk R [] b) (hfresh : ∀ e' ∈ R, fdOf e' ≠ fdOf e)
    (herr : (buildStep malloc .READ b e).err = none) :
    BuildOk (R ++ [e]) [] (buildStep malloc .READ b e) := by
  obtain ⟨hok, heq⟩ := buildStep_alloc malloc .READ b e (if_neg (by decide)) herr
  obtain ⟨hold, ⟨p0, hnew⟩, hlen⟩ := alloc_slot malloc b.me b.nfdsUsed
    (fun p => { p with fd := keyToInt e.1, events := if Mode.READ = .READ then POLLIN else POLLOUT })
    hb.buf hb.used hok
  rw [heq]
  have hcase : ∀ n p, n < b.nfdsUsed + 1 →
      (updatePfd (XPQueue_ensureFDs malloc b.me b.nfdsUsed).1.pfds b.nfdsUsed
        (fun p => { p with fd := keyToInt e.1,
                           events := if Mode.READ = .READ then POLLIN else POLLOUT }))[n]? = some p →
      (n < b.nfdsUsed ∧ b.me.pfds[n]? = some p) ∨
      (n = b.nfdsUsed ∧ p.fd = fdOf e ∧ p.events = POLLIN) := by
    intro n p hn hp
    by_cases hlt : n < b.nfdsUsed
    · left
      rw [hold n hlt] at hp
      exact ⟨hlt, hp⟩
    · right
      have hn' : n = b.nfdsUsed := by omega
      subst hn'
      rw [hnew] at hp
      have := Option.some.inj hp
      rw [← this]
      exact ⟨rfl, rfl, rfl⟩
  have hnoslot := no_slot_of_fresh R [] b hb (fdOf e) hfresh
    (fun e' he' => absurd he' (List.not_mem_nil e'))
  constructor <;> dsimp only
  · exact bufOk_updatePfd _ _ _ (bufOk_ensureFDs malloc b.me b.nfdsUsed hb.buf)
  · exact hlen
  · intro n m p q hn hm hp hq hfd
    rcases hcase n p hn hp with ⟨hn1, hp1⟩ | ⟨hn1, hp1, _⟩
    · rcases hcase m q hm hq with ⟨hm1, hq1⟩ | ⟨hm1, hq1, _⟩
      · exact hb.inj n m p q hn1 hm1 hp1 hq1 hfd
      · exact absurd (hfd.trans hq1) (hnoslot n p hn1 hp1)
    · rcases hcase m q hm hq with ⟨hm1, hq1⟩ | ⟨hm1, _, _⟩
      · exact absurd (hfd.symm.trans hp1) (hnoslot m q hm1 hq1)
      · omega
  · intro n p hn hp
    rcases hcase n p hn hp with ⟨hn1, hp1⟩ | ⟨_, _, hev⟩
    · exact hb.evs n p hn1 hp1
    · exact Or.inl hev
  · intro n p hn hp
    rcases hcase n p hn hp with ⟨hn1, hp1⟩ | ⟨_, hfd, hev⟩
    · rw [hb.pollin n p hn1 hp1]
      constructor
      · rintro ⟨e', he', h'⟩
        exact ⟨e', List.mem_append_left _ he', h'⟩
      · rintro ⟨e', he', h'⟩
        rcases List.mem_append.1 he' with h1 | h1
        · exact ⟨e', h1, h'⟩
        · rw [List.mem_singleton] at h1
          rw [h1] at h'
          exact absurd h'.symm (hnoslot n p hn1 hp1)
    · rw [hev]
      constructor
      · intro _
        exact ⟨e, List.mem_append_right _ (List.mem_singleton_self e), hfd.symm⟩
      · intro _
        exact testBits_in_in
  · intro n p hn hp
    rcases hcase n p hn hp with ⟨hn1, hp1⟩ | ⟨_, _, hev⟩
    · exact hb.pollout n p hn1 hp1
    · rw [hev]
      constructor
      · intro h
        exact absurd h (by decide)
      · rintro ⟨e', he', _⟩
        exact absurd he' (List.not_mem_nil e')
  · intro fd n
    rw [if_pos rfl]
    constructor
    · intro h
      by_cases hfd : fd = keyToInt e.1
      · rw [if_pos hfd] at h
        have hn : b.nfdsUsed = n := Option.some.inj h
        subst hn
        exact ⟨by omega, _, hnew, hfd.symm, testBits_in_in⟩
      · rw [if_neg hfd] at h
        obtain ⟨hn, p, hp, hpfd, hin⟩ := (hb.slots fd n).1 h
        exact ⟨by omega, p, by rw [hold n hn]; exact hp, hpfd, hin⟩
    · rintro ⟨hn, p, hp, hpfd, hin⟩
      rcases hcase n p hn hp with ⟨hn1, hp1⟩ | ⟨hn1, hp1, _⟩
      · have hne : fd ≠ keyToInt e.1 := by
          intro h
          exact hnoslot n p hn1 hp1 (hpfd.trans h)
        rw [if_neg hne]
        exact (hb.slots fd n).2 ⟨hn1, p, hp1, hpfd, hin⟩
      · have hfd : fd = keyToInt e.1 := hpfd.symm.trans hp1
        rw [if_pos hfd, hn1]
  · intro e' he'
    rcases List.mem_append.1 he' with h1 | h1
    · obtain ⟨n, p, hn, hp, hfd⟩ := hb.coverR e' h1
      exact ⟨n, p, by omega, by rw [hold n hn]; exact hp, hfd⟩
    · rw [List.mem_singleton] at h1
      rw [h1]
      exact ⟨b.nfdsUsed, _, by omega, hnew, rfl⟩
  · intro e' he'
    exact absurd he' (List.not_mem_nil e')

/-- The step of the loop on a writer whose descriptor has no slot yet. -/
theorem buildOk_write_alloc (malloc : Nat → Bool) (R W : LuaTable) (b : Build)
    (e : LuaKey × Task) (hb : BuildOk R W b) (hfresh : ∀ e' ∈ W, fdOf e' ≠ fdOf e)
    (hfound : b.slots (keyToInt e.1) = none)
    (herr : (buildStep malloc .WRITE b e).err = none) :
    BuildOk R (W ++ [e]) (buildStep malloc .WRITE b e) := by
  obtain ⟨hok, heq⟩ := buildStep_alloc malloc .WRITE b e
    (by rw [if_pos rfl]; exact hfound) herr
  obtain ⟨hold, ⟨p0, hnew⟩, hlen⟩ := alloc_slot malloc b.me b.nfdsUsed
    (fun p => { p with fd := keyToInt e.1, events := if Mode.WRITE = .READ then POLLIN else POLLOUT })
    hb.buf hb.used hok
  rw [heq]
  have hcase : ∀ n p, n < b.nfdsUsed + 1 →
      (updatePfd (XPQueue_ensureFDs malloc b.me b.nfdsUsed).1.pfds b.nfdsUsed
        (fun p => { p with fd := keyToInt e.1,
                           events := if Mode.WRITE = .READ then POLLIN else POLLOUT }))[n]? = some p →
      (n < b.nfdsUsed ∧ b.me.pfds[n]? = some p) ∨
      (n = b.nfdsUsed ∧ p.fd = fdOf e ∧ p.events = POLLOUT) := by
    intro n p hn hp
    by_cases hlt : n < b.nfdsUsed
    · left
      rw [hold n hlt] at hp
      exact ⟨hlt, hp⟩
    · right
      have hn' : n = b.nfdsUsed := by omega
      subst hn'
      rw [hnew] at hp
      have := Option.some.inj hp
      rw [← this]
      exact ⟨rfl, rfl, rfl⟩
  have hR : ∀ e' ∈ R, fdOf e' ≠ fdOf e := by
    intro e' he' hfd
    obtain ⟨n, p, hn, hp, hpfd⟩ := hb.coverR e' he'
    have hin : testBits p.events POLLIN = true := (hb.pollin n p hn hp).2 ⟨e', he', hpfd.symm⟩
    have := (hb.slots (fdOf e) n).2 ⟨hn, p, hp, hpfd.trans hfd, hin⟩
    rw [show b.slots (fdOf e) = none from hfound] at this
    simp at this
  have hnoslot := no_slot_of_fresh R W b hb (fdOf e) hR hfresh
  constructor <;> dsimp only
  · exact bufOk_updatePfd _ _ _ (bufOk_ensureFDs malloc b.me b.nfdsUsed hb.buf)
  · exact hlen
  · intro n m p q hn hm hp hq hfd
    rcases hcase n p hn hp with ⟨hn1, hp1⟩ | ⟨hn1, hp1, _⟩
    · rcases hcase m q hm hq with ⟨hm1, hq1⟩ | ⟨hm1, hq1, _⟩
      · exact hb.inj n m p q hn1 hm1 hp1 hq1 hfd
      · exact absurd (hfd.trans hq1) (hnoslot n p hn1 hp1)
    · rcases hcase m q hm hq with ⟨hm1, hq1⟩ | ⟨hm1, _, _⟩
      · exact absurd (hfd.symm.trans hp1) (hnoslot m q hm1 hq1)
      · omega
  · intro n p hn hp
    rcases hcase n p hn hp with ⟨hn1, hp1⟩ | ⟨_, _, hev⟩
    · exact hb.evs n p hn1 hp1
    · exact Or.inr (Or.inl hev)
  · intro n p hn hp
    rcases hcase n p hn hp with ⟨hn1, hp1⟩ | ⟨_, hfd, hev⟩
    · exact hb.pollin n p hn1 hp1
    · rw [hev]
      constructor
      · intro h
        exact absurd h (by decide)
      · rintro ⟨e', he', h'⟩
        exact absurd (h'.trans hfd) (hR e' he')
  · intro n p hn hp
    rcases hcase n p hn hp with ⟨hn1, hp1⟩ | ⟨_, hfd, hev⟩
    · rw [hb.pollout n p hn1 hp1]
      constructor
      · rintro ⟨e', he', h'⟩
        exact ⟨e', List.mem_append_left _ he', h'⟩
      · rintro ⟨e', he', h'⟩
        rcases List.mem_append.1 he' with h1 | h1
        · exact ⟨e', h1, h'⟩
        · rw [List.mem_singleton] at h1
          rw [h1] at h'
          exact absurd h'.symm (hnoslot n p hn1 hp1)
    · rw [hev]
      constructor
      · intro _
        exact ⟨e, List.mem_append_right _ (List.mem_singleton_self e), hfd.symm⟩
      · intro _
        exact testBits_out_out
  · intro fd n
    rw [if_neg (by decide)]
    constructor
    · intro h
      obtain ⟨hn, p, hp, hpfd, hin⟩ := (hb.slots fd n).1 h
      exact ⟨by omega, p, by rw [hold n hn]; exact hp, hpfd, hin⟩
    · rintro ⟨hn, p, hp, hpfd, hin⟩
      rcases hcase n p hn hp with ⟨hn1, hp1⟩ | ⟨_, _, hev⟩
      · exact (hb.slots fd n).2 ⟨hn1, p, hp1, hpfd, hin⟩
      · rw [hev] at hin
        exact absurd hin (by decide)
  · intro e' he'
    obtain ⟨n, p, hn, hp, hfd⟩ := hb.coverR e' he'
    exact ⟨n, p, by omega, by rw [hold n hn]; exact hp, hfd⟩
  · intro e' he'
    rcases List.mem_append.1 he' with h1 | h1
    · obtain ⟨n, p, hn, hp, hfd⟩ := hb.coverW e' h1
      exact ⟨n, p, by omega, by rw [hold n hn]; exact hp, hfd⟩
    · rw [List.mem_singleton] at h1
      rw [h1]
      exact ⟨b.nfdsUsed, _, by omega, hnew, rfl⟩

/-- The step of the loop on a writer whose descriptor has the slot of a reader. -/
theorem buildOk_write_reuse (malloc : Nat → Bool) (R W : LuaTable) (b : Build)
    (e : LuaKey × Task) (k : Nat) (hb : BuildOk R W b) (hfresh : ∀ e' ∈ W, fdOf e' ≠ fdOf e)
    (hfound : b.slots (keyToInt e.1) = some k) :
    BuildOk R (W ++ [e]) (buildStep malloc .WRITE b e) := by
  rw [buildStep_reuse malloc b e k hfound]
  obtain ⟨hk, pk, hpk, hpkfd, hpkin⟩ := (hb.slots (keyToInt e.1) k).1 hfound
  have hpkev : pk.events = POLLIN := by
    apply events_of_not_out pk (hb.evs k pk hk hpk)
    cases hout : testBits pk.events POLLOUT with
    | false => rfl
    | true =>
      obtain ⟨e', he', hfd⟩ := (hb.pollout k pk hk hpk).1 hout
      exact absurd (hfd.trans hpkfd) (hfresh e' he')
  have hcase : ∀ n p,
      (updatePfd b.me.pfds k (fun p => { p with events := p.events ||| POLLOUT }))[n]? = some p →
      (n ≠ k ∧ b.me.pfds[n]? = some p) ∨
      (n = k ∧ p.fd = pk.fd ∧ p.events = POLLIN ||| POLLOUT) := by
    intro n p hp
    by_cases hn : n = k
    · right
      subst hn
      rw [getElem?_updatePfd_self, hpk] at hp
      have := Option.some.inj hp
      rw [← this]
      exact ⟨rfl, rfl, by dsimp only; rw [hpkev]⟩
    · left
      rw [getElem?_updatePfd_ne _ _ _ _ hn] at hp
      exact ⟨hn, hp⟩
  have hback : ∀ (n : Nat) (p : PollFd), b.me.pfds[n]? = some p → ∃ p' : PollFd,
      (updatePfd b.me.pfds k (fun p => { p with events := p.events ||| POLLOUT }))[n]? = some p' ∧
      p'.fd = p.fd ∧ (testBits p'.events POLLIN = testBits p.events POLLIN) := by
    intro n p hp
    by_cases hn : n = k
    · subst hn
      rw [getElem?_updatePfd_self, hp]
      refine ⟨_, rfl, rfl, ?_⟩
      rw [hpk] at hp
      rw [← Option.some.inj hp]
      dsimp only
      rw [hpkev]
      decide
    · rw [getElem?_updatePfd_ne _ _ _ _ hn]
      exact ⟨p, hp, rfl, rfl⟩
  have hfdold : ∀ (n : Nat) (p : PollFd),
      (updatePfd b.me.pfds k (fun p => { p with events := p.events ||| POLLOUT }))[n]? = some p →
      ∃ q : PollFd, b.me.pfds[n]? = some q ∧ q.fd = p.fd ∧
        testBits q.events POLLIN = testBits p.events POLLIN := by
    intro n p hp
    rcases hcase n p hp with ⟨_, h1⟩ | ⟨hn, hfd, hev⟩
    · exact ⟨p, h1, rfl, rfl⟩
    · refine ⟨pk, hn ▸ hpk, hfd.symm, ?_⟩
      rw [hev, hpkev]
      decide
  constructor <;> dsimp only
  · exact bufOk_updatePfd _ _ _ hb.buf
  · rw [length_updatePfd]
    exact hb.used
  · intro n m p q hn hm hp hq hfd
    obtain ⟨p', hp', hpf, _⟩ := hfdold n p hp
    obtain ⟨q', hq', hqf, _⟩ := hfdold m q hq
    exact hb.inj n m p' q' hn hm hp' hq' (by rw [hpf, hqf]; exact hfd)
  · intro n p hn hp
    rcases hcase n p hp with ⟨_, h1⟩ | ⟨_, _, hev⟩
    · exact hb.evs n p hn h1
    · exact Or.inr (Or.inr hev)
  · intro n p hn hp
    obtain ⟨p', hp', hpf, hin⟩ := hfdold n p hp
    rw [← hin, hb.pollin n p' hn hp', hpf]
  · intro n p hn hp
    rcases hcase n p hp with ⟨hne, h1⟩ | ⟨_, hfd, hev⟩
    · rw [hb.pollout n p hn h1]
      constructor
      · rintro ⟨e', he', h'⟩
        exact ⟨e', List.mem_append_left _ he', h'⟩
      · rintro ⟨e', he', h'⟩
        rcases List.mem_append.1 he' with h2 | h2
        · exact ⟨e', h2, h'⟩
        · rw [List.mem_singleton] at h2
          rw [h2] at h'
          have : n = k := hb.inj n k p pk hn hk h1 hpk (h'.symm.trans hpkfd.symm)
          exact absurd this hne
    · rw [hev]
      constructor
      · intro _
        exact ⟨e, List.mem_append_right _ (List.mem_singleton_self e), (hfd.trans hpkfd).symm⟩
      · intro _
        exact testBits_both_out
  · intro fd n
    rw [hb.slots fd n]
    constructor
    · rintro ⟨hn, p, hp, hpfd, hin⟩
      obtain ⟨p', hp', hpf, hin'⟩ := hback n p hp
      exact ⟨hn, p', hp', hpf.trans hpfd, hin'.trans hin⟩
    · rintro ⟨hn, p, hp, hpfd, hin⟩
      obtain ⟨q, hq, hqf, hin'⟩ := hfdold n p hp
      exact ⟨hn, q, hq, hqf.trans hpfd, hin'.trans hin⟩
  · intro e' he'
    obtain ⟨n, p, hn, hp, hfd⟩ := hb.coverR e' he'
    obtain ⟨p', hp', hpf, _⟩ := hback n p hp
    exact ⟨n, p', hn, hp', hpf.trans hfd⟩
  · intro e' he'
    rcases List.mem_append.1 he' with h1 | h1
    · obtain ⟨n, p, hn, hp, hfd⟩ := hb.coverW e' h1
      obtain ⟨p', hp', hpf, _⟩ := hback n p hp
      exact ⟨n, p', hn, hp', hpf.trans hfd⟩
    · rw [List.mem_singleton] at h1
      rw [h1]
      obtain ⟨p', hp', hpf, _⟩ := hback k pk hpk
      exact ⟨k, p', hk, hp', hpf.trans hpkfd⟩

theorem buildLoop_read (malloc : Nat → Bool) (entries : LuaTable) :
    ∀ (R : LuaTable) (b : Build), BuildOk R [] b → ((R ++ entries).map fdOf).Nodup →
    (buildLoop malloc .READ entries b).err = none →
    BuildOk (R ++ entries) [] (buildLoop malloc .READ entries b) := by
  induction entries with
  | nil =>
    intro R b hb _ _
    rw [List.append_nil]
    exact hb
  | cons e rest ih =>
    intro R b hb hn herr
    unfold buildLoop at herr ⊢
    dsimp only at herr ⊢
    by_cases hsome : (buildStep malloc .READ b e).err.isSome = true
    · rw [if_pos hsome] at herr
      rw [herr] at hsome
      simp at hsome
    · rw [if_neg hsome] at herr ⊢
      have hs : (buildStep malloc .READ b e).err = none := by
        simpa using hsome
      have hfresh : ∀ e' ∈ R, fdOf e' ≠ fdOf e := by
        intro e' he' hfd
        rw [List.map_append, List.map_cons, List.nodup_append] at hn
        exact hn.2.2 (List.mem_map_of_mem fdOf he')
          (by rw [hfd]; exact List.mem_cons_self _ _)
      have h1 := buildOk_read malloc R b e hb hfresh hs
      have h2 := ih (R ++ [e]) _ h1 (by rw [List.append_assoc]; exact hn) herr
      rw [List.append_assoc] at h2
      exact h2

theorem buildLoop_write (malloc : Nat → Bool) (R : LuaTable) (entries : LuaTable) :
    ∀ (W : LuaTable) (b : Build), BuildOk R W b → ((W ++ entries).map fdOf).Nodup →
    (buildLoop malloc .WRITE entries b).err = none →
    BuildOk R (W ++ entries) (buildLoop malloc .WRITE entries b) := by
  induction entries with
  | nil =>
    intro W b hb _ _
    rw [List.append_nil]
    exact hb
  | cons e rest ih =>
    intro W b hb hn herr
    unfold buildLoop at herr ⊢
    dsimp only at herr ⊢
    by_cases hsome : (buildStep malloc .WRITE b e).err.isSome = true
    · rw [if_pos hsome] at herr
      rw [herr] at hsome
      simp at hsome
    · rw [if_neg hsome] at herr ⊢
      have hs : (buildStep malloc .WRITE b e).err = none := by
        simpa using hsome
      have hfresh : ∀ e' ∈ W, fdOf e' ≠ fdOf e := by
        intro e' he' hfd
        rw [List.map_append, List.map_cons, List.nodup_append] at hn
        exact hn.2.2 (List.mem_map_of_mem fdOf he')
          (by rw [hfd]; exact List.mem_cons_self _ _)
      have h1 : BuildOk R (W ++ [e]) (buildStep malloc .WRITE b e) := by
        cases hf : b.slots (keyToInt e.1) with
        | none => exact buildOk_write_alloc malloc R W b e hb hfresh hf hs
        | some k => exact buildOk_write_reuse malloc R W b e k hb hfresh hf
      have h2 := ih (W ++ [e]) _ h1 (by rw [List.append_assoc]; exact hn) herr
      rw [List.append_assoc] at h2
      exact h2

theorem buildOk_init (me : XPQueue) (h : BufOk me) :
    BuildOk [] [] { me := me, slots := fun _ => none, nfdsUsed := 0, err := none } := by
  constructor <;> dsimp only
  · exact h
  · omega
  · intro n m p q hn
    omega
  · intro n p hn
    omega
  · intro n p hn
    omega
  · intro n p hn
    omega
  · intro fd n
    constructor
    · intro h1
      simp at h1
    · rintro ⟨hn, _⟩
      omega
  · intro e he
    exact absurd he (List.not_mem_nil e)
  · intro e he
    exact absurd he (List.not_mem_nil e)

theorem keyToInt_inj (m : Mode) (hm : m ≠ .CHILD) (k k' : LuaKey) (hk : keyOk m k)
    (hk' : keyOk m k') (h : keyToInt k = keyToInt k') : k = k' := by
  cases m with
  | CHILD => exact absurd rfl hm
  | READ =>
    cases k <;> cases k' <;> simp_all [keyOk, keyToInt]
  | WRITE =>
    cases k <;> cases k' <;> simp_all [keyOk, keyToInt]

theorem nodup_fdOf (s : State) (h : TablesOk s) (m : Mode) (hm : m ≠ .CHILD) :
    ((s.table m).map fdOf).Nodup := by
  have h1 : (s.table m).map fdOf = ((s.table m).map Prod.fst).map keyToInt := by
    rw [List.map_map]
    rfl
  rw [h1]
  apply List.Nodup.map_on _ (h.nodup m)
  intro k hk k' hk' heq
  obtain ⟨e, he, rfl⟩ := List.mem_map.1 hk
  obtain ⟨e', he', rfl⟩ := List.mem_map.1 hk'
  exact keyToInt_inj m hm _ _ (h.keys m e he) (h.keys m e' he') heq

/-- When the loops of `xpqueue_wait` that fill `pfds` raise no error, the
slots in use are one per descriptor that has a reader or a writer. -/
theorem buildOk_buildPfds (env : Env) (s : State) (h : TablesOk s) (hbuf : BufOk s.me)
    (herr : (buildPfds env s).err = none) :
    BuildOk s.readers s.writers (buildPfds env s) := by
  unfold buildPfds at herr ⊢
  dsimp only at herr ⊢
  by_cases hsome : (buildLoop env.malloc .READ s.readers
      { me := s.me, slots := fun _ => none, nfdsUsed := 0, err := none }).err.isSome = true
  · rw [if_pos hsome] at herr
    rw [herr] at hsome
    simp at hsome
  · rw [if_neg hsome] at herr ⊢
    have hr : (buildLoop env.malloc .READ s.readers
        { me := s.me, slots := fun _ => none, nfdsUsed := 0, err := none }).err = none := by
      simpa using hsome
    have h1 := buildLoop_read env.malloc s.readers [] _ (buildOk_init s.me hbuf)
      (by rw [List.nil_append]; exact nodup_fdOf s h .READ (by decide)) hr
    rw [List.nil_append] at h1
    have h2 := buildLoop_write env.malloc s.readers s.writers [] _ h1
      (by rw [List.nil_append]; exact nodup_fdOf s h .WRITE (by decide)) herr
    rw [List.nil_append] at h2
    exact h2

/-! ## The sweep of the child waiters leaves readers and writers alone -/

theorem readers_removeEntry_child (s : State) (k : LuaKey) (t : Task) :
    (removeEntry s .CHILD k t).readers = s.readers ∧
    (removeEntry s .CHILD k t).writers = s.writers ∧
    (removeEntry s .CHILD k t).procs = s.procs ∧
    (removeEntry s .CHILD k t).gpHeadProc = s.gpHeadProc :=
  ⟨rfl, rfl, rfl, rfl⟩

/-- What the loop of `XPQueue_wakeChildWaiters` leaves unchanged, and where
the tasks that it appends come from. -/
theorem wakeChildLoop_frame (entries : LuaTable) : ∀ sw : Sweep,
    (wakeChildLoop entries sw).state.readers = sw.state.readers ∧
    (wakeChildLoop entries sw).state.writers = sw.state.writers ∧
    (wakeChildLoop entries sw).state.me = sw.state.me ∧
    (wakeChildLoop entries sw).state.procs = sw.state.procs ∧
    (∀ t, t ∈ sw.ready → t ∈ (wakeChildLoop entries sw).ready) ∧
    (∀ t, t ∈ (wakeChildLoop entries sw).ready → t ∈ sw.ready ∨ ∃ e ∈ entries, e.2 = t) ∧
    (∀ t, (∀ e ∈ entries, e.2 ≠ t) →
      (wakeChildLoop entries sw).state.tasks t = sw.state.tasks t) := by
  induction entries with
  | nil =>
    intro sw
    exact ⟨rfl, rfl, rfl, rfl, fun _ h => h, fun _ h => Or.inl h, fun _ _ => rfl⟩
  | cons e rest ih =>
    intro sw
    unfold wakeChildLoop
    dsimp only
    rcases wakeChildStep_cases sw e with ⟨msg, h1⟩ | ⟨h1, _⟩ | ⟨h1, _⟩
    · rw [h1]
      rw [if_pos (by rfl)]
      exact ⟨rfl, rfl, rfl, rfl, fun _ h => h, fun _ h => Or.inl h, fun _ _ => rfl⟩
    · rw [h1]
      by_cases herr : sw.err.isSome = true
      · rw [if_pos herr]
        exact ⟨rfl, rfl, rfl, rfl, fun _ h => h, fun _ h => Or.inl h, fun _ _ => rfl⟩
      · rw [if_neg herr]
        obtain ⟨a1, a2, a3, a4, a5, a6, a7⟩ := ih { sw with numWaiting := sw.numWaiting + 1 }
        refine ⟨a1, a2, a3, a4, a5, ?_, ?_⟩
        · intro t ht
          rcases a6 t ht with h | ⟨e', he', h⟩
          · exact Or.inl h
          · exact Or.inr ⟨e', List.mem_cons_of_mem _ he', h⟩
        · intro t ht
          exact a7 t (fun e' he' => ht e' (List.mem_cons_of_mem _ he'))
    · rw [h1]
      have hstep : ∀ t, t ≠ e.2 →
          (removeEntry sw.state .CHILD e.1 e.2).tasks t = sw.state.tasks t := by
        intro t ht
        rw [tasks_removeEntry, clearDequeue_other _ _ _ ht]
      by_cases herr : sw.err.isSome = true
      · rw [if_pos herr]
        refine ⟨rfl, rfl, rfl, rfl, ?_, ?_, ?_⟩
        · intro t ht
          exact List.mem_append_left _ ht
        · intro t ht
          rcases List.mem_append.1 ht with h | h
          · exact Or.inl h
          · rw [List.mem_singleton] at h
            exact Or.inr ⟨e, List.mem_cons_self _ _, h.symm⟩
        · intro t ht
          exact hstep t (fun h => ht e (List.mem_cons_self _ _) h.symm)
      · rw [if_neg herr]
        obtain ⟨a1, a2, a3, a4, a5, a6, a7⟩ := ih
          { sw with state := removeEntry sw.state .CHILD e.1 e.2, ready := sw.ready ++ [e.2] }
        refine ⟨a1, a2, a3, a4, ?_, ?_, ?_⟩
        · intro t ht
          exact a5 t (List.mem_append_left _ ht)
        · intro t ht
          rcases a6 t ht with h | ⟨e', he', h⟩
          · rcases List.mem_append.1 h with h2 | h2
            · exact Or.inl h2
            · rw [List.mem_singleton] at h2
              exact Or.inr ⟨e, List.mem_cons_self _ _, h2.symm⟩
          · exact Or.inr ⟨e', List.mem_cons_of_mem _ he', h⟩
        · intro t ht
          rw [a7 t (fun e' he' => ht e' (List.mem_cons_of_mem _ he'))]
          exact hstep t (fun h => ht e (List.mem_cons_self _ _) h.symm)

/-- When no process of the entries has exited, the loop of
`XPQueue_wakeChildWaiters` changes nothing and counts the entries. -/
theorem wakeChildLoop_none (entries : LuaTable) : ∀ sw : Sweep, sw.err = none →
    (∀ e ∈ entries, ∃ p, e.1 = .proc p ∧ (sw.state.procs p).pid ≠ 0) →
    wakeChildLoop entries sw = { sw with numWaiting := sw.numWaiting + entries.length } := by
  induction entries with
  | nil =>
    intro sw _ _
    rfl
  | cons e rest ih =>
    intro sw herr h
    obtain ⟨st, ready, nw, err⟩ := sw
    dsimp only at herr h
    subst herr
    unfold wakeChildLoop
    dsimp only
    obtain ⟨p, hp, hpid⟩ := h e (List.mem_cons_self _ _)
    have hstep : wakeChildStep { state := st, ready := ready, numWaiting := nw, err := none } e =
        { state := st, ready := ready, numWaiting := nw + 1, err := none } := by
      unfold wakeChildStep xpproc_isExited
      rw [hp]
      simp only [hpid, decide_False]
    rw [hstep, if_neg (by simp)]
    rw [ih _ rfl (fun e' he' => h e' (List.mem_cons_of_mem _ he'))]
    simp only [List.length_cons]
    congr 1
    omega

/-! ## The loop of `XPQueue_wakeSockets` -/

theorem wakeOne_some (mode : Mode) (w : Wake) (fd : Int) (t : Task)
    (h : rawget (w.state.table mode) (.int fd) = some t) :
    wakeOne mode w fd =
      { w with state := removeEntry w.state mode (.int fd) t, ready := w.ready ++ [t] } := by
  rcases wakeOne_cases mode w fd with ⟨h1, _⟩ | ⟨t', h1, h2⟩
  · rw [h] at h1
    simp at h1
  · rw [h] at h1
    rw [h2, ← Option.some.inj h1]

theorem wakeSocketsStep_eq (w : Wake) (p : PollFd) :
    wakeSocketsStep w p =
      if (if hitR p = true then wakeOne .READ w p.fd else w).err.isSome = true then
        (if hitR p = true then wakeOne .READ w p.fd else w)
      else if hitW p = true then
        wakeOne .WRITE (if hitR p = true then wakeOne .READ w p.fd else w) p.fd
      else (if hitR p = true then wakeOne .READ w p.fd else w) := rfl

/-- The effect of one iteration of the loop of `XPQueue_wakeSockets` on a
slot whose descriptor has a reader, or a writer, when the slot says so. -/
theorem wakeSocketsStep_spec (w : Wake) (p : PollFd) (herr : w.err = none)
    (hpR : hitR p = true → ∃ t, rawget w.state.readers (.int p.fd) = some t)
    (hpW : hitW p = true → ∃ t, rawget w.state.writers (.int p.fd) = some t) :
    (wakeSocketsStep w p).err = none ∧
    (∀ k, rawget (wakeSocketsStep w p).state.readers k =
      if hitR p = true ∧ k = .int p.fd then none else rawget w.state.readers k) ∧
    (∀ k, rawget (wakeSocketsStep w p).state.writers k =
      if hitW p = true ∧ k = .int p.fd then none else rawget w.state.writers k) ∧
    (wakeSocketsStep w p).state.childWaiters = w.state.childWaiters ∧
    (wakeSocketsStep w p).state.me = w.state.me ∧
    (wakeSocketsStep w p).state.procs = w.state.procs ∧
    (∀ t, t ∈ (wakeSocketsStep w p).ready ↔ t ∈ w.ready ∨
      (hitR p = true ∧ rawget w.state.readers (.int p.fd) = some t) ∨
      (hitW p = true ∧ rawget w.state.writers (.int p.fd) = some t)) ∧
    (∀ t, ¬ (hitR p = true ∧ rawget w.state.readers (.int p.fd) = some t) →
      ¬ (hitW p = true ∧ rawget w.state.writers (.int p.fd) = some t) →
      (wakeSocketsStep w p).state.tasks t = w.state.tasks t) := by
  obtain ⟨st, ready, err⟩ := w
  dsimp only at herr hpR hpW
  subst herr
  have eraseR : ∀ (s : State) (k : LuaKey) (t : Task) (k' : LuaKey),
      rawget (removeEntry s .READ k t).readers k' =
        if k' = k then none else rawget s.readers k' := by
    intro s k t k'
    show rawget (eraseKey s.readers k) k' = _
    by_cases hk : k' = k
    · rw [if_pos hk, hk, rawget_eraseKey_self]
    · rw [if_neg hk, rawget_eraseKey_other _ _ _ hk]
  have eraseW : ∀ (s : State) (k : LuaKey) (t : Task) (k' : LuaKey),
      rawget (removeEntry s .WRITE k t).writers k' =
        if k' = k then none else rawget s.writers k' := by
    intro s k t k'
    show rawget (eraseKey s.writers k) k' = _
    by_cases hk : k' = k
    · rw [if_pos hk, hk, rawget_eraseKey_self]
    · rw [if_neg hk, rawget_eraseKey_other _ _ _ hk]
  have tasksNe : ∀ (s : State) (m : Mode) (k : LuaKey) (t t' : Task), t' ≠ t →
      (removeEntry s m k t).tasks t' = s.tasks t' := by
    intro s m k t t' h
    rw [tasks_removeEntry, clearDequeue_other _ _ _ h]
  rw [wakeSocketsStep_eq]
  by_cases hR : hitR p = true
  · obtain ⟨tR, htR⟩ := hpR hR
    rw [if_pos hR, wakeOne_some .READ { state := st, ready := ready, err := none } p.fd tR htR]
    dsimp only
    rw [if_neg (by simp)]
    by_cases hW : hitW p = true
    · obtain ⟨tW, htW⟩ := hpW hW
      have htW' : rawget ((removeEntry st .READ (.int p.fd) tR).table .WRITE) (.int p.fd)
          = some tW := htW
      rw [if_pos hW, wakeOne_some .WRITE
        { state := removeEntry st .READ (.int p.fd) tR, ready := ready ++ [tR], err := none }
        p.fd tW htW']
      dsimp only
      refine ⟨rfl, ?_, ?_, rfl, rfl, rfl, ?_, ?_⟩
      · intro k
        show rawget (removeEntry st .READ (.int p.fd) tR).readers k = _
        rw [eraseR]
        by_cases hk : k = .int p.fd
        · rw [if_pos hk, if_pos ⟨hR, hk⟩]
        · rw [if_neg hk, if_neg (fun h => hk h.2)]
      · intro k
        rw [eraseW]
        show (if k = .int p.fd then none else rawget st.writers k) = _
        by_cases hk : k = .int p.fd
        · rw [if_pos hk, if_pos ⟨hW, hk⟩]
        · rw [if_neg hk, if_neg (fun h => hk h.2)]
      · intro t
        rw [List.mem_append, List.mem_append, List.mem_singleton, List.mem_singleton]
        constructor
        · rintro ((h | h) | h)
          · exact Or.inl h
          · exact Or.inr (Or.inl ⟨hR, h ▸ htR⟩)
          · exact Or.inr (Or.inr ⟨hW, h ▸ htW⟩)
        · rintro (h | ⟨_, h⟩ | ⟨_, h⟩)
          · exact Or.inl (Or.inl h)
          · rw [htR] at h
            exact Or.inl (Or.inr (Option.some.inj h).symm)
          · rw [htW] at h
            exact Or.inr (Option.some.inj h).symm
      · intro t h1 h2
        have n1 : t ≠ tR := fun h => h1 ⟨hR, h ▸ htR⟩
        have n2 : t ≠ tW := fun h => h2 ⟨hW, h ▸ htW⟩
        rw [tasksNe _ _ _ _ _ n2, tasksNe _ _ _ _ _ n1]
    · rw [if_neg hW]
      refine ⟨rfl, ?_, ?_, rfl, rfl, rfl, ?_, ?_⟩
      · intro k
        rw [eraseR]
        by_cases hk : k = .int p.fd
        · rw [if_pos hk, if_pos ⟨hR, hk⟩]
        · rw [if_neg hk, if_neg (fun h => hk h.2)]
      · intro k
        rw [if_neg (fun h => hW h.1)]
        rfl
      · intro t
        rw [List.mem_append, List.mem_singleton]
        constructor
        · rintro (h | h)
          · exact Or.inl h
          · exact Or.inr (Or.inl ⟨hR, h ▸ htR⟩)
        · rintro (h | ⟨_, h⟩ | ⟨h, _⟩)
          · exact Or.inl h
          · rw [htR] at h
            exact Or.inr (Option.some.inj h).symm
          · exact absurd h hW
      · intro t h1 _
        have n1 : t ≠ tR := fun h => h1 ⟨hR, h ▸ htR⟩
        rw [tasksNe _ _ _ _ _ n1]
  · rw [if_neg hR]
    dsimp only
    rw [if_neg (by simp)]
    by_cases hW : hitW p = true
    · obtain ⟨tW, htW⟩ := hpW hW
      rw [if_pos hW, wakeOne_some .WRITE { state := st, ready := ready, err := none } p.fd tW htW]
      dsimp only
      refine ⟨rfl, ?_, ?_, rfl, rfl, rfl, ?_, ?_⟩
      · intro k
        rw [if_neg (fun h => hR h.1)]
        rfl
      · intro k
        rw [eraseW]
        by_cases hk : k = .int p.fd
        · rw [if_pos hk, if_pos ⟨hW, hk⟩]
        · rw [if_neg hk, if_neg (fun h => hk h.2)]
      · intro t
        rw [List.mem_append, List.mem_singleton]
        constructor
        · rintro (h | h)
          · exact Or.inl h
          · exact Or.inr (Or.inr ⟨hW, h ▸ htW⟩)
        · rintro (h | ⟨h, _⟩ | ⟨_, h⟩)
          · exact Or.inl h
          · exact absurd h hR
          · rw [htW] at h
            exact Or.inr (Option.some.inj h).symm
      · intro t _ h2
        have n2 : t ≠ tW := fun h => h2 ⟨hW, h ▸ htW⟩
        rw [tasksNe _ _ _ _ _ n2]
    · rw [if_neg hW]
      refine ⟨rfl, ?_, ?_, rfl, rfl, rfl, ?_, ?_⟩
      · intro k
        rw [if_neg (fun h => hR h.1)]
      · intro k
        rw [if_neg (fun h => hW h.1)]
      · intro t
        constructor
        · intro h
          exact Or.inl h
        · rintro (h | ⟨h, _⟩ | ⟨h, _⟩)
          · exact h
          · exact absurd h hR
          · exact absurd h hW
      · intro t _ _
        rfl

theorem woken_cons (p : PollFd) (L : List PollFd) (s : State) (t : Task) :
    Woken (p :: L) s t ↔
      ((hitR p = true ∧ rawget s.readers (.int p.fd) = some t) ∨
       (hitW p = true ∧ rawget s.writers (.int p.fd) = some t)) ∨ Woken L s t := by
  unfold Woken
  constructor
  · rintro ⟨q, hq, h⟩
    rcases List.mem_cons.1 hq with h1 | h1
    · subst h1
      exact Or.inl h
    · exact Or.inr ⟨q, h1, h⟩
  · rintro (h | ⟨q, hq, h⟩)
    · exact ⟨p, List.mem_cons_self _ _, h⟩
    · exact ⟨q, List.mem_cons_of_mem _ hq, h⟩

theorem woken_congr (L : List PollFd) (s s' : State) (t : Task)
    (hR : ∀ p ∈ L, rawget s'.readers (.int p.fd) = rawget s.readers (.int p.fd))
    (hW : ∀ p ∈ L, rawget s'.writers (.int p.fd) = rawget s.writers (.int p.fd)) :
    Woken L s' t ↔ Woken L s t := by
  unfold Woken
  constructor
  · rintro ⟨q, hq, h⟩
    rw [hR q hq, hW q hq] at h
    exact ⟨q, hq, h⟩
  · rintro ⟨q, hq, h⟩
    rw [← hR q hq, ← hW q hq] at h
    exact ⟨q, hq, h⟩

/-- The effect of the loop of `XPQueue_wakeSockets` on slots of distinct
descriptors, each with a reader or a writer where the slot says so: no
error; the entries of the slots whose condition holds are deleted and their
tasks appended; nothing else changes. -/
theorem wakeSocketsLoop_spec (L : List PollFd) : ∀ w : Wake, w.err = none →
    (∀ p ∈ L, hitR p = true → ∃ t, rawget w.state.readers (.int p.fd) = some t) →
    (∀ p ∈ L, hitW p = true → ∃ t, rawget w.state.writers (.int p.fd) = some t) →
    (L.map (fun p => p.fd)).Nodup →
    (wakeSocketsLoop L w).err = none ∧
    (∀ k, (∃ p ∈ L, hitR p = true ∧ k = .int p.fd) →
      rawget (wakeSocketsLoop L w).state.readers k = none) ∧
    (∀ k, (¬ ∃ p ∈ L, hitR p = true ∧ k = .int p.fd) →
      rawget (wakeSocketsLoop L w).state.readers k = rawget w.state.readers k) ∧
    (∀ k, (∃ p ∈ L, hitW p = true ∧ k = .int p.fd) →
      rawget (wakeSocketsLoop L w).state.writers k = none) ∧
    (∀ k, (¬ ∃ p ∈ L, hitW p = true ∧ k = .int p.fd) →
      rawget (wakeSocketsLoop L w).state.writers k = rawget w.state.writers k) ∧
    (wakeSocketsLoop L w).state.childWaiters = w.state.childWaiters ∧
    (wakeSocketsLoop L w).state.me = w.state.me ∧
    (wakeSocketsLoop L w).state.procs = w.state.procs ∧
    (∀ t, t ∈ (wakeSocketsLoop L w).ready ↔ t ∈ w.ready ∨ Woken L w.state t) ∧
    (∀ t, ¬ Woken L w.state t → (wakeSocketsLoop L w).state.tasks t = w.state.tasks t) := by
  induction L with
  | nil =>
    intro w herr _ _ _
    refine ⟨herr, ?_, fun _ _ => rfl, ?_, fun _ _ => rfl, rfl, rfl, rfl, ?_, fun _ _ => rfl⟩
    · rintro k ⟨p, hp, _⟩
      exact absurd hp (List.not_mem_nil p)
    · rintro k ⟨p, hp, _⟩
      exact absurd hp (List.not_mem_nil p)
    · intro t
      constructor
      · exact Or.inl
      · rintro (h | ⟨p, hp, _⟩)
        · exact h
        · exact absurd hp (List.not_mem_nil p)
  | cons p L ih =>
    intro w herr hpR hpW hnd
    rw [List.map_cons, List.nodup_cons] at hnd
    obtain ⟨s1, s2, s3, s4, s5, s6, s7, s8⟩ := wakeSocketsStep_spec w p herr
      (hpR p (List.mem_cons_self _ _)) (hpW p (List.mem_cons_self _ _))
    have hne : ∀ q ∈ L, (LuaKey.int q.fd) ≠ .int p.fd := by
      intro q hq h
      apply hnd.1
      have : q.fd = p.fd := by
        injection h
      rw [← this]
      exact List.mem_map_of_mem (fun p => p.fd) hq
    have FR : ∀ q ∈ L, rawget (wakeSocketsStep w p).state.readers (.int q.fd) =
        rawget w.state.readers (.int q.fd) := by
      intro q hq
      rw [s2, if_neg (fun h => hne q hq h.2)]
    have FW : ∀ q ∈ L, rawget (wakeSocketsStep w p).state.writers (.int q.fd) =
        rawget w.state.writers (.int q.fd) := by
      intro q hq
      rw [s3, if_neg (fun h => hne q hq h.2)]
    obtain ⟨i1, i2, i3, i4, i5, i6, i7, i8, i9, i10⟩ := ih (wakeSocketsStep w p) s1
      (fun q hq h => by rw [FR q hq]; exact hpR q (List.mem_cons_of_mem _ hq) h)
      (fun q hq h => by rw [FW q hq]; exact hpW q (List.mem_cons_of_mem _ hq) h) hnd.2
    have hloop : wakeSocketsLoop (p :: L) w = wakeSocketsLoop L (wakeSocketsStep w p) := by
      conv_lhs => unfold wakeSocketsLoop
      dsimp only
      rw [if_neg (by rw [s1]; simp)]
    rw [hloop]
    refine ⟨i1, ?_, ?_, ?_, ?_, i6.trans s4, i7.trans s5, i8.trans s6, ?_, ?_⟩
    · rintro k ⟨q, hq, hh, hk⟩
      by_cases hex : ∃ q' ∈ L, hitR q' = true ∧ k = .int q'.fd
      · exact i2 k hex
      · rw [i3 k hex, s2]
        rcases List.mem_cons.1 hq with h1 | h1
        · subst h1
          rw [if_pos ⟨hh, hk⟩]
        · exact absurd ⟨q, h1, hh, hk⟩ hex
    · intro k hk
      have hex : ¬ ∃ q' ∈ L, hitR q' = true ∧ k = .int q'.fd := by
        rintro ⟨q, hq, h⟩
        exact hk ⟨q, List.mem_cons_of_mem _ hq, h⟩
      rw [i3 k hex, s2, if_neg (fun h => hk ⟨p, List.mem_cons_self _ _, h⟩)]
    · rintro k ⟨q, hq, hh, hk⟩
      by_cases hex : ∃ q' ∈ L, hitW q' = true ∧ k = .int q'.fd
      · exact i4 k hex
      · rw [i5 k hex, s3]
        rcases List.mem_cons.1 hq with h1 | h1
        · subst h1
          rw [if_pos ⟨hh, hk⟩]
        · exact absurd ⟨q, h1, hh, hk⟩ hex
    · intro k hk
      have hex : ¬ ∃ q' ∈ L, hitW q' = true ∧ k = .int q'.fd := by
        rintro ⟨q, hq, h⟩
        exact hk ⟨q, List.mem_cons_of_mem _ hq, h⟩
      rw [i5 k hex, s3, if_neg (fun h => hk ⟨p, List.mem_cons_self _ _, h⟩)]
    · intro t
      rw [i9 t, s7 t, woken_congr L w.state _ t FR FW, woken_cons]
      constructor
      · rintro ((h | h | h) | h)
        · exact Or.inl h
        · exact Or.inr (Or.inl (Or.inl h))
        · exact Or.inr (Or.inl (Or.inr h))
        · exact Or.inr (Or.inr h)
      · rintro (h | (h | h) | h)
        · exact Or.inl (Or.inl h)
        · exact Or.inl (Or.inr (Or.inl h))
        · exact Or.inl (Or.inr (Or.inr h))
        · exact Or.inr h
    · intro t ht
      rw [woken_cons] at ht
      have h1 : ¬ Woken L (wakeSocketsStep w p).state t := by
        rw [woken_congr L w.state _ t FR FW]
        exact fun h => ht (Or.inr h)
      rw [i10 t h1]
      exact s8 t (fun h => ht (Or.inl (Or.inl h))) (fun h => ht (Or.inl (Or.inr h)))

/-- When no slot's condition holds, the loop of `XPQueue_wakeSockets`
changes nothing. -/
theorem wakeSocketsLoop_none (L : List PollFd) : ∀ w : Wake, w.err = none →
    (∀ p ∈ L, hitR p = false ∧ hitW p = false) → wakeSocketsLoop L w = w := by
  induction L with
  | nil =>
    intro w _ _
    rfl
  | cons p L ih =>
    intro w herr h
    obtain ⟨h1, h2⟩ := h p (List.mem_cons_self _ _)
    have hstep : wakeSocketsStep w p = w := by
      rw [wakeSocketsStep_eq, h1, h2]
      simp [herr]
    unfold wakeSocketsLoop
    dsimp only
    rw [hstep, if_neg (by rw [herr]; simp)]
    exact ih w herr (fun q hq => h q (List.mem_cons_of_mem _ hq))

/-! ## The path of `wait` that returns an array -/

theorem getElem?_storeRevents (revents : Nat → Nat) (nfds : Nat) (pfds : List PollFd) :
    ∀ (i n : Nat), (storeRevents revents nfds i pfds)[n]? =
      (pfds[n]?).map (fun p => if i + n < nfds then { p with revents := revents (i + n) } else p) := by
  induction pfds with
  | nil =>
    intro i n
    simp [storeRevents]
  | cons p ps ih =>
    intro i n
    unfold storeRevents
    cases n with
    | zero => simp
    | succ n =>
      simp only [List.getElem?_cons_succ]
      rw [ih (i + 1) n]
      have : i + 1 + n = i + (n + 1) := by omega
      rw [this]

theorem addSigPipe_ok (env : Env) (s : State) (nfdsUsed numChildWaiters : Nat)
    (hbuf : BufOk s.me) (hused : nfdsUsed ≤ s.me.pfds.length)
    (herr : (addSigPipe env s nfdsUsed numChildWaiters).2.2 = none) :
    (addSigPipe env s nfdsUsed numChildWaiters).1.readers = s.readers ∧
    (addSigPipe env s nfdsUsed numChildWaiters).1.writers = s.writers ∧
    (addSigPipe env s nfdsUsed numChildWaiters).1.childWaiters = s.childWaiters ∧
    (addSigPipe env s nfdsUsed numChildWaiters).1.tasks = s.tasks ∧
    (addSigPipe env s nfdsUsed numChildWaiters).1.procs = s.procs ∧
    (∀ n, n < nfdsUsed →
      (addSigPipe env s nfdsUsed numChildWaiters).1.me.pfds[n]? = s.me.pfds[n]?) ∧
    (addSigPipe env s nfdsUsed numChildWaiters).2.1 -
      (if numChildWaiters ≠ 0 then 1 else 0) = nfdsUsed ∧
    nfdsUsed ≤ (addSigPipe env s nfdsUsed numChildWaiters).2.1 ∧
    (numChildWaiters = 0 → (addSigPipe env s nfdsUsed numChildWaiters).1 = s) ∧
    (numChildWaiters ≠ 0 → 0 < (addSigPipe env s nfdsUsed numChildWaiters).2.1) := by
  unfold addSigPipe at herr ⊢
  by_cases hc : numChildWaiters ≠ 0
  · rw [if_pos hc] at herr ⊢
    dsimp only at herr ⊢
    cases hr : (XPQueue_ensureFDs env.malloc s.me nfdsUsed).2 with
    | some msg =>
      rw [hr] at herr
      simp at herr
    | none =>
      dsimp only
      obtain ⟨hold, _, _⟩ := alloc_slot env.malloc s.me nfdsUsed
        (fun p => { p with fd := env.sigPipe, events := POLLIN }) hbuf hused hr
      refine ⟨rfl, rfl, rfl, rfl, rfl, hold, ?_, by omega, fun h => absurd h hc,
        fun _ => by omega⟩
      rw [if_pos hc]
      omega
  · rw [if_neg hc]
    have h0 : numChildWaiters = 0 := by omega
    refine ⟨rfl, rfl, rfl, rfl, rfl, fun _ _ => rfl, ?_, le_refl _, fun _ => rfl,
      fun h => absurd h hc⟩
    dsimp only
    rw [if_neg hc]
    omega

/-- When `xpqueue_wait` returns an array, no step before the call of `poll`
raised an error and the result is that of the part from `poll` on. -/
theorem wait_ready_path (s : State) (arg : TimeoutArg) (env : Env) (arr : List Task)
    (hr : (xpqueue_wait s arg env).result = .ready arr) :
    (buildPfds env s).err = none ∧
    (XPQueue_wakeChildWaiters { s with me := (buildPfds env s).me } []).err = none ∧
    (addSigPipe env (XPQueue_wakeChildWaiters { s with me := (buildPfds env s).me } []).state
      (buildPfds env s).nfdsUsed
      (XPQueue_wakeChildWaiters { s with me := (buildPfds env s).me } []).numWaiting).2.2 = none ∧
    ∃ timeout, xpqueue_wait s arg env =
      waitPoll env
        (addSigPipe env (XPQueue_wakeChildWaiters { s with me := (buildPfds env s).me } []).state
          (buildPfds env s).nfdsUsed
          (XPQueue_wakeChildWaiters { s with me := (buildPfds env s).me } []).numWaiting).1
        (XPQueue_wakeChildWaiters { s with me := (buildPfds env s).me } []).ready
        (addSigPipe env (XPQueue_wakeChildWaiters { s with me := (buildPfds env s).me } []).state
          (buildPfds env s).nfdsUsed
          (XPQueue_wakeChildWaiters { s with me := (buildPfds env s).me } []).numWaiting).2.1
        (XPQueue_wakeChildWaiters { s with me := (buildPfds env s).me } []).numWaiting
        timeout := by
  unfold xpqueue_wait at hr ⊢
  cases hco : coerceTimeout arg with
  | error msg =>
    rw [hco] at hr
    simp at hr
  | ok timeout0 =>
    rw [hco] at hr
    dsimp only at hr ⊢
    cases hb : (buildPfds env s).err with
    | some msg =>
      rw [hb] at hr
      simp at hr
    | none =>
      rw [hb] at hr
      dsimp only at hr ⊢
      generalize hsw : XPQueue_wakeChildWaiters { s with me := (buildPfds env s).me } [] = sw
        at hr ⊢
      cases hswe : sw.err with
      | some msg =>
        rw [hswe] at hr
        simp at hr
      | none =>
        rw [hswe] at hr
        dsimp only at hr ⊢
        generalize ha : addSigPipe env sw.state (buildPfds env s).nfdsUsed sw.numWaiting = a
          at hr ⊢
        cases hae : a.2.2 with
        | some msg =>
          rw [hae] at hr
          simp at hr
        | none =>
          rw [hae] at hr
          dsimp only at hr ⊢
          refine ⟨rfl, rfl, rfl, (if sw.ready.length ≠ 0 then 0 else timeout0), ?_⟩
          by_cases hc : (if sw.ready.length ≠ 0 then 0 else timeout0) = -1 ∧ a.2.1 = 0
          · rw [if_pos hc] at hr
            simp at hr
          · rw [if_neg hc]

/-- The part of `xpqueue_wait` after `XPQueue_wakeSockets`, when an array is
returned: readers, writers and the buffer are those left by
`XPQueue_wakeSockets`, the array extends its ready array by child waiters
only, and only child waiters have their fields changed. -/
theorem waitPoll_ready_path (env : Env) (s : State) (ready : List Task)
    (nfdsUsed numChildWaiters : Nat) (timeout : Int) (arr : List Task)
    (hr : (waitPoll env s ready nfdsUsed numChildWaiters timeout).result = .ready arr) :
    (XPQueue_wakeSockets
      { s with me := { s.me with pfds := storeRevents env.revents nfdsUsed 0 s.me.pfds } } ready
      (storeRevents env.revents nfdsUsed 0 s.me.pfds)
      (nfdsUsed - (if numChildWaiters ≠ 0 then 1 else 0))).err = none ∧
    (waitPoll env s ready nfdsUsed numChildWaiters timeout).polls =
      List.replicate (env.eintr + 1) (nfdsUsed, timeout) ∧
    (waitPoll env s ready nfdsUsed numChildWaiters timeout).state.readers =
      (XPQueue_wakeSockets
        { s with me := { s.me with pfds := storeRevents env.revents nfdsUsed 0 s.me.pfds } } ready
        (storeRevents env.revents nfdsUsed 0 s.me.pfds)
        (nfdsUsed - (if numChildWaiters ≠ 0 then 1 else 0))).state.readers ∧
    (waitPoll env s ready nfdsUsed numChildWaiters timeout).state.writers =
      (XPQueue_wakeSockets
        { s with me := { s.me with pfds := storeRevents env.revents nfdsUsed 0 s.me.pfds } } ready
        (storeRevents env.revents nfdsUsed 0 s.me.pfds)
        (nfdsUsed - (if numChildWaiters ≠ 0 then 1 else 0))).state.writers ∧
    (waitPoll env s ready nfdsUsed numChildWaiters timeout).state.me =
      (XPQueue_wakeSockets
        { s with me := { s.me with pfds := storeRevents env.revents nfdsUsed 0 s.me.pfds } } ready
        (storeRevents env.revents nfdsUsed 0 s.me.pfds)
        (nfdsUsed - (if numChildWaiters ≠ 0 then 1 else 0))).state.me ∧
    (∀ t, t ∈ (XPQueue_wakeSockets
        { s with me := { s.me with pfds := storeRevents env.revents nfdsUsed 0 s.me.pfds } } ready
        (storeRevents env.revents nfdsUsed 0 s.me.pfds)
        (nfdsUsed - (if numChildWaiters ≠ 0 then 1 else 0))).ready → t ∈ arr) ∧
    (∀ t, t ∈ arr → t ∈ (XPQueue_wakeSockets
        { s with me := { s.me with pfds := storeRevents env.revents nfdsUsed 0 s.me.pfds } } ready
        (storeRevents env.revents nfdsUsed 0 s.me.pfds)
        (nfdsUsed - (if numChildWaiters ≠ 0 then 1 else 0))).ready ∨
      ∃ e ∈ (XPQueue_wakeSockets
        { s with me := { s.me with pfds := storeRevents env.revents nfdsUsed 0 s.me.pfds } } ready
        (storeRevents env.revents nfdsUsed 0 s.me.pfds)
        (nfdsUsed - (if numChildWaiters ≠ 0 then 1 else 0))).state.childWaiters, e.2 = t) ∧
    (∀ t, (∀ e ∈ (XPQueue_wakeSockets
        { s with me := { s.me with pfds := storeRevents env.revents nfdsUsed 0 s.me.pfds } } ready
        (storeRevents env.revents nfdsUsed 0 s.me.pfds)
        (nfdsUsed - (if numChildWaiters ≠ 0 then 1 else 0))).state.childWaiters, e.2 ≠ t) →
      (waitPoll env s ready nfdsUsed numChildWaiters timeout).state.tasks t =
        (XPQueue_wakeSockets
          { s with me := { s.me with pfds := storeRevents env.revents nfdsUsed 0 s.me.pfds } } ready
          (storeRevents env.revents nfdsUsed 0 s.me.pfds)
          (nfdsUsed - (if numChildWaiters ≠ 0 then 1 else 0))).state.tasks t) ∧
    ((numChildWaiters ≠ 0 →
        testBits (((storeRevents env.revents nfdsUsed 0 s.me.pfds).getD (nfdsUsed - 1)
          zeroPollFd).revents) readableMask = false) →
      (waitPoll env s ready nfdsUsed numChildWaiters timeout).state =
        (XPQueue_wakeSockets
          { s with me := { s.me with pfds := storeRevents env.revents nfdsUsed 0 s.me.pfds } } ready
          (storeRevents env.revents nfdsUsed 0 s.me.pfds)
          (nfdsUsed - (if numChildWaiters ≠ 0 then 1 else 0))).state ∧
      arr = (XPQueue_wakeSockets
          { s with me := { s.me with pfds := storeRevents env.revents nfdsUsed 0 s.me.pfds } } ready
          (storeRevents env.revents nfdsUsed 0 s.me.pfds)
          (nfdsUsed - (if numChildWaiters ≠ 0 then 1 else 0))).ready) := by
  unfold waitPoll at hr ⊢
  dsimp only at hr ⊢
  by_cases hn : env.numOut < 0
  · rw [if_pos hn] at hr
    simp at hr
  · rw [if_neg hn] at hr ⊢
    generalize hw : XPQueue_wakeSockets
      { s with me := { s.me with pfds := storeRevents env.revents nfdsUsed 0 s.me.pfds } } ready
      (storeRevents env.revents nfdsUsed 0 s.me.pfds)
      (nfdsUsed - (if numChildWaiters ≠ 0 then 1 else 0)) = w at hr ⊢
    cases hwe : w.err with
    | some msg =>
      rw [hwe] at hr
      simp at hr
    | none =>
      rw [hwe] at hr
      dsimp only at hr ⊢
      by_cases hc : numChildWaiters ≠ 0 ∧
          testBits (((storeRevents env.revents nfdsUsed 0 s.me.pfds).getD (nfdsUsed - 1)
            zeroPollFd).revents) readableMask = true
      · rw [if_pos hc] at hr ⊢
        generalize hrp : xpproc_reap env w.state.procs w.state.gpHeadProc = r at hr ⊢
        by_cases hr2 : r.2 ≠ 0
        · rw [if_pos hr2] at hr ⊢
          obtain ⟨f1, f2, f3, _, f5, f6, f7⟩ := wakeChildLoop_frame w.state.childWaiters
            { state := { w.state with procs := r.1 }, ready := w.ready, numWaiting := 0,
              err := none }
          generalize hsw : XPQueue_wakeChildWaiters { w.state with procs := r.1 } w.ready = sw
            at hr ⊢
          have hsw' : wakeChildLoop w.state.childWaiters
              { state := { w.state with procs := r.1 }, ready := w.ready, numWaiting := 0,
                err := none } = sw := hsw
          rw [hsw'] at f1 f2 f3 f5 f6 f7
          cases hswe : sw.err with
          | some msg =>
            rw [hswe] at hr
            simp at hr
          | none =>
            rw [hswe] at hr
            dsimp only at hr ⊢
            have harr : sw.ready = arr := by
              simpa using hr
            subst harr
            refine ⟨rfl, rfl, f1, f2, f3, f5, f6, f7, ?_⟩
            intro hf
            rw [hf hc.1] at hc
            simp at hc
        · rw [if_neg hr2] at hr ⊢
          have harr : w.ready = arr := by
            simpa using hr
          subst harr
          refine ⟨rfl, rfl, rfl, rfl, rfl, fun _ h => h, fun _ h => Or.inl h, fun _ _ => rfl, ?_⟩
          intro hf
          rw [hf hc.1] at hc
          simp at hc
      · rw [if_neg hc] at hr ⊢
        have harr : w.ready = arr := by
          simpa using hr
        subst harr
        exact ⟨rfl, rfl, rfl, rfl, rfl, fun _ h => h, fun _ h => Or.inl h, fun _ _ => rfl,
          fun _ => ⟨rfl, rfl⟩⟩

/-- The slots handed to `XPQueue_wakeSockets`: those filled by the loops of
`xpqueue_wait`, with `revents` as `poll` stored it; their descriptors are
distinct. -/
theorem polled_slots (R W : LuaTable) (b : Build) (hb : BuildOk R W b)
    (pfdsA : List PollFd) (nfds : Nat) (rv : Nat → Nat)
    (hpre : ∀ n, n < b.nfdsUsed → pfdsA[n]? = b.me.pfds[n]?) (hle : b.nfdsUsed ≤ nfds) :
    (∀ n, n < b.nfdsUsed → ∃ q : PollFd, b.me.pfds[n]? = some q ∧
      (storeRevents rv nfds 0 pfdsA)[n]? = some { q with revents := rv n }) ∧
    (∀ p ∈ (storeRevents rv nfds 0 pfdsA).take b.nfdsUsed, ∃ (n : Nat) (q : PollFd),
      n < b.nfdsUsed ∧ b.me.pfds[n]? = some q ∧ p = { q with revents := rv n }) ∧
    (((storeRevents rv nfds 0 pfdsA).take b.nfdsUsed).map (fun p => p.fd)).Nodup := by
  have h1 : ∀ n, n < b.nfdsUsed → ∃ q : PollFd, b.me.pfds[n]? = some q ∧
      (storeRevents rv nfds 0 pfdsA)[n]? = some { q with revents := rv n } := by
    intro n hn
    have hlen : n < b.me.pfds.length := lt_of_lt_of_le hn hb.used
    refine ⟨b.me.pfds[n], List.getElem?_eq_getElem hlen, ?_⟩
    rw [getElem?_storeRevents, hpre n hn, List.getElem?_eq_getElem hlen]
    simp only [Option.map_some', Nat.zero_add]
    rw [if_pos (by omega)]
  have h2 : ∀ n p, ((storeRevents rv nfds 0 pfdsA).take b.nfdsUsed)[n]? = some p →
      ∃ q : PollFd, n < b.nfdsUsed ∧ b.me.pfds[n]? = some q ∧ p = { q with revents := rv n } := by
    intro n p hp
    rw [List.getElem?_take] at hp
    by_cases hn : n < b.nfdsUsed
    · rw [if_pos hn] at hp
      obtain ⟨q, hq, hs⟩ := h1 n hn
      rw [hs] at hp
      exact ⟨q, hn, hq, (Option.some.inj hp).symm⟩
    · rw [if_neg hn] at hp
      simp at hp
  refine ⟨h1, ?_, ?_⟩
  · intro p hp
    obtain ⟨n, hn⟩ := List.mem_iff_getElem?.1 hp
    obtain ⟨q, h3, h4, h5⟩ := h2 n p hn
    exact ⟨n, q, h3, h4, h5⟩
  · rw [List.nodup_iff_getElem?_ne_getElem?]
    intro i j hij hj heq
    rw [List.length_map] at hj
    have hj' : ((storeRevents rv nfds 0 pfdsA).take b.nfdsUsed)[j]? =
        some (((storeRevents rv nfds 0 pfdsA).take b.nfdsUsed)[j]) :=
      List.getElem?_eq_getElem hj
    have hi' : ((storeRevents rv nfds 0 pfdsA).take b.nfdsUsed)[i]? =
        some (((storeRevents rv nfds 0 pfdsA).take b.nfdsUsed)[i]) :=
      List.getElem?_eq_getElem (by omega)
    obtain ⟨qj, hjn, hqj, hpj⟩ := h2 j _ hj'
    obtain ⟨qi, hin, hqi, hpi⟩ := h2 i _ hi'
    rw [List.getElem?_map, List.getElem?_map, hi', hj', hpi, hpj] at heq
    simp only [Option.map_some', Option.some.injEq] at heq
    have := hb.inj i j qi qj hin hjn hqi hqj heq
    omega

theorem testBits_zero (mask : Nat) : testBits 0 mask = false := by
  unfold testBits
  simp

/-! ## Which readers and writers `XPQueue_wakeSockets` wakes -/

theorem int_key_of_fdOf (m : Mode) (hm : m ≠ .CHILD) (e : LuaKey × Task) (hk : keyOk m e.1) :
    e.1 = .int (fdOf e) := by
  unfold fdOf
  cases m with
  | CHILD => exact absurd rfl hm
  | READ => cases h : e.1 <;> simp_all [keyOk, keyToInt]
  | WRITE => cases h : e.1 <;> simp_all [keyOk, keyToInt]

/-- The socket phase of `wait`, for the entry of one reader or writer: the
entry has a slot; when `poll` reported the slot ready for the mode, the task
is appended to the ready array and the entry deleted; otherwise the entry
and the fields of the task stay as they are and the task is not appended. -/
theorem wakeSockets_entry (s0 : State) (ready0 : List Task) (b : Build) (nfds : Nat)
    (rv : Nat → Nat) (hok : TablesOk s0) (hb : BuildOk s0.readers s0.writers b)
    (hpre : ∀ n, n < b.nfdsUsed → s0.me.pfds[n]? = b.me.pfds[n]?) (hle : b.nfdsUsed ≤ nfds) :
    (wakeSocketsLoop ((storeRevents rv nfds 0 s0.me.pfds).take b.nfdsUsed)
      { state := { s0 with me := { s0.me with pfds := storeRevents rv nfds 0 s0.me.pfds } },
        ready := ready0, err := none }).err = none ∧
    (wakeSocketsLoop ((storeRevents rv nfds 0 s0.me.pfds).take b.nfdsUsed)
      { state := { s0 with me := { s0.me with pfds := storeRevents rv nfds 0 s0.me.pfds } },
        ready := ready0, err := none }).state.me =
      { s0.me with pfds := storeRevents rv nfds 0 s0.me.pfds } ∧
    (wakeSocketsLoop ((storeRevents rv nfds 0 s0.me.pfds).take b.nfdsUsed)
      { state := { s0 with me := { s0.me with pfds := storeRevents rv nfds 0 s0.me.pfds } },
        ready := ready0, err := none }).state.childWaiters = s0.childWaiters ∧
    ∀ m, m ≠ .CHILD → ∀ fd t, rawget (s0.table m) (.int fd) = some t →
      ∃ (n : Nat) (q : PollFd), n < b.nfdsUsed ∧ b.me.pfds[n]? = some q ∧ q.fd = fd ∧
        (storeRevents rv nfds 0 s0.me.pfds)[n]? = some { q with revents := rv n } ∧
        testBits q.events (eventBit m) = true ∧
        (testBits (rv n) (readyMask m) = true →
          t ∈ (wakeSocketsLoop ((storeRevents rv nfds 0 s0.me.pfds).take b.nfdsUsed)
            { state := { s0 with me := { s0.me with pfds := storeRevents rv nfds 0 s0.me.pfds } },
              ready := ready0, err := none }).ready ∧
          rawget ((wakeSocketsLoop ((storeRevents rv nfds 0 s0.me.pfds).take b.nfdsUsed)
            { state := { s0 with me := { s0.me with pfds := storeRevents rv nfds 0 s0.me.pfds } },
              ready := ready0, err := none }).state.table m) (.int fd) = none) ∧
        (testBits (rv n) (readyMask m) = false →
          rawget ((wakeSocketsLoop ((storeRevents rv nfds 0 s0.me.pfds).take b.nfdsUsed)
            { state := { s0 with me := { s0.me with pfds := storeRevents rv nfds 0 s0.me.pfds } },
              ready := ready0, err := none }).state.table m) (.int fd) = some t ∧
          (wakeSocketsLoop ((storeRevents rv nfds 0 s0.me.pfds).take b.nfdsUsed)
            { state := { s0 with me := { s0.me with pfds := storeRevents rv nfds 0 s0.me.pfds } },
              ready := ready0, err := none }).state.tasks t = s0.tasks t ∧
          (t ∈ (wakeSocketsLoop ((storeRevents rv nfds 0 s0.me.pfds).take b.nfdsUsed)
            { state := { s0 with me := { s0.me with pfds := storeRevents rv nfds 0 s0.me.pfds } },
              ready := ready0, err := none }).ready → t ∈ ready0)) := by
  obtain ⟨hslot, hmemL, hnd⟩ := polled_slots s0.readers s0.writers b hb s0.me.pfds nfds rv hpre hle
  have presR : ∀ p ∈ (storeRevents rv nfds 0 s0.me.pfds).take b.nfdsUsed, hitR p = true →
      ∃ t, rawget s0.readers (.int p.fd) = some t := by
    intro p hp hh
    obtain ⟨n, q, hn, hq, rfl⟩ := hmemL p hp
    have hin : testBits q.events POLLIN = true := by
      unfold hitR at hh
      simp only [Bool.and_eq_true] at hh
      exact hh.1
    obtain ⟨e, he, hfd⟩ := (hb.pollin n q hn hq).1 hin
    have hkey := int_key_of_fdOf .READ (by decide) e (hok.keys .READ e he)
    refine ⟨e.2, rawget_of_mem _ _ _ (hok.nodup .READ) ?_⟩
    have : ((LuaKey.int q.fd), e.2) = e := by
      rw [← hfd, ← hkey]
    rw [this]
    exact he
  have presW : ∀ p ∈ (storeRevents rv nfds 0 s0.me.pfds).take b.nfdsUsed, hitW p = true →
      ∃ t, rawget s0.writers (.int p.fd) = some t := by
    intro p hp hh
    obtain ⟨n, q, hn, hq, rfl⟩ := hmemL p hp
    have hin : testBits q.events POLLOUT = true := by
      unfold hitW at hh
      simp only [Bool.and_eq_true] at hh
      exact hh.1
    obtain ⟨e, he, hfd⟩ := (hb.pollout n q hn hq).1 hin
    have hkey := int_key_of_fdOf .WRITE (by decide) e (hok.keys .WRITE e he)
    refine ⟨e.2, rawget_of_mem _ _ _ (hok.nodup .WRITE) ?_⟩
    have : ((LuaKey.int q.fd), e.2) = e := by
      rw [← hfd, ← hkey]
    rw [this]
    exact he
  obtain ⟨l1, l2, l3, l4, l5, l6, l7, _, l9, l10⟩ := wakeSocketsLoop_spec
    ((storeRevents rv nfds 0 s0.me.pfds).take b.nfdsUsed)
    { state := { s0 with me := { s0.me with pfds := storeRevents rv nfds 0 s0.me.pfds } },
      ready := ready0, err := none } rfl presR presW hnd
  refine ⟨l1, l7, l6, ?_⟩
  intro m hm fd t hent
  have hmem : ((LuaKey.int fd), t) ∈ s0.table m := rawget_some_mem _ _ _ hent
  have hfields := hok.fields m _ hmem
  -- the slot of the entry
  have hslotm : ∃ (n : Nat) (q : PollFd), n < b.nfdsUsed ∧ b.me.pfds[n]? = some q ∧ q.fd = fd ∧
      testBits q.events (eventBit m) = true := by
    cases m with
    | CHILD => exact absurd rfl hm
    | READ =>
      obtain ⟨n, q, hn, hq, hfd⟩ := hb.coverR _ hmem
      exact ⟨n, q, hn, hq, hfd, (hb.pollin n q hn hq).2 ⟨_, hmem, hfd.symm⟩⟩
    | WRITE =>
      obtain ⟨n, q, hn, hq, hfd⟩ := hb.coverW _ hmem
      exact ⟨n, q, hn, hq, hfd, (hb.pollout n q hn hq).2 ⟨_, hmem, hfd.symm⟩⟩
  obtain ⟨n, q, hn, hq, hfd, hev⟩ := hslotm
  -- every slot of the list with this descriptor is slot n
  have huniq : ∀ p ∈ (storeRevents rv nfds 0 s0.me.pfds).take b.nfdsUsed, p.fd = fd →
      p = { q with revents := rv n } := by
    intro p hp hpfd
    obtain ⟨n', q', hn', hq', rfl⟩ := hmemL p hp
    have : n' = n := hb.inj n' n q' q hn' hn hq' hq (hpfd.trans hfd.symm)
    subst this
    rw [hq] at hq'
    rw [Option.some.inj hq']
  have hinL : ({ q with revents := rv n } : PollFd) ∈
      (storeRevents rv nfds 0 s0.me.pfds).take b.nfdsUsed := by
    rw [List.mem_iff_getElem?]
    refine ⟨n, ?_⟩
    rw [List.getElem?_take, if_pos hn]
    obtain ⟨q', hq', hs⟩ := hslot n hn
    rw [hq] at hq'
    rw [hs, ← Option.some.inj hq']
  -- the task is woken by no other slot
  have hnotwoken : (hitR { q with revents := rv n } = false ∨ m ≠ .READ) →
      (hitW { q with revents := rv n } = false ∨ m ≠ .WRITE) →
      ¬ Woken ((storeRevents rv nfds 0 s0.me.pfds).take b.nfdsUsed)
        { s0 with me := { s0.me with pfds := storeRevents rv nfds 0 s0.me.pfds } } t := by
    rintro h1 h2 ⟨p, hp, hw⟩
    rcases hw with ⟨hh, hrg⟩ | ⟨hh, hrg⟩
    · have hf := hok.fields .READ _ (rawget_some_mem _ _ _ hrg)
      have hmR : m = .READ := by
        have := hf.1
        rw [hfields.1] at this
        exact Option.some.inj this
      have hk : (LuaKey.int p.fd) = .int fd := by
        have := hf.2
        rw [hfields.2] at this
        exact (Option.some.inj this).symm
      have hpfd : p.fd = fd := by
        injection hk
      rw [huniq p hp hpfd] at hh
      rcases h1 with h1 | h1
      · rw [h1] at hh
        simp at hh
      · exact h1 hmR
    · have hf := hok.fields .WRITE _ (rawget_some_mem _ _ _ hrg)
      have hmW : m = .WRITE := by
        have := hf.1
        rw [hfields.1] at this
        exact Option.some.inj this
      have hk : (LuaKey.int p.fd) = .int fd := by
        have := hf.2
        rw [hfields.2] at this
        exact (Option.some.inj this).symm
      have hpfd : p.fd = fd := by
        injection hk
      rw [huniq p hp hpfd] at hh
      rcases h2 with h2 | h2
      · rw [h2] at hh
        simp at hh
      · exact h2 hmW
  have hstored : (storeRevents rv nfds 0 s0.me.pfds)[n]? = some { q with revents := rv n } := by
    obtain ⟨q', hq', hs⟩ := hslot n hn
    rw [hq] at hq'
    rw [hs, ← Option.some.inj hq']
  refine ⟨n, q, hn, hq, hfd, hstored, hev, ?_, ?_⟩
  · intro hrv
    cases m with
    | CHILD => exact absurd rfl hm
    | READ =>
      have hh : hitR { q with revents := rv n } = true := by
        unfold hitR
        simp only [Bool.and_eq_true]
        exact ⟨hev, hrv⟩
      constructor
      · rw [l9]
        exact Or.inr ⟨_, hinL, Or.inl ⟨hh, by rw [← hfd] at hent; exact hent⟩⟩
      · exact l2 _ ⟨_, hinL, hh, by rw [← hfd]⟩
    | WRITE =>
      have hh : hitW { q with revents := rv n } = true := by
        unfold hitW
        simp only [Bool.and_eq_true]
        exact ⟨hev, hrv⟩
      constructor
      · rw [l9]
        exact Or.inr ⟨_, hinL, Or.inr ⟨hh, by rw [← hfd] at hent; exact hent⟩⟩
      · exact l4 _ ⟨_, hinL, hh, by rw [← hfd]⟩
  · intro hrv
    cases m with
    | CHILD => exact absurd rfl hm
    | READ =>
      have hh : hitR { q with revents := rv n } = false := by
        unfold hitR
        have : testBits (rv n) readableMask = false := hrv
        simp [this]
      have hnw := hnotwoken (Or.inl hh) (Or.inr (by decide))
      refine ⟨?_, l10 t hnw, ?_⟩
      · have : ¬ ∃ p ∈ (storeRevents rv nfds 0 s0.me.pfds).take b.nfdsUsed,
            hitR p = true ∧ (LuaKey.int fd) = .int p.fd := by
          rintro ⟨p, hp, hhp, hk⟩
          have hpfd : p.fd = fd := by
            injection hk with h1
            exact h1.symm
          rw [huniq p hp hpfd, hh] at hhp
          simp at hhp
        exact (l3 _ this).trans hent
      · intro ht
        rcases (l9 t).1 ht with h1 | h1
        · exact h1
        · exact absurd h1 hnw
    | WRITE =>
      have hh : hitW { q with revents := rv n } = false := by
        unfold hitW
        have : testBits (rv n) writableMask = false := hrv
        simp [this]
      have hnw := hnotwoken (Or.inr (by decide)) (Or.inl hh)
      refine ⟨?_, l10 t hnw, ?_⟩
      · have : ¬ ∃ p ∈ (storeRevents rv nfds 0 s0.me.pfds).take b.nfdsUsed,
            hitW p = true ∧ (LuaKey.int fd) = .int p.fd := by
          rintro ⟨p, hp, hhp, hk⟩
          have hpfd : p.fd = fd := by
            injection hk with h1
            exact h1.symm
          rw [huniq p hp hpfd, hh] at hhp
          simp at hhp
        exact (l5 _ this).trans hent
      · intro ht
        rcases (l9 t).1 ht with h1 | h1
        · exact h1
        · exact absurd h1 hnw

/-! ## `wait`: the readers and writers that are woken -/

theorem wakeChildWaiters_frame (s : State) (ready : List Task) :
    (XPQueue_wakeChildWaiters s ready).state.readers = s.readers ∧
    (XPQueue_wakeChildWaiters s ready).state.writers = s.writers ∧
    (XPQueue_wakeChildWaiters s ready).state.me = s.me ∧
    (XPQueue_wakeChildWaiters s ready).state.procs = s.procs ∧
    (∀ t, t ∈ ready → t ∈ (XPQueue_wakeChildWaiters s ready).ready) ∧
    (∀ t, t ∈ (XPQueue_wakeChildWaiters s ready).ready →
      t ∈ ready ∨ ∃ e ∈ s.childWaiters, e.2 = t) ∧
    (∀ t, (∀ e ∈ s.childWaiters, e.2 ≠ t) →
      (XPQueue_wakeChildWaiters s ready).state.tasks t = s.tasks t) :=
  wakeChildLoop_frame s.childWaiters
    { state := s, ready := ready, numWaiting := 0, err := none }

theorem table_eq_of (s s' : State) (hr : s'.readers = s.readers) (hw : s'.writers = s.writers)
    (m : Mode) (hm : m ≠ .CHILD) : s'.table m = s.table m := by
  cases m with
  | CHILD => exact absurd rfl hm
  | READ => exact hr
  | WRITE => exact hw

/-- A task that is the value of an entry of the readers or writers table is
the value of no entry of the child-waiters table. -/
theorem not_child_value (s : State) (h : TablesOk s) (m : Mode) (hm : m ≠ .CHILD)
    (k : LuaKey) (t : Task) (hent : rawget (s.table m) k = some t) :
    ∀ e ∈ s.childWaiters, e.2 ≠ t := by
  intro e he heq
  have h1 := (h.fields .CHILD e he).1
  have h2 := (h.fields m _ (rawget_some_mem _ _ _ hent)).1
  rw [heq] at h1
  rw [h1] at h2
  exact hm (Option.some.inj h2).symm

/-- The reader or writer of a descriptor, across one call of `wait` that
returns an array: the descriptor has one slot among those handed to `poll`;
the task is in the array and its entry deleted exactly when `poll` reported
the slot ready for the mode; otherwise the entry and the fields of the task
are unchanged. -/
theorem wait_entry (s : State) (arg : TimeoutArg) (env : Env) (arr : List Task)
    (h : Reachable s) (hr : (xpqueue_wait s arg env).result = .ready arr)
    (m : Mode) (hm : m ≠ .CHILD) (fd : Int) (t : Task)
    (hent : rawget (s.table m) (.int fd) = some t) :
    ∃ (n : Nat) (pfd : PollFd), (∀ c ∈ (xpqueue_wait s arg env).polls, n < c.1) ∧
      (xpqueue_wait s arg env).state.me.pfds[n]? = some pfd ∧ pfd.fd = fd ∧
      pfd.revents = env.revents n ∧ testBits pfd.events (eventBit m) = true ∧
      ((t ∈ arr ∧ rawget ((xpqueue_wait s arg env).state.table m) (.int fd) = none) ↔
        testBits (env.revents n) (readyMask m) = true) ∧
      (testBits (env.revents n) (readyMask m) = false →
        rawget ((xpqueue_wait s arg env).state.table m) (.int fd) = some t ∧
        (xpqueue_wait s arg env).state.tasks t = s.tasks t) := by
  have hok := tablesOk_reachable s h
  have hbuf := bufOk_reachable s h
  obtain ⟨hbe, hswe, hae, timeout, hwait⟩ := wait_ready_path s arg env arr hr
  have hb := buildOk_buildPfds env s hok hbuf hbe
  have hok1 : TablesOk { s with me := (buildPfds env s).me } :=
    tablesOk_congr s _ (table_with_me s _) rfl hok
  obtain ⟨f1, f2, f3, _, _, f6, f7⟩ :=
    wakeChildWaiters_frame { s with me := (buildPfds env s).me } []
  have hcl := wakeChildWaiters_closed _ waitClosed_ready
    { s with me := (buildPfds env s).me } []
    ⟨hok1, fun t ht => absurd ht (List.not_mem_nil t)⟩
  rw [hwait] at hr ⊢
  clear hwait
  generalize XPQueue_wakeChildWaiters { s with me := (buildPfds env s).me } [] = sw
    at hr hswe hae f1 f2 f3 f6 f7 hcl ⊢
  generalize buildPfds env s = b at hr hbe hb hae f3 ⊢
  have f1' : sw.state.readers = s.readers := f1
  have f2' : sw.state.writers = s.writers := f2
  have f3' : sw.state.me = b.me := f3
  obtain ⟨a1, a2, a3, a4, _, a6, a7, a8, _, _⟩ := addSigPipe_ok env sw.state b.nfdsUsed
    sw.numWaiting (by rw [f3']; exact hb.buf) (by rw [f3']; exact hb.used) hae
  generalize addSigPipe env sw.state b.nfdsUsed sw.numWaiting = a
    at hr hae a1 a2 a3 a4 a6 a7 a8 ⊢
  obtain ⟨_, p2, p3, p4, p5, p6, _, p8, _⟩ :=
    waitPoll_ready_path env a.1 sw.ready a.2.1 sw.numWaiting timeout arr hr
  have hoka : TablesOk a.1 :=
    tablesOk_congr sw.state a.1 (fun m => by cases m <;> simp [State.table, a1, a2, a3]) a4 hcl.1
  have hba : BuildOk a.1.readers a.1.writers b := by
    rw [a1, a2, f1', f2']
    exact hb
  obtain ⟨_, e2, e3, e4⟩ := wakeSockets_entry a.1 sw.ready b a.2.1 env.revents hoka hba
    (fun n hn => by rw [a6 n hn, f3']) a8
  have hw : XPQueue_wakeSockets
      { a.1 with me := { a.1.me with pfds := storeRevents env.revents a.2.1 0 a.1.me.pfds } }
      sw.ready (storeRevents env.revents a.2.1 0 a.1.me.pfds)
      (a.2.1 - (if sw.numWaiting ≠ 0 then 1 else 0)) =
      wakeSocketsLoop ((storeRevents env.revents a.2.1 0 a.1.me.pfds).take b.nfdsUsed)
        { state := { a.1 with
            me := { a.1.me with pfds := storeRevents env.revents a.2.1 0 a.1.me.pfds } },
          ready := sw.ready, err := none } := by
    unfold XPQueue_wakeSockets
    rw [a7]
  rw [hw] at p3 p4 p5 p6 p8
  have hokw := wakeSocketsLoop_closed _ waitClosed_tablesOk
    ((storeRevents env.revents a.2.1 0 a.1.me.pfds).take b.nfdsUsed)
    { state := { a.1 with
        me := { a.1.me with pfds := storeRevents env.revents a.2.1 0 a.1.me.pfds } },
      ready := sw.ready, err := none }
    (tablesOk_congr a.1 _ (table_with_me a.1 _) rfl hoka)
  generalize wakeSocketsLoop ((storeRevents env.revents a.2.1 0 a.1.me.pfds).take b.nfdsUsed)
    { state := { a.1 with
        me := { a.1.me with pfds := storeRevents env.revents a.2.1 0 a.1.me.pfds } },
      ready := sw.ready, err := none } = w at p3 p4 p5 p6 p8 e2 e3 e4 hokw
  have henta : rawget (a.1.table m) (.int fd) = some t := by
    rw [table_eq_of sw.state a.1 a1 a2 m hm, table_eq_of s sw.state f1' f2' m hm]
    exact hent
  obtain ⟨n, q, hn, _, hfd, hst, hev, g1, g2⟩ := e4 m hm fd t henta
  have hfin : (waitPoll env a.1 sw.ready a.2.1 sw.numWaiting timeout).state.table m =
      w.state.table m := table_eq_of _ _ p3 p4 m hm
  refine ⟨n, { q with revents := env.revents n }, ?_, ?_, hfd, rfl, hev, ?_, ?_⟩
  · intro c hc
    rw [p2] at hc
    rw [(List.mem_replicate.1 hc).2]
    exact lt_of_lt_of_le hn a8
  · rw [p5, e2]
    exact hst
  · constructor
    · rintro ⟨_, hnone⟩
      cases hrv : testBits (env.revents n) (readyMask m) with
      | true => rfl
      | false =>
        have := (g2 hrv).1
        rw [hfin, this] at hnone
        simp at hnone
    · intro hrv
      refine ⟨p6 t (g1 hrv).1, ?_⟩
      rw [hfin]
      exact (g1 hrv).2
  · intro hrv
    obtain ⟨g3, g4, _⟩ := g2 hrv
    refine ⟨by rw [hfin]; exact g3, ?_⟩
    rw [p8 t (not_child_value w.state hokw m hm _ t g3), g4, a4]
    exact f7 t (not_child_value s hok m hm _ t hent)

theorem proc_key_of_child (k : LuaKey) (hk : keyOk .CHILD k) : ∃ p, k = .proc p := by
  cases k with
  | int n => simp [keyOk] at hk
  | proc p => exact ⟨p, rfl⟩

theorem revents_getD_zero (rv : Nat → Nat) (hrv : ∀ n, rv n = 0) (nfds : Nat)
    (pfds : List PollFd) (idx : Nat) (hidx : idx < nfds) :
    ((storeRevents rv nfds 0 pfds).getD idx zeroPollFd).revents = 0 := by
  rw [List.getD_eq_getElem?_getD, getElem?_storeRevents]
  cases pfds[idx]? with
  | none => rfl
  | some p =>
    simp only [Option.map_some', Option.getD_some, Nat.zero_add]
    rw [if_pos hidx]
    exact hrv idx

/-- When `poll` reports no event and no child waiter's process has exited,
a call of `wait` that returns an array returns the empty array and leaves
the three tables and the fields of every task unchanged. -/
theorem wait_nothing_ready (s : State) (arg : TimeoutArg) (env : Env) (arr : List Task)
    (h : Reachable s) (hr : (xpqueue_wait s arg env).result = .ready arr)
    (hrv : ∀ n, env.revents n = 0)
    (hchild : ∀ p t, rawget s.childWaiters (.proc p) = some t → (s.procs p).pid ≠ 0) :
    arr = [] ∧ (xpqueue_wait s arg env).state.readers = s.readers ∧
    (xpqueue_wait s arg env).state.writers = s.writers ∧
    (xpqueue_wait s arg env).state.childWaiters = s.childWaiters ∧
    (xpqueue_wait s arg env).state.tasks = s.tasks := by
  have hok := tablesOk_reachable s h
  have hbuf := bufOk_reachable s h
  obtain ⟨hbe, hswe, hae, timeout, hwait⟩ := wait_ready_path s arg env arr hr
  have hb := buildOk_buildPfds env s hok hbuf hbe
  have hsweep : XPQueue_wakeChildWaiters { s with me := (buildPfds env s).me } [] =
      { state := { s with me := (buildPfds env s).me }, ready := [],
        numWaiting := 0 + s.childWaiters.length, err := none } := by
    unfold XPQueue_wakeChildWaiters
    apply wakeChildLoop_none _ _ rfl
    intro e he
    obtain ⟨p, hp⟩ := proc_key_of_child e.1 (hok.keys .CHILD e he)
    refine ⟨p, hp, hchild p e.2 (rawget_of_mem _ _ _ (hok.nodup .CHILD) ?_)⟩
    rw [← hp]
    exact he
  rw [hwait] at hr ⊢
  clear hwait
  rw [hsweep] at hr hae ⊢
  dsimp only at hr hae ⊢
  generalize buildPfds env s = b at hr hbe hb hae ⊢
  obtain ⟨a1, a2, a3, a4, _, a6, a7, a8, _, a10⟩ := addSigPipe_ok env { s with me := b.me }
    b.nfdsUsed (0 + s.childWaiters.length) hb.buf hb.used hae
  generalize addSigPipe env { s with me := b.me } b.nfdsUsed (0 + s.childWaiters.length) = a
    at hr hae a1 a2 a3 a4 a6 a7 a8 a10 ⊢
  obtain ⟨_, _, _, _, _, _, _, _, p9⟩ :=
    waitPoll_ready_path env a.1 [] a.2.1 (0 + s.childWaiters.length) timeout arr hr
  have hba : BuildOk s.readers s.writers b := hb
  obtain ⟨_, hmemL, _⟩ := polled_slots s.readers s.writers b hba a.1.me.pfds a.2.1 env.revents
    (fun n hn => a6 n hn) a8
  have hw : XPQueue_wakeSockets
      { a.1 with me := { a.1.me with pfds := storeRevents env.revents a.2.1 0 a.1.me.pfds } }
      [] (storeRevents env.revents a.2.1 0 a.1.me.pfds)
      (a.2.1 - (if 0 + s.childWaiters.length ≠ 0 then 1 else 0)) =
      { state := { a.1 with
          me := { a.1.me with pfds := storeRevents env.revents a.2.1 0 a.1.me.pfds } },
        ready := [], err := none } := by
    unfold XPQueue_wakeSockets
    rw [a7]
    apply wakeSocketsLoop_none _ _ rfl
    intro p hp
    obtain ⟨n, q, _, _, rfl⟩ := hmemL p hp
    unfold hitR hitW
    dsimp only
    rw [hrv n, testBits_zero, testBits_zero]
    simp
  rw [hw] at p9
  obtain ⟨p10, p11⟩ := p9 (fun hc => by
    rw [revents_getD_zero env.revents hrv a.2.1 _ (a.2.1 - 1) (by have := a10 hc; omega)]
    exact testBits_zero _)
  rw [p10]
  exact ⟨p11, a1, a2, a3, a4⟩

/-- Claim C8. For every reachable state and every answer of `poll`, across
a call of `wait` that returns an array: the reader registered on a
descriptor has one slot among those handed to `poll`, and it is appended to
the returned array and removed from readers if and only if the `revents` of
that slot intersects `POLLIN|POLLERR|POLLHUP|POLLNVAL`; the writer
registered on a descriptor likewise, with `POLLOUT|POLLERR|POLLHUP|POLLNVAL`;
a reader or writer whose slot reported none of these stays registered with
its fields unchanged; and when `poll` reports no event and no child
waiter's process has exited, the returned array is empty and no table and
no task is changed. -/
theorem wait_wakes_ready_sockets (s : State) (arg : TimeoutArg) (env : Env) (arr : List Task)
    (h : Reachable s) (hr : (xpqueue_wait s arg env).result = .ready arr) :
    (∀ fd t, rawget s.readers (.int fd) = some t →
      ∃ (n : Nat) (pfd : PollFd), (∀ c ∈ (xpqueue_wait s arg env).polls, n < c.1) ∧
        (xpqueue_wait s arg env).state.me.pfds[n]? = some pfd ∧ pfd.fd = fd ∧
        pfd.revents = env.revents n ∧ testBits pfd.events POLLIN = true ∧
        ((t ∈ arr ∧ rawget (xpqueue_wait s arg env).state.readers (.int fd) = none) ↔
          testBits (env.revents n) (POLLIN ||| POLLERR ||| POLLHUP ||| POLLNVAL) = true) ∧
        (testBits (env.revents n) (POLLIN ||| POLLERR ||| POLLHUP ||| POLLNVAL) = false →
          rawget (xpqueue_wait s arg env).state.readers (.int fd) = some t ∧
          (xpqueue_wait s arg env).state.tasks t = s.tasks t)) ∧
    (∀ fd t, rawget s.writers (.int fd) = some t →
      ∃ (n : Nat) (pfd : PollFd), (∀ c ∈ (xpqueue_wait s arg env).polls, n < c.1) ∧
        (xpqueue_wait s arg env).state.me.pfds[n]? = some pfd ∧ pfd.fd = fd ∧
        pfd.revents = env.revents n ∧ testBits pfd.events POLLOUT = true ∧
        ((t ∈ arr ∧ rawget (xpqueue_wait s arg env).state.writers (.int fd) = none) ↔
          testBits (env.revents n) (POLLOUT ||| POLLERR ||| POLLHUP ||| POLLNVAL) = true) ∧
        (testBits (env.revents n) (POLLOUT ||| POLLERR ||| POLLHUP ||| POLLNVAL) = false →
          rawget (xpqueue_wait s arg env).state.writers (.int fd) = some t ∧
          (xpqueue_wait s arg env).state.tasks t = s.tasks t)) ∧
    ((∀ n, env.revents n = 0) →
      (∀ p t, rawget s.childWaiters (.proc p) = some t → (s.procs p).pid ≠ 0) →
      arr = [] ∧ (xpqueue_wait s arg env).state.readers = s.readers ∧
      (xpqueue_wait s arg env).state.writers = s.writers ∧
      (xpqueue_wait s arg env).state.childWaiters = s.childWaiters ∧
      (xpqueue_wait s arg env).state.tasks = s.tasks) :=
  ⟨fun fd t he => wait_entry s arg env arr h hr .READ (by decide) fd t he,
   fun fd t he => wait_entry s arg env arr h hr .WRITE (by decide) fd t he,
   fun hrv hchild => wait_nothing_ready s arg env arr h hr hrv hchild⟩

/-- Claim C8 at the state with four waiters, when `poll` reports slot 0, of
descriptor 5, readable: the reader 1 of descriptor 5 is returned, the reader
4 of descriptor 6 and the writer 2 of descriptor 5 stay registered. -/
theorem wait_wakes_ready_sockets_witness :
    Reachable stateFour ∧ (xpqueue_wait stateFour .nil envSlot0).result = .ready [1] ∧
    rawget (xpqueue_wait stateFour .nil envSlot0).state.readers (.int 5) = none ∧
    rawget (xpqueue_wait stateFour .nil envSlot0).state.readers (.int 6) = some 4 ∧
    rawget (xpqueue_wait stateFour .nil envSlot0).state.writers (.int 5) = some 2 ∧
    ∃ (n : Nat) (pfd : PollFd), (∀ c ∈ (xpqueue_wait stateFour .nil envSlot0).polls, n < c.1) ∧
      (xpqueue_wait stateFour .nil envSlot0).state.me.pfds[n]? = some pfd ∧ pfd.fd = 5 ∧
      pfd.revents = envSlot0.revents n ∧ testBits pfd.events POLLIN = true ∧
      ((1 ∈ [1] ∧ rawget (xpqueue_wait stateFour .nil envSlot0).state.readers (.int 5) = none) ↔
        testBits (envSlot0.revents n) (POLLIN ||| POLLERR ||| POLLHUP ||| POLLNVAL) = true) ∧
      (testBits (envSlot0.revents n) (POLLIN ||| POLLERR ||| POLLHUP ||| POLLNVAL) = false →
        rawget (xpqueue_wait stateFour .nil envSlot0).state.readers (.int 5) = some 1 ∧
        (xpqueue_wait stateFour .nil envSlot0).state.tasks 1 = stateFour.tasks 1) :=
  ⟨reachable_stateFour, by decide, by decide, by decide, by decide,
   (wait_wakes_ready_sockets stateFour .nil envSlot0 [1] reachable_stateFour (by decide)).1 5 1
     (by decide)⟩

/-! ## Formatting an address and parsing it again -/

theorem addrFromString_full (a b c d p : Nat) (ha : a < 256) (hb : b < 256)
    (hc : c < 256) (hd : d < 256) (hp : p < 65536) :
    addrFromString (dotted a b c d (':' :: decimal p)) =
      some { sin_family := AF_INET, sin_port := htons p, sin_addr := [a, b, c, d] } := by
  unfold addrFromString
  rw [addrLoop_dotted a b c d _ ha hb hc hd (by rw [peek_cons]; exact isDigit_colon)
    (by rw [peek_cons]; decide), addrLoop_port 0 p _ (by omega)]
  have h := sockaddr_of_octets a b c d p ha hb hc hd
  have hp256 : p % 65536 = p := by omega
  rw [hp256, pack_or a b c d hb hc hd, htonl_pack a b c d ha hb hc hd] at h
  exact h

theorem htonsOfBytes_htons (p : Nat) (hp : p < 65536) : htonsOfBytes (htons p) = p := by
  unfold htonsOfBytes htons
  simp only [List.getD_cons_zero, List.getD_cons_succ]
  omega

theorem getXname_inet (a b c d p : Nat) (hp : p < 65536) :
    xpsocket_getXname { sin_family := AF_INET, sin_port := htons p, sin_addr := [a, b, c, d] } =
      [.str (String.mk (dotted a b c d (':' :: decimal p)))] := by
  unfold xpsocket_getXname
  rw [if_neg (by simp)]
  simp only [List.getD_cons_zero, List.getD_cons_succ, htonsOfBytes_htons p hp]

/-- Claim C11. For every IPv4 address, with family `AF_INET`, address bytes
`a b c d` and a port `p` up to 65535 stored in network order,
`xpsocket_getXname` gives the string `a.b.c.d:p`, `getsockname` and
`getpeername` return that string when the system call stores this address,
and `addrFromString` on that string succeeds and gives the address back. -/
theorem parse_format_roundtrip (a b c d p : Nat) (ha : a < 256) (hb : b < 256)
    (hc : c < 256) (hd : d < 256) (hp : p < 65536) :
    ∃ text : String,
      text = String.mk (dotted a b c d (':' :: decimal p)) ∧
      xpsocket_getXname
        { sin_family := AF_INET, sin_port := htons p, sin_addr := [a, b, c, d] } = [.str text] ∧
      (∀ (me : XPSocket) (env : SysEnv), env.getname = 0 →
        env.name = { sin_family := AF_INET, sin_port := htons p, sin_addr := [a, b, c, d] } →
        (xpsocket_getsockname me env).ret = [.str text] ∧
        (xpsocket_getpeername me env).ret = [.str text]) ∧
      addrFromString text.toList =
        some { sin_family := AF_INET, sin_port := htons p, sin_addr := [a, b, c, d] } := by
  refine ⟨_, rfl, getXname_inet a b c d p hp, ?_, addrFromString_full a b c d p ha hb hc hd hp⟩
  intro me env h0 hname
  unfold xpsocket_getsockname xpsocket_getpeername
  simp only [h0, ne_eq, not_true_eq_false, if_false, hname, getXname_inet a b c d p hp, and_self]

/-- Claim C11 at the address `127.0.0.1:8080`. -/
theorem parse_format_roundtrip_witness :
    (127 < 256 ∧ 0 < 256 ∧ 1 < 256 ∧ 8080 < 65536) ∧
    String.mk (dotted 127 0 0 1 (':' :: decimal 8080)) = "127.0.0.1:8080" ∧
    htons 8080 = [31, 144] ∧
    ∃ text : String,
      text = String.mk (dotted 127 0 0 1 (':' :: decimal 8080)) ∧
      xpsocket_getXname
        { sin_family := AF_INET, sin_port := htons 8080, sin_addr := [127, 0, 0, 1] } =
          [.str text] ∧
      (∀ (me : XPSocket) (env : SysEnv), env.getname = 0 →
        env.name = { sin_family := AF_INET, sin_port := htons 8080, sin_addr := [127, 0, 0, 1] } →
        (xpsocket_getsockname me env).ret = [.str text] ∧
        (xpsocket_getpeername me env).ret = [.str text]) ∧
      addrFromString text.toList =
        some { sin_family := AF_INET, sin_port := htons 8080, sin_addr := [127, 0, 0, 1] } :=
  ⟨by decide, by decide, by decide,
   parse_format_roundtrip 127 0 0 1 8080 (by decide) (by decide) (by decide) (by decide)
     (by decide)⟩

/-! ## Inputs that `addrFromString` rejects -/

theorem char_eq_of_toNat (c d : Char) (h : c.toNat = d.toNat) : c = d := by
  rw [← Char.ofNat_toNat c, ← Char.ofNat_toNat d, h]

theorem scanDigits_rest (x : Char) (rest : List Char) (hx : isDigit x.toNat = false) :
    ∀ (pre : List Char) (n : Nat), (∀ c ∈ pre, isDigit c.toNat = true ∨ c = '.') →
      ∃ (pre1 : List Char) (n1 : Nat), (∀ c ∈ pre1, isDigit c.toNat = true ∨ c = '.') ∧
        scanDigits (pre ++ x :: rest) n = (n1, pre1 ++ x :: rest) := by
  intro pre
  induction pre with
  | nil =>
    intro n _
    refine ⟨[], n, fun c hc => absurd hc (List.not_mem_nil c), ?_⟩
    rw [List.nil_append, scanDigits_cons, if_neg (by rw [hx]; decide)]
  | cons c pre ih =>
    intro n hpre
    rw [List.cons_append, scanDigits_cons]
    by_cases hc : isDigit c.toNat = true
    · rw [if_pos hc]
      exact ih _ (fun c1 h1 => hpre c1 (List.mem_cons_of_mem c h1))
    · rw [if_neg hc]
      exact ⟨c :: pre, n, hpre, rfl⟩

theorem peek_not_end (x : Char) (rest : List Char) (hx0 : x.toNat ≠ 0) (hxc : x ≠ ':')
    (pre : List Char) (hpre : ∀ c ∈ pre, isDigit c.toNat = true ∨ c = '.') :
    peek (pre ++ x :: rest) ≠ 0 ∧ peek (pre ++ x :: rest) ≠ ':'.toNat := by
  cases pre with
  | nil =>
    rw [List.nil_append, peek_cons]
    exact ⟨hx0, fun h => hxc (char_eq_of_toNat _ _ h)⟩
  | cons c pre =>
    rw [List.cons_append, peek_cons]
    rcases hpre c (List.mem_cons_self c pre) with h | h
    · exact ⟨(isDigit_ne _ h).1, (isDigit_ne _ h).2.1⟩
    · rw [h]
      exact ⟨by decide, by decide⟩

theorem skip_dot_rest (x : Char) (rest : List Char) (hxd : x ≠ '.')
    (pre : List Char) (hpre : ∀ c ∈ pre, isDigit c.toNat = true ∨ c = '.') :
    ∃ pre1 : List Char, (∀ c ∈ pre1, isDigit c.toNat = true ∨ c = '.') ∧
      (if peek (pre ++ x :: rest) = '.'.toNat then (pre ++ x :: rest).tail
        else pre ++ x :: rest) = pre1 ++ x :: rest := by
  cases pre with
  | nil =>
    rw [List.nil_append, peek_cons, if_neg (fun h => hxd (char_eq_of_toNat _ _ h))]
    exact ⟨[], fun c hc => absurd hc (List.not_mem_nil c), rfl⟩
  | cons c pre =>
    rw [List.cons_append, peek_cons]
    by_cases hc : c.toNat = '.'.toNat
    · rw [if_pos hc]
      exact ⟨pre, fun c1 h1 => hpre c1 (List.mem_cons_of_mem c h1), rfl⟩
    · rw [if_neg hc]
      exact ⟨c :: pre, hpre, rfl⟩

/-- The loop of `addrFromString` never gets past a character that is not a
digit, a dot, a colon or the end of the string: it fails. -/
theorem addrLoop_stuck (x : Char) (rest : List Char) (hx : isDigit x.toNat = false)
    (hxd : x ≠ '.') (hxc : x ≠ ':') (hx0 : x.toNat ≠ 0) :
    ∀ (left : Nat) (pre : List Char) (st : AddrScan),
      (∀ c ∈ pre, isDigit c.toNat = true ∨ c = '.') →
      addrLoop left (pre ++ x :: rest) st = none := by
  intro left
  induction left with
  | zero =>
    intro pre st hpre
    have hp := peek_not_end x rest hx0 hxc pre hpre
    rw [addrLoop_eq, if_neg hp.1, if_neg hp.2]
  | succ left ih =>
    intro pre st hpre
    have hp := peek_not_end x rest hx0 hxc pre hpre
    rw [addrLoop_eq, if_neg hp.1, if_neg hp.2]
    obtain ⟨pre1, n1, hpre1, hscan⟩ := scanDigits_rest x rest hx pre 0 hpre
    have hs : scanNum (pre ++ x :: rest) = (n1, pre1 ++ x :: rest) := hscan
    simp only [hs]
    obtain ⟨pre2, hpre2, hskip⟩ := skip_dot_rest x rest hxd pre1 hpre1
    rw [hskip]
    exact ih pre2 _ hpre2


theorem addrLoop_fifth (a b c d : Nat) (y : Char) (tail : List Char) (ha : a < 256)
    (hb : b < 256) (hc : c < 256) (hd : d < 256) (hy0 : y.toNat ≠ 0) (hyc : y ≠ ':') :
    addrLoop 4 (dotted a b c d ('.' :: y :: tail)) { i := 0, nums := [0, 0, 0, 0], port := 0 } =
      none := by
  unfold dotted
  rw [addrLoop_octet_dot 3 a _ _ (by omega), addrLoop_octet_dot 2 b _ _ (by omega),
    addrLoop_octet_dot 1 c _ _ (by omega), addrLoop_octet_dot 0 d _ _ (by omega),
    addrLoop_eq, peek_cons, if_neg hy0, if_neg (fun h => hyc (char_eq_of_toNat _ _ h))]

/-- Two classes of strings on which `addrFromString` does return failure: a
character that is not a digit, a dot or a colon comes before any colon (`pre`
holds digits and dots only, `x` is that character), or the string goes on
after four dotted octets and a dot; and whenever `addrFromString` fails,
`bind` and `try_connect` return nil with their message of a malformed address
and make no system call. -/
theorem addrFromString_rejects (pre rest : List Char) (x : Char)
    (hpre : ∀ c ∈ pre, isDigit c.toNat = true ∨ c = '.')
    (hx : isDigit x.toNat = false) (hxd : x ≠ '.') (hxc : x ≠ ':') (hx0 : x.toNat ≠ 0) :
    addrFromString (pre ++ x :: rest) = none ∧
    (∀ (a b c d : Nat) (y : Char) (tail : List Char), a < 256 → b < 256 → c < 256 →
      d < 256 → y.toNat ≠ 0 → y ≠ ':' →
      addrFromString (dotted a b c d ('.' :: y :: tail)) = none) ∧
    (∀ (addr : List Char) (me : XPSocket) (env : SysEnv), addrFromString addr = none →
      xpsocket_bind me addr env =
        { me := me, ret := [.nil, .str "xpio: mal-formed address argument"]
          raised := none, sys := [] } ∧
      xpsocket_try_connect me addr env =
        { me := me, ret := [.nil, .str "xpio: mal-formed address"]
          raised := none, sys := [] }) := by
  refine ⟨?_, ?_, ?_⟩
  · unfold addrFromString
    rw [addrLoop_stuck x rest hx hxd hxc hx0 4 pre _ hpre]
  · intro a b c d y tail ha hb hc hd hy0 hyc
    unfold addrFromString
    rw [addrLoop_fifth a b c d y tail ha hb hc hd hy0 hyc]
  · intro addr me env h
    unfold xpsocket_bind xpsocket_try_connect
    rw [h]
    exact ⟨rfl, rfl⟩

/-- The string `1.2x3`, whose `x` stands inside the address, is rejected. -/
theorem addrFromString_rejects_witness :
    "1.2".toList ++ 'x' :: "3".toList = "1.2x3".toList ∧
    (addrFromString ("1.2".toList ++ 'x' :: "3".toList) = none ∧
    (∀ (a b c d : Nat) (y : Char) (tail : List Char), a < 256 → b < 256 → c < 256 →
      d < 256 → y.toNat ≠ 0 → y ≠ ':' →
      addrFromString (dotted a b c d ('.' :: y :: tail)) = none) ∧
    (∀ (addr : List Char) (me : XPSocket) (env : SysEnv), addrFromString addr = none →
      xpsocket_bind me addr env =
        { me := me, ret := [.nil, .str "xpio: mal-formed address argument"]
          raised := none, sys := [] } ∧
      xpsocket_try_connect me addr env =
        { me := me, ret := [.nil, .str "xpio: mal-formed address"]
          raised := none, sys := [] })) :=
  ⟨by decide,
   addrFromString_rejects "1.2".toList "3".toList 'x' (by decide) (by decide) (by decide)
     (by decide) (by decide)⟩

/-- Claim C12 does not hold of the code, whose syntax validation is still to
be written (the source says so after the loop): `addrFromString` succeeds on
`1.2.3.4:5x`, where an `x` is left over after the port, and on `1..2`, whose
second octet is empty; `bind` and `try_connect` then go on to the system call
with the address 1.2.3.4:5 and report no malformed address. -/
theorem addrFromString_accepts_malformed :
    addrFromString "1.2.3.4:5x".toList =
      some { sin_family := AF_INET, sin_port := [0, 5], sin_addr := [1, 2, 3, 4] } ∧
    addrFromString "1..2".toList =
      some { sin_family := AF_INET, sin_port := [0, 0], sin_addr := [1, 0, 0, 2] } ∧
    (xpsocket_bind { s := 4 } "1.2.3.4:5x".toList sysEnv0).ret = [.boolean true] ∧
    (xpsocket_bind { s := 4 } "1.2.3.4:5x".toList sysEnv0).sys =
      [.bind 4 { sin_family := AF_INET, sin_port := [0, 5], sin_addr := [1, 2, 3, 4] }] ∧
    (xpsocket_try_connect { s := 4 } "1.2.3.4:5x".toList sysEnv0).ret = [.boolean true] ∧
    (xpsocket_try_connect { s := 4 } "1.2.3.4:5x".toList sysEnv0).sys =
      [.connect 4 { sin_family := AF_INET, sin_port := [0, 5], sin_addr := [1, 2, 3, 4] }] := by
  decide

/-! ## Addresses with fewer than four octets -/

theorem addrLoop_tail (left q : Nat) (tl : List Char) (st : AddrScan)
    (h : (tl = [] ∧ q = 0) ∨ (tl = ':' :: decimal q ∧ q < 65536)) (hport : st.port = 0) :
    addrLoop left tl st = some { st with port := q } ∧ isDigit (peek tl) = false ∧
      peek tl ≠ '.'.toNat := by
  rcases h with ⟨h1, h2⟩ | ⟨h1, h2⟩
  · subst h1
    subst h2
    refine ⟨?_, by decide, by decide⟩
    rw [addrLoop_end, ← hport]
  · subst h1
    refine ⟨addrLoop_port left q st (by omega), ?_, ?_⟩
    · rw [peek_cons]
      exact isDigit_colon
    · rw [peek_cons]
      decide

theorem addrLoop_one (a q : Nat) (tl : List Char) (ha : a < 256)
    (h : (tl = [] ∧ q = 0) ∨ (tl = ':' :: decimal q ∧ q < 65536)) :
    addrLoop 4 (decimal a ++ tl) { i := 0, nums := [0, 0, 0, 0], port := 0 } =
      some { i := 1, nums := [a, 0, 0, 0], port := q } := by
  have ht := addrLoop_tail 3 q tl { i := 1, nums := [a, 0, 0, 0], port := 0 } h rfl
  rw [addrLoop_octet 3 a tl _ (by omega) ht.2.1, if_neg ht.2.2]
  exact ht.1

theorem addrLoop_two (a b q : Nat) (tl : List Char) (ha : a < 256) (hb : b < 256)
    (h : (tl = [] ∧ q = 0) ∨ (tl = ':' :: decimal q ∧ q < 65536)) :
    addrLoop 4 (decimal a ++ '.' :: (decimal b ++ tl))
        { i := 0, nums := [0, 0, 0, 0], port := 0 } =
      some { i := 2, nums := [a, b, 0, 0], port := q } := by
  have ht := addrLoop_tail 2 q tl { i := 2, nums := [a, b, 0, 0], port := 0 } h rfl
  rw [addrLoop_octet_dot 3 a _ _ (by omega), addrLoop_octet 2 b tl _ (by omega) ht.2.1,
    if_neg ht.2.2]
  exact ht.1

theorem addrLoop_three (a b c q : Nat) (tl : List Char) (ha : a < 256) (hb : b < 256)
    (hc : c < 256) (h : (tl = [] ∧ q = 0) ∨ (tl = ':' :: decimal q ∧ q < 65536)) :
    addrLoop 4 (decimal a ++ '.' :: (decimal b ++ '.' :: (decimal c ++ tl)))
        { i := 0, nums := [0, 0, 0, 0], port := 0 } =
      some { i := 3, nums := [a, b, c, 0], port := q } := by
  have ht := addrLoop_tail 1 q tl { i := 3, nums := [a, b, c, 0], port := 0 } h rfl
  rw [addrLoop_octet_dot 3 a _ _ (by omega), addrLoop_octet_dot 2 b _ _ (by omega),
    addrLoop_octet 1 c tl _ (by omega) ht.2.1, if_neg ht.2.2]
  exact ht.1

theorem addrFromString_one (a q : Nat) (tl : List Char) (ha : a < 256)
    (h : (tl = [] ∧ q = 0) ∨ (tl = ':' :: decimal q ∧ q < 65536)) :
    addrFromString (decimal a ++ tl) =
      some { sin_family := AF_INET, sin_port := htons q, sin_addr := [0, 0, 0, a] } := by
  have hq : q % 65536 = q := by rcases h with ⟨_, h2⟩ | ⟨_, h2⟩ <;> omega
  unfold addrFromString
  rw [addrLoop_one a q tl ha h]
  have e := htonl_pack 0 0 0 a (by omega) (by omega) (by omega) ha
  simp only [List.getD_cons_zero, List.getD_cons_succ, gt_iff_lt, lt_self_iff_false, if_false,
    Nat.not_ofNat_lt_one, hq]
  norm_num at e ⊢
  refine (congrArg htonl ?_).trans e
  omega


theorem addrFromString_two (a b q : Nat) (tl : List Char) (ha : a < 256) (hb : b < 256)
    (h : (tl = [] ∧ q = 0) ∨ (tl = ':' :: decimal q ∧ q < 65536)) :
    addrFromString (decimal a ++ '.' :: (decimal b ++ tl)) =
      some { sin_family := AF_INET, sin_port := htons q, sin_addr := [a, 0, 0, b] } := by
  have hq : q % 65536 = q := by rcases h with ⟨_, h2⟩ | ⟨_, h2⟩ <;> omega
  unfold addrFromString
  rw [addrLoop_two a b q tl ha hb h]
  have e := htonl_pack a 0 0 b ha (by omega) (by omega) hb
  simp only [List.getD_cons_zero, List.getD_cons_succ, gt_iff_lt, lt_self_iff_false, if_false,
    Nat.one_lt_ofNat, if_true, hq]
  norm_num at e ⊢
  refine (congrArg htonl ?_).trans e
  omega

theorem addrFromString_three (a b c q : Nat) (tl : List Char) (ha : a < 256) (hb : b < 256)
    (hc : c < 256) (h : (tl = [] ∧ q = 0) ∨ (tl = ':' :: decimal q ∧ q < 65536)) :
    addrFromString (decimal a ++ '.' :: (decimal b ++ '.' :: (decimal c ++ tl))) =
      some { sin_family := AF_INET, sin_port := htons q, sin_addr := [a, b, 0, c] } := by
  have hq : q % 65536 = q := by rcases h with ⟨_, h2⟩ | ⟨_, h2⟩ <;> omega
  unfold addrFromString
  rw [addrLoop_three a b c q tl ha hb hc h]
  have e := htonl_pack a b 0 c ha hb (by omega) hc
  simp only [List.getD_cons_zero, List.getD_cons_succ, gt_iff_lt, lt_self_iff_false, if_false,
    Nat.one_lt_ofNat, if_true, hq]
  norm_num at e ⊢
  refine (congrArg htonl ?_).trans e
  omega

theorem scanDigits_mem (psz : List Char) : ∀ (n : Nat) (c : Char),
    c ∈ (scanDigits psz n).2 → c ∈ psz := by
  induction psz with
  | nil =>
    intro n c h
    exact h
  | cons a rest ih =>
    intro n c h
    rw [scanDigits_cons] at h
    by_cases ha : isDigit a.toNat = true
    · rw [if_pos ha] at h
      exact List.mem_cons_of_mem a (ih _ c h)
    · rw [if_neg ha] at h
      exact h

/-- On a string without a colon the loop of `addrFromString` leaves the port
as it was. -/
theorem addrLoop_port_kept : ∀ (left : Nat) (psz : List Char) (st st1 : AddrScan),
    (∀ c ∈ psz, c ≠ ':') → addrLoop left psz st = some st1 → st1.port = st.port := by
  intro left
  induction left with
  | zero =>
    intro psz st st1 hno h
    rw [addrLoop_eq] at h
    by_cases h0 : peek psz = 0
    · rw [if_pos h0] at h
      rw [← Option.some.inj h]
    · rw [if_neg h0] at h
      have hc : peek psz ≠ ':'.toNat := by
        cases psz with
        | nil => exact absurd rfl h0
        | cons c rest =>
          exact fun hh => hno c (List.mem_cons_self c rest) (char_eq_of_toNat _ _ hh)
      rw [if_neg hc] at h
      exact absurd h (by simp)
  | succ left ih =>
    intro psz st st1 hno h
    rw [addrLoop_eq] at h
    by_cases h0 : peek psz = 0
    · rw [if_pos h0] at h
      rw [← Option.some.inj h]
    · rw [if_neg h0] at h
      have hc : peek psz ≠ ':'.toNat := by
        cases psz with
        | nil => exact absurd rfl h0
        | cons c rest =>
          exact fun hh => hno c (List.mem_cons_self c rest) (char_eq_of_toNat _ _ hh)
      rw [if_neg hc] at h
      have hmem : ∀ c ∈ (scanNum psz).2, c ≠ ':' :=
        fun c hcm => hno c (scanDigits_mem psz 0 c hcm)
      have hno1 : ∀ c ∈ (if peek (scanNum psz).2 = '.'.toNat then (scanNum psz).2.tail
          else (scanNum psz).2), c ≠ ':' := by
        intro c hcm
        by_cases hd : peek (scanNum psz).2 = '.'.toNat
        · rw [if_pos hd] at hcm
          exact hmem c (List.mem_of_mem_tail hcm)
        · rw [if_neg hd] at hcm
          exact hmem c hcm
      have h2 : addrLoop left (if peek (scanNum psz).2 = '.'.toNat then (scanNum psz).2.tail
          else (scanNum psz).2)
          { st with i := st.i + 1, nums := st.nums.set st.i (scanNum psz).1 } = some st1 := h
      exact ih _ { st with i := st.i + 1, nums := st.nums.set st.i (scanNum psz).1 } st1 hno1 h2

theorem addrFromString_no_port (psz : List Char) (addr : SockaddrIn)
    (hno : ∀ c ∈ psz, c ≠ ':') (h : addrFromString psz = some addr) :
    addr.sin_port = [0, 0] := by
  unfold addrFromString at h
  cases hl : addrLoop 4 psz { i := 0, nums := [0, 0, 0, 0], port := 0 } with
  | none =>
    rw [hl] at h
    exact absurd h (by simp)
  | some st =>
    rw [hl] at h
    have hp := addrLoop_port_kept 4 psz _ st hno hl
    have hp0 : st.port = 0 := hp
    simp only [Option.some.injEq] at h
    rw [← h, hp0]
    rfl

/-- Claim C13, amended. Octets are below 256 and the port below 65536. On one
to three dot-separated octets, with or without `:port`, `addrFromString`
succeeds: a lone octet is the lowest byte of the address (`a` is `0.0.0.a`);
of two or three octets the last is the lowest byte and the others are the
highest bytes, the bytes between being 0 (`a.b` is `a.0.0.b` and `a.b.c` is
`a.b.0.c`); the empty string is `0.0.0.0`. On every string without a colon
on which `addrFromString` succeeds the port is 0. -/
theorem addrFromString_short (a b c p : Nat) (ha : a < 256) (hb : b < 256) (hc : c < 256)
    (hp : p < 65536) :
    addrFromString (decimal a) =
      some { sin_family := AF_INET, sin_port := [0, 0], sin_addr := [0, 0, 0, a] } ∧
    addrFromString (decimal a ++ '.' :: decimal b) =
      some { sin_family := AF_INET, sin_port := [0, 0], sin_addr := [a, 0, 0, b] } ∧
    addrFromString (decimal a ++ '.' :: (decimal b ++ '.' :: decimal c)) =
      some { sin_family := AF_INET, sin_port := [0, 0], sin_addr := [a, b, 0, c] } ∧
    addrFromString (decimal a ++ ':' :: decimal p) =
      some { sin_family := AF_INET, sin_port := htons p, sin_addr := [0, 0, 0, a] } ∧
    addrFromString (decimal a ++ '.' :: (decimal b ++ ':' :: decimal p)) =
      some { sin_family := AF_INET, sin_port := htons p, sin_addr := [a, 0, 0, b] } ∧
    addrFromString (decimal a ++ '.' :: (decimal b ++ '.' :: (decimal c ++ ':' :: decimal p))) =
      some { sin_family := AF_INET, sin_port := htons p, sin_addr := [a, b, 0, c] } ∧
    addrFromString [] =
      some { sin_family := AF_INET, sin_port := [0, 0], sin_addr := [0, 0, 0, 0] } ∧
    (∀ (psz : List Char) (addr : SockaddrIn), (∀ ch ∈ psz, ch ≠ ':') →
      addrFromString psz = some addr → addr.sin_port = [0, 0]) := by
  have h0 : htons 0 = [0, 0] := rfl
  refine ⟨?_, ?_, ?_, ?_, ?_, ?_, ?_, ?_⟩
  · have h := addrFromString_one a 0 [] ha (Or.inl ⟨rfl, rfl⟩)
    rw [List.append_nil, h0] at h
    exact h
  · have h := addrFromString_two a b 0 [] ha hb (Or.inl ⟨rfl, rfl⟩)
    rw [List.append_nil, h0] at h
    exact h
  · have h := addrFromString_three a b c 0 [] ha hb hc (Or.inl ⟨rfl, rfl⟩)
    rw [List.append_nil, h0] at h
    exact h
  · exact addrFromString_one a p _ ha (Or.inr ⟨rfl, hp⟩)
  · exact addrFromString_two a b p _ ha hb (Or.inr ⟨rfl, hp⟩)
  · exact addrFromString_three a b c p _ ha hb hc (Or.inr ⟨rfl, hp⟩)
  · decide
  · exact fun psz addr hno h => addrFromString_no_port psz addr hno h

/-- Claim C13 at the octets 1, 2, 3 and the port 80: `1` is `0.0.0.1`, `1.2`
is `1.0.0.2` and `1.2.3` is `1.2.0.3`. -/
theorem addrFromString_short_witness :
    (1 < 256 ∧ 2 < 256 ∧ 3 < 256 ∧ 80 < 65536) ∧
    decimal 1 ++ '.' :: decimal 2 = "1.2".toList ∧
    (addrFromString (decimal 1) =
      some { sin_family := AF_INET, sin_port := [0, 0], sin_addr := [0, 0, 0, 1] } ∧
    addrFromString (decimal 1 ++ '.' :: decimal 2) =
      some { sin_family := AF_INET, sin_port := [0, 0], sin_addr := [1, 0, 0, 2] } ∧
    addrFromString (decimal 1 ++ '.' :: (decimal 2 ++ '.' :: decimal 3)) =
      some { sin_family := AF_INET, sin_port := [0, 0], sin_addr := [1, 2, 0, 3] } ∧
    addrFromString (decimal 1 ++ ':' :: decimal 80) =
      some { sin_family := AF_INET, sin_port := htons 80, sin_addr := [0, 0, 0, 1] } ∧
    addrFromString (decimal 1 ++ '.' :: (decimal 2 ++ ':' :: decimal 80)) =
      some { sin_family := AF_INET, sin_port := htons 80, sin_addr := [1, 0, 0, 2] } ∧
    addrFromString (decimal 1 ++ '.' :: (decimal 2 ++ '.' :: (decimal 3 ++ ':' :: decimal 80))) =
      some { sin_family := AF_INET, sin_port := htons 80, sin_addr := [1, 2, 0, 3] } ∧
    addrFromString [] =
      some { sin_family := AF_INET, sin_port := [0, 0], sin_addr := [0, 0, 0, 0] } ∧
    (∀ (psz : List Char) (addr : SockaddrIn), (∀ ch ∈ psz, ch ≠ ':') →
      addrFromString psz = some addr → addr.sin_port = [0, 0])) :=
  ⟨by decide, by decide,
   addrFromString_short 1 2 3 80 (by decide) (by decide) (by decide) (by decide)⟩

/-- Claim C13 fails as stated: `1.2` is parsed as the address `1.0.0.2`, not
as `0.0.1.2`; the first octet goes to the highest byte. -/
theorem addrFromString_two_octets :
    addrFromString "1.2".toList =
      some { sin_family := AF_INET, sin_port := [0, 0], sin_addr := [1, 0, 0, 2] } ∧
    addrFromString "1.2".toList ≠
      some { sin_family := AF_INET, sin_port := [0, 0], sin_addr := [0, 0, 1, 2] } ∧
    addrFromString "1.2".toList ≠ addrFromString "0.0.1.2".toList := by
  decide

/-! ## `try_read` -/

theorem checkUInt_nat (n ndx : Nat) :
    checkUInt (.number (n : Rat)) ndx = .ok (min n UINT_MAX) := by
  unfold checkUInt
  have h0 : (n : Rat) ≥ 0 := Nat.cast_nonneg n
  simp only [h0, not_true_eq_false, if_false]
  by_cases h : (n : Rat) > (UINT_MAX : Rat)
  · rw [if_pos h]
    have h1 : UINT_MAX < n := by exact_mod_cast h
    rw [min_eq_right (le_of_lt h1)]
  · rw [if_neg h]
    have h1 : ¬ UINT_MAX < n := fun h2 => h (by exact_mod_cast h2)
    rw [min_eq_left (not_lt.mp h1)]
    have h2 : Rat.floor (n : Rat) = (n : Int) :=
      (Int.floor_natCast n : ⌊(n : Rat)⌋ = (n : Int))
    rw [h2, Int.toNat_natCast]

theorem try_read_pos (me : XPSocket) (n : Nat) (env : SysEnv) (hn : 0 < n) :
    xpsocket_try_read me (.number (n : Rat)) env =
      { me := me
        ret :=
          if env.readN ≥ 1 then [.bytes (env.readBuf.take env.readN.toNat)]
          else if env.readN = 0 then [.nil]
          else if isRetry env.errno then pushError (some "retry") env.errno
          else pushError none env.errno
        raised := none
        sys := [.read me.s (min n UINT_MAX)] } := by
  unfold xpsocket_try_read
  rw [checkUInt_nat]
  have hm : min n UINT_MAX ≠ 0 := by
    have : 0 < UINT_MAX := by decide
    omega
  simp only [hm, if_false, ne_eq, not_false_eq_true, if_true]


theorem isRetry_iff (e : Int) :
    isRetry e = true ↔
      e = EAGAIN ∨ e = EWOULDBLOCK ∨ e = EINTR ∨ e = EINPROGRESS ∨ e = EALREADY := by
  unfold isRetry
  simp only [Bool.or_eq_true, beq_iff_eq, or_assoc]

theorem try_read_zero (me : XPSocket) (env : SysEnv) :
    xpsocket_try_read me (.number 0) env =
      { me := me, ret := [.integer 0], raised := none, sys := [] } := by
  have h : checkUInt (.number 0) 2 = .ok 0 := by
    have h1 := checkUInt_nat 0 2
    rw [Nat.cast_zero, Nat.zero_min] at h1
    exact h1
  unfold xpsocket_try_read
  rw [h]
  rfl

/-- Claim C14. `try_read(0)` returns the integer 0 and makes no system call.
For a requested size `n > 0` exactly one `read` is made, and: when it reads
`k >= 1` bytes `data` into the buffer, `try_read` returns the string of these
bytes; when it reads 0 bytes, `try_read` returns a lone nil (never `retry`,
never an error text); when it fails with an `errno` among `EAGAIN`,
`EWOULDBLOCK`, `EINTR`, `EINPROGRESS`, `EALREADY`, `try_read` returns nil and
`retry`; when it fails with any other `errno`, nil and the error text of the
platform. -/
theorem try_read_classifies (me : XPSocket) (n : Nat) (env : SysEnv) (hn : 0 < n) :
    xpsocket_try_read me (.number 0) env =
      { me := me, ret := [.integer 0], raised := none, sys := [] } ∧
    (xpsocket_try_read me (.number (n : Rat)) env).sys = [.read me.s (min n UINT_MAX)] ∧
    (xpsocket_try_read me (.number (n : Rat)) env).raised = none ∧
    (∀ data junk : List Nat, env.readBuf = data ++ junk → env.readN = data.length →
      1 ≤ data.length →
      (xpsocket_try_read me (.number (n : Rat)) env).ret = [.bytes data]) ∧
    (env.readN = 0 → (xpsocket_try_read me (.number (n : Rat)) env).ret = [.nil]) ∧
    (env.readN < 0 →
      (env.errno = EAGAIN ∨ env.errno = EWOULDBLOCK ∨ env.errno = EINTR ∨
        env.errno = EINPROGRESS ∨ env.errno = EALREADY) →
      (xpsocket_try_read me (.number (n : Rat)) env).ret = [.nil, .str "retry"]) ∧
    (env.readN < 0 →
      ¬ (env.errno = EAGAIN ∨ env.errno = EWOULDBLOCK ∨ env.errno = EINTR ∨
        env.errno = EINPROGRESS ∨ env.errno = EALREADY) →
      (xpsocket_try_read me (.number (n : Rat)) env).ret = [.nil, .strerror env.errno]) := by
  rw [try_read_pos me n env hn]
  refine ⟨try_read_zero me env, rfl, rfl, ?_, ?_, ?_, ?_⟩
  · intro data junk hbuf hlen h1
    dsimp only
    have h2 : env.readN ≥ 1 := by omega
    rw [if_pos h2, hbuf, hlen, Int.toNat_natCast, List.take_left']
    rfl
  · intro h0
    dsimp only
    rw [if_neg (by omega), if_pos h0]
  · intro hneg he
    dsimp only
    rw [if_neg (by omega), if_neg (by omega), if_pos ((isRetry_iff _).mpr he)]
    rfl
  · intro hneg he
    dsimp only
    have h3 : ¬ (isRetry env.errno = true) := fun h => he ((isRetry_iff _).mp h)
    rw [if_neg (by omega), if_neg (by omega), if_neg h3]
    rfl

/-- Claim C14 on descriptor 4 with a request of 5 bytes: a read of the five
bytes of `hello`, a read of no byte, a read that fails with `EAGAIN`, a read
that fails with `ECONNRESET` (104), and a request of 0 bytes. -/
theorem try_read_classifies_witness :
    (xpsocket_try_read { s := 4 } (.number ((5 : Nat) : Rat)) sysEnv0).ret =
      [.bytes [104, 101, 108, 108, 111]] ∧
    (xpsocket_try_read { s := 4 } (.number ((5 : Nat) : Rat))
      { sysEnv0 with readN := 0 }).ret = [.nil] ∧
    (xpsocket_try_read { s := 4 } (.number ((5 : Nat) : Rat))
      { sysEnv0 with readN := -1, errno := EAGAIN }).ret = [.nil, .str "retry"] ∧
    (xpsocket_try_read { s := 4 } (.number ((5 : Nat) : Rat))
      { sysEnv0 with readN := -1, errno := 104 }).ret = [.nil, .strerror 104] ∧
    (xpsocket_try_read { s := 4 } (.number ((5 : Nat) : Rat)) sysEnv0).sys =
      [.read 4 (min 5 UINT_MAX)] ∧
    xpsocket_try_read { s := 4 } (.number 0) sysEnv0 =
      { me := { s := 4 }, ret := [.integer 0], raised := none, sys := [] } :=
  ⟨(try_read_classifies { s := 4 } 5 sysEnv0 (by decide)).2.2.2.1 [104, 101, 108, 108, 111] []
     (by decide) (by decide) (by decide),
   (try_read_classifies { s := 4 } 5 { sysEnv0 with readN := 0 } (by decide)).2.2.2.2.1
     (by decide),
   (try_read_classifies { s := 4 } 5 { sysEnv0 with readN := -1, errno := EAGAIN }
     (by decide)).2.2.2.2.2.1 (by decide) (by decide),
   (try_read_classifies { s := 4 } 5 { sysEnv0 with readN := -1, errno := 104 }
     (by decide)).2.2.2.2.2.2 (by decide) (by decide),
   (try_read_classifies { s := 4 } 5 sysEnv0 (by decide)).2.1,
   (try_read_classifies { s := 4 } 5 sysEnv0 (by decide)).1⟩

/-! ## `try_connect` -/

theorem try_connect_eq (me : XPSocket) (addr : List Char) (sin : SockaddrIn) (env : SysEnv)
    (haddr : addrFromString addr = some sin) :
    xpsocket_try_connect me addr env =
      { me := me
        ret :=
          if env.connect ≠ 0 ∧ env.errno ≠ EISCONN then
            pushError (if isRetry env.errno then some "retry" else none) env.errno
          else [.boolean true]
        raised := none
        sys := [.connect me.s sin] } := by
  unfold xpsocket_try_connect
  rw [haddr]

/-- Claim C15. On an address that `addrFromString` accepts, `try_connect`
makes one call of `connect` and returns true exactly when `connect` returned
0 or `errno` is `EISCONN`; otherwise it returns nil and `retry` exactly when
`errno` is one of `EAGAIN`, `EWOULDBLOCK`, `EINTR`, `EINPROGRESS`,
`EALREADY`, and nil and the error text of the platform for every other
`errno`. `isRetry` holds exactly of these five codes. -/
theorem try_connect_classifies (me : XPSocket) (addr : List Char) (sin : SockaddrIn)
    (env : SysEnv) (haddr : addrFromString addr = some sin) :
    (xpsocket_try_connect me addr env).sys = [.connect me.s sin] ∧
    ((xpsocket_try_connect me addr env).ret = [.boolean true] ↔
      (env.connect = 0 ∨ env.errno = EISCONN)) ∧
    (¬ (env.connect = 0 ∨ env.errno = EISCONN) →
      ((xpsocket_try_connect me addr env).ret = [.nil, .str "retry"] ↔
        (env.errno = EAGAIN ∨ env.errno = EWOULDBLOCK ∨ env.errno = EINTR ∨
          env.errno = EINPROGRESS ∨ env.errno = EALREADY))) ∧
    (¬ (env.connect = 0 ∨ env.errno = EISCONN) →
      ¬ (env.errno = EAGAIN ∨ env.errno = EWOULDBLOCK ∨ env.errno = EINTR ∨
          env.errno = EINPROGRESS ∨ env.errno = EALREADY) →
      (xpsocket_try_connect me addr env).ret = [.nil, .strerror env.errno]) ∧
    (∀ e : Int, isRetry e = true ↔
      (e = EAGAIN ∨ e = EWOULDBLOCK ∨ e = EINTR ∨ e = EINPROGRESS ∨ e = EALREADY)) := by
  rw [try_connect_eq me addr sin env haddr]
  refine ⟨rfl, ?_, ?_, ?_, isRetry_iff⟩
  · dsimp only
    by_cases hc : env.connect ≠ 0 ∧ env.errno ≠ EISCONN
    · rw [if_pos hc]
      constructor
      · intro h
        unfold pushError at h
        exact absurd h (by simp)
      · intro h
        rcases h with h | h
        · exact absurd h hc.1
        · exact absurd h hc.2
    · rw [if_neg hc]
      constructor
      · intro _
        by_cases h0 : env.connect = 0
        · exact Or.inl h0
        · exact Or.inr (Classical.not_not.mp (fun h1 => hc ⟨h0, h1⟩))
      · intro _
        rfl
  · intro hs
    dsimp only
    have hc : env.connect ≠ 0 ∧ env.errno ≠ EISCONN :=
      ⟨fun h => hs (Or.inl h), fun h => hs (Or.inr h)⟩
    rw [if_pos hc]
    by_cases hr : isRetry env.errno = true
    · rw [if_pos hr]
      exact ⟨fun _ => (isRetry_iff _).mp hr, fun _ => rfl⟩
    · rw [if_neg hr]
      constructor
      · intro h
        unfold pushError at h
        exact absurd h (by simp)
      · intro h
        exact absurd ((isRetry_iff _).mpr h) hr
  · intro hs he
    dsimp only
    have hc : env.connect ≠ 0 ∧ env.errno ≠ EISCONN :=
      ⟨fun h => hs (Or.inl h), fun h => hs (Or.inr h)⟩
    have hr : ¬ (isRetry env.errno = true) := fun h => he ((isRetry_iff _).mp h)
    rw [if_pos hc, if_neg hr]
    rfl

/-- Claim C15 on descriptor 4 with the address `127.0.0.1:80`: a `connect`
that returns 0, one that fails with `EISCONN`, one that fails with
`EINPROGRESS` and one that fails with `ECONNREFUSED` (111). -/
theorem try_connect_classifies_witness :
    addrFromString "127.0.0.1:80".toList =
      some { sin_family := AF_INET, sin_port := [0, 80], sin_addr := [127, 0, 0, 1] } ∧
    (xpsocket_try_connect { s := 4 } "127.0.0.1:80".toList sysEnv0).ret = [.boolean true] ∧
    (xpsocket_try_connect { s := 4 } "127.0.0.1:80".toList
      { sysEnv0 with connect := -1, errno := EISCONN }).ret = [.boolean true] ∧
    (xpsocket_try_connect { s := 4 } "127.0.0.1:80".toList
      { sysEnv0 with connect := -1, errno := EINPROGRESS }).ret = [.nil, .str "retry"] ∧
    (xpsocket_try_connect { s := 4 } "127.0.0.1:80".toList
      { sysEnv0 with connect := -1, errno := 111 }).ret = [.nil, .strerror 111] ∧
    (xpsocket_try_connect { s := 4 } "127.0.0.1:80".toList sysEnv0).sys =
      [.connect 4 { sin_family := AF_INET, sin_port := [0, 80], sin_addr := [127, 0, 0, 1] }] :=
  ⟨by decide,
   (try_connect_classifies { s := 4 } "127.0.0.1:80".toList
     { sin_family := AF_INET, sin_port := [0, 80], sin_addr := [127, 0, 0, 1] } sysEnv0
     (by decide)).2.1.mpr (Or.inl (by decide)),
   (try_connect_classifies { s := 4 } "127.0.0.1:80".toList
     { sin_family := AF_INET, sin_port := [0, 80], sin_addr := [127, 0, 0, 1] }
     { sysEnv0 with connect := -1, errno := EISCONN } (by decide)).2.1.mpr
       (Or.inr (by decide)),
   ((try_connect_classifies { s := 4 } "127.0.0.1:80".toList
     { sin_family := AF_INET, sin_port := [0, 80], sin_addr := [127, 0, 0, 1] }
     { sysEnv0 with connect := -1, errno := EINPROGRESS } (by decide)).2.2.1
       (by decide)).mpr (by decide),
   (try_connect_classifies { s := 4 } "127.0.0.1:80".toList
     { sin_family := AF_INET, sin_port := [0, 80], sin_addr := [127, 0, 0, 1] }
     { sysEnv0 with connect := -1, errno := 111 } (by decide)).2.2.2.1 (by decide) (by decide),
   (try_connect_classifies { s := 4 } "127.0.0.1:80".toList
     { sin_family := AF_INET, sin_port := [0, 80], sin_addr := [127, 0, 0, 1] } sysEnv0
     (by decide)).1⟩


/-! ## `close` -/

/-- Claim C16. On a socket whose descriptor is not -1, `close` closes that
descriptor, sets the field to -1 and returns true; on a socket whose
descriptor is -1 it returns nil and `already closed`, makes no system call
and leaves the socket as it is. So of two `close` calls in a row on a socket
with a descriptor the first succeeds and the second reports the error. -/
theorem close_then_already_closed (me : XPSocket) (env env2 : SysEnv) (h : me.s ≠ -1) :
    xpsocket_close me env =
      { me := { s := -1 }, ret := [.boolean true], raised := none, sys := [.close me.s] } ∧
    xpsocket_close { s := -1 } env2 =
      { me := { s := -1 }, ret := [.nil, .str "already closed"], raised := none, sys := [] } ∧
    xpsocket_close (xpsocket_close me env).me env2 =
      { me := { s := -1 }, ret := [.nil, .str "already closed"], raised := none, sys := [] } := by
  have h1 : xpsocket_close me env =
      { me := { s := -1 }, ret := [.boolean true], raised := none, sys := [.close me.s] } := by
    unfold xpsocket_close
    rw [if_pos h]
  have h2 : xpsocket_close { s := -1 } env2 =
      { me := { s := -1 }, ret := [.nil, .str "already closed"], raised := none, sys := [] } := by
    unfold xpsocket_close
    rw [if_neg (by simp)]
    rfl
  refine ⟨h1, h2, ?_⟩
  rw [h1]
  exact h2

/-- Claim C16 on a socket with descriptor 4. -/
theorem close_then_already_closed_witness :
    ((4 : Int) ≠ -1) ∧
    (xpsocket_close { s := 4 } sysEnv0 =
      { me := { s := -1 }, ret := [.boolean true], raised := none, sys := [.close 4] } ∧
    xpsocket_close { s := -1 } sysEnv0 =
      { me := { s := -1 }, ret := [.nil, .str "already closed"], raised := none, sys := [] } ∧
    xpsocket_close (xpsocket_close { s := 4 } sysEnv0).me sysEnv0 =
      { me := { s := -1 }, ret := [.nil, .str "already closed"], raised := none, sys := [] }) :=
  ⟨by decide, close_then_already_closed { s := 4 } sysEnv0 sysEnv0 (by decide)⟩

/-! ## The socket options -/

theorem cstr_eq_self (s : List Char) (h : ∀ c ∈ s, c.toNat ≠ 0) : cstr s = s := by
  induction s with
  | nil => rfl
  | cons c rest ih =>
    unfold cstr
    rw [if_neg (h c (List.mem_cons_self c rest)),
      ih (fun c1 h1 => h c1 (List.mem_cons_of_mem c h1))]

theorem findSockOpt_isSome (s : List Char) :
    (findSockOpt s).isSome = true ↔
      cstr s ∈ ["TCP_NODELAY".toList, "SO_KEEPALIVE".toList, "SO_REUSEADDR".toList,
        "SO_RCVBUF".toList, "SO_SNDBUF".toList, "O_NONBLOCK".toList] := by
  have e1 : cstr "TCP_NODELAY".toList = "TCP_NODELAY".toList := by decide
  have e2 : cstr "SO_KEEPALIVE".toList = "SO_KEEPALIVE".toList := by decide
  have e3 : cstr "SO_REUSEADDR".toList = "SO_REUSEADDR".toList := by decide
  have e4 : cstr "SO_RCVBUF".toList = "SO_RCVBUF".toList := by decide
  have e5 : cstr "SO_SNDBUF".toList = "SO_SNDBUF".toList := by decide
  have e6 : cstr "O_NONBLOCK".toList = "O_NONBLOCK".toList := by decide
  unfold findSockOpt
  rw [List.find?_isSome]
  unfold opts strcmpEq
  simp only [List.mem_cons, List.mem_singleton, List.not_mem_nil, or_false, exists_eq_or_imp,
    exists_eq_left, beq_iff_eq, e1, e2, e3, e4, e5, e6]

theorem opts_category (po : SockOpt) (h : po ∈ opts) :
    po.category = SOCKOPT_SO ∨ po.category = SOCKOPT_NB := by
  unfold opts at h
  simp only [List.mem_cons, List.mem_singleton, List.not_mem_nil, or_false] at h
  rcases h with h | h | h | h | h | h <;> rw [h] <;> decide


theorem getsockopt_known (me : XPSocket) (s : List Char) (env : SysEnv) (po : SockOpt)
    (h : findSockOpt s = some po) :
    (xpsocket_getsockopt me s env).ret ≠ [.nil, .str "xpio: unknown socket option"] ∧
    (xpsocket_getsockopt me s env).sys ≠ [] := by
  have hmem : po ∈ opts := List.mem_of_find?_eq_some h
  have hcat := opts_category po hmem
  unfold xpsocket_getsockopt
  rw [h]
  dsimp only
  rw [if_pos hcat]
  dsimp only
  constructor
  · unfold pushError
    split_ifs <;> simp
  · split_ifs <;> simp

theorem setsockopt_known (me : XPSocket) (s : List Char) (value : LuaArg) (env : SysEnv)
    (po : SockOpt) (h : findSockOpt s = some po) :
    (xpsocket_setsockopt me s value env).ret ≠ [.nil, .str "xpio: unknown socket option"] := by
  have hmem : po ∈ opts := List.mem_of_find?_eq_some h
  have hcat := opts_category po hmem
  unfold xpsocket_setsockopt
  rw [h]
  dsimp only
  split
  · simp
  · rw [if_pos hcat]
    dsimp only
    unfold pushError
    split_ifs <;> simp

/-- Claim C17. `findSockOpt` returns an entry exactly when the name, read as
a C string, is one of `TCP_NODELAY`, `SO_KEEPALIVE`, `SO_REUSEADDR`,
`SO_RCVBUF`, `SO_SNDBUF`, `O_NONBLOCK`; for a name without a NUL character
that is when the name itself is one of the six. For every other name
`getsockopt` and `setsockopt` return nil and `xpio: unknown socket option`
and make no system call; for the six names neither returns that error, and
`getsockopt` makes a system call on the descriptor. -/
theorem sockopt_whitelist (s : List Char) (me : XPSocket) (value : LuaArg) (env : SysEnv) :
    ((findSockOpt s).isSome = true ↔
      cstr s ∈ ["TCP_NODELAY".toList, "SO_KEEPALIVE".toList, "SO_REUSEADDR".toList,
        "SO_RCVBUF".toList, "SO_SNDBUF".toList, "O_NONBLOCK".toList]) ∧
    ((∀ c ∈ s, c.toNat ≠ 0) →
      ((findSockOpt s).isSome = true ↔
        s ∈ ["TCP_NODELAY".toList, "SO_KEEPALIVE".toList, "SO_REUSEADDR".toList,
          "SO_RCVBUF".toList, "SO_SNDBUF".toList, "O_NONBLOCK".toList])) ∧
    ((findSockOpt s).isSome = false →
      xpsocket_getsockopt me s env =
        { me := me, ret := [.nil, .str "xpio: unknown socket option"]
          raised := none, sys := [] } ∧
      xpsocket_setsockopt me s value env =
        { me := me, ret := [.nil, .str "xpio: unknown socket option"]
          raised := none, sys := [] }) ∧
    ((findSockOpt s).isSome = true →
      (xpsocket_getsockopt me s env).ret ≠ [.nil, .str "xpio: unknown socket option"] ∧
      (xpsocket_getsockopt me s env).sys ≠ [] ∧
      (xpsocket_setsockopt me s value env).ret ≠
        [.nil, .str "xpio: unknown socket option"]) := by
  refine ⟨findSockOpt_isSome s, ?_, ?_, ?_⟩
  · intro hs
    have h := findSockOpt_isSome s
    rw [cstr_eq_self s hs] at h
    exact h
  · intro hnone
    have h : findSockOpt s = none := by
      cases hf : findSockOpt s with
      | none => rfl
      | some po =>
        rw [hf] at hnone
        exact absurd hnone (by simp)
    unfold xpsocket_getsockopt xpsocket_setsockopt
    rw [h]
    exact ⟨rfl, rfl⟩
  · intro hsome
    cases hf : findSockOpt s with
    | none =>
      rw [hf] at hsome
      exact absurd hsome (by simp)
    | some po =>
      exact ⟨(getsockopt_known me s env po hf).1, (getsockopt_known me s env po hf).2,
        setsockopt_known me s value env po hf⟩

/-- Claim C17 on the names `SO_RCVBUF`, which is an option, and `SO_LINGER`,
which is not. -/
theorem sockopt_whitelist_witness :
    (findSockOpt "SO_RCVBUF".toList).isSome = true ∧
    ¬ ((findSockOpt "SO_LINGER".toList).isSome = true) ∧
    (xpsocket_getsockopt { s := 4 } "SO_LINGER".toList sysEnv0 =
        { me := { s := 4 }, ret := [.nil, .str "xpio: unknown socket option"]
          raised := none, sys := [] } ∧
      xpsocket_setsockopt { s := 4 } "SO_LINGER".toList (.boolean true) sysEnv0 =
        { me := { s := 4 }, ret := [.nil, .str "xpio: unknown socket option"]
          raised := none, sys := [] }) ∧
    ((xpsocket_getsockopt { s := 4 } "SO_RCVBUF".toList sysEnv0).ret ≠
        [.nil, .str "xpio: unknown socket option"] ∧
      (xpsocket_getsockopt { s := 4 } "SO_RCVBUF".toList sysEnv0).sys ≠ [] ∧
      (xpsocket_setsockopt { s := 4 } "SO_RCVBUF".toList (.number 4096) sysEnv0).ret ≠
        [.nil, .str "xpio: unknown socket option"]) ∧
    (xpsocket_getsockopt { s := 4 } "SO_RCVBUF".toList sysEnv0).ret = [.number 1] ∧
    (xpsocket_getsockopt { s := 4 } "SO_RCVBUF".toList sysEnv0).sys =
      [.getsockopt 4 SOL_SOCKET SO_RCVBUF] ∧
    (xpsocket_setsockopt { s := 4 } "SO_RCVBUF".toList (.number 4096) sysEnv0).sys =
      [.setsockopt 4 SOL_SOCKET SO_RCVBUF 4096] :=
  ⟨((sockopt_whitelist "SO_RCVBUF".toList { s := 4 } (.number 4096) sysEnv0).2.1
      (by decide)).mpr (by decide),
   fun h => absurd
     (((sockopt_whitelist "SO_LINGER".toList { s := 4 } (.boolean true) sysEnv0).2.1
       (by decide)).mp h) (by decide),
   (sockopt_whitelist "SO_LINGER".toList { s := 4 } (.boolean true) sysEnv0).2.2.1 (by decide),
   (sockopt_whitelist "SO_RCVBUF".toList { s := 4 } (.number 4096) sysEnv0).2.2.2 (by decide),
   by decide, by decide, by decide⟩

/-! ## `fdopen` -/

theorem fdopen_eq (fd : Nat) (env : SysEnv) (hfd : fd ≤ 2147483647) :
    xpio_fdopen (.number (fd : Rat)) env =
      { me := { s := env.dup }
        ret := if env.dup = -1 then pushError none env.errno else [.userdata]
        raised := none
        sys := [.dup (fd : Int)] } := by
  unfold xpio_fdopen
  rw [checkUInt_nat]
  have hm : min fd UINT_MAX = fd := by
    have : UINT_MAX = 4294967295 := rfl
    omega
  have ht : toInt fd = (fd : Int) := by
    unfold toInt
    rw [if_pos hfd]
  simp only [hm, ht]

/-- Claim C18, amended. For every descriptor `fd` (an `int` that is not
negative), `fdopen(fd)` makes one system call, `dup(fd)`, and no other: when
`dup` succeeds it returns a new Socket whose descriptor is the one that `dup`
returned, and when `dup` fails it returns nil and the error text. No call of
`fcntl` is made, so the file status flags, non-blocking among them, stay as
they were. -/
theorem fdopen_dups (fd : Nat) (env : SysEnv) (hfd : fd ≤ 2147483647) :
    (xpio_fdopen (.number (fd : Rat)) env).sys = [.dup (fd : Int)] ∧
    (∀ (d flags : Int), Syscall.fcntl_setfl d flags ∉ (xpio_fdopen (.number (fd : Rat)) env).sys) ∧
    (env.dup ≠ -1 →
      xpio_fdopen (.number (fd : Rat)) env =
        { me := { s := env.dup }, ret := [.userdata], raised := none
          sys := [.dup (fd : Int)] }) ∧
    (env.dup = -1 →
      (xpio_fdopen (.number (fd : Rat)) env).ret = [.nil, .strerror env.errno]) := by
  rw [fdopen_eq fd env hfd]
  refine ⟨rfl, ?_, ?_, ?_⟩
  · intro d flags h
    simp at h
  · intro h
    rw [if_neg h]
  · intro h
    dsimp only
    rw [if_pos h]
    rfl

/-- Claim C18 on descriptor 0, where `dup` returns 3. -/
theorem fdopen_dups_witness :
    ((0 : Nat) ≤ 2147483647) ∧ sysEnv0.dup ≠ -1 ∧
    xpio_fdopen (.number ((0 : Nat) : Rat)) sysEnv0 =
      { me := { s := 3 }, ret := [.userdata], raised := none, sys := [.dup 0] } :=
  ⟨by decide, by decide, (fdopen_dups 0 sysEnv0 (by decide)).2.2.1 (by decide)⟩

/-- Claim C18 fails as stated: `fdopen(0)` makes the one system call `dup(0)`
and returns the Socket of descriptor 3 without a call of `fcntl` on it,
whereas `setNonBlocking` on descriptor 3 is the two calls of `fcntl` that
read the flags and store them with the bit of `O_NONBLOCK` set. -/
theorem fdopen_not_set_nonblocking :
    xpio_fdopen (.number 0) sysEnv0 =
      { me := { s := 3 }, ret := [.userdata], raised := none, sys := [.dup 0] } ∧
    Syscall.fcntl_setfl 3 (sysEnv0.getfl + O_NONBLOCK) ∉ (xpio_fdopen (.number 0) sysEnv0).sys ∧
    (setNonBlocking 3 1 sysEnv0).2 =
      [.fcntl_getfl 3, .fcntl_setfl 3 (sysEnv0.getfl + O_NONBLOCK)] := by
  decide

/-! ## `try_wait` -/

theorem exit_status (c : Int) (h0 : 0 ≤ c) (h1 : c ≤ 255) :
    WIFEXITED (c * 256) = true ∧ WEXITSTATUS (c * 256) = c := by
  unfold WIFEXITED WTERMSIG WEXITSTATUS
  constructor
  · rw [beq_iff_eq]
    omega
  · omega

/-- Claim C19. While the process is not reaped (`pid > 0`), `try_wait`
returns nil and `retry`. Once it is reaped (`pid = 0`) with a status for which
`WIFEXITED` holds, `try_wait` returns `exit` and `WEXITSTATUS` of the status;
the status of a normal exit with code `c` in 0..255 is `c << 8`, for which
`try_wait` returns `exit` and `c`. -/
theorem try_wait_exit (me : XPProc) (errno : Int) :
    (me.pid > 0 → xpproc_try_wait me errno = [.nil, .str "retry"]) ∧
    (me.pid = 0 → WIFEXITED me.status = true →
      xpproc_try_wait me errno = [.str "exit", .integer (WEXITSTATUS me.status)]) ∧
    (∀ c : Int, 0 ≤ c → c ≤ 255 →
      WIFEXITED (c * 256) = true ∧ WEXITSTATUS (c * 256) = c ∧
      xpproc_try_wait { pid := 0, status := c * 256 } errno = [.str "exit", .integer c]) := by
  refine ⟨?_, ?_, ?_⟩
  · intro h
    unfold xpproc_try_wait
    rw [if_pos h]
  · intro hp hx
    unfold xpproc_try_wait
    rw [if_neg (by omega), if_pos hx]
  · intro c h0 h1
    have hs := exit_status c h0 h1
    refine ⟨hs.1, hs.2, ?_⟩
    unfold xpproc_try_wait
    dsimp only
    rw [if_neg (by decide), if_pos hs.1, hs.2]

/-- Claim C19 on a running process with pid 1234, and on reaped processes
that exited with code 0, as `/bin/true` does, and with code 3. -/
theorem try_wait_exit_witness :
    xpproc_try_wait { pid := 1234, status := 0 } 0 = [.nil, .str "retry"] ∧
    xpproc_try_wait { pid := 0, status := 0 } 0 = [.str "exit", .integer 0] ∧
    xpproc_try_wait { pid := 0, status := 3 * 256 } 0 = [.str "exit", .integer 3] :=
  ⟨(try_wait_exit { pid := 1234, status := 0 } 0).1 (by decide),
   (try_wait_exit { pid := 0, status := 0 } 0).2.1 rfl (by decide),
   ((try_wait_exit { pid := 0, status := 0 } 0).2.2 3 (by decide) (by decide)).2.2⟩

/-- Claim C20 at the failing input: for a reaped process that was killed by
signal 9 the status is 9, `WIFSIGNALED` holds of it and `WTERMSIG` is 9, but
`try_wait` returns `signal` with `WSTOPSIG` of the status, which is 0; the
same with the core flag set in the status. -/
theorem try_wait_signal_stopsig :
    WIFEXITED 9 = false ∧ WIFSIGNALED 9 = true ∧ WTERMSIG 9 = 9 ∧ WSTOPSIG 9 = 0 ∧
    xpproc_try_wait { pid := 0, status := 9 } 0 = [.str "signal", .integer 0] ∧
    xpproc_try_wait { pid := 0, status := 9 } 0 ≠ [.str "signal", .integer (WTERMSIG 9)] ∧
    WIFSIGNALED (11 + 128) = true ∧ WTERMSIG (11 + 128) = 11 ∧
    xpproc_try_wait { pid := 0, status := 11 + 128 } 0 = [.str "signal", .integer 0] := by
  decide

/-! ## `scanNum` on every string -/

theorem digitsValue_cons (c : Char) (rest : List Char) (n : Nat) :
    digitsValue (c :: rest) n = digitsValue rest (n * 10 + (c.toNat - 48)) := rfl

theorem digitsValue_mod (ds : List Char) : ∀ a b : Nat, a % 4294967296 = b % 4294967296 →
    digitsValue ds a % 4294967296 = digitsValue ds b % 4294967296 := by
  induction ds with
  | nil =>
    intro a b h
    exact h
  | cons c rest ih =>
    intro a b h
    rw [digitsValue_cons, digitsValue_cons]
    apply ih
    omega

theorem scanDigits_run (psz : List Char) : ∀ n : Nat,
    (scanDigits psz n).2 = psz.dropWhile (fun c => isDigit c.toNat) ∧
    (scanDigits psz n).1 % 4294967296 =
      digitsValue (psz.takeWhile (fun c => isDigit c.toNat)) n % 4294967296 ∧
    (n < 4294967296 → (scanDigits psz n).1 < 4294967296) := by
  induction psz with
  | nil =>
    intro n
    exact ⟨rfl, rfl, fun h => h⟩
  | cons c rest ih =>
    intro n
    rw [scanDigits_cons]
    by_cases hc : isDigit c.toNat = true
    · have hd : (c :: rest).dropWhile (fun c => isDigit c.toNat) =
          rest.dropWhile (fun c => isDigit c.toNat) := by
        simp only [List.dropWhile_cons, hc, if_true]
      have ht : (c :: rest).takeWhile (fun c => isDigit c.toNat) =
          c :: rest.takeWhile (fun c => isDigit c.toNat) := by
        simp only [List.takeWhile_cons, hc, if_true]
      rw [if_pos hc, hd, ht]
      obtain ⟨h1, h2, h3⟩ := ih ((n * 10 + (c.toNat - 48)) % 4294967296)
      refine ⟨h1, ?_, fun _ => h3 (Nat.mod_lt _ (by decide))⟩
      rw [h2, digitsValue_cons]
      exact digitsValue_mod _ _ _ (Nat.mod_mod _ _)
    · have hd : (c :: rest).dropWhile (fun c => isDigit c.toNat) = c :: rest := by
        simp only [List.dropWhile_cons, hc, Bool.false_eq_true, if_false]
      have ht : (c :: rest).takeWhile (fun c => isDigit c.toNat) = [] := by
        simp only [List.takeWhile_cons, hc, Bool.false_eq_true, if_false]
      rw [if_neg hc, hd, ht]
      exact ⟨rfl, rfl, fun h => h⟩

/-- Claim C29. For every string, `scanNum` returns the position of the first
character that is not a digit, and stores the decimal value of the leading
run of digits modulo `2^32`, which is that value itself (0 for an empty run)
when it fits in an `unsigned`; `123.` gives 123 and stops at the dot, `123 `
gives 123 and stops at the space, and `2147483647` gives 2147483647 and stops
at the end of the string. -/
theorem scanNum_longest_run (psz : List Char) :
    (scanNum psz).2 = psz.dropWhile (fun c => isDigit c.toNat) ∧
    (scanNum psz).1 =
      digitsValue (psz.takeWhile (fun c => isDigit c.toNat)) 0 % 4294967296 ∧
    (digitsValue (psz.takeWhile (fun c => isDigit c.toNat)) 0 < 4294967296 →
      (scanNum psz).1 = digitsValue (psz.takeWhile (fun c => isDigit c.toNat)) 0) ∧
    scanNum "123.".toList = (123, ".".toList) ∧
    scanNum "123 ".toList = (123, " ".toList) ∧
    scanNum "2147483647".toList = (2147483647, []) ∧
    scanNum "x1".toList = (0, "x1".toList) := by
  obtain ⟨h1, h2, h3⟩ := scanDigits_run psz 0
  have hlt : (scanNum psz).1 < 4294967296 := h3 (by decide)
  have hval : (scanNum psz).1 =
      digitsValue (psz.takeWhile (fun c => isDigit c.toNat)) 0 % 4294967296 := by
    have h4 : (scanNum psz).1 % 4294967296 =
        digitsValue (psz.takeWhile (fun c => isDigit c.toNat)) 0 % 4294967296 := h2
    rw [Nat.mod_eq_of_lt hlt] at h4
    exact h4
  refine ⟨h1, hval, ?_, by decide, by decide, by decide, by decide⟩
  intro hfit
  rw [hval, Nat.mod_eq_of_lt hfit]

/-- Claim C29 on the string `042:7`: the run is `042`, its value is 42 and
the scan stops at the colon. -/
theorem scanNum_longest_run_witness :
    digitsValue ("042:7".toList.takeWhile (fun c => isDigit c.toNat)) 0 = 42 ∧
    "042:7".toList.dropWhile (fun c => isDigit c.toNat) = ":7".toList ∧
    (scanNum "042:7".toList).2 = "042:7".toList.dropWhile (fun c => isDigit c.toNat) ∧
    (scanNum "042:7".toList).1 =
      digitsValue ("042:7".toList.takeWhile (fun c => isDigit c.toNat)) 0 :=
  ⟨by decide, by decide, (scanNum_longest_run "042:7".toList).1,
   (scanNum_longest_run "042:7".toList).2.2.1 (by decide)⟩

/-! ## `XPQueue_ensureFDs` and `growArray` -/

theorem ensureFDs_cases (malloc : Nat → Bool) (me : XPQueue) (ndx : Nat) (h : BufOk me) :
    (ndx + 1 < me.nfds ∧ XPQueue_ensureFDs malloc me ndx = (me, none)) ∨
    (ndx + 1 = me.nfds ∧ malloc ((ndx + 1) * 2) = false ∧
      XPQueue_ensureFDs malloc me ndx = (me, none)) ∨
    (me.nfds ≤ ndx ∧ malloc ((ndx + 1) * 2) = false ∧
      XPQueue_ensureFDs malloc me ndx = (me, some "xpio: allocation failure")) ∨
    (me.nfds ≤ ndx + 1 ∧ malloc ((ndx + 1) * 2) = true ∧
      XPQueue_ensureFDs malloc me ndx =
        ({ pfds := me.pfds ++ List.replicate ((ndx + 1) * 2 - me.nfds) zeroPollFd
           nfds := (ndx + 1) * 2 }, none)) := by
  have hb : me.nfds = me.pfds.length := h
  obtain ⟨pfds, nfds⟩ := me
  dsimp only at hb
  subst hb
  unfold XPQueue_ensureFDs growArray
  dsimp only
  by_cases h1 : ndx + 1 < pfds.length
  · left
    refine ⟨h1, ?_⟩
    rw [if_pos h1]
    dsimp only
    rw [if_neg (by omega)]
  · rw [if_neg h1]
    cases hm : malloc ((ndx + 1) * 2) with
    | false =>
      by_cases h2 : ndx ≥ pfds.length
      · right; right; left
        refine ⟨h2, rfl, ?_⟩
        simp only [Bool.not_false, if_true]
        rw [if_pos h2]
      · right; left
        refine ⟨by omega, rfl, ?_⟩
        simp only [Bool.not_false, if_true]
        rw [if_neg h2]
    | true =>
      right; right; right
      refine ⟨by omega, rfl, ?_⟩
      simp only [Bool.not_true, Bool.false_eq_true, if_false, List.take_length]
      rw [if_neg (by omega)]


/-- Claim C30, amended. For a queue record whose `nfds` is the allocated
length of `pfds` and every index `ndx`: after `XPQueue_ensureFDs` the record
is again consistent; when no error is raised, `ndx < nfds`, so `pfds[ndx]`
is inside the buffer; the first old `nfds` slots keep their contents and
every new slot is zero; `nfds` does not decrease; an error is raised exactly
when the buffer is too short for `ndx` and `malloc` fails, it is
`xpio: allocation failure`, and the record is then unchanged. -/
theorem ensureFDs_safe (malloc : Nat → Bool) (me : XPQueue) (ndx : Nat) (h : BufOk me) :
    BufOk (XPQueue_ensureFDs malloc me ndx).1 ∧
    ((XPQueue_ensureFDs malloc me ndx).2 = none →
      ndx < (XPQueue_ensureFDs malloc me ndx).1.nfds ∧
      ndx < (XPQueue_ensureFDs malloc me ndx).1.pfds.length) ∧
    (∀ m, m < me.nfds → (XPQueue_ensureFDs malloc me ndx).1.pfds[m]? = me.pfds[m]?) ∧
    (∀ m, me.nfds ≤ m → m < (XPQueue_ensureFDs malloc me ndx).1.nfds →
      (XPQueue_ensureFDs malloc me ndx).1.pfds[m]? = some zeroPollFd) ∧
    me.nfds ≤ (XPQueue_ensureFDs malloc me ndx).1.nfds ∧
    ((me.nfds ≤ ndx ∧ malloc ((ndx + 1) * 2) = false) ↔
      (XPQueue_ensureFDs malloc me ndx).2 ≠ none) ∧
    ((XPQueue_ensureFDs malloc me ndx).2 ≠ none →
      XPQueue_ensureFDs malloc me ndx = (me, some "xpio: allocation failure")) := by
  have hb : me.nfds = me.pfds.length := h
  rcases ensureFDs_cases malloc me ndx h with ⟨h1, e⟩ | ⟨h1, hm, e⟩ | ⟨h1, hm, e⟩ | ⟨h1, hm, e⟩
  · rw [e]
    refine ⟨h, fun _ => ⟨by dsimp only; omega, by dsimp only; omega⟩, fun m _ => rfl,
      fun m h2 h3 => ?_, le_refl _,
      ⟨fun h2 => ?_, fun h2 => absurd rfl h2⟩, fun h2 => absurd rfl h2⟩
    · exact absurd h3 (by dsimp only; omega)
    · omega
  · rw [e]
    refine ⟨h, fun _ => ⟨by dsimp only; omega, by dsimp only; omega⟩, fun m _ => rfl,
      fun m h2 h3 => ?_, le_refl _,
      ⟨fun h2 => ?_, fun h2 => absurd rfl h2⟩, fun h2 => absurd rfl h2⟩
    · exact absurd h3 (by dsimp only; omega)
    · omega
  · rw [e]
    refine ⟨h, fun h2 => absurd h2 (by simp), fun m _ => rfl, fun m h2 h3 => ?_, le_refl _,
      ⟨fun _ => by simp, fun _ => ⟨h1, hm⟩⟩, fun _ => rfl⟩
    exact absurd h3 (by dsimp only; omega)
  · rw [e]
    have hlen : (me.pfds ++ List.replicate ((ndx + 1) * 2 - me.nfds) zeroPollFd).length =
        (ndx + 1) * 2 := by
      rw [List.length_append, List.length_replicate]
      omega
    refine ⟨hlen.symm, fun _ => ⟨by dsimp only; omega, by dsimp only; omega⟩, fun m h2 => ?_,
      fun m h2 h3 => ?_, by dsimp only; omega,
      ⟨fun h2 => by rw [hm] at h2; exact absurd h2.2 (by simp), fun h2 => absurd rfl h2⟩,
      fun h2 => absurd rfl h2⟩
    · dsimp only
      rw [List.getElem?_append_left (by omega)]
    · dsimp only at h3 ⊢
      rw [List.getElem?_append_right (by omega), List.getElem?_replicate]
      rw [if_pos (by omega)]

/-- Claim C30 on a buffer of two slots and the index 5, with a `malloc` that
succeeds: the buffer grows to twelve slots, the two old ones as they were. -/
theorem ensureFDs_safe_witness :
    BufOk { pfds := [{ fd := 7, events := 1, revents := 0 }, zeroPollFd], nfds := 2 } ∧
    (XPQueue_ensureFDs (fun _ => true)
      { pfds := [{ fd := 7, events := 1, revents := 0 }, zeroPollFd], nfds := 2 } 5).2 = none ∧
    (5 < (XPQueue_ensureFDs (fun _ => true)
      { pfds := [{ fd := 7, events := 1, revents := 0 }, zeroPollFd], nfds := 2 } 5).1.nfds ∧
     5 < (XPQueue_ensureFDs (fun _ => true)
      { pfds := [{ fd := 7, events := 1, revents := 0 }, zeroPollFd], nfds := 2 }
        5).1.pfds.length) ∧
    (XPQueue_ensureFDs (fun _ => false)
      { pfds := [{ fd := 7, events := 1, revents := 0 }, zeroPollFd], nfds := 2 } 5) =
      ({ pfds := [{ fd := 7, events := 1, revents := 0 }, zeroPollFd], nfds := 2 },
        some "xpio: allocation failure") :=
  ⟨rfl, by decide,
   (ensureFDs_safe (fun _ => true)
     { pfds := [{ fd := 7, events := 1, revents := 0 }, zeroPollFd], nfds := 2 } 5 rfl).2.1
     (by decide),
   (ensureFDs_safe (fun _ => false)
     { pfds := [{ fd := 7, events := 1, revents := 0 }, zeroPollFd], nfds := 2 } 5 rfl).2.2.2.2.2.2
     (by decide)⟩

/-- Claim C30 fails as stated: on a buffer of two slots and the index 1,
`growArray` does not return early (`1 + 1 < 2` is false) and asks `malloc`
for four slots; when that fails, `XPQueue_ensureFDs` returns without an
error and leaves the buffer as it was, while a `malloc` that succeeds makes
the buffer four slots long. -/
theorem ensureFDs_failed_growth_ignored :
    ¬ (1 + 1 < 2) ∧
    XPQueue_ensureFDs (fun _ => false) { pfds := [zeroPollFd, zeroPollFd], nfds := 2 } 1 =
      ({ pfds := [zeroPollFd, zeroPollFd], nfds := 2 }, none) ∧
    XPQueue_ensureFDs (fun _ => true) { pfds := [zeroPollFd, zeroPollFd], nfds := 2 } 1 =
      ({ pfds := [zeroPollFd, zeroPollFd, zeroPollFd, zeroPollFd], nfds := 4 }, none) := by
  decide

/-! ## The sweep of the child waiters, in full -/

theorem eraseKey_eq_filter (l : LuaTable) (k : LuaKey) :
    eraseKey l k = l.filter (fun e => decide (e.1 ≠ k)) := by
  induction l with
  | nil => rfl
  | cons a rest ih =>
    rw [eraseKey_cons]
    by_cases h : a.1 = k
    · rw [if_pos h, List.filter_cons_of_neg (by simp [h]), ih]
    · rw [if_neg h, List.filter_cons_of_pos (by simp [h]), ih]

theorem wakeChildStep_proc (sw : Sweep) (e : LuaKey × Task) (p : Nat) (hk : e.1 = .proc p) :
    wakeChildStep sw e =
      if (sw.state.procs p).pid = 0 then
        { sw with state := removeEntry sw.state .CHILD e.1 e.2, ready := sw.ready ++ [e.2] }
      else { sw with numWaiting := sw.numWaiting + 1 } := by
  unfold wakeChildStep xpproc_isExited
  rw [hk]
  by_cases h : (sw.state.procs p).pid = 0
  · rw [if_pos h]
    simp only [h, decide_True]
    rfl
  · rw [if_neg h]
    simp only [h, decide_False]

theorem exitedEntry_proc (procs : Nat → XPProc) (e : LuaKey × Task) (p : Nat)
    (hk : e.1 = .proc p) : exitedEntry procs e = decide ((procs p).pid = 0) := by
  unfold exitedEntry
  rw [hk]

theorem exitedEntry_key (procs : Nat → XPProc) (e e' : LuaKey × Task) (h : e.1 = e'.1) :
    exitedEntry procs e = exitedEntry procs e' := by
  unfold exitedEntry
  rw [h]


theorem wakeChildLoop_cons (e : LuaKey × Task) (rest : LuaTable) (sw : Sweep) :
    wakeChildLoop (e :: rest) sw =
      if (wakeChildStep sw e).err.isSome then wakeChildStep sw e
      else wakeChildLoop rest (wakeChildStep sw e) := rfl

theorem wakeChildLoop_spec (procs : Nat → XPProc) (entries : LuaTable) :
    ∀ sw : Sweep, sw.err = none → sw.state.procs = procs →
    (∀ e ∈ entries, ∃ p, e.1 = .proc p) →
    (wakeChildLoop entries sw).err = none ∧
    (wakeChildLoop entries sw).numWaiting =
      sw.numWaiting + (entries.filter (fun e => !exitedEntry procs e)).length ∧
    (wakeChildLoop entries sw).ready =
      sw.ready ++ (entries.filter (exitedEntry procs)).map Prod.snd ∧
    (wakeChildLoop entries sw).state.childWaiters =
      sw.state.childWaiters.filter
        (fun x => decide (x.1 ∉ (entries.filter (exitedEntry procs)).map Prod.fst)) ∧
    (∀ t, (wakeChildLoop entries sw).state.tasks t =
      if t ∈ (entries.filter (exitedEntry procs)).map Prod.snd then
        { sw.state.tasks t with _dequeue := none }
      else sw.state.tasks t) := by
  induction entries with
  | nil =>
    intro sw herr _ _
    refine ⟨herr, rfl, ?_, ?_, fun t => ?_⟩
    · simp [wakeChildLoop]
    · simp [wakeChildLoop]
    · simp [wakeChildLoop]
  | cons e rest ih =>
    intro sw herr hprocs hkeys
    obtain ⟨st, rd, nw, er⟩ := sw
    dsimp only at herr hprocs
    subst herr
    obtain ⟨p, hp⟩ := hkeys e (List.mem_cons_self e rest)
    have hrest : ∀ e' ∈ rest, ∃ p, e'.1 = .proc p :=
      fun e' he' => hkeys e' (List.mem_cons_of_mem e he')
    have hex : exitedEntry procs e = decide ((st.procs p).pid = 0) := by
      rw [hprocs]
      exact exitedEntry_proc procs e p hp
    rw [wakeChildLoop_cons, wakeChildStep_proc _ e p hp]
    dsimp only
    by_cases hpid : (st.procs p).pid = 0
    · have hex1 : exitedEntry procs e = true := by rw [hex]; exact decide_eq_true hpid
      rw [if_pos hpid]
      dsimp only
      rw [if_neg (by simp)]
      obtain ⟨h1, h2, h3, h4, h5⟩ := ih
        { state := removeEntry st .CHILD e.1 e.2, ready := rd ++ [e.2], numWaiting := nw, err := none }
        rfl hprocs hrest
      have hf : (e :: rest).filter (exitedEntry procs) = e :: rest.filter (exitedEntry procs) :=
        List.filter_cons_of_pos hex1
      have hf2 : (e :: rest).filter (fun e => !exitedEntry procs e) =
          rest.filter (fun e => !exitedEntry procs e) :=
        List.filter_cons_of_neg (by simp [hex1])
      refine ⟨h1, ?_, ?_, ?_, fun t => ?_⟩
      · rw [h2, hf2]
      · rw [h3, hf, List.map_cons, List.append_assoc]
        rfl
      · rw [h4, hf]
        show List.filter _ (eraseKey st.childWaiters e.1) = _
        rw [eraseKey_eq_filter, List.filter_filter]
        apply List.filter_congr
        intro x _
        simp only [List.map_cons, List.mem_cons, not_or, ne_eq, decide_not, Bool.decide_and,
          Bool.and_comm]
      · rw [h5 t, hf, List.map_cons]
        show (if t ∈ _ then { clearDequeue st.tasks e.2 t with _dequeue := none }
          else clearDequeue st.tasks e.2 t) = _
        by_cases ht : t = e.2
        · subst ht
          have hm : e.2 ∈ e.2 :: List.map Prod.snd (List.filter (exitedEntry procs) rest) :=
            List.mem_cons_self _ _
          rw [if_pos hm]
          have hc : clearDequeue st.tasks e.2 e.2 =
              { st.tasks e.2 with _dequeue := none } := by
            simp [clearDequeue, setFields]
          rw [hc]
          split_ifs <;> rfl
        · rw [clearDequeue_other _ _ _ ht]
          by_cases hm : t ∈ List.map Prod.snd (List.filter (exitedEntry procs) rest)
          · rw [if_pos hm, if_pos (List.mem_cons_of_mem _ hm)]
          · rw [if_neg hm, if_neg (by
              intro h
              rcases List.mem_cons.mp h with h | h
              · exact ht h
              · exact hm h)]
    · have hex1 : exitedEntry procs e = false := by rw [hex]; exact decide_eq_false hpid
      rw [if_neg hpid]
      dsimp only
      rw [if_neg (by simp)]
      obtain ⟨h1, h2, h3, h4, h5⟩ := ih
        { state := st, ready := rd, numWaiting := nw + 1, err := none } rfl hprocs hrest
      have hf : (e :: rest).filter (exitedEntry procs) = rest.filter (exitedEntry procs) :=
        List.filter_cons_of_neg (by simp [hex1])
      have hf2 : (e :: rest).filter (fun e => !exitedEntry procs e) =
          e :: rest.filter (fun e => !exitedEntry procs e) :=
        List.filter_cons_of_pos (by simp [hex1])
      refine ⟨h1, ?_, ?_, ?_, fun t => ?_⟩
      · rw [h2, hf2, List.length_cons]
        dsimp only
        omega
      · rw [h3, hf]
      · rw [h4, hf]
      · rw [h5 t, hf]

/-- Claim C27. On a child-waiters table, whose keys are processes, and a
ready array, `XPQueue_wakeChildWaiters` raises no error; it appends to the
ready array, after the elements it had, the tasks of the entries whose
process has `pid = 0`, in the order of the table; it clears `_dequeue` of
each of these tasks and changes no field of any other task; the table is left
with the entries whose process has `pid != 0`, in their order; the value
returned is the number of these entries; readers, writers and processes are
not changed. -/
theorem wakeChildWaiters_sweep (s : State) (ready : List Task)
    (hk : ∀ e ∈ s.childWaiters, ∃ p, e.1 = .proc p) :
    (XPQueue_wakeChildWaiters s ready).err = none ∧
    (XPQueue_wakeChildWaiters s ready).ready =
      ready ++ (s.childWaiters.filter (exitedEntry s.procs)).map Prod.snd ∧
    (XPQueue_wakeChildWaiters s ready).state.childWaiters =
      s.childWaiters.filter (fun e => !exitedEntry s.procs e) ∧
    (XPQueue_wakeChildWaiters s ready).numWaiting =
      (XPQueue_wakeChildWaiters s ready).state.childWaiters.length ∧
    (∀ e ∈ s.childWaiters, exitedEntry s.procs e = true →
      ((XPQueue_wakeChildWaiters s ready).state.tasks e.2)._dequeue = none) ∧
    (∀ t, (∀ e ∈ s.childWaiters, exitedEntry s.procs e = true → e.2 ≠ t) →
      (XPQueue_wakeChildWaiters s ready).state.tasks t = s.tasks t) ∧
    (∀ e p, e.1 = LuaKey.proc p → (exitedEntry s.procs e = true ↔ (s.procs p).pid = 0)) ∧
    (XPQueue_wakeChildWaiters s ready).state.readers = s.readers ∧
    (XPQueue_wakeChildWaiters s ready).state.writers = s.writers ∧
    (XPQueue_wakeChildWaiters s ready).state.procs = s.procs := by
  obtain ⟨h1, h2, h3, h4, h5⟩ := wakeChildLoop_spec s.procs s.childWaiters
    { state := s, ready := ready, numWaiting := 0, err := none } rfl rfl hk
  have hfr := wakeChildWaiters_frame s ready
  have htab : (XPQueue_wakeChildWaiters s ready).state.childWaiters =
      s.childWaiters.filter (fun e => !exitedEntry s.procs e) := by
    unfold XPQueue_wakeChildWaiters
    rw [h4]
    apply List.filter_congr
    intro x hx
    by_cases hex : exitedEntry s.procs x = true
    · have hm : x.1 ∈ (s.childWaiters.filter (exitedEntry s.procs)).map Prod.fst :=
        List.mem_map_of_mem Prod.fst (List.mem_filter.mpr ⟨hx, hex⟩)
      simp only [hm, not_true_eq_false, decide_False, hex, Bool.not_true]
    · have hm : x.1 ∉ (s.childWaiters.filter (exitedEntry s.procs)).map Prod.fst := by
        intro hmem
        obtain ⟨e', he', hkey⟩ := List.mem_map.mp hmem
        have h6 := (List.mem_filter.mp he').2
        rw [exitedEntry_key s.procs e' x hkey] at h6
        exact hex h6
      have hex2 : exitedEntry s.procs x = false := by
        cases hb : exitedEntry s.procs x with
        | true => exact absurd hb hex
        | false => rfl
      simp only [hm, not_false_eq_true, decide_True, hex2, Bool.not_false]
  refine ⟨h1, ?_, htab, ?_, ?_, ?_, ?_, hfr.1, hfr.2.1, hfr.2.2.2.1⟩
  · exact h3
  · rw [htab]
    have h2b : (XPQueue_wakeChildWaiters s ready).numWaiting =
        0 + (s.childWaiters.filter (fun e => !exitedEntry s.procs e)).length := h2
    rw [h2b, Nat.zero_add]
  · intro e he hex
    have h6 : (XPQueue_wakeChildWaiters s ready).state.tasks e.2 = _ := h5 e.2
    rw [h6, if_pos (List.mem_map_of_mem Prod.snd (List.mem_filter.mpr ⟨he, hex⟩))]
  · intro t ht
    have h6 : (XPQueue_wakeChildWaiters s ready).state.tasks t = _ := h5 t
    rw [h6, if_neg]
    intro hmem
    obtain ⟨e', he', hval⟩ := List.mem_map.mp hmem
    exact ht e' (List.mem_filter.mp he').1 (List.mem_filter.mp he').2 hval
  · intro e p hp
    rw [exitedEntry_proc s.procs e p hp, decide_eq_true_iff]

theorem stateTwoChildren_keys :
    ∀ e ∈ stateTwoChildren.childWaiters, ∃ p, e.1 = LuaKey.proc p := by
  intro e he
  have h : stateTwoChildren.childWaiters = [(.proc 0, 3), (.proc 1, 4)] := by decide
  rw [h] at he
  simp only [List.mem_cons, List.mem_singleton, List.not_mem_nil, or_false] at he
  rcases he with h1 | h1 <;> rw [h1] <;> exact ⟨_, rfl⟩

/-- Claim C27 on a table of two child waiters: task 3, whose process has
been reaped, goes to the ready array after task 9 and loses `_dequeue`;
task 4, whose process runs, stays in the table, and the value returned is 1. -/
theorem wakeChildWaiters_sweep_witness :
    stateTwoChildren.childWaiters = [(.proc 0, 3), (.proc 1, 4)] ∧
    (XPQueue_wakeChildWaiters stateTwoChildren [9]).ready = [9, 3] ∧
    (XPQueue_wakeChildWaiters stateTwoChildren [9]).state.childWaiters = [(.proc 1, 4)] ∧
    (XPQueue_wakeChildWaiters stateTwoChildren [9]).numWaiting = 1 ∧
    ((XPQueue_wakeChildWaiters stateTwoChildren [9]).state.tasks 3)._dequeue = none ∧
    (XPQueue_wakeChildWaiters stateTwoChildren [9]).state.tasks 4 = stateTwoChildren.tasks 4 :=
  ⟨by decide,
   (wakeChildWaiters_sweep stateTwoChildren [9] stateTwoChildren_keys).2.1.trans (by decide),
   (wakeChildWaiters_sweep stateTwoChildren [9] stateTwoChildren_keys).2.2.1.trans (by decide),
   (wakeChildWaiters_sweep stateTwoChildren [9] stateTwoChildren_keys).2.2.2.1.trans
     (by rw [(wakeChildWaiters_sweep stateTwoChildren [9] stateTwoChildren_keys).2.2.1]; decide),
   (wakeChildWaiters_sweep stateTwoChildren [9] stateTwoChildren_keys).2.2.2.2.1 (.proc 0, 3)
     (by decide) (by decide),
   (wakeChildWaiters_sweep stateTwoChildren [9] stateTwoChildren_keys).2.2.2.2.2.1 4 (by decide)⟩

/-! ## The set of descriptors that `wait` polls -/

theorem slot_events (R W : LuaTable) (b : Build) (hb : BuildOk R W b) (n : Nat) (p : PollFd)
    (hn : n < b.nfdsUsed) (hp : b.me.pfds[n]? = some p) :
    ((∃ e ∈ R, fdOf e = p.fd) ∨ (∃ e ∈ W, fdOf e = p.fd)) ∧
    ((∃ e ∈ R, fdOf e = p.fd) → ¬ (∃ e ∈ W, fdOf e = p.fd) → p.events = POLLIN) ∧
    (¬ (∃ e ∈ R, fdOf e = p.fd) → (∃ e ∈ W, fdOf e = p.fd) → p.events = POLLOUT) ∧
    ((∃ e ∈ R, fdOf e = p.fd) → (∃ e ∈ W, fdOf e = p.fd) →
      p.events = POLLIN ||| POLLOUT) := by
  have hev := hb.evs n p hn hp
  have hin := hb.pollin n p hn hp
  have hout := hb.pollout n p hn hp
  rcases hev with h | h | h
  · rw [h, testBits_in_in] at hin
    rw [h, testBits_in_out] at hout
    have h1 := hin.mp rfl
    have h2 : ¬ (∃ e ∈ W, fdOf e = p.fd) := fun hw => absurd (hout.mpr hw) (by simp)
    exact ⟨Or.inl h1, fun _ _ => h, fun hr _ => absurd h1 hr, fun _ hw => absurd hw h2⟩
  · rw [h, testBits_out_in] at hin
    rw [h, testBits_out_out] at hout
    have h1 := hout.mp rfl
    have h2 : ¬ (∃ e ∈ R, fdOf e = p.fd) := fun hr => absurd (hin.mpr hr) (by simp)
    exact ⟨Or.inr h1, fun hr _ => absurd hr h2, fun _ _ => h, fun hr _ => absurd hr h2⟩
  · rw [h, testBits_both_in] at hin
    rw [h, testBits_both_out] at hout
    have h1 := hin.mp rfl
    have h2 := hout.mp rfl
    exact ⟨Or.inl h1, fun _ hw => absurd h2 hw, fun hr _ => absurd h1 hr, fun _ _ => h⟩

theorem addSigPipe_slot (env : Env) (s : State) (nfdsUsed numChildWaiters : Nat)
    (hbuf : BufOk s.me) (hused : nfdsUsed ≤ s.me.pfds.length)
    (herr : (addSigPipe env s nfdsUsed numChildWaiters).2.2 = none) :
    (numChildWaiters ≠ 0 →
      (addSigPipe env s nfdsUsed numChildWaiters).2.1 = nfdsUsed + 1 ∧
      ∃ p, (addSigPipe env s nfdsUsed numChildWaiters).1.me.pfds[nfdsUsed]? = some p ∧
        p.fd = env.sigPipe ∧ p.events = POLLIN) ∧
    (numChildWaiters = 0 →
      (addSigPipe env s nfdsUsed numChildWaiters).2.1 = nfdsUsed ∧
      (addSigPipe env s nfdsUsed numChildWaiters).1 = s) := by
  constructor
  · intro hn
    unfold addSigPipe at herr ⊢
    rw [if_pos hn] at herr ⊢
    dsimp only at herr ⊢
    cases hr : (XPQueue_ensureFDs env.malloc s.me nfdsUsed).2 with
    | some msg =>
      rw [hr] at herr
      simp at herr
    | none =>
      dsimp only
      obtain ⟨_, ⟨p0, hp0⟩, _⟩ := alloc_slot env.malloc s.me nfdsUsed
        (fun p => { p with fd := env.sigPipe, events := POLLIN }) hbuf hused hr
      exact ⟨rfl, _, hp0, rfl, rfl⟩
  · intro hn
    unfold addSigPipe
    rw [if_neg (by simp [hn])]
    exact ⟨rfl, rfl⟩


/-- Claim C26. In a reachable state, let `b` be the outcome of the loops of
`wait` over readers and writers, `sw` that of the early sweep of the child
waiters and `a` that of the block that appends the signal pipe, none of them
having raised an allocation error. The slots in use of `b` are one per
descriptor that has a reader or a writer: every such descriptor has a slot,
no two slots share a descriptor and every slot belongs to such a descriptor;
its events are `POLLIN` with only a reader, `POLLOUT` with only a writer and
`POLLIN | POLLOUT` with both. A child waiter is pending after the sweep
exactly when the process of some entry has `pid != 0`; then one more slot,
with the signal pipe and `POLLIN`, is appended, and otherwise none; the
earlier slots are kept, and the number of slots is what `wait` passes to
`poll`. -/
theorem wait_pollfd_set (s : State) (env : Env) (b : Build) (sw : Sweep)
    (a : State × Nat × Option String) (h : Reachable s)
    (hb : b = buildPfds env s)
    (hsw : sw = XPQueue_wakeChildWaiters { s with me := b.me } [])
    (ha : a = addSigPipe env sw.state b.nfdsUsed sw.numWaiting)
    (hberr : b.err = none) (haerr : a.2.2 = none) :
    (∀ fd, ((∃ e ∈ s.readers, fdOf e = fd) ∨ (∃ e ∈ s.writers, fdOf e = fd)) ↔
      ∃ n p, n < b.nfdsUsed ∧ b.me.pfds[n]? = some p ∧ p.fd = fd) ∧
    (∀ n m p q, n < b.nfdsUsed → m < b.nfdsUsed → b.me.pfds[n]? = some p →
      b.me.pfds[m]? = some q → p.fd = q.fd → n = m) ∧
    (∀ n p, n < b.nfdsUsed → b.me.pfds[n]? = some p →
      ((∃ e ∈ s.readers, fdOf e = p.fd) → ¬ (∃ e ∈ s.writers, fdOf e = p.fd) →
        p.events = POLLIN) ∧
      (¬ (∃ e ∈ s.readers, fdOf e = p.fd) → (∃ e ∈ s.writers, fdOf e = p.fd) →
        p.events = POLLOUT) ∧
      ((∃ e ∈ s.readers, fdOf e = p.fd) → (∃ e ∈ s.writers, fdOf e = p.fd) →
        p.events = POLLIN ||| POLLOUT)) ∧
    (sw.numWaiting ≠ 0 ↔ ∃ e ∈ s.childWaiters, exitedEntry s.procs e = false) ∧
    (sw.numWaiting ≠ 0 →
      a.2.1 = b.nfdsUsed + 1 ∧
      ∃ p, a.1.me.pfds[b.nfdsUsed]? = some p ∧ p.fd = env.sigPipe ∧ p.events = POLLIN) ∧
    (sw.numWaiting = 0 → a.2.1 = b.nfdsUsed) ∧
    (∀ n, n < b.nfdsUsed → a.1.me.pfds[n]? = b.me.pfds[n]?) ∧
    (∀ arg arr, (xpqueue_wait s arg env).result = .ready arr →
      ∃ timeout, (xpqueue_wait s arg env).polls =
        List.replicate (env.eintr + 1) (a.2.1, timeout)) := by
  have hT := tablesOk_reachable s h
  have hB := bufOk_reachable s h
  subst hb
  have hok := buildOk_buildPfds env s hT hB hberr
  have hfr := wakeChildWaiters_frame { s with me := (buildPfds env s).me } []
  have hme : sw.state.me = (buildPfds env s).me := by
    rw [hsw]
    exact hfr.2.2.1
  have hbuf : BufOk sw.state.me := by
    rw [hme]
    exact hok.buf
  have hused : (buildPfds env s).nfdsUsed ≤ sw.state.me.pfds.length := by
    rw [hme]
    exact hok.used
  have haerr2 : (addSigPipe env sw.state (buildPfds env s).nfdsUsed sw.numWaiting).2.2 = none := by
    rw [← ha]
    exact haerr
  have hslot := addSigPipe_slot env sw.state _ sw.numWaiting hbuf hused haerr2
  have hkeep := (addSigPipe_ok env sw.state _ sw.numWaiting hbuf hused haerr2).2.2.2.2.2.1
  have hkeys : ∀ e ∈ s.childWaiters, ∃ p, e.1 = LuaKey.proc p :=
    fun e he => proc_key_of_child e.1 (hT.keys .CHILD e he)
  have hnum := (wakeChildLoop_spec s.procs s.childWaiters
    { state := { s with me := (buildPfds env s).me }, ready := [], numWaiting := 0, err := none }
    rfl rfl hkeys).2.1
  have hnum2 : sw.numWaiting =
      (s.childWaiters.filter (fun e => !exitedEntry s.procs e)).length := by
    rw [hsw]
    have h3 : (XPQueue_wakeChildWaiters { s with me := (buildPfds env s).me } []).numWaiting =
        0 + (s.childWaiters.filter (fun e => !exitedEntry s.procs e)).length := hnum
    rw [h3, Nat.zero_add]
  refine ⟨fun fd => ⟨?_, ?_⟩, hok.inj, ?_, ?_, ?_, ?_, ?_, ?_⟩
  · intro hfd
    rcases hfd with ⟨e, he, hfe⟩ | ⟨e, he, hfe⟩
    · obtain ⟨n, p, hn, hp, hpf⟩ := hok.coverR e he
      exact ⟨n, p, hn, hp, hpf.trans hfe⟩
    · obtain ⟨n, p, hn, hp, hpf⟩ := hok.coverW e he
      exact ⟨n, p, hn, hp, hpf.trans hfe⟩
  · rintro ⟨n, p, hn, hp, hpf⟩
    have h1 := (slot_events _ _ _ hok n p hn hp).1
    rw [hpf] at h1
    exact h1
  · intro n p hn hp
    exact (slot_events _ _ _ hok n p hn hp).2
  · rw [hnum2]
    constructor
    · intro hne
      have hpos : 0 < (s.childWaiters.filter (fun e => !exitedEntry s.procs e)).length := by
        omega
      obtain ⟨e, he⟩ := List.exists_mem_of_length_pos hpos
      have h4 := List.mem_filter.mp he
      refine ⟨e, h4.1, ?_⟩
      cases hx : exitedEntry s.procs e with
      | false => rfl
      | true =>
        have h5 := h4.2
        rw [hx] at h5
        exact absurd h5 (by simp)
    · rintro ⟨e, he, hx⟩
      have hm : e ∈ s.childWaiters.filter (fun e => !exitedEntry s.procs e) :=
        List.mem_filter.mpr ⟨he, by simp [hx]⟩
      have := List.length_pos_of_mem hm
      omega
  · intro hne
    rw [ha]
    exact hslot.1 hne
  · intro h0
    rw [ha]
    exact (hslot.2 h0).1
  · intro n hn
    rw [ha, hkeep n hn, hme]
  · intro arg arr hr
    obtain ⟨_, _, _, timeout, heq⟩ := wait_ready_path s arg env arr hr
    rw [← hsw, ← ha] at heq
    refine ⟨timeout, ?_⟩
    rw [heq] at hr ⊢
    exact (waitPoll_ready_path env a.1 sw.ready a.2.1 sw.numWaiting timeout arr hr).2.1


/-- Claim C26 on the state in which descriptor 5 has a reader and a writer,
descriptor 6 a reader, and one child waiter is pending: two slots, 5 with
`POLLIN | POLLOUT` and 6 with `POLLIN`, and a third for the signal pipe. -/
theorem wait_pollfd_set_witness :
    (buildPfds envSlot0 stateFour).nfdsUsed = 2 ∧
    (buildPfds envSlot0 stateFour).me.pfds.take 2 =
      [{ fd := 5, events := POLLIN ||| POLLOUT, revents := 0 },
       { fd := 6, events := POLLIN, revents := 0 }] ∧
    (∃ n p, n < (buildPfds envSlot0 stateFour).nfdsUsed ∧
      (buildPfds envSlot0 stateFour).me.pfds[n]? = some p ∧ p.fd = 5) ∧
    ((addSigPipe envSlot0
        (XPQueue_wakeChildWaiters
          { stateFour with me := (buildPfds envSlot0 stateFour).me } []).state
        (buildPfds envSlot0 stateFour).nfdsUsed
        (XPQueue_wakeChildWaiters
          { stateFour with me := (buildPfds envSlot0 stateFour).me } []).numWaiting).2.1 =
      (buildPfds envSlot0 stateFour).nfdsUsed + 1 ∧
     ∃ p, (addSigPipe envSlot0
        (XPQueue_wakeChildWaiters
          { stateFour with me := (buildPfds envSlot0 stateFour).me } []).state
        (buildPfds envSlot0 stateFour).nfdsUsed
        (XPQueue_wakeChildWaiters
          { stateFour with me := (buildPfds envSlot0 stateFour).me } []).numWaiting).1.me.pfds[
            (buildPfds envSlot0 stateFour).nfdsUsed]? = some p ∧
       p.fd = envSlot0.sigPipe ∧ p.events = POLLIN) :=
  ⟨by decide, by decide,
   ((wait_pollfd_set stateFour envSlot0 _ _ _ reachable_stateFour rfl rfl rfl (by decide)
      (by decide)).1 5).mp (Or.inl ⟨(.int 5, 1), by decide, by decide⟩),
   (wait_pollfd_set stateFour envSlot0 _ _ _ reachable_stateFour rfl rfl rfl (by decide)
      (by decide)).2.2.2.2.1 (by decide)⟩

/-! ## `xpproc_reap` -/

theorem markReaped_none (procs : Nat → XPProc) (pid status : Int) (list : List Nat)
    (h : ∀ b ∈ list, (procs b).pid ≠ pid) : markReaped procs list pid status = none := by
  induction list with
  | nil => rfl
  | cons p rest ih =>
    unfold markReaped
    rw [if_neg (h p (List.mem_cons_self p rest))]
    exact ih (fun b hb => h b (List.mem_cons_of_mem p hb))

theorem markReaped_some (procs : Nat → XPProc) (pid status : Int) (a : Nat) (list : List Nat)
    (ha : a ∈ list) (hpa : (procs a).pid = pid)
    (huniq : ∀ b ∈ list, (procs b).pid = pid → b = a) :
    markReaped procs list pid status =
      some (fun x => if x = a then { pid := 0, status := status } else procs x) := by
  induction list with
  | nil => exact absurd ha (List.not_mem_nil a)
  | cons p rest ih =>
    unfold markReaped
    by_cases hp : (procs p).pid = pid
    · rw [if_pos hp, huniq p (List.mem_cons_self p rest) hp]
    · rw [if_neg hp]
      have hne : a ≠ p := fun h => hp (h ▸ hpa)
      have har : a ∈ rest := by
        rcases List.mem_cons.mp ha with h1 | h1
        · exact absurd h1 hne
        · exact h1
      exact ih har (fun b hb => huniq b (List.mem_cons_of_mem p hb))

theorem filter_length_succ (p q : Nat → Bool) (a0 : Nat) (list : List Nat)
    (hnd : list.Nodup) (ha : a0 ∈ list) (hp : p a0 = true) (hq : q a0 = false)
    (hsame : ∀ a ∈ list, a ≠ a0 → p a = q a) :
    (list.filter p).length = (list.filter q).length + 1 := by
  induction list with
  | nil => exact absurd ha (List.not_mem_nil a0)
  | cons x rest ih =>
    rw [List.nodup_cons] at hnd
    by_cases hx : x = a0
    · subst hx
      have hrest : rest.filter p = rest.filter q := by
        apply List.filter_congr
        intro a har
        exact hsame a (List.mem_cons_of_mem x har) (fun h => hnd.1 (h ▸ har))
      rw [List.filter_cons_of_pos hp, List.filter_cons_of_neg (by simp [hq]), hrest,
        List.length_cons]
    · have har : a0 ∈ rest := by
        rcases List.mem_cons.mp ha with h1 | h1
        · exact absurd h1.symm hx
        · exact h1
      have hi := ih hnd.2 har (fun a h1 => hsame a (List.mem_cons_of_mem x h1))
      have hpx : p x = q x := hsame x (List.mem_cons_self x rest) hx
      cases hqx : q x with
      | true =>
        rw [List.filter_cons_of_pos (by rw [hpx, hqx]), List.filter_cons_of_pos hqx,
          List.length_cons, List.length_cons, hi]
      | false =>
        rw [List.filter_cons_of_neg (by rw [hpx, hqx]; simp),
          List.filter_cons_of_neg (by rw [hqx]; simp), hi]


theorem waitpidRun_cons (r : WaitpidResult) (rest : List WaitpidResult) :
    waitpidRun (r :: rest) =
      if r.pid > 0 ∨ (r.pid = -1 ∧ r.errno = EINTR) then r :: waitpidRun rest else [] := by
  unfold waitpidRun
  rw [List.takeWhile_cons]
  by_cases h : r.pid > 0 ∨ (r.pid = -1 ∧ r.errno = EINTR)
  · rw [if_pos h, if_pos]
    simpa using h
  · rw [if_neg h, if_neg]
    simpa using h

theorem reapedStatus_cons (r : WaitpidResult) (run : List WaitpidResult) (pid : Int) :
    reapedStatus (r :: run) pid =
      if r.pid = pid then some r.status else reapedStatus run pid := by
  unfold reapedStatus
  rw [List.find?_cons]
  by_cases h : r.pid = pid
  · simp [h]
  · simp [h]

theorem reapTarget_nil (procs : Nat → XPProc) (list : List Nat) (a : Nat) :
    reapTarget procs list [] a = none := by
  unfold reapTarget reapedStatus
  split_ifs <;> rfl

theorem reapLoop_cons (list : List Nat) (r : WaitpidResult) (rest : List WaitpidResult)
    (procs : Nat → XPProc) (n : Nat) :
    reapLoop list (r :: rest) procs n =
      if r.pid > 0 then
        match markReaped procs list r.pid r.status with
        | some procs1 => reapLoop list rest procs1 (n + 1)
        | none => reapLoop list rest procs n
      else if r.pid = -1 ∧ r.errno = EINTR then reapLoop list rest procs n
      else (procs, n) := rfl

/-- An answer whose pid no process of the list has changes no target. -/
theorem reapTarget_skip (procs : Nat → XPProc) (list : List Nat) (r : WaitpidResult)
    (run : List WaitpidResult) (h : ∀ b ∈ list, (procs b).pid > 0 → (procs b).pid ≠ r.pid)
    (a : Nat) : reapTarget procs list (r :: run) a = reapTarget procs list run a := by
  unfold reapTarget
  by_cases ha : a ∈ list ∧ (procs a).pid > 0
  · rw [if_pos ha, if_pos ha, reapedStatus_cons, if_neg (fun h1 => h a ha.1 ha.2 h1.symm)]
  · rw [if_neg ha, if_neg ha]


theorem reapLoop_spec (list : List Nat) (hnd : list.Nodup) :
    ∀ (results : List WaitpidResult) (procs : Nat → XPProc) (n : Nat),
    (∀ a ∈ list, ∀ b ∈ list, (procs a).pid > 0 → (procs a).pid = (procs b).pid → a = b) →
    (∀ a, (reapLoop list results procs n).1 a =
      match reapTarget procs list (waitpidRun results) a with
      | some st => { pid := 0, status := st }
      | none => procs a) ∧
    (reapLoop list results procs n).2 =
      n + (list.filter
        (fun a => (reapTarget procs list (waitpidRun results) a).isSome)).length := by
  intro results
  induction results with
  | nil =>
    intro procs n _
    have hrun : waitpidRun [] = [] := rfl
    rw [hrun]
    constructor
    · intro a
      rw [reapTarget_nil]
      rfl
    · have hf : list.filter (fun a => (reapTarget procs list [] a).isSome) = [] := by
        rw [List.filter_eq_nil_iff]
        intro a _
        rw [reapTarget_nil]
        simp
      rw [hf]
      rfl
  | cons r rest ih =>
    intro procs n hpid
    rw [reapLoop_cons, waitpidRun_cons]
    by_cases hpos : r.pid > 0
    · rw [if_pos hpos, if_pos (Or.inl hpos)]
      by_cases hex : ∃ a0 ∈ list, (procs a0).pid = r.pid
      · obtain ⟨a0, ha0, hp0⟩ := hex
        have huniq : ∀ b ∈ list, (procs b).pid = r.pid → b = a0 := fun b hb hpb =>
          (hpid a0 ha0 b hb (by omega) (by rw [hp0, hpb])).symm
        rw [markReaped_some procs r.pid r.status a0 list ha0 hp0 huniq]
        dsimp only
        generalize hprocs1 :
          (fun x => if x = a0 then ({ pid := 0, status := r.status } : XPProc) else procs x) =
            procs1
        have hp1a0 : procs1 a0 = { pid := 0, status := r.status } := by
          rw [← hprocs1]
          simp
        have hp1 : ∀ a, a ≠ a0 → procs1 a = procs a := by
          intro a hne
          rw [← hprocs1]
          simp [hne]
        have hpid1 : ∀ a ∈ list, ∀ b ∈ list, (procs1 a).pid > 0 →
            (procs1 a).pid = (procs1 b).pid → a = b := by
          intro a ha b hb hgt heq
          have hane : a ≠ a0 := by
            intro h
            rw [h, hp1a0] at hgt
            exact absurd hgt (lt_irrefl 0)
          have hbne : b ≠ a0 := by
            intro h
            rw [h, hp1a0] at heq
            rw [heq] at hgt
            exact absurd hgt (lt_irrefl 0)
          rw [hp1 a hane] at hgt heq
          rw [hp1 b hbne] at heq
          exact hpid a ha b hb hgt heq
        obtain ⟨h1, h2⟩ := ih procs1 (n + 1) hpid1
        have key0 : reapTarget procs1 list (waitpidRun rest) a0 = none := by
          unfold reapTarget
          rw [if_neg]
          rw [hp1a0]
          intro h
          exact absurd h.2 (lt_irrefl 0)
        have key0' : reapTarget procs list (r :: waitpidRun rest) a0 = some r.status := by
          unfold reapTarget
          rw [if_pos ⟨ha0, by omega⟩, reapedStatus_cons, if_pos hp0.symm]
        have key : ∀ a, a ≠ a0 → reapTarget procs1 list (waitpidRun rest) a =
            reapTarget procs list (r :: waitpidRun rest) a := by
          intro a hne
          unfold reapTarget
          rw [hp1 a hne]
          by_cases hc : a ∈ list ∧ (procs a).pid > 0
          · rw [if_pos hc, if_pos hc, reapedStatus_cons, if_neg]
            intro h
            exact hne (huniq a hc.1 h.symm)
          · rw [if_neg hc, if_neg hc]
        constructor
        · intro a
          rw [h1 a]
          by_cases hne : a = a0
          · rw [hne, key0, key0', hp1a0]
          · rw [key a hne, hp1 a hne]
        · rw [h2]
          have hcount := filter_length_succ
            (fun a => (reapTarget procs list (r :: waitpidRun rest) a).isSome)
            (fun a => (reapTarget procs1 list (waitpidRun rest) a).isSome) a0 list hnd ha0
            (by simp only [key0']; rfl) (by simp only [key0]; rfl)
            (fun a _ hne => by simp only [key a hne])
          rw [hcount]
          omega
      · have hno : ∀ b ∈ list, (procs b).pid ≠ r.pid := fun b hb hpb => hex ⟨b, hb, hpb⟩
        rw [markReaped_none procs r.pid r.status list hno]
        dsimp only
        obtain ⟨h1, h2⟩ := ih procs n hpid
        have hskip := reapTarget_skip procs list r (waitpidRun rest)
          (fun b hb _ => hno b hb)
        constructor
        · intro a
          rw [h1 a, hskip a]
        · rw [h2]
          simp only [hskip]
    · rw [if_neg hpos]
      by_cases he : r.pid = -1 ∧ r.errno = EINTR
      · rw [if_pos he, if_pos (Or.inr he)]
        obtain ⟨h1, h2⟩ := ih procs n hpid
        have hskip := reapTarget_skip procs list r (waitpidRun rest)
          (fun b _ hgt => by omega)
        constructor
        · intro a
          rw [h1 a, hskip a]
        · rw [h2]
          simp only [hskip]
      · rw [if_neg he, if_neg (by
          intro h
          rcases h with h | h
          · exact hpos h
          · exact he h)]
        constructor
        · intro a
          rw [reapTarget_nil]
        · have hf : list.filter (fun a => (reapTarget procs list [] a).isSome) = [] := by
            rw [List.filter_eq_nil_iff]
            intro a _
            rw [reapTarget_nil]
            simp
          rw [hf]
          rfl


theorem drainPipe_true (reads : List Int) : drainPipe reads true = true := by
  induction reads with
  | nil => rfl
  | cons n rest ih =>
    unfold drainPipe
    simp only [Bool.true_or]
    split_ifs
    · exact ih
    · rfl

theorem drainPipe_iff (reads : List Int) :
    drainPipe reads false = true ↔ ∃ n rest, reads = n :: rest ∧ n > 0 := by
  cases reads with
  | nil =>
    constructor
    · intro h
      exact absurd h (by decide)
    · rintro ⟨n, rest, h, _⟩
      exact absurd h (by simp)
  | cons n rest =>
    unfold drainPipe
    simp only [Bool.false_or]
    by_cases hn : n > 0
    · have hd : decide (n > 0) = true := decide_eq_true hn
      rw [hd]
      constructor
      · intro _
        exact ⟨n, rest, rfl, hn⟩
      · intro _
        split_ifs
        · exact drainPipe_true rest
        · rfl
    · have hd : decide (n > 0) = false := decide_eq_false hn
      rw [hd, if_neg (by omega)]
      constructor
      · intro h
        exact absurd h (by decide)
      · rintro ⟨m, rest', h, hm⟩
        rw [List.cons.injEq] at h
        omega

theorem reapedStatus_of_unique (run : List WaitpidResult) (r : WaitpidResult) (hr : r ∈ run)
    (huniq : ∀ x ∈ run, x.pid = r.pid → x = r) :
    reapedStatus run r.pid = some r.status := by
  induction run with
  | nil => exact absurd hr (List.not_mem_nil r)
  | cons x xs ih =>
    rw [reapedStatus_cons]
    by_cases hx : x.pid = r.pid
    · rw [if_pos hx, huniq x (List.mem_cons_self x xs) hx]
    · rw [if_neg hx]
      have hrx : r ∈ xs := by
        rcases List.mem_cons.mp hr with h | h
        · exact absurd (congrArg WaitpidResult.pid h).symm hx
        · exact h
      exact ih hrx (fun y hy => huniq y (List.mem_cons_of_mem x hy))

theorem reapedStatus_isSome (run : List WaitpidResult) (pid : Int) :
    (reapedStatus run pid).isSome = true ↔ ∃ r ∈ run, r.pid = pid := by
  unfold reapedStatus
  rw [Option.isSome_map', List.find?_isSome]
  simp only [decide_eq_true_eq]


theorem reapTarget_isSome (procs : Nat → XPProc) (list : List Nat) (run : List WaitpidResult)
    (a : Nat) (ha : a ∈ list) :
    (reapTarget procs list run a).isSome =
      (decide ((procs a).pid > 0) && run.any (fun r => decide (r.pid = (procs a).pid))) := by
  rw [Bool.eq_iff_iff]
  unfold reapTarget
  by_cases hp : (procs a).pid > 0
  · rw [if_pos ⟨ha, hp⟩, reapedStatus_isSome]
    simp only [hp, decide_True, Bool.true_and, List.any_eq_true, decide_eq_true_eq]
  · rw [if_neg (fun h => hp h.2)]
    simp only [hp, decide_False, Bool.false_and, Option.isSome_none]

/-- Claim C21. The global list has no address twice and its processes with a
positive pid have distinct pids. A byte is received from the signal pipe
exactly when the first `read` returns a positive count; when none is,
`xpproc_reap` returns 0 and changes no process. Otherwise, with `run` the
answers of `waitpid` up to the one that ends the loop: every listed process
whose positive pid is in `run` gets `pid = 0` and the status reported for
that pid (the first one, should `run` name the pid twice); every other
process is unchanged; and the value returned is the number of listed
processes so updated, so that a pid of `run` that no listed process has is
not counted. -/
theorem reap_updates (env : Env) (procs : Nat → XPProc) (list : List Nat) (hnd : list.Nodup)
    (hpid : ∀ a ∈ list, ∀ b ∈ list, (procs a).pid > 0 → (procs a).pid = (procs b).pid → a = b) :
    (drainPipe env.pipeReads false = true ↔ ∃ n rest, env.pipeReads = n :: rest ∧ n > 0) ∧
    (drainPipe env.pipeReads false = false → xpproc_reap env procs list = (procs, 0)) ∧
    (drainPipe env.pipeReads false = true →
      (∀ a ∈ list, (procs a).pid > 0 → ∀ r ∈ waitpidRun env.waitpids,
        (∀ x ∈ waitpidRun env.waitpids, x.pid = r.pid → x = r) → r.pid = (procs a).pid →
        (xpproc_reap env procs list).1 a = { pid := 0, status := r.status }) ∧
      (∀ a ∈ list, (procs a).pid > 0 → ∀ st,
        reapedStatus (waitpidRun env.waitpids) (procs a).pid = some st →
        (xpproc_reap env procs list).1 a = { pid := 0, status := st }) ∧
      (∀ a, ¬ (a ∈ list ∧ (procs a).pid > 0 ∧
          ∃ r ∈ waitpidRun env.waitpids, r.pid = (procs a).pid) →
        (xpproc_reap env procs list).1 a = procs a) ∧
      (xpproc_reap env procs list).2 =
        (list.filter (fun a => decide ((procs a).pid > 0) &&
          (waitpidRun env.waitpids).any (fun r => decide (r.pid = (procs a).pid)))).length) := by
  refine ⟨drainPipe_iff env.pipeReads, ?_, ?_⟩
  · intro h
    unfold xpproc_reap
    rw [h]
    rfl
  · intro h
    have hreap : xpproc_reap env procs list = reapLoop list env.waitpids procs 0 := by
      unfold xpproc_reap
      rw [h]
      rfl
    rw [hreap]
    obtain ⟨h1, h2⟩ := reapLoop_spec list hnd env.waitpids procs 0 hpid
    have hst : ∀ a ∈ list, (procs a).pid > 0 → ∀ st,
        reapedStatus (waitpidRun env.waitpids) (procs a).pid = some st →
        (reapLoop list env.waitpids procs 0).1 a = { pid := 0, status := st } := by
      intro a ha hp st hs
      have ht : reapTarget procs list (waitpidRun env.waitpids) a = some st := by
        unfold reapTarget
        rw [if_pos ⟨ha, hp⟩, hs]
      rw [h1 a, ht]
    refine ⟨?_, hst, ?_, ?_⟩
    · intro a ha hp r hr huniq hrp
      have hs := reapedStatus_of_unique (waitpidRun env.waitpids) r hr huniq
      rw [hrp] at hs
      exact hst a ha hp r.status hs
    · intro a hno
      have ht : reapTarget procs list (waitpidRun env.waitpids) a = none := by
        unfold reapTarget
        by_cases hc : a ∈ list ∧ (procs a).pid > 0
        · rw [if_pos hc]
          cases hs : reapedStatus (waitpidRun env.waitpids) (procs a).pid with
          | none => rfl
          | some st =>
            have h3 := (reapedStatus_isSome (waitpidRun env.waitpids) (procs a).pid).mp
              (by rw [hs]; rfl)
            exact absurd ⟨hc.1, hc.2, h3⟩ hno
        · rw [if_neg hc]
      rw [h1 a, ht]
    · rw [h2, Nat.zero_add]
      congr 1
      apply List.filter_congr
      intro a ha
      exact reapTarget_isSome procs list (waitpidRun env.waitpids) a ha

/-- Claim C21 on three processes, at addresses 0, 1, 2 with pids 10, 11 and
0: one byte is read from the pipe and `waitpid` answers pid 11 with status
256, then pid 99, which no process has, then 0. The process at address 1 is
updated, the others are not, and the value returned is 1. -/
theorem reap_updates_witness :
    (xpproc_reap { envSlot0 with pipeReads := [1], waitpids :=
        [{ pid := 11, status := 256, errno := 0 }, { pid := 99, status := 0, errno := 0 },
         { pid := 0, status := 0, errno := 0 }] }
      (fun a => if a = 0 then { pid := 10, status := 0 } else if a = 1 then
        { pid := 11, status := 0 } else { pid := 0, status := 0 }) [2, 1, 0]).1 1 =
      { pid := 0, status := 256 } ∧
    (xpproc_reap { envSlot0 with pipeReads := [1], waitpids :=
        [{ pid := 11, status := 256, errno := 0 }, { pid := 99, status := 0, errno := 0 },
         { pid := 0, status := 0, errno := 0 }] }
      (fun a => if a = 0 then { pid := 10, status := 0 } else if a = 1 then
        { pid := 11, status := 0 } else { pid := 0, status := 0 }) [2, 1, 0]).2 = 1 ∧
    xpproc_reap { envSlot0 with pipeReads := [-1], waitpids :=
        [{ pid := 11, status := 256, errno := 0 }] }
      (fun a => if a = 0 then { pid := 10, status := 0 } else if a = 1 then
        { pid := 11, status := 0 } else { pid := 0, status := 0 }) [2, 1, 0] =
      ((fun a => if a = 0 then { pid := 10, status := 0 } else if a = 1 then
        { pid := 11, status := 0 } else { pid := 0, status := 0 }), 0) :=
  ⟨((reap_updates { envSlot0 with pipeReads := [1], waitpids :=
        [{ pid := 11, status := 256, errno := 0 }, { pid := 99, status := 0, errno := 0 },
         { pid := 0, status := 0, errno := 0 }] }
      (fun a => if a = 0 then { pid := 10, status := 0 } else if a = 1 then
        { pid := 11, status := 0 } else { pid := 0, status := 0 }) [2, 1, 0]
      (by decide) (by decide)).2.2 (by decide)).2.1 1 (by decide) (by decide) 256 (by decide),
   ((reap_updates { envSlot0 with pipeReads := [1], waitpids :=
        [{ pid := 11, status := 256, errno := 0 }, { pid := 99, status := 0, errno := 0 },
         { pid := 0, status := 0, errno := 0 }] }
      (fun a => if a = 0 then { pid := 10, status := 0 } else if a = 1 then
        { pid := 11, status := 0 } else { pid := 0, status := 0 }) [2, 1, 0]
      (by decide) (by decide)).2.2 (by decide)).2.2.2.trans (by decide),
   (reap_updates { envSlot0 with pipeReads := [-1], waitpids :=
        [{ pid := 11, status := 256, errno := 0 }] }
      (fun a => if a = 0 then { pid := 10, status := 0 } else if a = 1 then
        { pid := 11, status := 0 } else { pid := 0, status := 0 }) [2, 1, 0]
      (by decide) (by decide)).2.1 (by decide)⟩

/-! ## The global list of processes -/

theorem SLL_DEQUEUE_cons (ptr p : Nat) (rest : List Nat) :
    SLL_DEQUEUE ptr (p :: rest) = if p = ptr then rest else p :: SLL_DEQUEUE ptr rest := rfl

theorem SLL_DEQUEUE_not_mem (ptr : Nat) (list : List Nat) (h : ptr ∉ list) :
    SLL_DEQUEUE ptr list = list := by
  induction list with
  | nil => rfl
  | cons p rest ih =>
    rw [SLL_DEQUEUE_cons, if_neg (fun (hp : p = ptr) => h (hp ▸ List.mem_cons_self p rest)),
      ih (fun hm => h (List.mem_cons_of_mem p hm))]

theorem SLL_DEQUEUE_nodup (ptr : Nat) (list : List Nat) (h : list.Nodup) :
    SLL_DEQUEUE ptr list = list.filter (fun x => decide (x ≠ ptr)) := by
  induction list with
  | nil => rfl
  | cons p rest ih =>
    rw [List.nodup_cons] at h
    rw [SLL_DEQUEUE_cons]
    by_cases hp : p = ptr
    · rw [if_pos hp, List.filter_cons_of_neg (by simp [hp])]
      have hnm : ptr ∉ rest := hp ▸ h.1
      rw [← ih h.2, SLL_DEQUEUE_not_mem ptr rest hnm]
    · rw [if_neg hp, List.filter_cons_of_pos (by simp [hp]), ih h.2]

theorem spawn_list (ps : ProcState) (me : Nat) (pid : Int) (path : String)
    (argv envp : List String) (actions : List ActionEntry) (env : ChildEnv) (hpid : pid ≠ 0) :
    (xpio__spawn ps me pid path argv envp actions env).ps.gpHeadProc = me :: ps.gpHeadProc ∧
    ((xpio__spawn ps me pid path argv envp actions env).ps.procs me).pid = pid ∧
    (∀ x, x ≠ me → (xpio__spawn ps me pid path argv envp actions env).ps.procs x = ps.procs x) ∧
    (xpio__spawn ps me pid path argv envp actions env).ret = [.userdata] := by
  unfold xpio__spawn
  rw [if_pos hpid]
  refine ⟨rfl, ?_, ?_, rfl⟩
  · simp [xpproc_new]
  · intro x hx
    simp [xpproc_new, hx]

theorem dtor_list (ps : ProcState) (me : Nat) :
    (xpproc_dtor ps me).1.gpHeadProc = SLL_DEQUEUE me ps.gpHeadProc := by
  unfold xpproc_dtor
  split_ifs <;> rfl

/-- The invariant of the global list: no address twice, and the addresses
are those of the userdata that exist. -/
theorem procList_invariant (w : ProcWorld) (h : ProcReachable w) :
    w.ps.gpHeadProc.Nodup ∧ ∀ a, a ∈ w.ps.gpHeadProc ↔ w.live a = true := by
  induction h with
  | start procs =>
    exact ⟨List.nodup_nil, fun a => by simp⟩
  | @step w w1 _ hstep ih =>
    cases hstep with
    | spawn me pid path argv envp actions env hfree hpid =>
      have hl := (spawn_list w.ps me pid path argv envp actions env hpid).1
      have hnm : me ∉ w.ps.gpHeadProc := by
        intro hm
        have := (ih.2 me).mp hm
        rw [hfree] at this
        exact absurd this (by decide)
      constructor
      · show (xpio__spawn w.ps me pid path argv envp actions env).ps.gpHeadProc.Nodup
        rw [hl]
        exact List.nodup_cons.mpr ⟨hnm, ih.1⟩
      · intro a
        show a ∈ (xpio__spawn w.ps me pid path argv envp actions env).ps.gpHeadProc ↔
          (decide (a = me) || w.live a) = true
        rw [hl, List.mem_cons, ih.2 a]
        simp only [Bool.or_eq_true, decide_eq_true_eq]
    | dtor me hlive =>
      have hl := dtor_list w.ps me
      constructor
      · show (xpproc_dtor w.ps me).1.gpHeadProc.Nodup
        rw [hl, SLL_DEQUEUE_nodup me _ ih.1]
        exact ih.1.filter _
      · intro a
        show a ∈ (xpproc_dtor w.ps me).1.gpHeadProc ↔ (!decide (a = me) && w.live a) = true
        rw [hl, SLL_DEQUEUE_nodup me _ ih.1, List.mem_filter, ih.2 a]
        simp only [ne_eq, decide_not, Bool.not_eq_true', decide_eq_false_iff_not,
          Bool.and_eq_true, and_comm]
    | reap env =>
      exact ih


theorem reachable_world3 : ProcReachable world3 :=
  .step (.step (.step (.start _)
    (.spawn world0 1 100 "/bin/true" ["true"] [] [] childEnv0 rfl (by decide)))
    (.spawn world1 2 101 "/bin/true" ["true"] [] [] childEnv0 (by decide) (by decide)))
    (.dtor world2 1 (by decide))

/-- Claim C25. In every world reached by `_spawn` creating processes, the
collector destroying them and `xpproc_reap`, the global list holds the
addresses of the processes that exist, each once. `_spawn` links the new
process at the head of the list; `xpproc_dtor` unlinks the process it
destroys and keeps the others in their order; and the search of
`xpproc_reap` finds the process that exists with a given pid when no other
one has that pid. -/
theorem process_list_holds_live (w : ProcWorld) (h : ProcReachable w) :
    w.ps.gpHeadProc.Nodup ∧
    (∀ a, a ∈ w.ps.gpHeadProc ↔ w.live a = true) ∧
    (∀ (me : Nat) (pid : Int) (path : String) (argv envp : List String)
      (actions : List ActionEntry) (env : ChildEnv), w.live me = false → pid ≠ 0 →
      (xpio__spawn w.ps me pid path argv envp actions env).ps.gpHeadProc =
        me :: w.ps.gpHeadProc) ∧
    (∀ me, w.live me = true →
      (xpproc_dtor w.ps me).1.gpHeadProc =
        w.ps.gpHeadProc.filter (fun x => decide (x ≠ me))) ∧
    (∀ (a : Nat) (pid status : Int), w.live a = true → (w.ps.procs a).pid = pid →
      (∀ b, w.live b = true → (w.ps.procs b).pid = pid → b = a) →
      markReaped w.ps.procs w.ps.gpHeadProc pid status =
        some (fun x => if x = a then { pid := 0, status := status } else w.ps.procs x)) := by
  have hinv := procList_invariant w h
  refine ⟨hinv.1, hinv.2, ?_, ?_, ?_⟩
  · intro me pid path argv envp actions env _ hpid
    exact (spawn_list w.ps me pid path argv envp actions env hpid).1
  · intro me _
    rw [dtor_list, SLL_DEQUEUE_nodup me _ hinv.1]
  · intro a pid status hlive hpa huniq
    exact markReaped_some w.ps.procs pid status a w.ps.gpHeadProc ((hinv.2 a).mpr hlive) hpa
      (fun b hb hpb => huniq b ((hinv.2 b).mp hb) hpb)

/-- Claim C25 on the world in which the processes of pids 100 and 101 were
created at addresses 1 and 2 and the first was destroyed: the list holds
address 2 only, and the search for pid 101 finds it. -/
theorem process_list_holds_live_witness :
    world2.ps.gpHeadProc = [2, 1] ∧
    world3.ps.gpHeadProc = [2] ∧
    world3.ps.gpHeadProc.Nodup ∧
    (2 ∈ world3.ps.gpHeadProc ↔ world3.live 2 = true) ∧
    (1 ∈ world3.ps.gpHeadProc ↔ world3.live 1 = true) ∧
    markReaped world3.ps.procs world3.ps.gpHeadProc 101 0 =
      some (fun x => if x = 2 then { pid := 0, status := 0 } else world3.ps.procs x) :=
  ⟨by decide, by decide,
   (process_list_holds_live world3 reachable_world3).1,
   (process_list_holds_live world3 reachable_world3).2.1 2,
   (process_list_holds_live world3 reachable_world3).2.1 1,
   (process_list_holds_live world3 reachable_world3).2.2.2.2 2 101 0 (by decide) (by decide)
     (by
       intro b hb hpb
       have hm := ((process_list_holds_live world3 reachable_world3).2.1 b).mpr hb
       have hl : world3.ps.gpHeadProc = [2] := by decide
       rw [hl] at hm
       exact List.mem_singleton.mp hm)⟩

/-! ## The fd actions of the spawned child -/

theorem setNonBlocking_clear (env : SysEnv) (A : Int) :
    (setNonBlocking A 0 env).2 = specClearNonBlocking env A := by
  unfold setNonBlocking specClearNonBlocking
  by_cases h : env.getfl = -1
  · rw [if_neg (by simp [h]), if_pos h]
  · rw [if_pos h, if_neg h]
    simp only [ne_eq, not_true_eq_false, if_false]

theorem childActions_pair (action : Nat → SysEnv) (ndx : Nat) (vTo vFrom : Option Int)
    (rest : List ActionEntry) :
    childActions action ndx (.pair vTo vFrom :: rest) =
      if vTo.getD (-1) = -1 then []
      else
        (if vFrom.getD (-1) ≥ 0 then
          (if vFrom.getD (-1) ≠ vTo.getD (-1) then
            [Syscall.dup2 (vFrom.getD (-1)) (vTo.getD (-1))] else []) ++
            (setNonBlocking (vTo.getD (-1)) 0 (action ndx)).2
        else [Syscall.close (vTo.getD (-1))]) ++ childActions action (ndx + 1) rest := rfl

theorem childActions_cons (action : Nat → SysEnv) (ndx : Nat) (A : Int) (B : Option Int)
    (rest : List ActionEntry) (hA : 0 ≤ A) (hB : ∀ b, B = some b → 0 ≤ b) :
    childActions action ndx (.pair (some A) B :: rest) =
      specAction (action ndx) A B ++ childActions action (ndx + 1) rest := by
  rw [childActions_pair]
  simp only [Option.getD_some]
  rw [if_neg (by omega)]
  cases B with
  | none =>
    simp only [Option.getD_none]
    rw [if_neg (by decide)]
    rfl
  | some b =>
    have hb := hB b rfl
    simp only [Option.getD_some]
    rw [if_pos (by omega), setNonBlocking_clear]
    have hs : specAction (action ndx) A (some b) =
        if b = A then specClearNonBlocking (action ndx) A
        else .dup2 b A :: specClearNonBlocking (action ndx) A := rfl
    rw [hs]
    by_cases hbA : b = A
    · rw [if_neg (by simp [hbA]), if_pos hbA]
      rfl
    · rw [if_pos hbA, if_neg hbA]
      rfl

theorem childActions_spec (action : Nat → SysEnv) (acts : List (Int × Option Int)) :
    ∀ ndx : Nat, (∀ x ∈ acts, 0 ≤ x.1 ∧ ∀ b, x.2 = some b → 0 ≤ b) →
    childActions action ndx (acts.map actionEntry) = specActions action ndx acts := by
  induction acts with
  | nil =>
    intro ndx _
    rfl
  | cons x rest ih =>
    intro ndx hwf
    have hx := hwf x (List.mem_cons_self x rest)
    have hi := ih (ndx + 1) (fun y hy => hwf y (List.mem_cons_of_mem x hy))
    have hs : specActions action ndx (x :: rest) =
        specAction (action ndx) x.1 x.2 ++ specActions action (ndx + 1) rest := rfl
    have he : actionEntry x = .pair (some x.1) x.2 := rfl
    rw [List.map_cons, he, childActions_cons action ndx x.1 x.2 _ hx.1 hx.2, hi, hs]


theorem specClear_targets (e : SysEnv) (A : Int) :
    ∀ c ∈ specClearNonBlocking e A, c = .fcntl_getfl A ∨ ∃ fl, c = .fcntl_setfl A fl := by
  intro c hc
  unfold specClearNonBlocking at hc
  rcases List.mem_cons.mp hc with h | h
  · exact Or.inl h
  · by_cases hfl : e.getfl = -1
    · rw [if_pos hfl] at h
      exact absurd h (List.not_mem_nil c)
    · rw [if_neg hfl] at h
      exact Or.inr ⟨_, List.mem_singleton.mp h⟩

theorem specAction_targets (e : SysEnv) (A : Int) (B : Option Int) :
    ∀ c ∈ specAction e A B, c = .close A ∨ c = .fcntl_getfl A ∨
      (∃ fl, c = .fcntl_setfl A fl) ∨ ∃ b, c = .dup2 b A := by
  intro c hc
  cases B with
  | none =>
    exact Or.inl (List.mem_singleton.mp hc)
  | some b =>
    have hs : specAction e A (some b) =
        if b = A then specClearNonBlocking e A
        else .dup2 b A :: specClearNonBlocking e A := rfl
    rw [hs] at hc
    by_cases hb : b = A
    · rw [if_pos hb] at hc
      rcases specClear_targets e A c hc with h | h
      · exact Or.inr (Or.inl h)
      · exact Or.inr (Or.inr (Or.inl h))
    · rw [if_neg hb] at hc
      rcases List.mem_cons.mp hc with h | h
      · exact Or.inr (Or.inr (Or.inr ⟨b, h⟩))
      · rcases specClear_targets e A c h with h1 | h1
        · exact Or.inr (Or.inl h1)
        · exact Or.inr (Or.inr (Or.inl h1))

theorem specActions_targets (action : Nat → SysEnv) (acts : List (Int × Option Int)) :
    ∀ (ndx : Nat), ∀ c ∈ specActions action ndx acts, ∃ x ∈ acts,
      c = .close x.1 ∨ c = .fcntl_getfl x.1 ∨ (∃ fl, c = .fcntl_setfl x.1 fl) ∨
        ∃ b, c = .dup2 b x.1 := by
  induction acts with
  | nil =>
    intro ndx c hc
    exact absurd hc (List.not_mem_nil c)
  | cons x rest ih =>
    intro ndx c hc
    have hs : specActions action ndx (x :: rest) =
        specAction (action ndx) x.1 x.2 ++ specActions action (ndx + 1) rest := rfl
    rw [hs] at hc
    rcases List.mem_append.mp hc with h | h
    · exact ⟨x, List.mem_cons_self x rest, specAction_targets _ _ _ c h⟩
    · obtain ⟨y, hy, hcy⟩ := ih (ndx + 1) c h
      exact ⟨y, List.mem_cons_of_mem x hy, hcy⟩

/-- Claim C23. The actions are pairs `(A, B)` of a descriptor `A` and a
descriptor `B` or nil. When `sigprocmask` succeeds, the system calls of the
child are `sigprocmask`, then those of the actions in the order of the
list, one action after the other, then `execve`: for `(A, A)` the calls
that clear the non-blocking flag of `A`, for `(A, B)` with `B` not `A` the
call `dup2(B, A)` and then those that clear the flag of `A`, for `(A, nil)`
the call `close(A)`. Every one of these calls acts on the `A` of an action.
Clearing the flag reads the file status flags and stores them with the bit
of `O_NONBLOCK` off and every other bit as it was. -/
theorem spawn_child_actions (ps : ProcState) (me : Nat) (path : String)
    (argv envp : List String) (acts : List (Int × Option Int)) (env : ChildEnv)
    (hwf : ∀ x ∈ acts, 0 ≤ x.1 ∧ ∀ b, x.2 = some b → 0 ≤ b)
    (hmask : env.sigprocmask = 0) :
    (xpio__spawn ps me 0 path argv envp (acts.map actionEntry) env).calls =
      .sigprocmask :: (specActions env.action 1 acts ++
        (.execve path argv envp :: if env.execReturns then [.exit 127] else [])) ∧
    (∀ c ∈ specActions env.action 1 acts, ∃ x ∈ acts,
      c = .close x.1 ∨ c = .fcntl_getfl x.1 ∨ (∃ fl, c = .fcntl_setfl x.1 fl) ∨
        ∃ b, c = .dup2 b x.1) ∧
    (∀ (e : SysEnv) (A : Int), e.getfl ≠ -1 →
      ∃ fl, (setNonBlocking A 0 e).2 = [.fcntl_getfl A, .fcntl_setfl A fl] ∧
        fl / O_NONBLOCK % 2 = 0 ∧ fl % O_NONBLOCK = e.getfl % O_NONBLOCK ∧
        fl / (2 * O_NONBLOCK) = e.getfl / (2 * O_NONBLOCK)) := by
  refine ⟨?_, specActions_targets env.action acts 1, ?_⟩
  · unfold xpio__spawn
    rw [if_neg (by simp), if_neg (by simp [hmask]), childActions_spec env.action acts 1 hwf]
  · intro e A hfl
    rw [setNonBlocking_clear]
    unfold specClearNonBlocking
    rw [if_neg hfl]
    refine ⟨_, rfl, ?_⟩
    unfold O_NONBLOCK
    by_cases hbit : e.getfl / 2048 % 2 = 1
    · rw [if_pos hbit]
      omega
    · rw [if_neg hbit]
      omega

/-- Claim C23 on the actions `(0, 5)`, `(1, 1)`, `(7, nil)`, where the file
status flags of every descriptor are `O_RDWR | O_NONBLOCK`. -/
theorem spawn_child_actions_witness :
    (xpio__spawn world0.ps 1 0 "/bin/true" ["true"] []
      ([(0, some 5), (1, some 1), (7, none)].map actionEntry) childEnv0).calls =
      [.sigprocmask, .dup2 5 0, .fcntl_getfl 0, .fcntl_setfl 0 2, .fcntl_getfl 1,
       .fcntl_setfl 1 2, .close 7, .execve "/bin/true" ["true"] []] :=
  (spawn_child_actions world0.ps 1 "/bin/true" ["true"] [] [(0, some 5), (1, some 1), (7, none)]
    childEnv0 (by decide) (by decide)).1.trans (by decide)

/-! ## `_spawn` when `fork` fails, and the two destructors -/

/-- Claim C24 at the failing input: when `fork` returns -1, `xpio__spawn`
takes the branch of the parent, since -1 is not 0: it creates a process
record, stores -1 as its pid, links it into the global list and returns it
to Lua, where the claim has nil and an error; `try_wait` on that process
then reports a normal exit with code 0. -/
theorem spawn_fork_failed :
    (xpio__spawn world0.ps 1 (-1) "/bin/true" ["true"] [] [] childEnv0).ret = [.userdata] ∧
    (xpio__spawn world0.ps 1 (-1) "/bin/true" ["true"] [] [] childEnv0).ps.gpHeadProc = [1] ∧
    (xpio__spawn world0.ps 1 (-1) "/bin/true" ["true"] [] [] childEnv0).ps.procs 1 =
      { pid := -1, status := 0 } ∧
    xpproc_try_wait
      ((xpio__spawn world0.ps 1 (-1) "/bin/true" ["true"] [] [] childEnv0).ps.procs 1) 0 =
      [.str "exit", .integer 0] := by
  decide

/-- Claim C22 at the failing input: on the process that `_spawn` leaves when
`fork` fails, whose pid is -1, `xpproc_dtor` tests `pid != 0` and calls
`kill(-1, SIGKILL)`, although the process is not running; `xpproc_kill` on
the same process tests `pid <= 0` and sends nothing. On a process with
`pid = 0` the destructor sends nothing, and on one with pid 100 it sends
`SIGKILL` to 100. -/
theorem dtor_kills_pid_minus_one :
    (xpproc_dtor (xpio__spawn world0.ps 1 (-1) "/bin/true" ["true"] [] [] childEnv0).ps 1).2 =
      [.kill (-1) SIGKILL] ∧
    xpproc_kill { pid := -1, status := 0 } 0 0 = ([.nil, .str "process not running"], []) ∧
    (xpproc_dtor world0.ps 1).2 = [] ∧
    (xpproc_dtor world1.ps 1).2 = [.kill 100 SIGKILL] ∧
    ((xpproc_dtor world1.ps 1).1.procs 1).pid = 0 := by
  decide

/-- Claim C28 at the failing input: `xpsocket_dtor` tests `me->s` for not
being 0. On a Socket that owns descriptor 0 it closes nothing and leaves the
field at 0; on a Socket that is already closed it calls `close(-1)`; on one
with descriptor 4 it closes 4 and stores -1. `xpsocket_close` on descriptor 0
does close it. -/
theorem socket_dtor_descriptor_zero :
    xpsocket_dtor { s := 0 } = ({ s := 0 }, []) ∧
    xpsocket_dtor { s := -1 } = ({ s := -1 }, [.close (-1)]) ∧
    xpsocket_dtor { s := 4 } = ({ s := -1 }, [.close 4]) ∧
    (xpsocket_close { s := 0 } sysEnv0).sys = [.close 0] ∧
    (xpsocket_close { s := 0 } sysEnv0).me = { s := -1 } := by
  decide

end Xpio
